import Mathlib

/-!
Lustre POSIX HSM copytool (`lustre/utils/lhsmtool_posix.c`).

A shallow embedding of the copytool's archive layout, copy engine and action
handlers, and the properties of the specification stated over it.

Conventions of the embedding:

* C strings are `List Char`; a byte is a `Nat`.
* C integers are `Nat` / `Int`; a conversion to a narrower C type is written
  explicitly (`toInt32`, `toSizeT`, `u32`).
* Every call into the operating system or into the coordinator library takes
  its outcome from an oracle `Env` (one `Resp` per call, indexed by the
  number of calls made so far) and is recorded in the trace of the `World`.
-/

namespace Lhsm

/-! ## Formatting (`printf` conversions used by the layout) -/

/-- The lowercase hexadecimal digit for `d` (`d < 16`). -/
def hexChar (d : Nat) : Char :=
  match d with
  | 0 => '0' | 1 => '1' | 2 => '2' | 3 => '3'
  | 4 => '4' | 5 => '5' | 6 => '6' | 7 => '7'
  | 8 => '8' | 9 => '9' | 10 => 'a' | 11 => 'b'
  | 12 => 'c' | 13 => 'd' | 14 => 'e' | _ => 'f'

/-- Base-16 digits of `n`, least significant first; `fuel` bounds the number
of digits produced and `n + 1` is always enough. -/
def hexLE : Nat → Nat → List Nat
  | 0, _ => []
  | fuel + 1, n => if n < 16 then [n] else (n % 16) :: hexLE fuel (n / 16)

/-- The conversion `%x`: lowercase hexadecimal without padding. -/
def fmt_x (n : Nat) : List Char :=
  ((hexLE (n + 1) n).reverse).map hexChar

/-- The conversion `%04x`: `%x` padded on the left with `0` to a minimum
width of four characters. -/
def fmt_04x (n : Nat) : List Char :=
  List.replicate (4 - (fmt_x n).length) '0' ++ fmt_x n

/-- Conversion to `unsigned int`. -/
def u32 (n : Nat) : Nat := n % 2 ^ 32

/-- The C library's `snprintf(buf, sz, ...)` applied to the fully formatted
text `out`: the buffer receives at most `sz - 1` characters (and the
terminator), the return value is the length of the untruncated text. -/
def snprintf (sz : Nat) (out : List Char) : List Char × Int :=
  (out.take (sz - 1), (out.length : Int))

/-! ## File identifiers and the archive layout -/

/-- A `lustre_fid`: `f_seq` is a `__u64`, `f_oid` and `f_ver` are `__u32`. -/
structure lustre_fid where
  f_seq : Nat
  f_oid : Nat
  f_ver : Nat
  deriving DecidableEq, Repr

/-- Modelled from the spec: the macros `DFID_NOBRACE` and `PFID` come from the
Lustre headers, which are not part of the sources at hand; the canonical
brace-less text of a FID is `0x<seq>:0x<oid>:0x<ver>` with the three fields in
lowercase hexadecimal. -/
def fid_nobrace (fid : lustre_fid) : List Char :=
  ['0', 'x'] ++ fmt_x fid.f_seq ++ [':', '0', 'x'] ++ fmt_x fid.f_oid
    ++ [':', '0', 'x'] ++ fmt_x fid.f_ver

/-- The text produced by the format string of `ct_path_archive`,
`"%s/%04x/%04x/%04x/%04x/%04x/%04x/" DFID_NOBRACE`, with its arguments. -/
def ct_path_archive_text (archive_dir : List Char) (fid : lustre_fid) : List Char :=
  archive_dir ++ ['/'] ++ fmt_04x (fid.f_oid &&& 0xFFFF)
    ++ ['/'] ++ fmt_04x ((fid.f_oid >>> 16) &&& 0xFFFF)
    ++ ['/'] ++ fmt_04x (u32 (fid.f_seq &&& 0xFFFF))
    ++ ['/'] ++ fmt_04x (u32 ((fid.f_seq >>> 16) &&& 0xFFFF))
    ++ ['/'] ++ fmt_04x (u32 ((fid.f_seq >>> 32) &&& 0xFFFF))
    ++ ['/'] ++ fmt_04x (u32 ((fid.f_seq >>> 48) &&& 0xFFFF))
    ++ ['/'] ++ fid_nobrace fid

/-- The function `ct_path_archive(buf, sz, archive_dir, fid)`: the content left in `buf`
and the value returned. -/
def ct_path_archive (sz : Nat) (archive_dir : List Char) (fid : lustre_fid) :
    List Char × Int :=
  snprintf sz (ct_path_archive_text archive_dir fid)

/-- The value of `PATH_MAX` on Linux, the size of every path buffer that the
copytool hands to `ct_path_archive`. -/
def PATH_MAX : Nat := 4096

/-- The layout as the specification words it: a slice of 16 bits shown as
exactly four lowercase hexadecimal digits. -/
def hex4 (n : Nat) : List Char :=
  [hexChar (n / 4096 % 16), hexChar (n / 256 % 16), hexChar (n / 16 % 16), hexChar (n % 16)]

/-- The archive path as the specification words it:
`<root>/XXXX/XXXX/XXXX/XXXX/XXXX/XXXX/<fid-text>`, the slices being the low
and the next 16 bits of `oid` and then the four 16-bit slices of `seq`, the
high one last. -/
def spec_archive_path (root : List Char) (fid : lustre_fid) : List Char :=
  root ++ ['/'] ++ hex4 (fid.f_oid &&& 0xFFFF)
    ++ ['/'] ++ hex4 ((fid.f_oid >>> 16) &&& 0xFFFF)
    ++ ['/'] ++ hex4 (fid.f_seq &&& 0xFFFF)
    ++ ['/'] ++ hex4 ((fid.f_seq >>> 16) &&& 0xFFFF)
    ++ ['/'] ++ hex4 ((fid.f_seq >>> 32) &&& 0xFFFF)
    ++ ['/'] ++ hex4 ((fid.f_seq >>> 48) &&& 0xFFFF)
    ++ ['/'] ++ fid_nobrace fid


/-! ## Maximum sequence scan -/

/-- Error numbers of Linux used by the copytool. -/
def ENOENT : Nat := 2
def EAGAIN : Nat := 11
def ENOMEM : Nat := 12
def EEXIST : Nat := 17
def EINVAL : Nat := 22
def ENODATA : Nat := 61
def EPROTO : Nat := 71
def EOPNOTSUPP : Nat := 95
def ESHUTDOWN : Nat := 108
def ETIMEDOUT : Nat := 110
def ECANCELED : Nat := 125

/-- One result of `readdir_r` on an open directory: the name of the next
entry, or a failure, with the value `errno` has after it. -/
inductive readdir_res where
  | entry (d_name : List Char)
  | error (errno : Nat)
  deriving DecidableEq, Repr

/-- The directories of a file system as `opendir`/`readdir_r` show them: for a
path, either the value of `errno` after a failed `opendir` or the successive
results of `readdir_r` (the entries `.` and `..` included). -/
abbrev DirFS := List Char → Except Nat (List readdir_res)

/-- The value of a character as a hexadecimal digit of either case. -/
def hexVal (c : Char) : Option Nat :=
  if '0' ≤ c ∧ c ≤ '9' then some (c.toNat - 48)
  else if 'a' ≤ c ∧ c ≤ 'f' then some (c.toNat - 87)
  else if 'A' ≤ c ∧ c ≤ 'F' then some (c.toNat - 55)
  else none

/-- The longest prefix of hexadecimal digits of a text, as (number of digits,
value). -/
def scanHex : List Char → Nat × Nat → Nat × Nat
  | [], acc => acc
  | c :: cs, (k, v) =>
    match hexVal c with
    | some d => scanHex cs (k + 1, 16 * v + d)
    | none => (k, v)

/-- The characters `isspace` accepts in the C locale. -/
def isspace (c : Char) : Bool :=
  c = ' ' || c = '\t' || c = '\n' || c.toNat = 11 || c.toNat = 12 || c = '\r'

/-- The conversion `sscanf(s, "%hx", &v)`: white space is skipped, a sign and
a `0x` prefix are accepted, at least one hexadecimal digit is required; the
number (saturated at the largest `unsigned long`) is stored in an
`unsigned short`. The result is the stored value, or `none` when nothing is
converted. -/
def sscanf_hx (s : List Char) : Option Nat :=
  let s1 := s.dropWhile isspace
  let (neg, s2) := match s1 with
    | '-' :: t => (true, t)
    | '+' :: t => (false, t)
    | t => (false, t)
  let s3 := match s2 with
    | '0' :: x :: h :: t =>
      if (x = 'x' ∨ x = 'X') ∧ (hexVal h).isSome then h :: t else s2
    | t => t
  let (k, v) := scanHex s3 (0, 0)
  if k = 0 then none
  else
    let v64 := min v (2 ^ 64 - 1)
    some ((if neg then 2 ^ 64 - v64 else v64) % 2 ^ 16)

/-- The loop of `ct_dir_level_max` over the results of `readdir_r`: the
maximum found when the function returns 0, otherwise the code `-errno`
returned. -/
def ct_dir_level_max_loop : List readdir_res → Nat → Except Int Nat
  | [], sub_seqmax => Except.ok sub_seqmax
  | readdir_res.error e :: _, sub_seqmax =>
    if e = 0 then Except.ok sub_seqmax else Except.error (-(e : Int))
  | readdir_res.entry d_name :: rest, sub_seqmax =>
    if d_name = ['.'] ∨ d_name = ['.', '.'] then ct_dir_level_max_loop rest sub_seqmax
    else
      match sscanf_hx d_name with
      | none => ct_dir_level_max_loop rest sub_seqmax
      | some sub_seq =>
        ct_dir_level_max_loop rest (if sub_seq > sub_seqmax then sub_seq else sub_seqmax)

/-- The function `ct_dir_level_max(dirpath, &sub_seqmax)`: `Except.ok` carries the value
stored in `*sub_seqmax` when the function returns 0, `Except.error` the
non-zero return code. -/
def ct_dir_level_max (fs : DirFS) (dirpath : List Char) : Except Int Nat :=
  match fs dirpath with
  | Except.error e => if e = 0 then Except.ok 0 else Except.error (-(e : Int))
  | Except.ok ents => ct_dir_level_max_loop ents 0

/-- The conversion `%016Lx`. -/
def fmt_016x (n : Nat) : List Char :=
  List.replicate (16 - (fmt_x n).length) '0' ++ fmt_x n

/-- The `for (i = 0; i < 4; i++)` loop of `ct_max_sequence`, entered with the
current `i` and run for `n` more rounds. -/
def ct_max_sequence_loop (fs : DirFS) : Nat → Nat → List Char → Nat → Except Int Nat
  | 0, _, _, seq => Except.ok seq
  | n + 1, i, path, seq =>
    match ct_dir_level_max fs path with
    | Except.error rc => Except.error rc
    | Except.ok subseq =>
      ct_max_sequence_loop fs n (i + 1) (path ++ ['/'] ++ fmt_04x subseq)
        ((seq ||| (subseq <<< ((3 - i) * 16))) % 2 ^ 64)

/-- The function `ct_max_sequence()`: on success (return code 0) the sequence computed and
the line printed, otherwise the return code. -/
def ct_max_sequence (fs : DirFS) (o_hsm_root : List Char) : Except Int (Nat × List Char) :=
  match ct_max_sequence_loop fs 4 0 (o_hsm_root.take PATH_MAX) 0 with
  | Except.error rc => Except.error rc
  | Except.ok seq =>
    Except.ok (seq, "max_sequence: ".toList ++ fmt_016x seq ++ ['\n'])

/-- The names of the seven path components that `ct_path_archive` puts under
the archive root for a FID. -/
def archive_components (fid : lustre_fid) : List (List Char) :=
  [fmt_04x (fid.f_oid &&& 0xFFFF), fmt_04x ((fid.f_oid >>> 16) &&& 0xFFFF),
   fmt_04x (u32 (fid.f_seq &&& 0xFFFF)), fmt_04x (u32 ((fid.f_seq >>> 16) &&& 0xFFFF)),
   fmt_04x (u32 ((fid.f_seq >>> 32) &&& 0xFFFF)), fmt_04x (u32 ((fid.f_seq >>> 48) &&& 0xFFFF)),
   fid_nobrace fid]

/-- A path made of a root and components, each preceded by `/`. -/
def join_path (root : List Char) (cs : List (List Char)) : List Char :=
  cs.foldl (fun p c => p ++ ['/'] ++ c) root

/-- Removal of repeated names, the first occurrence being kept. -/
def dedup_names : List (List Char) → List (List Char)
  | [] => []
  | n :: ns => n :: (dedup_names ns).filter (fun m => m ≠ n)

/-- The names found directly under `path` in an archive that holds exactly
the entries of the FIDs in `fids`. -/
def archive_children (root : List Char) (fids : List lustre_fid) (path : List Char) :
    List (List Char) :=
  dedup_names (fids.foldr (fun fid acc =>
    (List.range 7).foldr (fun k acc2 =>
      if join_path root ((archive_components fid).take k) = path then
        match (archive_components fid).get? k with
        | some c => c :: acc2
        | none => acc2
      else acc2) acc) [])

/-- The directory tree of an archive under `root` that consists exactly of the
entries `ct_path_archive` creates for the FIDs in `fids`. -/
def archive_dirfs (root : List Char) (fids : List lustre_fid) : DirFS :=
  fun path =>
    match archive_children root fids path with
    | [] => Except.error ENOENT
    | cs => Except.ok ((['.'] :: ['.', '.'] :: cs).map readdir_res.entry)

/-- The largest `f_seq` among FIDs. -/
def max_seq (fids : List lustre_fid) : Nat :=
  fids.foldl (fun m fid => max m fid.f_seq) 0

/-! ## The environment: operating system and coordinator library -/

/-- Conversion to `int`. -/
def toInt32 (z : Int) : Int := (z + 2 ^ 31) % 2 ^ 32 - 2 ^ 31

/-- Conversion of an `int` to `size_t`. -/
def toSizeT (z : Int) : Nat := (z % 2 ^ 64).toNat

/-- The most bytes Linux transfers in one `read` or `write` call, whatever the
count asked for (`MAX_RW_COUNT`, `0x7ffff000`). -/
def MAX_RW_COUNT : Nat := 0x7ffff000

/-- What the environment answers to one call. `fail = some e`: the system call
fails and sets `errno` to `e`. `amount`: for `read` and `write` the most bytes
the kernel is willing to transfer this time, for `select` the number of ready
descriptors, for `time` the clock value. `rc`: the return code of a call into
the coordinator library. `text`: the string a call stores in a buffer (the
target `readlink` reports, the path `llapi_fid2path` finds, the list of
attribute names `flistxattr` stores, each name followed by a NUL). `fid`: the
FID `llapi_hsm_import` assigns. -/
structure Resp where
  fail : Option Nat := none
  amount : Nat := 0
  rc : Int := 0
  text : List Char := []
  fid : lustre_fid := ⟨0, 0, 0⟩
  deriving DecidableEq, Repr

/-- The environment: the answer to the `n`-th call made by the program. -/
abbrev Env := Nat → Resp

/-- The flags of `open` used by the copytool. -/
inductive open_flag where
  | O_RDONLY | O_WRONLY | O_NOATIME | O_NONBLOCK | O_NOFOLLOW | O_CREAT | O_TRUNC
  deriving DecidableEq, Repr

/-- A byte range `{offset, length}`; both fields are `__u64`, and the length
`-1` (that is `2 ^ 64 - 1`) stands for "to the end of the file". -/
structure hsm_extent where
  offset : Nat
  length : Nat
  deriving DecidableEq, Repr

/-- The calls the program makes, with their arguments, as they are recorded in
the trace. A `read` or `write` carries the file position it starts at, the
count asked for and the bytes transferred (none when the call fails); `fstat`
carries the size it reports (`none` when it fails) and `ftruncate`, `rename`,
`unlink` and `symlink` whether they succeed. -/
inductive Event where
  | time
  | malloc (size : Nat)
  | fstat_src (st_size : Option Nat)
  | fstat_dst (st_size : Option Nat)
  | lseek_src (offset : Nat)
  | lseek_dst (offset : Nat)
  | read (pos count : Nat) (data : List Nat)
  | write (pos count : Nat) (data : List Nat)
  | select (wr : Bool) (tv_sec : Int)
  | ftruncate (length : Nat) (ok : Bool)
  | fsync
  | action_progress (he : hsm_extent)
  | action_begin
  | action_get_dfid
  | action_get_fd
  | action_end (he : hsm_extent) (flags : Nat) (errval : Nat)
  | open_ (path : List Char) (flags : List open_flag)
  | read_lov (path : List Char)
  | close_lov
  | fsetxattr_lov (size : Nat)
  | close_src
  | close_dst
  | mkdir (path : List Char)
  | rename (oldpath newpath : List Char) (ok : Bool)
  | unlink (path : List Char) (ok : Bool)
  | symlink (target linkpath : List Char) (ok : Bool)
  | readlink (path : List Char)
  | fid2path (fid : List Char)
  | fgetxattr_lov
  | write_lov (size : Nat)
  | fstat_attr
  | fchmod
  | fchown
  | futimes
  | flistxattr
  | fgetxattr (name : List Char)
  | fsetxattr (name : List Char) (size : Nat)
  | open_dir (path : List Char)
  | search_fsname (mnt : List Char)
  | close_arc
  | daemonize
  | copytool_register
  | copytool_recv
  | list_free
  | copytool_unregister
  | malloc_item (size : Nat)
  | pthread_attr_init
  | pthread_create (hai_len : Nat) (cookie : Nat)
  | memcpy_item (offset len : Nat)
  | printf (text : List Char)
  deriving DecidableEq, Repr

/-- The state the copy engine and the handlers act on: the file open as
`src_fd` and the file open as `dst_fd` (content, `S_ISREG`, file offset),
`errno`, the number of calls made so far, the two error counters and the
trace of calls. `garbage` is the indeterminate value an uninitialised
`st_size` holds. -/
structure World where
  src : List Nat
  src_reg : Bool
  src_pos : Nat
  dst : List Nat
  dst_reg : Bool
  dst_pos : Nat
  errno : Int
  clock : Nat
  err_major : Int
  err_minor : Int
  garbage : Nat
  trace : List Event
  deriving DecidableEq, Repr

/-- Accounting of one call: the clock advances and the call joins the trace. -/
def World.call (w : World) (e : Event) : World :=
  { w with clock := w.clock + 1, trace := w.trace ++ [e] }

/-- The content of a regular file after `data` is written at offset `pos`; a
gap between the old end and `pos` reads as zeros, and a write of no bytes
changes nothing. -/
def writeAt (f : List Nat) (pos : Nat) (data : List Nat) : List Nat :=
  if data = [] then f
  else f.take pos ++ List.replicate (pos - f.length) 0 ++ data ++ f.drop (pos + data.length)

/-- The system call `time(0)`. -/
def sys_time (env : Env) (w : World) : Nat × World :=
  ((env w.clock).amount, w.call Event.time)

/-- The library call `malloc(size)`: `true` when memory is obtained. -/
def sys_malloc (env : Env) (w : World) (size : Nat) : Bool × World :=
  match (env w.clock).fail with
  | some e => (false, { w.call (Event.malloc size) with errno := e })
  | none => (true, w.call (Event.malloc size))

/-- The system call `fstat(src_fd, &st)`: the return value, and `st_size` and
`S_ISREG(st_mode)` on success. -/
def sys_fstat_src (env : Env) (w : World) : Option (Nat × Bool) × World :=
  match (env w.clock).fail with
  | some e => (none, { w.call (Event.fstat_src none) with errno := e })
  | none => (some (w.src.length, w.src_reg), w.call (Event.fstat_src (some w.src.length)))

/-- The system call `fstat(dst_fd, &st)`. -/
def sys_fstat_dst (env : Env) (w : World) : Option (Nat × Bool) × World :=
  match (env w.clock).fail with
  | some e => (none, { w.call (Event.fstat_dst none) with errno := e })
  | none => (some (w.dst.length, w.dst_reg), w.call (Event.fstat_dst (some w.dst.length)))

/-- The system call `lseek(src_fd, offset, SEEK_SET)`, `offset` being a
`__u64` converted to `off_t`: an offset of `2 ^ 63` or more is negative and
refused with `EINVAL`. The result is the `off_t` returned. -/
def sys_lseek_src (env : Env) (w : World) (offset : Nat) : Int × World :=
  if 2 ^ 63 ≤ offset then (-1, { w.call (Event.lseek_src offset) with errno := EINVAL })
  else
    match (env w.clock).fail with
    | some e => (-1, { w.call (Event.lseek_src offset) with errno := e })
    | none => ((offset : Int), { w.call (Event.lseek_src offset) with src_pos := offset })

/-- The system call `lseek(dst_fd, offset, SEEK_SET)`. -/
def sys_lseek_dst (env : Env) (w : World) (offset : Nat) : Int × World :=
  if 2 ^ 63 ≤ offset then (-1, { w.call (Event.lseek_dst offset) with errno := EINVAL })
  else
    match (env w.clock).fail with
    | some e => (-1, { w.call (Event.lseek_dst offset) with errno := e })
    | none => ((offset : Int), { w.call (Event.lseek_dst offset) with dst_pos := offset })

/-- The system call `read(src_fd, buf, count)`: the value returned, the bytes
stored at `buf`, the new state. -/
def sys_read (env : Env) (w : World) (count : Nat) : Int × List Nat × World :=
  match (env w.clock).fail with
  | some e => (-1, [], { w.call (Event.read w.src_pos count []) with errno := e })
  | none =>
    let data := (w.src.drop w.src_pos).take (min (min count (env w.clock).amount) MAX_RW_COUNT)
    ((data.length : Int), data,
      { w.call (Event.read w.src_pos count data) with src_pos := w.src_pos + data.length })

/-- The system call `write(dst_fd, p, count)`, `mem` being the bytes the
program holds from `p` on. -/
def sys_write (env : Env) (w : World) (mem : List Nat) (count : Nat) : Int × World :=
  match (env w.clock).fail with
  | some e => (-1, { w.call (Event.write w.dst_pos count []) with errno := e })
  | none =>
    let data := mem.take (min (min count (env w.clock).amount) MAX_RW_COUNT)
    ((data.length : Int),
      { w.call (Event.write w.dst_pos count data) with
        dst := writeAt w.dst w.dst_pos data, dst_pos := w.dst_pos + data.length })

/-- The system call `select` on the single descriptor, for reading or for
writing, with a timeout of `tv_sec` seconds: the number of ready descriptors,
0 on a timeout, -1 on a failure. -/
def sys_select (env : Env) (w : World) (wr : Bool) (tv_sec : Int) : Int × World :=
  match (env w.clock).fail with
  | some e => (-1, { w.call (Event.select wr tv_sec) with errno := e })
  | none => (((env w.clock).amount : Int), w.call (Event.select wr tv_sec))

/-- The system call `ftruncate(dst_fd, length)`. -/
def sys_ftruncate (env : Env) (w : World) (length : Nat) : Int × World :=
  match (env w.clock).fail with
  | some e => (-1, { w.call (Event.ftruncate length false) with errno := e })
  | none =>
    (0, { w.call (Event.ftruncate length true) with
          dst := w.dst.take length ++ List.replicate (length - w.dst.length) 0 })

/-- The system call `fsync(dst_fd)`. -/
def sys_fsync (env : Env) (w : World) : Int × World :=
  match (env w.clock).fail with
  | some e => (-1, { w.call Event.fsync with errno := e })
  | none => (0, w.call Event.fsync)

/-- The coordinator call `llapi_hsm_action_progress(hcp, &he, 0)`. -/
def llapi_hsm_action_progress (env : Env) (w : World) (he : hsm_extent) : Int × World :=
  ((env w.clock).rc, w.call (Event.action_progress he))

/-! ## Options and action items -/

/-- The kinds of action of an item (`hai_action`). -/
inductive hsm_copytool_action where
  | HSMA_ARCHIVE | HSMA_RESTORE | HSMA_REMOVE | HSMA_CANCEL
  | unknown (code : Nat)
  deriving DecidableEq, Repr

/-- The fields of `struct hsm_action_item` the copytool reads. -/
structure hsm_action_item where
  hai_len : Nat
  hai_action : hsm_copytool_action
  hai_fid : lustre_fid
  hai_dfid : lustre_fid
  hai_extent : hsm_extent
  hai_cookie : Nat
  deriving DecidableEq, Repr

/-- The value of `ONE_MB`. -/
def ONE_MB : Nat := 0x100000

/-- The value of `REPORT_INTERVAL_DEFAULT`. -/
def REPORT_INTERVAL_DEFAULT : Int := 30

/-- The fields of `struct options`, with the initial values of `opt`. -/
structure options where
  o_copy_attrs : Int := 1
  o_dry_run : Int := 0
  o_abort_on_error : Int := 0
  o_shadow_tree : Int := 1
  o_copy_xattrs : Int := 1
  o_report_int : Int := REPORT_INTERVAL_DEFAULT
  o_bandwidth : Nat := 0
  o_chunk_size : Nat := ONE_MB
  o_mnt : List Char := []
  o_hsm_root : List Char := []
  o_archive_cnt : Int := 0
  o_archive_id : List Int := []
  deriving DecidableEq, Repr

/-! ## The non-blocking I/O primitive -/

/-- The single `read` (`wr = false`) or `write` (`wr = true`) of
`nonblock_rw`, its result stored in the `int rc`. `mem` is what the program
holds at `buf` (used by a write); the bytes stored at `buf` by a read are
returned. -/
def rw_once (env : Env) (wr : Bool) (mem : List Nat) (size : Int) (w : World) :
    Int × List Nat × World :=
  if wr then
    let r := sys_write env w mem (toSizeT size)
    (toInt32 r.1, [], r.2)
  else
    let r := sys_read env w (toSizeT size)
    (toInt32 r.1, r.2.1, r.2.2)

/-- The function `nonblock_rw(wr, fd, buf, size)`: the value returned, the bytes a read
stored at `buf`, the new state. -/
def nonblock_rw (env : Env) (opt : options) (wr : Bool) (mem : List Nat) (size : Int)
    (w : World) : Int × List Nat × World :=
  let r0 := rw_once env wr mem size w
  if r0.1 < 0 ∧ r0.2.2.errno = -(EAGAIN : Int) then
    let s := sys_select env r0.2.2 wr opt.o_report_int
    if s.1 < 0 then (-s.2.errno, [], s.2)
    else if s.1 = 0 then (-(EAGAIN : Int), [], s.2)
    else
      let r1 := rw_once env wr mem size s.2
      (if r1.1 < 0 then -r1.2.2.errno else r1.1, r1.2.1, r1.2.2)
  else
    (if r0.1 < 0 then -r0.2.2.errno else r0.1, r0.2.1, r0.2.2)

/-! ## The copy engine -/

/-- The local variables of the copy loop of `ct_copy_data`. `buf` holds the
bytes stored in the buffer so far (what lies beyond is indeterminate). -/
structure CopySt where
  rpos : Nat
  wpos : Nat
  bufoff : Nat
  buf : List Nat
  rc : Int
  last_print_time : Nat
  deriving DecidableEq, Repr

/-- How one round of the copy loop ends: `next` goes on to the loop test,
`out` leaves the loop (by `break` or by `goto out`) with the value of `rc`. -/
inductive IterRes where
  | next (s : CopySt) (w : World)
  | out (rc : Int) (w : World)
  deriving DecidableEq, Repr

/-- What the loop does with the result `rsize` of the read, `data` being the
bytes the read stored in the buffer: end of file, timeout, error, or the
advance of `rpos`. -/
def copy_read_after (s : CopySt) (rsize0 : Int) (data : List Nat) (w1 : World) : IterRes :=
  if rsize0 = 0 then IterRes.out s.rc w1
  else if rsize0 = -(EAGAIN : Int) ∧ s.rpos = 0 then IterRes.out (-(EAGAIN : Int)) w1
  else
    let rsize : Int := if rsize0 = -(EAGAIN : Int) then 0 else rsize0
    if rsize < 0 then IterRes.out rsize w1
    else
      IterRes.next
        { s with rpos := s.rpos + rsize.toNat, bufoff := 0,
                 buf := data ++ s.buf.drop data.length } w1

/-- The first half of a round: `if (wpos == rpos) { ... read ... }`. -/
def copy_read (env : Env) (opt : options) (chunk : Int) (s : CopySt) (w : World) : IterRes :=
  if s.wpos = s.rpos then
    let r := nonblock_rw env opt false [] chunk w
    copy_read_after s r.1 r.2.1 r.2.2
  else IterRes.next s w

/-- The bandwidth control block: it reads the clock once and may sleep; the
sleep changes nothing the embedding tracks. -/
def throttle (env : Env) (opt : options) (w : World) : World :=
  if opt.o_bandwidth ≠ 0 then (sys_time env w).2 else w

/-- The end of a round: the bandwidth control, the periodic progress report
and `rc = 0`. -/
def copy_report (env : Env) (opt : options) (he_offset : Nat) (s1 : CopySt) (w1 : World) :
    IterRes :=
  let t := sys_time env (throttle env opt w1)
  if (t.1 : Int) ≥ (s1.last_print_time : Int) + opt.o_report_int then
    let t2 := sys_time env t.2
    let p := llapi_hsm_action_progress env t2.2 ⟨he_offset, s1.wpos⟩
    if p.1 ≠ 0 then IterRes.out p.1 p.2
    else IterRes.next { s1 with last_print_time := t2.1, rc := 0 } p.2
  else IterRes.next { s1 with rc := 0 } t.2

/-- What the loop does with the result `wsize` of the write: timeout, error,
or the advance of `wpos` and `bufoff`, followed by the end of the round. -/
def copy_write_after (env : Env) (opt : options) (he_offset : Nat) (s : CopySt)
    (wsize0 : Int) (w1 : World) : IterRes :=
  let wsize : Int := if wsize0 = -(EAGAIN : Int) then 0 else wsize0
  if wsize < 0 then IterRes.out wsize w1
  else
    copy_report env opt he_offset
      { s with wpos := s.wpos + wsize.toNat, bufoff := s.bufoff + wsize.toNat } w1

/-- The second half of a round: the write of the `rpos - wpos` bytes at
`buf + bufoff` and what follows. -/
def copy_write (env : Env) (opt : options) (he_offset : Nat) (s : CopySt) (w : World) :
    IterRes :=
  let r := nonblock_rw env opt true (s.buf.drop s.bufoff)
    (toInt32 ((s.rpos - s.wpos : Nat) : Int)) w
  copy_write_after env opt he_offset s r.1 r.2.2

/-- One round of `while (wpos < rlen)`. -/
def copy_iter (env : Env) (opt : options) (rlen he_offset : Nat) (s : CopySt) (w : World) :
    IterRes :=
  let chunk : Int :=
    toInt32 (((if rlen - s.wpos > opt.o_chunk_size then opt.o_chunk_size
              else rlen - s.wpos : Nat)) : Int)
  match copy_read env opt chunk s w with
  | IterRes.out rc w1 => IterRes.out rc w1
  | IterRes.next s1 w1 => copy_write env opt he_offset s1 w1

/-- The loop `while (wpos < rlen)` run for at most `fuel` rounds: the value of
`rc` when the loop is left (`none` when the rounds do not suffice) and the
state reached. -/
def copy_loop (env : Env) (opt : options) (rlen he_offset : Nat) :
    Nat → CopySt → World → Option Int × World
  | 0, _, w => (none, w)
  | fuel + 1, s, w =>
    if s.wpos < rlen then
      match copy_iter env opt rlen he_offset s w with
      | IterRes.next s1 w1 => copy_loop env opt rlen he_offset fuel s1 w1
      | IterRes.out rc w1 => (some rc, w1)
    else (some s.rc, w)

/-- The code of `ct_copy_data` from the label `out`: the truncation of a
restored file, the `fsync`, the value returned. -/
def ct_copy_data_out (env : Env) (hai : hsm_action_item) (src_size dst_size : Nat)
    (rc : Int) (w : World) : Int × World :=
  let a : Int × World :=
    if hai.hai_action = hsm_copytool_action.HSMA_RESTORE ∧ src_size < dst_size then
      let t := sys_ftruncate env w src_size
      if t.1 < 0 then (-t.2.errno, { t.2 with err_major := t.2.err_major + 1 })
      else (t.1, t.2)
    else (rc, w)
  if a.1 = 0 then
    let f := sys_fsync env a.2
    if f.1 < 0 then (-f.2.errno, { f.2 with err_major := f.2.err_major + 1 })
    else (f.1, f.2)
  else a

/-- A value returned together with the state, for a function that returns. -/
def ret (r : Int × World) : Option Int × World := (some r.1, r.2)

/-- The function `ct_copy_data(hcp, src, dst, src_fd, dst_fd, hai, hal_flags)`: the value
returned (`none` when the copy loop does not end within `fuel` rounds) and the
state reached. -/
def ct_copy_data (env : Env) (opt : options) (hai : hsm_action_item) (fuel : Nat)
    (w : World) : Option Int × World :=
  let t0 := sys_time env w
  let m := sys_malloc env t0.2 opt.o_chunk_size
  if m.1 = false then (some (-(ENOMEM : Int)), m.2)
  else
    let fs := sys_fstat_src env m.2
    match fs.1 with
    | none => (some (-fs.2.errno), fs.2)
    | some (src_size, src_reg) =>
      if src_reg = false then (some (-(EINVAL : Int)), fs.2)
      else
        let ls := sys_lseek_src env fs.2 hai.hai_extent.offset
        if toInt32 ls.1 < 0 then
          ret (ct_copy_data_out env hai src_size ls.2.garbage (-ls.2.errno) ls.2)
        else
          let fd := sys_fstat_dst env ls.2
          match fd.1 with
          | none => (some (-fd.2.errno), fd.2)
          | some (dst_size, dst_reg) =>
            if dst_reg = false then (some (-(EINVAL : Int)), fd.2)
            else
              let ld := sys_lseek_dst env fd.2 hai.hai_extent.offset
              if toInt32 ld.1 < 0 then
                ret (ct_copy_data_out env hai src_size dst_size (-ld.2.errno) ld.2)
              else
                let p := llapi_hsm_action_progress env ld.2 ⟨hai.hai_extent.offset, 0⟩
                if p.1 ≠ 0 then ret (ct_copy_data_out env hai src_size dst_size p.1 p.2)
                else
                  let w1 : World := { p.2 with errno := 0 }
                  let rlen : Nat :=
                    if hai.hai_extent.length = 2 ^ 64 - 1 then src_size
                    else hai.hai_extent.length
                  match copy_loop env opt rlen hai.hai_extent.offset fuel
                      ⟨0, 0, 0, [], p.1, t0.1⟩ w1 with
                  | (none, w2) => (none, w2)
                  | (some rc, w2) => ret (ct_copy_data_out env hai src_size dst_size rc w2)

/-! ## The action handlers -/

/-- The function `ct_is_retryable(err)`. -/
def ct_is_retryable (err : Int) : Bool := err = -(ETIMEDOUT : Int)

/-- Modelled from the spec: the flag `HP_FLAG_RETRY` of `action.end` comes from
the Lustre headers, which are not part of the sources at hand; it is the bit
that marks an outcome as retryable. -/
def HP_FLAG_RETRY : Nat := 2

/-- The value of `XATTR_SIZE_MAX` on Linux. -/
def XATTR_SIZE_MAX : Nat := 65536

/-- The function `ct_begin(&hcp, hai)`: the return code of `llapi_hsm_action_begin`; the
handle `hcp` is set exactly when the code is 0. -/
def ct_begin (env : Env) (w : World) : Int × World :=
  ((env w.clock).rc, w.call Event.action_begin)

/-- The function `ct_fini(&hcp, hai, flags, ct_rc)`: the call of `llapi_hsm_action_end` with
the extent of the item, the flags and `abs(ct_rc)`, and its return code. -/
def ct_fini (env : Env) (w : World) (hai : hsm_action_item) (flags : Nat) (ct_rc : Int) :
    Int × World :=
  ((env w.clock).rc, w.call (Event.action_end hai.hai_extent flags ct_rc.natAbs))

/-- The function `ct_load_stripe(src, lum, &lum_size)`: the return code and the size
read. -/
def ct_load_stripe (env : Env) (w : World) (src : List Char) (lum_size : Nat) :
    Int × Nat × World :=
  let lov_file := (snprintf PATH_MAX (src ++ ['.', 'l', 'o', 'v'])).1
  let w1 := w.call (Event.open_ lov_file [open_flag.O_RDONLY])
  match (env w.clock).fail with
  | some e => (-(ENODATA : Int), lum_size, { w1 with errno := e })
  | none =>
    let w2 := w1.call (Event.read_lov lov_file)
    match (env w1.clock).fail with
    | some e => (-(ENODATA : Int), lum_size, { w2 with errno := e }.call Event.close_lov)
    | none => (0, min (env w1.clock).amount lum_size, w2.call Event.close_lov)

/-- The function `ct_restore_stripe(src, dst, dst_fd)`. -/
def ct_restore_stripe (env : Env) (w : World) (src : List Char) : Int × World :=
  let l := ct_load_stripe env w src XATTR_SIZE_MAX
  if l.1 ≠ 0 then (0, l.2.2)
  else
    let w1 := l.2.2.call (Event.fsetxattr_lov l.2.1)
    match (env l.2.2.clock).fail with
    | some e => (-(e : Int), { w1 with errno := e })
    | none => (0, w1)

/-- The code of `ct_restore` from the label `fini`: the report to the
coordinator when the handle is set, then the closing of the descriptors. -/
def ct_restore_fini (env : Env) (hai : hsm_action_item) (hcp : Bool) (flags : Nat)
    (rc : Int) (src_fd dst_fd : Int) (w : World) : Int × World :=
  let f : Int × World := if hcp then ct_fini env w hai flags rc else (rc, w)
  let w1 := if ¬ (src_fd < 0) then f.2.call Event.close_src else f.2
  let w2 := if ¬ (dst_fd < 0) then w1.call Event.close_dst else w1
  (f.1, w2)

/-- The function `ct_restore(hai, hal_flags)`. The file at the archive path of the item is
the `src` of the state, the volatile file of the coordinator is its `dst`.
The value returned is `none` when the copy loop does not end within `fuel`
rounds. -/
def ct_restore (env : Env) (opt : options) (hai : hsm_action_item) (fuel : Nat)
    (w : World) : Option Int × World :=
  let b := ct_begin env w
  if b.1 ≠ 0 then ret (ct_restore_fini env hai false 0 b.1 (-1) (-1) b.2)
  else
    let src := (ct_path_archive PATH_MAX opt.o_hsm_root hai.hai_fid).1
    let d : Int × World := ((env b.2.clock).rc, b.2.call Event.action_get_dfid)
    if d.1 < 0 then ret (ct_restore_fini env hai true 0 d.1 (-1) (-1) d.2)
    else if opt.o_dry_run ≠ 0 then ret (ct_restore_fini env hai true 0 0 (-1) (-1) d.2)
    else
      let o := d.2.call (Event.open_ src
        [open_flag.O_RDONLY, open_flag.O_NOATIME, open_flag.O_NONBLOCK, open_flag.O_NOFOLLOW])
      match (env d.2.clock).fail with
      | some e =>
        ret (ct_restore_fini env hai true 0 (-(e : Int)) (-1) (-1) { o with errno := e })
      | none =>
        let src_fd : Int := (env d.2.clock).amount
        let g := o.call Event.action_get_fd
        let dst_fd : Int := (env o.clock).rc
        let s := ct_restore_stripe env g src
        if s.1 ≠ 0 then
          ret (ct_restore_fini env hai true 0 s.1 src_fd dst_fd
            { s.2 with err_major := s.2.err_major + 1 })
        else
          match ct_copy_data env opt hai fuel s.2 with
          | (none, w1) => (none, w1)
          | (some rc, w1) =>
            if rc < 0 then
              ret (ct_restore_fini env hai true
                (if ct_is_retryable rc then 0 ||| HP_FLAG_RETRY else 0) rc src_fd dst_fd
                { w1 with err_major := w1.err_major + 1 })
            else ret (ct_restore_fini env hai true 0 rc src_fd dst_fd w1)

/-! ## Predicates used to state the properties -/

/-- The bytes a successful `read` of `count` bytes delivers in state `w`. -/
def read_data (env : Env) (w : World) (count : Nat) : List Nat :=
  (w.src.drop w.src_pos).take (min (min count (env w.clock).amount) MAX_RW_COUNT)

/-- The bytes a successful `write` of `count` bytes from `mem` transfers. -/
def write_data (env : Env) (w : World) (mem : List Nat) (count : Nat) : List Nat :=
  mem.take (min (min count (env w.clock).amount) MAX_RW_COUNT)

/-- What the copy loop for the range `[o, o + l)` of the source `src0` may
do in one call: every byte a `read` takes lies inside the range, every byte a
`write` puts lies inside the range and is the byte of the source at the same
position; the only other calls are the clock, the readiness wait and the
progress report. -/
def EventOk (src0 : List Nat) (o l : Nat) : Event → Prop
  | Event.read pos _ data => ∀ i, i < data.length → o ≤ pos + i ∧ pos + i < o + l
  | Event.write pos _ data =>
    ∀ i, i < data.length → o ≤ pos + i ∧ pos + i < o + l ∧ data[i]? = src0[pos + i]?
  | Event.time => True
  | Event.select _ _ => True
  | Event.action_progress _ => True
  | _ => False

/-- The calls of the copy loop that transfer no data. -/
def Still : Event → Prop
  | Event.read _ _ data => data = []
  | Event.write _ _ data => data = []
  | Event.time => True
  | Event.select _ _ => True
  | Event.action_progress _ => True
  | _ => False

/-- The calls of the copy engine that transfer no data: all but a truncation
and a `read` or `write` that transfers bytes. -/
def Harmless : Event → Prop
  | Event.read _ _ data => data = []
  | Event.write _ _ data => data = []
  | Event.time => True
  | Event.malloc _ => True
  | Event.fstat_src _ => True
  | Event.fstat_dst _ => True
  | Event.lseek_src _ => True
  | Event.lseek_dst _ => True
  | Event.select _ _ => True
  | Event.fsync => True
  | Event.action_progress _ => True
  | _ => False

/-- What the claim on partial extents asks of a call: the bytes of a `read`
lie inside `[o, o + l)`, the bytes of a `write` lie inside it and equal the
bytes of the source `src0` at the same positions. -/
def ExtentOk (src0 : List Nat) (o l : Nat) : Event → Prop
  | Event.read pos _ data => ∀ i, i < data.length → o ≤ pos + i ∧ pos + i < o + l
  | Event.write pos _ data =>
    ∀ i, i < data.length → o ≤ pos + i ∧ pos + i < o + l ∧ data[i]? = src0[pos + i]?
  | _ => True

/-- The state `w1` comes from `w` by calls of the copy loop that leave the
content and the offset of both files as they are. -/
structure Quiet (w w1 : World) : Prop where
  hsrc : w1.src = w.src
  hspos : w1.src_pos = w.src_pos
  hdst : w1.dst = w.dst
  hdpos : w1.dst_pos = w.dst_pos
  htrace : ∃ evs, w1.trace = w.trace ++ evs ∧ ∀ e ∈ evs, Still e

/-- The number of bytes `ct_copy_data` is to copy (`rlen`): the size of the
source for the length `-1`, the length of the extent otherwise. -/
def copy_rlen (hai : hsm_action_item) (src_size : Nat) : Nat :=
  if hai.hai_extent.length = 2 ^ 64 - 1 then src_size else hai.hai_extent.length

/-- The part of the loop invariant that speaks of the files and of the trace:
the source is untouched, the destination has not shrunk and agrees with its
initial content `dst0` outside `[o, o + l)`, and every call added to the
trace `tr0` (the trace when the loop is entered) is allowed. -/
structure WInv (src0 dst0 : List Nat) (tr0 : List Event) (o l : Nat) (w : World) : Prop where
  hsrc : w.src = src0
  hlen : dst0.length ≤ w.dst.length
  hframe : ∀ p, p < dst0.length → (p < o ∨ o + l ≤ p) → w.dst[p]? = dst0[p]?
  htrace : ∃ evs, w.trace = tr0 ++ evs ∧ ∀ e ∈ evs, EventOk src0 o l e

/-- The invariant of the copy loop: the cursors are ordered, the file offsets
follow them, and the part of the buffer still to be written holds the bytes of
the source at the positions they will be written to. -/
structure CopyInv (src0 dst0 : List Nat) (tr0 : List Event) (o l : Nat) (s : CopySt)
    (w : World) : Prop where
  hw : WInv src0 dst0 tr0 o l w
  hspos : w.src_pos = o + s.rpos
  hdpos : w.dst_pos = o + s.wpos
  hwr : s.wpos ≤ s.rpos
  hrl : s.rpos ≤ l
  hbuf : (s.buf.drop s.bufoff).take (s.rpos - s.wpos)
    = (src0.drop (o + s.wpos)).take (s.rpos - s.wpos)
  hbuflen : s.rpos - s.wpos ≤ (src0.drop (o + s.wpos)).length
  hgap : s.rpos - s.wpos ≤ MAX_RW_COUNT

/-- The state `w1` comes from `w` by the calls `evs`, none of which changes
the content or the kind of a file. -/
structure Steps (w w1 : World) (evs : List Event) : Prop where
  hsrc : w1.src = w.src
  hdst : w1.dst = w.dst
  hsreg : w1.src_reg = w.src_reg
  hdreg : w1.dst_reg = w.dst_reg
  htrace : w1.trace = w.trace ++ evs

/-- The calls a handler makes before it copies data. -/
def PreEvent : Event → Prop
  | Event.action_begin => True
  | Event.action_get_dfid => True
  | Event.action_get_fd => True
  | Event.open_ _ _ => True
  | Event.read_lov _ => True
  | Event.close_lov => True
  | Event.fsetxattr_lov _ => True
  | _ => False

/-- The call is the report of an outcome to the coordinator (`action.end`). -/
def IsEnd : Event → Prop
  | Event.action_end _ _ _ => True
  | _ => False

/-- An environment in which no call fails or times out, every `read` and
`write` transfers at least one byte (possibly fewer than asked for) and every
call into the coordinator library returns 0. -/
def NoFault (env : Env) : Prop :=
  ∀ i, (env i).fail = none ∧ 1 ≤ (env i).amount ∧ (env i).rc = 0

/-! ## Auxiliary functions of the proofs -/

/-- The value of a hexadecimal digit character. -/
def unhexChar (c : Char) : Nat :=
  if c = '0' then 0 else if c = '1' then 1 else if c = '2' then 2 else if c = '3' then 3
  else if c = '4' then 4 else if c = '5' then 5 else if c = '6' then 6 else if c = '7' then 7
  else if c = '8' then 8 else if c = '9' then 9 else if c = 'a' then 10 else if c = 'b' then 11
  else if c = 'c' then 12 else if c = 'd' then 13 else if c = 'e' then 14 else 15


/-- The number denoted by base-16 digits, least significant first. -/
def valLE : List Nat → Nat
  | [] => 0
  | d :: ds => d + 16 * valLE ds


/-- Everything `ct_path_archive` puts after the archive root. -/
def archive_suffix (fid : lustre_fid) : List Char :=
  ['/'] ++ hex4 (fid.f_oid &&& 0xFFFF)
    ++ ['/'] ++ hex4 ((fid.f_oid >>> 16) &&& 0xFFFF)
    ++ ['/'] ++ hex4 (fid.f_seq &&& 0xFFFF)
    ++ ['/'] ++ hex4 ((fid.f_seq >>> 16) &&& 0xFFFF)
    ++ ['/'] ++ hex4 ((fid.f_seq >>> 32) &&& 0xFFFF)
    ++ ['/'] ++ hex4 ((fid.f_seq >>> 48) &&& 0xFFFF)


/-! ## Directory creation (`ct_mkdir_p`) -/

/-- The path-level system calls of the archive maintenance code, over a state
`σ`: `mkdir(path, DIR_PERM)` and `rename(oldpath, newpath)` with the value
each returns, and the `errno` it leaves. -/
structure PathSys (σ : Type) where
  mkdir : σ → List Char → Int × σ
  rename : σ → List Char → List Char → Int × σ
  errno : σ → Int

/-- The system call `mkdir(path, DIR_PERM)` answered by the environment. -/
def sys_mkdir (env : Env) (w : World) (path : List Char) : Int × World :=
  match (env w.clock).fail with
  | some e => (-1, { w.call (Event.mkdir path) with errno := e })
  | none => (0, w.call (Event.mkdir path))

/-- The system call `rename(oldpath, newpath)` answered by the environment. -/
def sys_rename (env : Env) (w : World) (oldpath newpath : List Char) : Int × World :=
  match (env w.clock).fail with
  | some e => (-1, { w.call (Event.rename oldpath newpath false) with errno := e })
  | none => (0, w.call (Event.rename oldpath newpath true))

/-- The path-level system calls answered by the environment and recorded in
the trace. -/
def worldSys (env : Env) : PathSys World where
  mkdir := sys_mkdir env
  rename := sys_rename env
  errno := fun w => w.errno

/-- The loop `while ((ptr = strchr(ptr, '/')) != NULL)` of `ct_mkdir_p`:
`saved` is the copy of the path, the second argument the characters from `ptr`
on and `k` the distance of `ptr` from `saved`. At a `/` the path is cut there
for the call of `mkdir` and restored. -/
def ct_mkdir_p_loop {σ : Type} (S : PathSys σ) (saved : List Char) :
    List Char → Nat → σ → Int × σ
  | [], _, s => (0, s)
  | c :: rest, k, s =>
    if c = '/' then
      let m := S.mkdir s (saved.take k)
      if m.1 < 0 ∧ S.errno m.2 ≠ (EEXIST : Int) then (-(S.errno m.2), m.2)
      else ct_mkdir_p_loop S saved rest (k + 1) m.2
    else ct_mkdir_p_loop S saved rest (k + 1) s

/-- The function `ct_mkdir_p(path)`; `strdup` is taken to succeed. -/
def ct_mkdir_p {σ : Type} (S : PathSys σ) (path : List Char) (s : σ) : Int × σ :=
  let lead := (path.takeWhile (fun c => c = '/')).length
  ct_mkdir_p_loop S path (path.drop lead) lead s

/-- The prefixes of `path` that end just before a `/` occurring after the
leading run of `/` characters, in order of increasing length. -/
def mkdir_prefixes (path : List Char) : List (List Char) :=
  ((List.range path.length).filter
      (fun j => (path.takeWhile (fun c => c = '/')).length ≤ j ∧ path[j]? = some '/')).map
    (fun j => path.take j)

/-- The prefixes of `saved` cut before each `/` of `rest`, `rest` being what
`saved` holds from position `k` on. -/
def mkdir_prefixes_from (saved : List Char) : List Char → Nat → List (List Char)
  | [], _ => []
  | c :: rest, k =>
    if c = '/' then saved.take k :: mkdir_prefixes_from saved rest (k + 1)
    else mkdir_prefixes_from saved rest (k + 1)

/-- The calls `mkdir(p)` for the paths of a list in turn, a failure with an
`errno` other than `EEXIST` ending the walk with `-errno`. -/
def mkdir_walk {σ : Type} (S : PathSys σ) : List (List Char) → σ → Int × σ
  | [], s => (0, s)
  | p :: ps, s =>
    let m := S.mkdir s p
    if m.1 < 0 ∧ S.errno m.2 ≠ (EEXIST : Int) then (-(S.errno m.2), m.2)
    else mkdir_walk S ps m.2

/-- The answer of the environment makes `ct_mkdir_p` give up: the call fails
with an `errno` other than `EEXIST`. -/
def mkdir_stops (r : Resp) : Bool :=
  match r.fail with
  | some e => decide (e ≠ EEXIST)
  | none => false

/-! ## The rebind mode -/

/-- The C library's `strncat(dest, src, n)`: at most `n` characters of `src`
are appended to `dest`. -/
def strncat (dest src : List Char) (n : Nat) : List Char :=
  dest ++ src.take n

/-- The function `ct_rebind_one(old_fid, new_fid)`. -/
def ct_rebind_one {σ : Type} (S : PathSys σ) (opt : options) (old_fid new_fid : lustre_fid)
    (s : σ) : Int × σ :=
  let src := (ct_path_archive PATH_MAX opt.o_hsm_root old_fid).1
  let dst := (ct_path_archive PATH_MAX opt.o_hsm_root new_fid).1
  if opt.o_dry_run = 0 then
    let m := ct_mkdir_p S dst s
    let r := S.rename m.2 src dst
    if r.1 ≠ 0 then (-(S.errno r.2), r.2)
    else
      let src_lov := strncat src ".lov".toList (PATH_MAX - src.length - 1)
      let dst_lov := strncat dst ".lov".toList (PATH_MAX - dst.length - 1)
      let r2 := S.rename r.2 src_lov dst_lov
      (0, r2.2)
  else (0, s)

/-- The components of a path between its `/` characters, `cur` being the
component read so far. -/
def path_components : List Char → List Char → List (List Char)
  | [], cur => if cur = [] then [] else [cur]
  | c :: rest, cur =>
    if c = '/' then
      if cur = [] then path_components rest [] else cur :: path_components rest []
    else path_components rest (cur ++ [c])

/-- The name of a node: its components, after `/` when the path is absolute. -/
def path_key (path : List Char) : List (List Char) :=
  (if path.head? = some '/' then [['/']] else []) ++ path_components path []

/-- The archive file system: the directories and the regular files with their
content, by name, and `errno`. The root and the working directory always
exist. -/
structure ArchFS where
  dirs : List (List (List Char))
  files : List (List (List Char) × List Nat)
  errno : Int
  deriving DecidableEq, Repr

/-- The node named `k` is a directory. -/
def ArchFS.isDirKey (fs : ArchFS) (k : List (List Char)) : Bool :=
  k = [] || k = [['/']] || fs.dirs.contains k

/-- The node named `k` is a regular file. -/
def ArchFS.isFileKey (fs : ArchFS) (k : List (List Char)) : Bool :=
  (fs.files.lookup k).isSome

/-- The path names a directory. -/
def ArchFS.isDir (fs : ArchFS) (path : List Char) : Bool :=
  path ≠ [] && fs.isDirKey (path_key path)

/-- The path names a regular file. -/
def ArchFS.isFile (fs : ArchFS) (path : List Char) : Bool :=
  path ≠ [] && fs.isFileKey (path_key path)

/-- The call `mkdir(path, mode)` on the archive file system. -/
def ArchFS.mkdir (fs : ArchFS) (path : List Char) : Int × ArchFS :=
  if path = [] then (-1, { fs with errno := ENOENT })
  else if fs.isDirKey (path_key path) || fs.isFileKey (path_key path) then
    (-1, { fs with errno := EEXIST })
  else if fs.isDirKey (path_key path).dropLast then
    (0, { fs with dirs := path_key path :: fs.dirs })
  else (-1, { fs with errno := ENOENT })

/-- The name `k` with its leading part `a` replaced by `b`, when `a` leads
`k`. -/
def rekey (a b k : List (List Char)) : List (List Char) :=
  if a.isPrefixOf k then b ++ k.drop a.length else k

/-- The values of `errno` that `rename` gives in the archive file system. -/
def EISDIR : Nat := 21
def ENOTDIR : Nat := 20
def ENOTEMPTY : Nat := 39

/-- The call `rename(oldpath, newpath)` on the archive file system. When both
paths name the same existing node nothing is done and the call succeeds. -/
def ArchFS.rename (fs : ArchFS) (oldpath newpath : List Char) : Int × ArchFS :=
  let a := path_key oldpath
  let b := path_key newpath
  if oldpath = [] ∨ newpath = [] then (-1, { fs with errno := ENOENT })
  else if fs.isFileKey a then
    if a = b then (0, fs)
    else if fs.isDirKey b then (-1, { fs with errno := EISDIR })
    else if fs.isDirKey b.dropLast then
      (0, { fs with files :=
              (b, ((fs.files.lookup a).getD [])) ::
                fs.files.filter (fun f => f.1 ≠ a ∧ f.1 ≠ b) })
    else (-1, { fs with errno := ENOENT })
  else if fs.dirs.contains a then
    if a = b then (0, fs)
    else if a.isPrefixOf b then (-1, { fs with errno := EINVAL })
    else if fs.isFileKey b then (-1, { fs with errno := ENOTDIR })
    else if fs.dirs.any (fun d => b.isPrefixOf d ∧ d ≠ b)
        || fs.files.any (fun f => b.isPrefixOf f.1) then
      (-1, { fs with errno := ENOTEMPTY })
    else if fs.isDirKey b.dropLast then
      (0, { fs with
              dirs := (fs.dirs.filter (fun d => d ≠ b)).map (rekey a b),
              files := fs.files.map (fun f => (rekey a b f.1, f.2)) })
    else (-1, { fs with errno := ENOENT })
  else (-1, { fs with errno := ENOENT })

/-- The path-level system calls on the archive file system. -/
def archSys : PathSys ArchFS where
  mkdir := ArchFS.mkdir
  rename := ArchFS.rename
  errno := fun fs => fs.errno

/-! ## Setup, teardown and `main` -/

/-- The modes of the tool (`enum ct_action`); `none` stands for the value 0
that `opt.o_action` keeps when no mode is given. -/
inductive ct_action where
  | none | CA_IMPORT | CA_REBIND | CA_MAXSEQ | CA_DAEMON
  deriving DecidableEq, Repr

/-- What `ct_setup` leaves in the globals `arc_fd` and `fs_name`, with the
value it returns. -/
structure setup_res where
  rc : Int
  arc_fd : Int
  fs_name : List Char
  w : World

/-- The function `ct_setup()`, entered with `arc_fd = -1`: the archive root is opened as a
directory, then the name of the file system mounted at `o_mnt` is looked
up. -/
def ct_setup (env : Env) (opt : options) (w : World) : setup_res :=
  let w1 := w.call (Event.open_dir opt.o_hsm_root)
  match (env w.clock).fail with
  | some e => ⟨-(e : Int), -1, [], { w1 with errno := e }⟩
  | none =>
    let arc_fd : Int := (env w.clock).amount
    let w2 := w1.call (Event.search_fsname opt.o_mnt)
    let rc := (env w1.clock).rc
    if rc ≠ 0 then ⟨-rc, arc_fd, (env w1.clock).text, w2⟩
    else ⟨rc, arc_fd, (env w1.clock).text, w2⟩

/-- The function `ct_cleanup()`. -/
def ct_cleanup (env : Env) (arc_fd : Int) (w : World) : Int × World :=
  if arc_fd < 0 then (0, w)
  else
    match (env w.clock).fail with
    | some e => (-(e : Int), { w.call Event.close_arc with errno := e })
    | none => (0, w.call Event.close_arc)

/-- The functions `main` calls for the modes, each with the value it returns;
they run with the globals as `ct_setup` left them. -/
structure ct_modes where
  ct_import_recurse : setup_res → Int × World
  ct_rebind : setup_res → Int × World
  ct_max_sequence : setup_res → Int × World
  ct_daemon : setup_res → Int × World

/-- The function `main(argc, argv)` from the return of `ct_parseopts`, which gave `rc` and
filled `opt`: the value returned (the exit status is its low byte) and the
state. -/
def main (env : Env) (opt : options) (o_action : ct_action) (m : ct_modes) (rc : Int)
    (w : World) : Int × World :=
  if rc ≠ 0 then (-rc, w)
  else
    let s := ct_setup env opt w
    let r : Int × World :=
      match o_action with
      | ct_action.CA_IMPORT => m.ct_import_recurse s
      | ct_action.CA_REBIND => m.ct_rebind s
      | ct_action.CA_MAXSEQ => m.ct_max_sequence s
      | ct_action.CA_DAEMON => m.ct_daemon s
      | ct_action.none => (-(EINVAL : Int), s.w)
    let c := ct_cleanup env s.arc_fd r.2
    (-r.1, c.2)

/-- The mode `--max-sequence` as `main` runs it: `ct_max_sequence` over the
directories `fs`, the line it prints recorded in the trace. -/
def ct_max_sequence_mode (fs : DirFS) (opt : options) (s : setup_res) : Int × World :=
  match ct_max_sequence fs opt.o_hsm_root with
  | Except.error rc => (rc, s.w)
  | Except.ok r => (0, s.w.call (Event.printf r.2))

/-! ## The dispatch loop (`ct_daemon`)

The loop is the single thread that receives the action lists. The threads it
starts run `ct_process_item` on their own; what they do, the counters they
raise included, is not part of the loop. -/

/-- Modelled from the spec: the macro `cfs_size_round`, with which `hai_next`
steps from one item to the next, comes from the Lustre headers, which are not
part of the sources at hand; the items of a list are laid out one after the
other, each length rounded up to a multiple of 8 bytes. -/
def cfs_size_round (len : Nat) : Nat := (len + 7) / 8 * 8

/-- An action list as `llapi_hsm_copytool_recv` returns it: the fields of the
header that the loop reads, the distance `hai_first` of the first item from
the start of the list (what `hai_first(hal)` computes), and `item_at`, the
item that the memory holds at a given distance from the start of the list,
whether or not the message reaches that far. -/
structure hsm_action_list where
  hal_fsname : List Char
  hal_flags : Nat
  hal_count : Nat
  hai_first : Nat
  item_at : Nat → hsm_action_item

/-- One result of `llapi_hsm_copytool_recv`: the value returned and, when it
is not negative, the list and the size of the message. -/
structure recv_res where
  rc : Int
  hal : hsm_action_list
  msgsize : Int

/-- The function `ct_process_item_async(hai, hal_flags)` for the item found at the distance
`off` from the start of the list: the copy of its `hai_len` bytes and the
start of the detached thread that will run `ct_process_item` on the copy. -/
def ct_process_item_async (env : Env) (off : Nat) (hai : hsm_action_item) (w : World) :
    Int × World :=
  let m1 := sys_malloc env w 16
  if m1.1 = false then (-(ENOMEM : Int), m1.2)
  else
    let m2 := sys_malloc env m1.2 hai.hai_len
    if m2.1 = false then (-(ENOMEM : Int), m2.2)
    else
      let w3 := m2.2.call (Event.memcpy_item off hai.hai_len)
      let w4 := w3.call Event.pthread_attr_init
      if (env w3.clock).rc ≠ 0 then (-(env w3.clock).rc, w4)
      else (0, w4.call (Event.pthread_create hai.hai_len hai.hai_cookie))

/-- How the `while (++i <= hal->hal_count)` loop over the items ends: the
value of `rc` and the state. The first argument counts the rounds left, `off`
is the distance of `hai` from the start of the list and `rc` the current
value of the variable. -/
def dispatch_items (env : Env) (opt : options) (hal : hsm_action_list) (msgsize : Int) :
    Nat → Nat → Int → World → Int × World
  | 0, _, rc, w => (rc, w)
  | n + 1, off, _, w =>
    if (off : Int) > msgsize then
      (-(EPROTO : Int), { w with err_major := w.err_major + 1 })
    else
      let r := ct_process_item_async env off (hal.item_at off) w
      if opt.o_abort_on_error ≠ 0 ∧ r.2.err_major ≠ 0 then (r.1, r.2)
      else
        dispatch_items env opt hal msgsize n
          (off + cfs_size_round (hal.item_at off).hai_len) r.1 r.2

/-- How one round of the `while (1)` loop of `ct_daemon` ends. -/
inductive round_res where
  | again (rc : Int) (w : World)
  | leave (rc : Int) (w : World)
  deriving DecidableEq, Repr

/-- One round of the `while (1)` loop of `ct_daemon` for the result `r` of
`llapi_hsm_copytool_recv`. -/
def daemon_round (env : Env) (opt : options) (fs_name : List Char) (r : recv_res)
    (w : World) : round_res :=
  let w1 := w.call Event.copytool_recv
  if r.rc = -(ESHUTDOWN : Int) then round_res.leave r.rc w1
  else if r.rc = -(EAGAIN : Int) then round_res.again r.rc w1
  else if r.rc < 0 then
    let w2 := { w1 with err_major := w1.err_major + 1 }
    if opt.o_abort_on_error ≠ 0 then round_res.leave r.rc w2 else round_res.again r.rc w2
  else if r.hal.hal_fsname ≠ fs_name then
    let w2 := { w1 with err_major := w1.err_major + 1 }
    if opt.o_abort_on_error ≠ 0 then round_res.leave r.rc w2 else round_res.again r.rc w2
  else
    let d := dispatch_items env opt r.hal r.msgsize r.hal.hal_count r.hal.hai_first r.rc w1
    let w3 := d.2.call Event.list_free
    if opt.o_abort_on_error ≠ 0 ∧ w3.err_major ≠ 0 then round_res.leave d.1 w3
    else round_res.again d.1 w3

/-- The `while (1)` loop of `ct_daemon` followed by the call of
`llapi_hsm_copytool_unregister`, for the successive results `recvs` of
`llapi_hsm_copytool_recv`: the value of `rc` and the state when the loop is
left, `none` when the results are used up before (the daemon then waits in
`llapi_hsm_copytool_recv`). -/
def daemon_loop (env : Env) (opt : options) (fs_name : List Char) :
    List recv_res → Int → World → Option Int × World
  | [], _, w => (none, w)
  | r :: rest, _, w =>
    match daemon_round env opt fs_name r w with
    | round_res.again rc w1 => daemon_loop env opt fs_name rest rc w1
    | round_res.leave rc w1 => (some rc, w1.call Event.copytool_unregister)

/-- The function `ct_daemon()`. -/
def ct_daemon (env : Env) (opt : options) (fs_name : List Char) (recvs : List recv_res)
    (w : World) : Option Int × World :=
  let w1 := w.call Event.daemonize
  match (env w.clock).fail with
  | some e => (some (-(e : Int)), { w1 with errno := e })
  | none =>
    let w2 := w1.call Event.copytool_register
    if (env w1.clock).rc < 0 then (some (env w1.clock).rc, w2)
    else daemon_loop env opt fs_name recvs (env w1.clock).rc w2

/-- The state `w1` comes from `w` by calls that all satisfy `P`. -/
def Adds (P : Event → Prop) (w w1 : World) : Prop :=
  ∃ evs, w1.trace = w.trace ++ evs ∧ ∀ e ∈ evs, P e

/-- The calls `ct_process_item_async` makes. -/
def AsyncEvent : Event → Prop
  | Event.malloc _ => True
  | Event.memcpy_item _ _ => True
  | Event.pthread_attr_init => True
  | Event.pthread_create _ _ => True
  | _ => False

/-- The calls of the `while (1)` loop of `ct_daemon`. -/
def DaemonEvent : Event → Prop
  | Event.copytool_recv => True
  | Event.list_free => True
  | e => AsyncEvent e

/-! ## The archive and remove handlers -/

/-- The function `ct_path_lustre(buf, sz, mnt, fid)`. The constant `dot_lustre_name`, the name
of the directory that gives access to files by FID, comes from the Lustre
headers, which are not part of the sources at hand: it is a parameter. -/
def ct_path_lustre (sz : Nat) (mnt dot_lustre_name : List Char) (fid : lustre_fid) :
    List Char × Int :=
  snprintf sz (mnt ++ ['/'] ++ dot_lustre_name ++ "/fid/".toList ++ fid_nobrace fid)

/-- Modelled from the spec: the macro `DFID` comes from the Lustre headers,
which are not part of the sources at hand; it prints the canonical text of a
FID between brackets. -/
def fid_brace (fid : lustre_fid) : List Char :=
  ['['] ++ fid_nobrace fid ++ [']']

/-- The system call `open(path, flags, ...)`: the descriptor, or -1. -/
def sys_open (env : Env) (w : World) (path : List Char) (flags : List open_flag) :
    Int × World :=
  match (env w.clock).fail with
  | some e => (-1, { w.call (Event.open_ path flags) with errno := e })
  | none => (((env w.clock).amount : Int), w.call (Event.open_ path flags))

/-- The system call `unlink(path)`. -/
def sys_unlink (env : Env) (w : World) (path : List Char) : Int × World :=
  match (env w.clock).fail with
  | some e => (-1, { w.call (Event.unlink path false) with errno := e })
  | none => (0, w.call (Event.unlink path true))

/-- The system call `symlink(target, linkpath)`. -/
def sys_symlink (env : Env) (w : World) (target linkpath : List Char) : Int × World :=
  match (env w.clock).fail with
  | some e => (-1, { w.call (Event.symlink target linkpath false) with errno := e })
  | none => (0, w.call (Event.symlink target linkpath true))

/-- The system call `readlink(path, buf, bufsiz)`: the number of characters
stored and the characters, or -1. -/
def sys_readlink (env : Env) (w : World) (path : List Char) (bufsiz : Nat) :
    Int × List Char × World :=
  match (env w.clock).fail with
  | some e => (-1, [], { w.call (Event.readlink path) with errno := e })
  | none =>
    ((((env w.clock).text.take bufsiz).length : Int), (env w.clock).text.take bufsiz,
      w.call (Event.readlink path))

/-- The library call `llapi_fid2path(mnt, fid, buf, buflen, ...)`: the return code and the
path stored in the buffer. -/
def llapi_fid2path (env : Env) (w : World) (fid : List Char) (buflen : Nat) :
    Int × List Char × World :=
  ((env w.clock).rc, (env w.clock).text.take (buflen - 1), w.call (Event.fid2path fid))

/-- A system call on an open descriptor that returns 0, or -1 with `errno`
set. -/
def sys_fd_call (env : Env) (w : World) (e : Event) : Int × World :=
  match (env w.clock).fail with
  | some err => (-1, { w.call e with errno := err })
  | none => (0, w.call e)

/-- The function `ct_save_stripe(src_fd, src, dst)`. -/
def ct_save_stripe (env : Env) (w : World) (dst : List Char) : Int × World :=
  let lov_file := (snprintf PATH_MAX (dst ++ ".lov".toList)).1
  let w1 := w.call Event.fgetxattr_lov
  match (env w.clock).fail with
  | some e => (-(e : Int), { w1 with errno := e })
  | none =>
    let xattr_size := (env w.clock).amount
    let o := sys_open env w1 lov_file
      [open_flag.O_TRUNC, open_flag.O_CREAT, open_flag.O_WRONLY]
    if o.1 < 0 then (-o.2.errno, o.2)
    else
      let wr := sys_fd_call env o.2 (Event.write_lov xattr_size)
      let c := sys_fd_call env wr.2 Event.close_lov
      if wr.1 < 0 then (-c.2.errno, c.2)
      else if c.1 < 0 then (-c.2.errno, c.2)
      else (0, c.2)

/-- The function `ct_copy_attr(src, dst, src_fd, dst_fd)`. The `return -errno` that follows
the three calls is not under the `if`: it is reached whether or not one of
them failed. -/
def ct_copy_attr (env : Env) (w : World) : Int × World :=
  let st := sys_fd_call env w Event.fstat_attr
  if st.1 < 0 then (-st.2.errno, st.2)
  else
    let a := sys_fd_call env st.2 Event.fchmod
    let b := if a.1 < 0 then a else sys_fd_call env a.2 Event.fchown
    let c := if b.1 < 0 then b else sys_fd_call env b.2 Event.futimes
    (-c.2.errno, c.2)

/-- The character NUL, which ends a C string. -/
def NUL : Char := Char.ofNat 0

/-- The C string that starts at `p`: the characters before the first NUL. What
lies beyond the bytes a call stored is indeterminate; a string that runs to
the end of them is read as ending there. -/
def c_string (p : List Char) : List Char := p.takeWhile (fun c => c ≠ NUL)

/-- The function `strlen(p)`. -/
def strlen (p : List Char) : Nat := (c_string p).length

/-- The walk of `ct_copy_xattr` over the buffer `list`:
`name = list; while (name < list + list_len) { ...; name += strlen(name) + 1; }`, the
pointer `name` being kept as its offset from `list`. The result is the strings
`name` points to, one per round, for at most `fuel` rounds: `none` when the
rounds do not suffice. -/
def xattr_walk (list : List Char) (list_len : Nat) : Nat → Nat → Option (List (List Char))
  | 0, name => if name < list_len then none else some []
  | fuel + 1, name =>
    if name < list_len then
      (xattr_walk list list_len fuel (name + strlen (list.drop name) + 1)).map
        (fun rest => c_string (list.drop name) :: rest)
    else some []

/-- The strings the walk of `ct_copy_xattr` visits in a buffer of `list_len` bytes. Every
round advances `name` by one byte at least, so that `list_len` rounds
suffice. -/
def xattr_names (list : List Char) (list_len : Nat) : List (List Char) :=
  (xattr_walk list list_len list_len 0).getD []

/-- The body of the loop of `ct_copy_xattr`, run for the strings that the walk
over the buffer visits: `fgetxattr`, the test of the name, `fsetxattr`. -/
def ct_copy_xattr_loop (env : Env) (is_restore : Bool) : List (List Char) → World → Int × World
  | [], w => (0, w)
  | name :: rest, w =>
    let w1 := w.call (Event.fgetxattr name)
    match (env w.clock).fail with
    | some e => (-(e : Int), { w1 with errno := e })
    | none =>
      if is_restore = false ∨ ¬ ("trusted.".toList.isPrefixOf name = true) then
        let w2 := w1.call (Event.fsetxattr name (env w.clock).amount)
        match (env w1.clock).fail with
        | some e =>
          if e ≠ EOPNOTSUPP then (-(e : Int), { w2 with errno := e })
          else ct_copy_xattr_loop env is_restore rest { w2 with errno := e }
        | none => ct_copy_xattr_loop env is_restore rest w2
      else ct_copy_xattr_loop env is_restore rest w1

/-- The function `ct_copy_xattr(src, dst, src_fd, dst_fd, is_restore)`. The bytes `flistxattr` stores
in `list` are the `text` of its answer and `list_len` is their number. -/
def ct_copy_xattr (env : Env) (w : World) (is_restore : Bool) : Int × World :=
  let w1 := w.call Event.flistxattr
  match (env w.clock).fail with
  | some e => (-(e : Int), { w1 with errno := e })
  | none =>
    ct_copy_xattr_loop env is_restore
      (xattr_names (env w.clock).text (env w.clock).text.length) w1

/-- The path `dst` of `ct_archive` once it is set: the archive path of the
item, with `_tmp` appended by `strncat` for a whole-file extent. -/
def archive_dst (opt : options) (hai : hsm_action_item) : List Char :=
  if hai.hai_extent.length = 2 ^ 64 - 1 then
    strncat (ct_path_archive PATH_MAX opt.o_hsm_root hai.hai_fid).1 "_tmp".toList
      (PATH_MAX - (ct_path_archive PATH_MAX opt.o_hsm_root hai.hai_fid).1.length - 1)
  else (ct_path_archive PATH_MAX opt.o_hsm_root hai.hai_fid).1

/-- The code of `ct_archive` from the label `out`: `hcp` tells whether the
handle is set, `rc` and `rcf` are the values of the variables. -/
def ct_archive_out (env : Env) (hai : hsm_action_item) (hcp : Bool) (ct_flags : Nat)
    (rc rcf : Int) (src_fd dst_fd : Int) (w : World) : Int × World :=
  let w1 := if ¬ (src_fd < 0) then w.call Event.close_src else w
  let w2 := if ¬ (dst_fd < 0) then w1.call Event.close_dst else w1
  if hcp then ct_fini env w2 hai ct_flags rcf else (rc, w2)

/-- The code of `ct_archive` from the label `fini_major`; `dst` is what the
buffer `dst` holds. -/
def ct_archive_fini_major (env : Env) (hai : hsm_action_item) (hcp : Bool) (rc : Int)
    (dst : List Char) (src_fd dst_fd : Int) (w : World) : Int × World :=
  let u := sys_unlink env { w with err_major := w.err_major + 1 } dst
  ct_archive_out env hai hcp (if ct_is_retryable rc then 0 ||| HP_FLAG_RETRY else 0)
    rc rc src_fd dst_fd u.2

/-- The code of `ct_archive` from the label `fini_minor`. -/
def ct_archive_fini_minor (env : Env) (hai : hsm_action_item) (hcp : Bool) (rc rcf : Int)
    (src_fd dst_fd : Int) (w : World) : Int × World :=
  ct_archive_out env hai hcp 0 rc rcf src_fd dst_fd
    (if rcf ≠ 0 then { w with err_minor := w.err_minor + 1 } else w)

/-- The two blocks `if (opt.o_copy_attrs)` and `if (opt.o_copy_xattrs)` of
`ct_archive`, entered with the value `rc` and with `rcf = 0`: the values of
`rc` and `rcf` after them. -/
def ct_archive_attrs (env : Env) (opt : options) (rc : Int) (w : World) : Int × Int × World :=
  let a : Int × World := if opt.o_copy_attrs ≠ 0 then ct_copy_attr env w else (rc, w)
  let rcf1 : Int := if opt.o_copy_attrs ≠ 0 ∧ a.1 < 0 then a.1 else 0
  let x : Int × World := if opt.o_copy_xattrs ≠ 0 then ct_copy_xattr env a.2 false else a
  let rcf2 : Int :=
    if opt.o_copy_xattrs ≠ 0 ∧ x.1 < 0 then (if rcf1 ≠ 0 then rcf1 else x.1) else rcf1
  (x.1, rcf2, x.2)

/-- The block `if (rename_needed == true)` of `ct_archive`: whether it leaves
for `fini_major`, and the value of `rc`. -/
def ct_archive_rename (env : Env) (opt : options) (hai : hsm_action_item) (dst : List Char)
    (w : World) : Bool × Int × World :=
  let src := (ct_path_archive PATH_MAX opt.o_hsm_root hai.hai_fid).1
  let r := sys_rename env w dst src
  if r.1 < 0 then (true, -r.2.errno, r.2)
  else
    let tmp_src := (snprintf PATH_MAX (src ++ ".lov".toList)).1
    let tmp_dst := (snprintf PATH_MAX (dst ++ ".lov".toList)).1
    let r2 := sys_rename env r.2 tmp_dst tmp_src
    (false, r2.1, r2.2)

/-- The number of `/` characters of a string. -/
def count_slash (s : List Char) : Nat := (s.filter (fun c => c = '/')).length

/-- The string built by `sprintf(buf, "..")` and the loop
`while (--depth > 1) strcat(buf, "/..")`. -/
def shadow_updirs (depth : Int) : List Char :=
  "..".toList ++ (List.replicate (depth - 2).toNat "/..".toList).flatten

/-- The end of the block `if (opt.o_shadow_tree)` of `ct_archive`: the call
`symlink(dst, src)`. The result is the value of `rcf`. -/
def ct_archive_symlink (env : Env) (rcf : Int) (dst src : List Char) (w : World) :
    Int × World :=
  let s := sys_symlink env w dst src
  if s.1 ≠ 0 then (if rcf ≠ 0 then rcf else -s.2.errno, s.2) else (rcf, s.2)

/-- The block `if (opt.o_shadow_tree)` of `ct_archive`, up to the label
`fini_minor`: the values of `rc` and `rcf` there. -/
def ct_archive_shadow (env : Env) (opt : options) (hai : hsm_action_item) (rcf : Int)
    (w : World) : Int × Int × World :=
  let src0 := opt.o_hsm_root ++ "/shadow/".toList
  let p := llapi_fid2path env w (fid_brace hai.hai_fid) (PATH_MAX - src0.length)
  if p.1 < 0 then (p.1, if rcf ≠ 0 then rcf else p.1, p.2.2)
  else
    let src := src0 ++ p.2.1
    let depth : Int := -(count_slash opt.o_hsm_root : Int) + (count_slash src : Int)
    let dst := (ct_path_archive PATH_MAX (shadow_updirs depth) hai.hai_fid).1
    let m := ct_mkdir_p (worldSys env) src p.2.2
    if m.1 ≠ 0 then (p.1, if rcf ≠ 0 then rcf else -m.2.errno, m.2)
    else
      let l := sys_readlink env m.2 src PATH_MAX
      if l.1 ≥ 0 then
        if l.1 = 0 ∨ l.2.1 ≠ dst.take l.1.toNat then
          let u := sys_unlink env l.2.2 src
          if u.1 ≠ 0 ∧ u.2.errno ≠ (ENOENT : Int) then
            (p.1, if rcf ≠ 0 then rcf else -u.2.errno, u.2)
          else
            let s := ct_archive_symlink env rcf dst src u.2
            (p.1, s.1, s.2)
        else (p.1, 0, l.2.2)
      else
        let s := ct_archive_symlink env rcf dst src l.2.2
        (p.1, s.1, s.2)

/-- The function `ct_archive(hai, hal_flags)`. The file that the data FID names in Lustre is
the `src` of the state and the file at the path `dst` its `dst`; `dst_uninit`
is what the buffer `dst` holds before it is written, `dot_lustre_name` the
constant of that name. The handle `hcp` is set
exactly when `ct_begin` returns 0. The value returned is `none` when the copy
loop does not end within `fuel` rounds. -/
def ct_archive (env : Env) (opt : options) (hai : hsm_action_item)
    (dot_lustre_name dst_uninit : List Char) (fuel : Nat) (w : World) : Option Int × World :=
  let b := ct_begin env w
  let hcp : Bool := decide (b.1 = 0)
  if b.1 < 0 then ret (ct_archive_fini_major env hai hcp b.1 dst_uninit (-1) (-1) b.2)
  else
    let src := (ct_path_lustre PATH_MAX opt.o_mnt dot_lustre_name hai.hai_dfid).1
    let dst := archive_dst opt hai
    if opt.o_dry_run ≠ 0 then ret (ct_archive_fini_major env hai hcp 0 dst (-1) (-1) b.2)
    else
      let m := ct_mkdir_p (worldSys env) dst b.2
      if m.1 < 0 then ret (ct_archive_fini_major env hai hcp m.1 dst (-1) (-1) m.2)
      else
        let o1 := sys_open env m.2 src
          [open_flag.O_RDONLY, open_flag.O_NOATIME, open_flag.O_NONBLOCK, open_flag.O_NOFOLLOW]
        if o1.1 = -1 then
          ret (ct_archive_fini_major env hai hcp (-o1.2.errno) dst o1.1 (-1) o1.2)
        else
          let o2 := sys_open env o1.2 dst
            ([open_flag.O_WRONLY, open_flag.O_NOFOLLOW, open_flag.O_NONBLOCK]
              ++ (if hai.hai_extent.length = 2 ^ 64 - 1 then [open_flag.O_TRUNC] else [])
              ++ [open_flag.O_CREAT])
          if o2.1 = -1 then
            ret (ct_archive_fini_major env hai hcp (-o2.2.errno) dst o1.1 o2.1 o2.2)
          else
            let w3 : World :=
              { o2.2 with
                dst := if hai.hai_extent.length = 2 ^ 64 - 1 then [] else o2.2.dst,
                src_pos := 0, dst_pos := 0 }
            let s := ct_save_stripe env w3 dst
            match ct_copy_data env opt hai fuel s.2 with
            | (none, w4) => (none, w4)
            | (some rc, w4) =>
              if rc < 0 then ret (ct_archive_fini_major env hai hcp rc dst o1.1 o2.1 w4)
              else
                let a := ct_archive_attrs env opt rc w4
                let r : Bool × Int × World :=
                  if hai.hai_extent.length = 2 ^ 64 - 1 then
                    ct_archive_rename env opt hai dst a.2.2
                  else (false, a.1, a.2.2)
                if r.1 then
                  ret (ct_archive_fini_major env hai hcp r.2.1 dst o1.1 o2.1 r.2.2)
                else
                  let sh : Int × Int × World :=
                    if opt.o_shadow_tree ≠ 0 then ct_archive_shadow env opt hai a.2.1 r.2.2
                    else (r.2.1, a.2.1, r.2.2)
                  ret (ct_archive_fini_minor env hai hcp sh.1 sh.2.1 o1.1 o2.1 sh.2.2)

/-- The function `ct_remove(hai, hal_flags)`. -/
def ct_remove (env : Env) (opt : options) (hai : hsm_action_item) (w : World) : Int × World :=
  let b := ct_begin env w
  let hcp : Bool := decide (b.1 = 0)
  let r : Int × World :=
    if b.1 < 0 then b
    else if opt.o_dry_run ≠ 0 then (0, b.2)
    else
      let u := sys_unlink env b.2 (ct_path_archive PATH_MAX opt.o_hsm_root hai.hai_fid).1
      if u.1 < 0 then (-u.2.errno, { u.2 with err_minor := u.2.err_minor + 1 }) else u
  if hcp then ct_fini env r.2 hai 0 r.1 else r

/-! ## The calls of the archive handler, by phase -/

/-- The calls `ct_copy_data` makes. -/
def CopyCall : Event → Prop
  | Event.time => True
  | Event.malloc _ => True
  | Event.fstat_src _ => True
  | Event.fstat_dst _ => True
  | Event.lseek_src _ => True
  | Event.lseek_dst _ => True
  | Event.read _ _ _ => True
  | Event.write _ _ _ => True
  | Event.select _ _ => True
  | Event.ftruncate _ _ => True
  | Event.fsync => True
  | Event.action_progress _ => True
  | _ => False

/-- The calls `ct_copy_attr` and `ct_copy_xattr` make, all on the two open
descriptors. -/
def AttrCall : Event → Prop
  | Event.fstat_attr => True
  | Event.fchmod => True
  | Event.fchown => True
  | Event.futimes => True
  | Event.flistxattr => True
  | Event.fgetxattr _ => True
  | Event.fsetxattr _ _ => True
  | _ => False

/-- The calls `ct_mkdir_p(path)` makes: `mkdir` on a prefix of `path` that ends just before
a `/` of `path`. -/
def MkdirCall (path : List Char) : Event → Prop
  | Event.mkdir p => ∃ j, p = path.take j ∧ path[j]? = some '/'
  | _ => False

/-- The calls `ct_save_stripe(src_fd, src, dst)` makes. -/
def StripeCall (dst : List Char) : Event → Prop
  | Event.fgetxattr_lov => True
  | Event.open_ p flags =>
    p = (snprintf PATH_MAX (dst ++ ".lov".toList)).1
      ∧ flags = [open_flag.O_TRUNC, open_flag.O_CREAT, open_flag.O_WRONLY]
  | Event.write_lov _ => True
  | Event.close_lov => True
  | _ => False

/-- The calls of `ct_archive` between `action.begin` and the renaming: the
directories of `dst`, the `open` of the source `src` for reading and of `dst`
for writing (with `O_TRUNC` exactly for a whole-file extent), the layout file,
the copy and the attributes. -/
def ArchivePre (src dst : List Char) (whole : Prop) [Decidable whole] (e : Event) : Prop :=
  MkdirCall dst e
    ∨ e = Event.open_ src
        [open_flag.O_RDONLY, open_flag.O_NOATIME, open_flag.O_NONBLOCK, open_flag.O_NOFOLLOW]
    ∨ e = Event.open_ dst
        ([open_flag.O_WRONLY, open_flag.O_NOFOLLOW, open_flag.O_NONBLOCK]
          ++ (if whole then [open_flag.O_TRUNC] else []) ++ [open_flag.O_CREAT])
    ∨ StripeCall dst e ∨ CopyCall e ∨ AttrCall e

/-- The calls of the block `if (opt.o_shadow_tree)` of `ct_archive`; `src0` is
the text `<root>/shadow/` the shadow path starts with. -/
def ShadowCall (src0 : List Char) : Event → Prop
  | Event.fid2path _ => True
  | Event.mkdir p => ∃ q, MkdirCall (src0 ++ q) (Event.mkdir p)
  | Event.readlink p => ∃ q, p = src0 ++ q
  | Event.unlink p _ => ∃ q, p = src0 ++ q
  | Event.symlink _ p _ => ∃ q, p = src0 ++ q
  | _ => False

/-- The call is a `close` of one of the two descriptors of a handler. -/
def IsClose (e : Event) : Prop := e = Event.close_src ∨ e = Event.close_dst

/-- The call names the path `p` as a file it may create, truncate, replace,
rename or remove. -/
def mutates (p : List Char) : Event → Bool
  | Event.open_ q flags =>
    decide (q = p ∧ (open_flag.O_WRONLY ∈ flags ∨ open_flag.O_CREAT ∈ flags
      ∨ open_flag.O_TRUNC ∈ flags))
  | Event.mkdir q => decide (q = p)
  | Event.rename o n _ => decide (o = p ∨ n = p)
  | Event.unlink q _ => decide (q = p)
  | Event.symlink _ l _ => decide (l = p)
  | _ => false

/-- The source path of `ct_archive`: the path of the data FID in Lustre. -/
abbrev archive_src (dot_lustre_name : List Char) (opt : options) (hai : hsm_action_item) :
    List Char :=
  (ct_path_lustre PATH_MAX opt.o_mnt dot_lustre_name hai.hai_dfid).1

/-- The archive path of the item, as `ct_path_archive` leaves it in a buffer
of `PATH_MAX` characters. -/
abbrev archive_path (opt : options) (hai : hsm_action_item) : List Char :=
  (ct_path_archive PATH_MAX opt.o_hsm_root hai.hai_fid).1

/-- The name `snprintf(buf, PATH_MAX, "%s.lov", p)` leaves in the buffer. -/
abbrev lov_path (p : List Char) : List Char :=
  (snprintf PATH_MAX (p ++ ".lov".toList)).1

/-- The extent of the item is the whole file (`length == -1`). -/
abbrev is_whole (hai : hsm_action_item) : Prop := hai.hai_extent.length = 2 ^ 64 - 1

/-- The text `<root>/shadow/` every shadow path starts with. -/
abbrev shadow_dir (opt : options) : List Char := opt.o_hsm_root ++ "/shadow/".toList

/-- The calls of a run of `ct_archive` after the attributes, up to the calls
of `close`: the `unlink` of `dst` after a fatal failure; or, for a whole-file
extent, the failed renaming and the `unlink` of `dst`; or the renaming of
`dst` and of its layout file (whole-file extent only) and the calls of the
shadow block. -/
def ArchiveTail (opt : options) (hai : hsm_action_item) (tail : List Event) : Prop :=
  (∃ ok, tail = [Event.unlink (archive_dst opt hai) ok])
  ∨ (is_whole hai ∧ ∃ ok, tail =
      [Event.rename (archive_dst opt hai) (archive_path opt hai) false,
       Event.unlink (archive_dst opt hai) ok])
  ∨ (∃ ren sh, tail = ren ++ sh ∧ (∀ e ∈ sh, ShadowCall (shadow_dir opt) e)
      ∧ ((¬ is_whole hai ∧ ren = [])
        ∨ (is_whole hai ∧ ∃ ok, ren =
            [Event.rename (archive_dst opt hai) (archive_path opt hai) true,
             Event.rename (lov_path (archive_dst opt hai)) (lov_path (archive_path opt hai))
               ok])))

/-- The shape of a run of `ct_archive` in which `action.begin` does not fail,
from the state `w`, with result `r`: after `action.begin` come calls of the
first phase; a run that ends goes on with a tail, the calls of `close`, and,
when the handle is set, the one call of `action.end`, made with the extent of
the item. -/
def ArchiveShape (dot_lustre_name : List Char) (opt : options) (hai : hsm_action_item)
    (hcp : Bool) (w : World)
    (r : Option Int × World) : Prop :=
  ∃ pre, (∀ e ∈ pre, ArchivePre (archive_src dot_lustre_name opt hai) (archive_dst opt hai)
      (is_whole hai) e)
    ∧ ((r.1 = none ∧ r.2.trace = w.trace ++ Event.action_begin :: pre)
      ∨ ∃ rc tail closes fin, r.1 = some rc ∧ ArchiveTail opt hai tail
          ∧ (∀ e ∈ closes, IsClose e)
          ∧ ((hcp = true ∧ ∃ flags err, fin = [Event.action_end hai.hai_extent flags err])
            ∨ (hcp = false ∧ fin = []))
          ∧ r.2.trace = w.trace ++ Event.action_begin :: (pre ++ tail ++ closes ++ fin))

/-- The calls that fill the archive copy: the calls of `ct_copy_data`, of
`ct_copy_attr` and `ct_copy_xattr`, and of `ct_save_stripe` for the
destination `dst`. -/
def FillCall (dst : List Char) (e : Event) : Prop :=
  CopyCall e ∨ AttrCall e ∨ StripeCall dst e

/-- An archive root of 4053 characters, each of its 16 components at most 255
characters long: with it the archive path of the FID `[0x1:0x2:0x0]` has
`PATH_MAX - 1` characters. -/
def long_root : List Char :=
  (List.replicate 15 ('/' :: List.replicate 255 'a')).flatten ++ '/' :: List.replicate 212 'a'

/-! ## The import of one file -/

/-- The calls that the import mode makes, as they are recorded in its trace;
`link` carries whether it succeeds. -/
inductive import_call where
  | stat (path : List Char)
  | hsm_import (dst : List Char) (archive : Int)
  | mkdir (path : List Char)
  | rename (oldpath newpath : List Char)
  | link (oldpath newpath : List Char) (ok : Bool)
  deriving DecidableEq, Repr

/-- The state the import mode acts on: `errno`, the number of calls made so
far, the counter of major errors and the trace of calls. -/
structure ImportSt where
  errno : Int
  clock : Nat
  err_major : Int
  trace : List import_call
  deriving DecidableEq, Repr

/-- Accounting of one call of the import mode. -/
def ImportSt.call (s : ImportSt) (c : import_call) : ImportSt :=
  { s with clock := s.clock + 1, trace := s.trace ++ [c] }

/-- A system call of the import mode that returns 0, or -1 with `errno` set,
as the environment answers. -/
def import_sys (env : Env) (s : ImportSt) (c : import_call) : Int × ImportSt :=
  match (env s.clock).fail with
  | some e => (-1, { s.call c with errno := e })
  | none => (0, s.call c)

/-- The path-level system calls of the import mode, answered by the
environment. -/
def importSys (env : Env) : PathSys ImportSt where
  mkdir := fun s path => import_sys env s (import_call.mkdir path)
  rename := fun s oldpath newpath => import_sys env s (import_call.rename oldpath newpath)
  errno := fun s => s.errno

/-- The coordinator call `llapi_hsm_import(dst, archive, &st, 0, 0, 0, 0, NULL, &fid)`: the return
code and the FID stored in `fid`. -/
def llapi_hsm_import (env : Env) (s : ImportSt) (dst : List Char) (archive : Int) :
    Int × lustre_fid × ImportSt :=
  ((env s.clock).rc, (env s.clock).fid, s.call (import_call.hsm_import dst archive))

/-- The system call `link(oldpath, newpath)`. -/
def sys_link (env : Env) (s : ImportSt) (oldpath newpath : List Char) : Int × ImportSt :=
  match (env s.clock).fail with
  | some e => (-1, { s.call (import_call.link oldpath newpath false) with errno := e })
  | none => (0, s.call (import_call.link oldpath newpath true))

/-- The function `ct_import_one(src, dst)`. -/
def ct_import_one (env : Env) (opt : options) (src dst : List Char) (s : ImportSt) :
    Int × ImportSt :=
  let st := import_sys env s (import_call.stat src)
  if st.1 < 0 then (-st.2.errno, st.2)
  else if opt.o_dry_run ≠ 0 then (0, st.2)
  else
    let i := llapi_hsm_import env st.2 dst
      (if opt.o_archive_cnt ≠ 0 then opt.o_archive_id.headD 0 else 0)
    if i.1 < 0 then (-i.1, i.2.2)
    else
      let newarc := (ct_path_archive PATH_MAX opt.o_hsm_root i.2.1).1
      let m := ct_mkdir_p (importSys env) newarc i.2.2
      if m.1 < 0 then (m.1, { m.2 with err_major := m.2.err_major + 1 })
      else
        let l := sys_link env m.2 src newarc
        if l.1 < 0 then (-l.2.errno, { l.2 with err_major := l.2.err_major + 1 })
        else (0, l.2)

/-! ## Predicates for the copy of extended attributes -/

/-- The bytes `flistxattr` stores for the attribute names `names`: each name
followed by a NUL. -/
def xattr_list (names : List (List Char)) : List Char :=
  (names.map (fun n => n ++ [NUL])).flatten

/-- A call on one attribute, as a pair: `false` with the name for the read of
the source (`fgetxattr`), `true` with the name for the application to the
destination (`fsetxattr`). -/
def xattr_op : Event → Option (Bool × List Char)
  | Event.fgetxattr name => some (false, name)
  | Event.fsetxattr name _ => some (true, name)
  | _ => none

/-- Follows the specification: a name passes the filter when `is_restore` is
false, or when it does not begin with `trusted.`. -/
def xattr_wanted (is_restore : Bool) (name : List Char) : Bool :=
  if is_restore then !("trusted.".toList.isPrefixOf name) else true

/-- Follows the specification: the calls due for the names of the source, in
list order; each name is read once and applied to the destination when it
passes the filter. -/
def xattr_plan (is_restore : Bool) : List (List Char) → List (Bool × List Char)
  | [] => []
  | name :: rest =>
    (false, name) :: ((if xattr_wanted is_restore name then [(true, name)] else [])
      ++ xattr_plan is_restore rest)

/-- Follows the specification: the calls of a plan made in turn, the first
being answered by the call number `c`. A failure of an application to the
destination with `EOPNOTSUPP` is ignored; the first failure of any other kind
ends the walk and is returned as a negative `errno`. The result is the value
returned and the calls made. -/
def xattr_outcome (env : Env) : Nat → List (Bool × List Char) → Int × List (Bool × List Char)
  | _, [] => (0, [])
  | c, op :: rest =>
    match (env c).fail with
    | some e =>
      if op.1 = true ∧ e = EOPNOTSUPP then
        ((xattr_outcome env (c + 1) rest).1, op :: (xattr_outcome env (c + 1) rest).2)
      else (-(e : Int), [op])
    | none => ((xattr_outcome env (c + 1) rest).1, op :: (xattr_outcome env (c + 1) rest).2)

/-! ## Predicates for the durability of the copy -/

/-- The state `w1` comes from `w` by calls that satisfy `P` and leave the
counter of major errors as it is. -/
structure Calm (P : Event → Prop) (w w1 : World) : Prop where
  hmajor : w1.err_major = w.err_major
  hadds : Adds P w w1

/-- The state in which a round of the copy loop ends. -/
def IterRes.world : IterRes → World
  | IterRes.next _ w => w
  | IterRes.out _ w => w

/-- The call is not `fsync`. -/
def NotSync (e : Event) : Prop := e ≠ Event.fsync

/-! ## Predicates for the cursors of the copy loop -/

/-- The bytes the last `read` among the calls `evs` stored in the buffer
(none when there is no `read`). -/
def last_read (evs : List Event) : List Nat :=
  evs.foldl (fun d e => match e with
    | Event.read _ _ data => data
    | _ => d) []

/-- The number of bytes transferred by the `write` calls made since the last
`read` among the calls `evs`. -/
def written_since_read (evs : List Event) : Nat :=
  evs.foldl (fun n e => match e with
    | Event.read _ _ _ => 0
    | Event.write _ _ data => n + data.length
    | _ => n) 0

/-- The call is neither a `read` nor a `write`. -/
def NoTransfer : Event → Prop
  | Event.read _ _ _ => False
  | Event.write _ _ _ => False
  | _ => True

/-- The cursor invariant of the copy loop, `evs` being the calls made since
the loop was entered: the cursors are ordered, `bufoff` counts the bytes of
the last chunk read that are written, what remains of the chunk is the
distance of the cursors, the chunk is no larger than the chunk size and it
lies at the start of the buffer. -/
structure CursorInv (opt : options) (rlen : Nat) (evs : List Event) (s : CopySt) : Prop where
  hwr : s.wpos ≤ s.rpos
  hrl : s.rpos ≤ rlen
  hoff : s.bufoff = written_since_read evs
  hsum : s.bufoff + (s.rpos - s.wpos) = (last_read evs).length
  hchunk : (last_read evs).length ≤ opt.o_chunk_size
  hbuf : s.buf.take (last_read evs).length = last_read evs

/-- The states in which the test of `while (wpos < rlen)` is made when the loop
is entered with the variables `s0` in the state `w0`: the entry, and the end
of every round that goes on to the test. -/
inductive LoopHead (env : Env) (opt : options) (rlen he_offset : Nat) (s0 : CopySt)
    (w0 : World) : CopySt → World → Prop
  | entry : LoopHead env opt rlen he_offset s0 w0 s0 w0
  | round {s s1 : CopySt} {w w1 : World} :
    LoopHead env opt rlen he_offset s0 w0 s w → s.wpos < rlen →
    copy_iter env opt rlen he_offset s w = IterRes.next s1 w1 →
    LoopHead env opt rlen he_offset s0 w0 s1 w1

/-- The value of `chunk` in a round of the copy loop. -/
def copy_chunk (opt : options) (rlen : Nat) (s : CopySt) : Int :=
  toInt32 (((if rlen - s.wpos > opt.o_chunk_size then opt.o_chunk_size
            else rlen - s.wpos : Nat)) : Int)

/-! ## Predicates for the shadow tree -/

/-- Follows the specification: `n` components `..` joined by `/`. -/
def spec_updirs (n : Nat) : List Char :=
  List.intercalate ['/'] (List.replicate n "..".toList)

/-- Follows the specification: the target of the symbolic link that shadows
the original path `p`: `1 + (number of '/' in p)` components `..`, followed by
the layout of the archive for the FID. -/
def spec_shadow_target (p : List Char) (fid : lustre_fid) : List Char :=
  spec_archive_path (spec_updirs (1 + count_slash p)) fid

/-- The directory above `dir`, a directory being named by its components as
`path_key` gives them; the root is its own parent. -/
def parent_dir (dir : List (List Char)) : List (List Char) :=
  if dir = [['/']] then dir else dir.dropLast

/-- The resolution of a relative path, given by its components, from the
directory `dir`, as the operating system does it when no component walked is
a symbolic link: `..` leads to the parent, `.` stays, any other name is
entered. -/
def resolve_from : List (List Char) → List (List Char) → List (List Char)
  | dir, [] => dir
  | dir, c :: cs =>
    if c = "..".toList then resolve_from (parent_dir dir) cs
    else if c = ".".toList then resolve_from dir cs
    else resolve_from (dir ++ [c]) cs

/-- The directory that contains the entry named by `path`. -/
def containing_dir (path : List Char) : List (List Char) :=
  (path_key path).dropLast

/-- The path has no leading, trailing or repeated `/` and is not empty. -/
def tidy_path (p : List Char) : Prop :=
  p ≠ [] ∧ p.head? ≠ some '/' ∧ p.getLast? ≠ some '/' ∧ ¬ ['/', '/'] <:+: p

/-- An original path of 1365 components `a`: its 1364 `/` characters make the
string of `..` components as long as a buffer of `PATH_MAX` bytes can hold. -/
def deep_path : List Char :=
  (List.replicate 1364 "a/".toList).flatten ++ ['a']

/-- Every call of `symlink` has a target and a link path that satisfy `Q`. -/
def LinkIs (Q : List Char → List Char → Prop) : Event → Prop
  | Event.symlink target linkpath _ => Q target linkpath
  | _ => True

/-- What the archive path holds after the root and the `/` that follows it, as
the specification words the layout. -/
def archive_tail (fid : lustre_fid) : List Char :=
  hex4 (fid.f_oid &&& 0xFFFF)
    ++ '/' :: (hex4 ((fid.f_oid >>> 16) &&& 0xFFFF)
    ++ '/' :: (hex4 (fid.f_seq &&& 0xFFFF)
    ++ '/' :: (hex4 ((fid.f_seq >>> 16) &&& 0xFFFF)
    ++ '/' :: (hex4 ((fid.f_seq >>> 32) &&& 0xFFFF)
    ++ '/' :: (hex4 ((fid.f_seq >>> 48) &&& 0xFFFF)
    ++ '/' :: fid_nobrace fid)))))

/-- The seven components that the layout of the archive puts under the root,
as the specification words them. -/
def spec_components (fid : lustre_fid) : List (List Char) :=
  [hex4 (fid.f_oid &&& 0xFFFF), hex4 ((fid.f_oid >>> 16) &&& 0xFFFF),
   hex4 (fid.f_seq &&& 0xFFFF), hex4 ((fid.f_seq >>> 16) &&& 0xFFFF),
   hex4 ((fid.f_seq >>> 32) &&& 0xFFFF), hex4 ((fid.f_seq >>> 48) &&& 0xFFFF),
   fid_nobrace fid]
/-! ## Properties of the formatting functions -/

theorem hexChar_ne_slash (d : Nat) : hexChar d ≠ '/' := by
  unfold hexChar; split <;> decide

theorem hexChar_ne_colon (d : Nat) : hexChar d ≠ ':' := by
  unfold hexChar; split <;> decide

theorem unhexChar_hexChar (d : Nat) (h : d < 16) : unhexChar (hexChar d) = d := by
  interval_cases d <;> rfl

theorem hexLE_lt (fuel n : Nat) : ∀ d ∈ hexLE fuel n, d < 16 := by
  induction fuel generalizing n with
  | zero => intro d hd; simp [hexLE] at hd
  | succ k ih =>
    intro d hd
    unfold hexLE at hd
    split at hd
    · simp at hd; omega
    · simp at hd
      rcases hd with h | h
      · omega
      · exact ih _ d h

theorem valLE_hexLE (fuel n : Nat) (h : n < fuel) : valLE (hexLE fuel n) = n := by
  induction fuel generalizing n with
  | zero => omega
  | succ k ih =>
    unfold hexLE
    split
    · simp [valLE]
    · have h2 : n / 16 < k := by omega
      simp [valLE, ih _ h2]; omega

theorem hexLE_fuel (f g n : Nat) (hf : n < f) (hg : n < g) : hexLE f n = hexLE g n := by
  induction f generalizing g n with
  | zero => omega
  | succ k ih =>
    cases g with
    | zero => omega
    | succ j =>
      unfold hexLE
      split
      · rfl
      · rw [ih j (n / 16) (by omega) (by omega)]

theorem fmt_x_injective (n m : Nat) (h : fmt_x n = fmt_x m) : n = m := by
  unfold fmt_x at h
  have h1 := congrArg (List.map unhexChar) h
  simp only [List.map_map] at h1
  have key : ∀ k, List.map (unhexChar ∘ hexChar) (hexLE (k + 1) k).reverse
      = (hexLE (k + 1) k).reverse := by
    intro k
    conv => rhs; rw [← List.map_id (hexLE (k + 1) k).reverse]
    apply List.map_congr_left
    intro d hd
    simp only [Function.comp, id]
    exact unhexChar_hexChar d (hexLE_lt _ _ d (List.mem_reverse.mp hd))
  rw [key n, key m] at h1
  have h2 := List.reverse_injective h1
  have h3 := congrArg valLE h2
  rwa [valLE_hexLE _ _ (Nat.lt_succ_self n), valLE_hexLE _ _ (Nat.lt_succ_self m)] at h3

theorem fmt_x_no_slash (n : Nat) : '/' ∉ fmt_x n := by
  unfold fmt_x
  intro h
  obtain ⟨d, _, hd⟩ := List.mem_map.mp h
  exact hexChar_ne_slash d hd

theorem fmt_x_no_colon (n : Nat) : ':' ∉ fmt_x n := by
  unfold fmt_x
  intro h
  obtain ⟨d, _, hd⟩ := List.mem_map.mp h
  exact hexChar_ne_colon d hd

theorem hexLE_unfold (n : Nat) :
    hexLE (n + 1) n = if n < 16 then [n] else (n % 16) :: hexLE (n / 16 + 1) (n / 16) := by
  conv => lhs; unfold hexLE
  split
  · rfl
  · rw [hexLE_fuel n (n / 16 + 1) (n / 16) (by omega) (by omega)]

theorem hexChar_zero : hexChar 0 = '0' := rfl

theorem fmt_04x_eq_hex4 (n : Nat) (h : n < 65536) : fmt_04x n = hex4 n := by
  unfold fmt_04x fmt_x hex4
  rw [hexLE_unfold n]
  by_cases h1 : n < 16
  · have e1 : n / 4096 = 0 := by omega
    have e2 : n / 256 = 0 := by omega
    have e3 : n / 16 = 0 := by omega
    have e4 : n % 16 = n := by omega
    simp [h1, e1, e2, e3, e4, hexChar_zero, List.replicate]
  · rw [if_neg h1, hexLE_unfold (n / 16)]
    by_cases h2 : n / 16 < 16
    · have e1 : n / 4096 = 0 := by omega
      have e2 : n / 256 = 0 := by omega
      have e3 : n / 16 % 16 = n / 16 := by omega
      simp [h2, e1, e2, e3, hexChar_zero, List.replicate]
    · rw [if_neg h2, hexLE_unfold (n / 16 / 16)]
      by_cases h3 : n / 16 / 16 < 16
      · have e1 : n / 4096 = 0 := by omega
        have e2 : n / 256 = n / 16 / 16 := by omega
        have e3 : n / 16 / 16 % 16 = n / 16 / 16 := by omega
        simp [h3, e1, e2, e3, hexChar_zero, List.replicate]
      · rw [if_neg h3, hexLE_unfold (n / 16 / 16 / 16)]
        have h4 : n / 16 / 16 / 16 < 16 := by omega
        have e1 : n / 4096 = n / 16 / 16 / 16 := by omega
        have e2 : n / 256 = n / 16 / 16 := by omega
        have e3 : n / 16 / 16 / 16 % 16 = n / 16 / 16 / 16 := by omega
        simp [h4, e1, e2, e3, List.replicate]

/-! ## The archive layout -/

theorem and_ffff_lt (x : Nat) : x &&& 0xFFFF < 65536 :=
  Nat.lt_succ_of_le Nat.and_le_right

theorem u32_and_ffff (x : Nat) : u32 (x &&& 0xFFFF) = x &&& 0xFFFF := by
  unfold u32
  have := and_ffff_lt x
  exact Nat.mod_eq_of_lt (by omega)

theorem ct_path_archive_text_eq_spec (r : List Char) (fid : lustre_fid) :
    ct_path_archive_text r fid = spec_archive_path r fid := by
  unfold ct_path_archive_text spec_archive_path
  simp only [u32_and_ffff, fmt_04x_eq_hex4 _ (and_ffff_lt _)]

theorem spec_archive_path_split (r : List Char) (fid : lustre_fid) :
    spec_archive_path r fid = (r ++ archive_suffix fid) ++ '/' :: fid_nobrace fid := by
  simp [spec_archive_path, archive_suffix]

theorem archive_suffix_length (fid : lustre_fid) : (archive_suffix fid).length = 30 := by
  simp [archive_suffix, hex4]

theorem spec_archive_path_length (r : List Char) (fid : lustre_fid) :
    (spec_archive_path r fid).length = r.length + 31 + (fid_nobrace fid).length := by
  rw [spec_archive_path_split]
  simp [archive_suffix_length]
  omega

/-- Two texts that agree and are cut at the first occurrence of `c` have the
same parts. -/
theorem split_first (c : Char) :
    ∀ (x x' y y' : List Char), c ∉ x → c ∉ x' → x ++ c :: y = x' ++ c :: y' →
      x = x' ∧ y = y' := by
  intro x
  induction x with
  | nil =>
    intro x' y y' _ hx' h
    cases x' with
    | nil => simpa using h
    | cons d t =>
      simp at h
      exact absurd h.1 (by intro e; apply hx'; simp [e])
  | cons a t ih =>
    intro x' y y' hx hx' h
    cases x' with
    | nil =>
      simp at h
      exact absurd h.1 (by intro e; apply hx; simp [e])
    | cons d t' =>
      simp at h
      have hx1 : c ∉ t := fun hc => hx (List.mem_cons_of_mem _ hc)
      have hx2 : c ∉ t' := fun hc => hx' (List.mem_cons_of_mem _ hc)
      obtain ⟨e1, e2⟩ := ih t' y y' hx1 hx2 h.2
      exact ⟨by rw [h.1, e1], e2⟩

/-- Two texts that agree and are cut at the last occurrence of `c` have the
same parts. -/
theorem split_last (c : Char) (x x' y y' : List Char) (hy : c ∉ y) (hy' : c ∉ y')
    (h : x ++ c :: y = x' ++ c :: y') : x = x' ∧ y = y' := by
  have h1 := congrArg List.reverse h
  simp only [List.reverse_append, List.reverse_cons, List.append_assoc,
    List.singleton_append] at h1
  obtain ⟨e1, e2⟩ := split_first c y.reverse y'.reverse x.reverse x'.reverse
    (by simpa using hy) (by simpa using hy') h1
  exact ⟨List.reverse_injective e2, List.reverse_injective e1⟩

theorem fid_nobrace_no_slash (fid : lustre_fid) : '/' ∉ fid_nobrace fid := by
  have h1 := fmt_x_no_slash fid.f_seq
  have h2 := fmt_x_no_slash fid.f_oid
  have h3 := fmt_x_no_slash fid.f_ver
  simp [fid_nobrace, h1, h2, h3]

theorem fid_nobrace_injective (f g : lustre_fid) (h : fid_nobrace f = fid_nobrace g) :
    f = g := by
  unfold fid_nobrace at h
  simp only [List.append_assoc, List.cons_append, List.nil_append, List.cons.injEq,
    true_and] at h
  obtain ⟨e1, h⟩ := split_first ':' _ _ _ _ (fmt_x_no_colon _) (fmt_x_no_colon _) h
  simp only [List.cons.injEq, true_and] at h
  obtain ⟨e2, h⟩ := split_first ':' _ _ _ _ (fmt_x_no_colon _) (fmt_x_no_colon _) h
  simp only [List.cons.injEq, true_and] at h
  cases f; cases g
  simp only [lustre_fid.mk.injEq]
  exact ⟨fmt_x_injective _ _ e1, fmt_x_injective _ _ e2, fmt_x_injective _ _ h⟩

theorem spec_archive_path_injective (r r' : List Char) (f f' : lustre_fid)
    (h : spec_archive_path r f = spec_archive_path r' f') : r = r' ∧ f = f' := by
  rw [spec_archive_path_split, spec_archive_path_split] at h
  obtain ⟨e1, e2⟩ := split_last '/' _ _ _ _ (fid_nobrace_no_slash f)
    (fid_nobrace_no_slash f') h
  have e3 := fid_nobrace_injective f f' e2
  subst e3
  exact ⟨List.append_cancel_right e1, rfl⟩

theorem take_pred_of_length_lt (sz : Nat) (l : List Char) (h : l.length < sz) :
    l.take (sz - 1) = l :=
  List.take_of_length_le (by omega)

theorem ct_path_archive_eq (sz : Nat) (r : List Char) (fid : lustre_fid) :
    ct_path_archive sz r fid
        = ((spec_archive_path r fid).take (sz - 1), ((spec_archive_path r fid).length : Int)) := by
  unfold ct_path_archive snprintf
  rw [ct_path_archive_text_eq_spec]

theorem ct_path_archive_fits (sz : Nat) (r : List Char) (fid : lustre_fid)
    (h : (spec_archive_path r fid).length < sz) :
    (ct_path_archive sz r fid).1 = spec_archive_path r fid := by
  rw [ct_path_archive_eq]
  exact take_pred_of_length_lt _ _ h

/-- C1 (as amended). Whenever the formatted path is shorter than the buffer
size `sz`, `ct_path_archive` leaves in the buffer exactly
`<root>/XXXX/XXXX/XXXX/XXXX/XXXX/XXXX/<fid-text>` as the specification words
it; for every input the buffer holds the first `sz - 1` characters of that
text and the return value is its full length. The result depends on nothing
but the buffer size, the root and the FID. -/
theorem ct_path_archive_layout (sz : Nat) (r : List Char) (fid : lustre_fid) :
    ct_path_archive sz r fid
        = ((spec_archive_path r fid).take (sz - 1), ((spec_archive_path r fid).length : Int))
      ∧ ((spec_archive_path r fid).length < sz →
          (ct_path_archive sz r fid).1 = spec_archive_path r fid) :=
  ⟨ct_path_archive_eq sz r fid, ct_path_archive_fits sz r fid⟩

/-- Witness of C1 (as amended): the path of the FID `[0x200000401:0x12345:0x0]`
under the root `/a`, in a buffer of `PATH_MAX` bytes. -/
theorem ct_path_archive_layout_witness :
    (spec_archive_path ['/', 'a'] ⟨0x200000401, 0x12345, 0⟩).length < PATH_MAX
      ∧ (ct_path_archive PATH_MAX ['/', 'a'] ⟨0x200000401, 0x12345, 0⟩).1
          = "/a/2345/0001/0401/0000/0002/0000/0x200000401:0x12345:0x0".toList :=
  ⟨by decide,
   ((ct_path_archive_layout PATH_MAX ['/', 'a'] ⟨0x200000401, 0x12345, 0⟩).2
      (by decide)).trans (by decide)⟩

/-- C1 (as stated) fails: with a root of 4096 characters the buffer of
`PATH_MAX` bytes receives a truncated text, not the documented path. -/
theorem ct_path_archive_truncates :
    (ct_path_archive PATH_MAX (List.replicate 4096 'a') ⟨1, 2, 0⟩).1
      ≠ spec_archive_path (List.replicate 4096 'a') ⟨1, 2, 0⟩ := by
  intro h
  have h1 := congrArg List.length h
  rw [ct_path_archive_eq] at h1
  simp only [List.length_take, spec_archive_path_length, List.length_replicate, PATH_MAX] at h1
  omega

/-- C2 (as amended). On paths that fit the buffer the mapping is injective in
(root, FID): equal buffers come from equal roots and equal FIDs. -/
theorem ct_path_archive_injective (sz : Nat) (r r' : List Char) (f f' : lustre_fid)
    (hfit : (spec_archive_path r f).length < sz)
    (hfit' : (spec_archive_path r' f').length < sz)
    (h : (ct_path_archive sz r f).1 = (ct_path_archive sz r' f').1) :
    r = r' ∧ f = f' := by
  rw [ct_path_archive_fits sz r f hfit, ct_path_archive_fits sz r' f' hfit'] at h
  exact spec_archive_path_injective r r' f f' h

/-- Witness of C2 (as amended): two paths under the roots `/a` and `/a`, both
shorter than `PATH_MAX`. -/
theorem ct_path_archive_injective_witness :
    (spec_archive_path ['/', 'a'] ⟨1, 2, 0⟩).length < PATH_MAX
      ∧ ((['/', 'a'] : List Char) = ['/', 'a'] ∧ (⟨1, 2, 0⟩ : lustre_fid) = ⟨1, 2, 0⟩) :=
  ⟨by decide, ct_path_archive_injective PATH_MAX ['/', 'a'] ['/', 'a'] ⟨1, 2, 0⟩ ⟨1, 2, 0⟩
    (by decide) (by decide) rfl⟩

/-- C2 (as stated) fails: with a root of 4096 characters two different FIDs
get the same content in a buffer of `PATH_MAX` bytes. -/
theorem ct_path_archive_collision :
    (ct_path_archive PATH_MAX (List.replicate 4096 'a') ⟨1, 2, 0⟩).1
        = (ct_path_archive PATH_MAX (List.replicate 4096 'a') ⟨3, 4, 0⟩).1
      ∧ (⟨1, 2, 0⟩ : lustre_fid) ≠ ⟨3, 4, 0⟩ := by
  refine ⟨?_, by decide⟩
  rw [ct_path_archive_eq, ct_path_archive_eq]
  simp only [spec_archive_path_split, List.append_assoc]
  rw [List.take_append_of_le_length (by simp only [List.length_replicate, PATH_MAX]; omega),
    List.take_append_of_le_length (by simp only [List.length_replicate, PATH_MAX]; omega)]

/-! ## The non-blocking I/O primitive -/

theorem toInt32_of_lt (n : Nat) (h : n < 2 ^ 31) : toInt32 (n : Int) = (n : Int) := by
  unfold toInt32; omega

theorem rw_once_neg_errno (env : Env) (wr : Bool) (mem : List Nat) (size : Int) (w : World)
    (h : (rw_once env wr mem size w).1 < 0) :
    0 ≤ (rw_once env wr mem size w).2.2.errno := by
  unfold rw_once at h ⊢
  cases wr with
  | true =>
    simp only [if_true] at h ⊢
    unfold sys_write at h ⊢
    cases hf : (env w.clock).fail with
    | some e => simp [World.call]
    | none =>
      simp only [hf] at h
      exfalso
      have hl : (List.take (min (min (toSizeT size) (env w.clock).amount) MAX_RW_COUNT) mem).length
          < 2 ^ 31 := by
        simp only [List.length_take, MAX_RW_COUNT]; omega
      rw [toInt32_of_lt _ hl] at h
      omega
  | false =>
    simp only [Bool.false_eq_true, if_false] at h ⊢
    unfold sys_read at h ⊢
    cases hf : (env w.clock).fail with
    | some e => simp [World.call]
    | none =>
      simp only [hf] at h
      exfalso
      have hl : (List.take (min (min (toSizeT size) (env w.clock).amount) MAX_RW_COUNT)
          (List.drop w.src_pos w.src)).length < 2 ^ 31 := by
        simp only [List.length_take, MAX_RW_COUNT]; omega
      rw [toInt32_of_lt _ hl] at h
      omega

/-- The readiness wait of `nonblock_rw` is dead code: `errno` is never
negative, so the primitive is one system call and the translation of a
failure into `-errno`. -/
theorem nonblock_rw_eq (env : Env) (opt : options) (wr : Bool) (mem : List Nat) (size : Int)
    (w : World) :
    nonblock_rw env opt wr mem size w
      = (if (rw_once env wr mem size w).1 < 0 then -(rw_once env wr mem size w).2.2.errno
          else (rw_once env wr mem size w).1,
         (rw_once env wr mem size w).2.1, (rw_once env wr mem size w).2.2) := by
  unfold nonblock_rw
  have hc : ¬ ((rw_once env wr mem size w).1 < 0
      ∧ (rw_once env wr mem size w).2.2.errno = -(EAGAIN : Int)) := by
    rintro ⟨h1, h2⟩
    have := rw_once_neg_errno env wr mem size w h1
    rw [h2] at this
    simp [EAGAIN] at this
  simp only [hc, if_false]

theorem read_data_length_lt (env : Env) (w : World) (count : Nat) :
    (read_data env w count).length < 2 ^ 31 := by
  simp only [read_data, List.length_take, MAX_RW_COUNT]; omega

theorem write_data_length_lt (env : Env) (w : World) (mem : List Nat) (count : Nat) :
    (write_data env w mem count).length < 2 ^ 31 := by
  simp only [write_data, List.length_take, MAX_RW_COUNT]; omega

theorem nonblock_rw_read_ok (env : Env) (opt : options) (mem : List Nat) (size : Int) (w : World)
    (hf : (env w.clock).fail = none) :
    nonblock_rw env opt false mem size w
      = (((read_data env w (toSizeT size)).length : Int), read_data env w (toSizeT size),
         { w.call (Event.read w.src_pos (toSizeT size) (read_data env w (toSizeT size))) with
           src_pos := w.src_pos + (read_data env w (toSizeT size)).length }) := by
  rw [nonblock_rw_eq]
  have h1 : rw_once env false mem size w
      = (((read_data env w (toSizeT size)).length : Int), read_data env w (toSizeT size),
         { w.call (Event.read w.src_pos (toSizeT size) (read_data env w (toSizeT size))) with
           src_pos := w.src_pos + (read_data env w (toSizeT size)).length }) := by
    simp only [rw_once, sys_read, hf, Bool.false_eq_true, if_false]
    rw [← read_data, toInt32_of_lt _ (read_data_length_lt env w _)]
  rw [h1]
  have : ¬ (((read_data env w (toSizeT size)).length : Int) < 0) := by omega
  simp only [this, if_false]

theorem nonblock_rw_read_fail (env : Env) (opt : options) (mem : List Nat) (size : Int)
    (w : World) (e : Nat) (hf : (env w.clock).fail = some e) :
    nonblock_rw env opt false mem size w
      = (-(e : Int), [], { w.call (Event.read w.src_pos (toSizeT size) []) with errno := e }) := by
  rw [nonblock_rw_eq]
  simp [rw_once, sys_read, hf, toInt32]

theorem nonblock_rw_write_ok (env : Env) (opt : options) (mem : List Nat) (size : Int)
    (w : World) (hf : (env w.clock).fail = none) :
    nonblock_rw env opt true mem size w
      = (((write_data env w mem (toSizeT size)).length : Int), [],
         { w.call (Event.write w.dst_pos (toSizeT size) (write_data env w mem (toSizeT size))) with
           dst := writeAt w.dst w.dst_pos (write_data env w mem (toSizeT size)),
           dst_pos := w.dst_pos + (write_data env w mem (toSizeT size)).length }) := by
  rw [nonblock_rw_eq]
  have h1 : rw_once env true mem size w
      = (((write_data env w mem (toSizeT size)).length : Int), [],
         { w.call (Event.write w.dst_pos (toSizeT size) (write_data env w mem (toSizeT size))) with
           dst := writeAt w.dst w.dst_pos (write_data env w mem (toSizeT size)),
           dst_pos := w.dst_pos + (write_data env w mem (toSizeT size)).length }) := by
    simp only [rw_once, sys_write, hf, if_true]
    rw [← write_data, toInt32_of_lt _ (write_data_length_lt env w _ _)]
  rw [h1]
  have : ¬ (((write_data env w mem (toSizeT size)).length : Int) < 0) := by omega
  simp only [this, if_false]

theorem nonblock_rw_write_fail (env : Env) (opt : options) (mem : List Nat) (size : Int)
    (w : World) (e : Nat) (hf : (env w.clock).fail = some e) :
    nonblock_rw env opt true mem size w
      = (-(e : Int), [], { w.call (Event.write w.dst_pos (toSizeT size) []) with errno := e }) := by
  rw [nonblock_rw_eq]
  simp [rw_once, sys_write, hf, toInt32]

/-- The number of bytes one call transfers never exceeds the 64-bit count the
program computed, even when that count does not fit an `int`. -/
theorem xfer_le (raw amount : Nat) :
    min (min (toSizeT (toInt32 (raw : Int))) amount) MAX_RW_COUNT ≤ raw := by
  unfold toSizeT toInt32 MAX_RW_COUNT
  omega

/-! ## Writing into a file -/

theorem writeAt_length_ge (f : List Nat) (pos : Nat) (data : List Nat) :
    f.length ≤ (writeAt f pos data).length := by
  unfold writeAt
  split
  · exact le_refl _
  · simp only [List.length_append, List.length_take, List.length_replicate, List.length_drop]
    omega

theorem writeAt_getElem?_outside (f : List Nat) (pos : Nat) (data : List Nat) (p : Nat)
    (hp : p < f.length) (hout : p < pos ∨ pos + data.length ≤ p) :
    (writeAt f pos data)[p]? = f[p]? := by
  unfold writeAt
  split
  · rfl
  · rcases hout with h | h
    · rw [List.append_assoc, List.append_assoc,
        List.getElem?_append_left (by simp only [List.length_take]; omega)]
      rw [List.getElem?_take]
      simp [h]
    · have h1 : pos - f.length = 0 := by omega
      rw [h1]
      simp only [List.replicate_zero, List.append_nil]
      rw [List.getElem?_append_right (by simp only [List.length_append, List.length_take]; omega)]
      simp only [List.length_append, List.length_take, List.getElem?_drop]
      congr 1
      omega

theorem writeAt_take_drop (src0 dst0 : List Nat) (w n : Nat) (h : w + n ≤ src0.length) :
    writeAt (src0.take w ++ dst0.drop w) w ((src0.drop w).take n)
      = src0.take (w + n) ++ dst0.drop (w + n) := by
  unfold writeAt
  have hl : ((src0.drop w).take n).length = n := by
    simp only [List.length_take, List.length_drop]; omega
  split
  · rename_i h0
    have : n = 0 := by rw [← hl, h0]; rfl
    subst this
    simp
  · rw [hl]
    have h1 : (src0.take w ++ dst0.drop w).take w = src0.take w := by
      rw [List.take_append_of_le_length (by simp only [List.length_take]; omega)]
      rw [List.take_take]; simp
    have h2 : w - (src0.take w ++ dst0.drop w).length = 0 := by
      simp only [List.length_append, List.length_take, List.length_drop]; omega
    have h3 : (src0.take w ++ dst0.drop w).drop (w + n) = dst0.drop (w + n) := by
      rw [List.drop_append_eq_append_drop]
      have : (src0.take w).length = w := by simp only [List.length_take]; omega
      rw [this, List.drop_eq_nil_of_le (by omega)]
      simp only [List.nil_append, List.drop_drop]
      congr 1; omega
    rw [h1, h2, h3]
    simp only [List.replicate_zero, List.append_nil]
    rw [List.take_add]

theorem take_length_take (n : Nat) (X : List Nat) : X.take (X.take n).length = X.take n := by
  simp only [List.length_take]
  rw [← List.take_take]
  simp

/-! ## The invariant of the copy loop -/

theorem Quiet.qrefl (w : World) : Quiet w w :=
  ⟨rfl, rfl, rfl, rfl, [], by simp, by simp⟩

theorem Quiet.qtrans {w w1 w2 : World} (h1 : Quiet w w1) (h2 : Quiet w1 w2) : Quiet w w2 := by
  obtain ⟨e1, he1, hh1⟩ := h1.htrace
  obtain ⟨e2, he2, hh2⟩ := h2.htrace
  refine ⟨h2.hsrc.trans h1.hsrc, h2.hspos.trans h1.hspos, h2.hdst.trans h1.hdst,
    h2.hdpos.trans h1.hdpos, e1 ++ e2, by rw [he2, he1, List.append_assoc], ?_⟩
  intro e he
  rcases List.mem_append.mp he with h | h
  · exact hh1 e h
  · exact hh2 e h

theorem Quiet.of_call (w : World) (e : Event) (he : Still e) : Quiet w (w.call e) :=
  ⟨rfl, rfl, rfl, rfl, [e], rfl, by simpa using he⟩

theorem Quiet.call_errno (w : World) (e : Event) (he : Still e) (n : Int) :
    Quiet w { w.call e with errno := n } :=
  ⟨rfl, rfl, rfl, rfl, [e], rfl, by simpa using he⟩

theorem Quiet.sys_time (env : Env) (w : World) : Quiet w (sys_time env w).2 :=
  Quiet.of_call w Event.time trivial

theorem Quiet.throttle (env : Env) (opt : options) (w : World) : Quiet w (throttle env opt w) := by
  unfold Lhsm.throttle
  split
  · exact Quiet.sys_time env w
  · exact Quiet.qrefl w

theorem Quiet.progress (env : Env) (w : World) (he : hsm_extent) :
    Quiet w (llapi_hsm_action_progress env w he).2 :=
  Quiet.of_call w (Event.action_progress he) trivial

theorem still_harmless (e : Event) (h : Still e) : Harmless e := by
  cases e <;> simp_all [Harmless, Still]

theorem still_ok (src0 : List Nat) (o l : Nat) (e : Event) (h : Still e) :
    EventOk src0 o l e := by
  cases e <;> simp_all [Still, EventOk]

theorem harmless_extentOk (src0 : List Nat) (o l : Nat) (e : Event) (h : Harmless e) :
    ExtentOk src0 o l e := by
  cases e <;> simp_all [Harmless, ExtentOk]

theorem eventOk_extentOk (src0 : List Nat) (o l : Nat) (e : Event) (h : EventOk src0 o l e) :
    ExtentOk src0 o l e := by
  cases e <;> simp_all [EventOk, ExtentOk]

theorem eventOk_read_of_segment (src0 : List Nat) (o l pos count : Nat) (data : List Nat)
    (h1 : o ≤ pos) (h2 : pos + data.length ≤ o + l) :
    EventOk src0 o l (Event.read pos count data) := by
  intro i hi
  omega

theorem eventOk_write_of_segment (src0 : List Nat) (o l pos count n : Nat)
    (h1 : o ≤ pos) (h2 : pos + n ≤ o + l) :
    EventOk src0 o l (Event.write pos count ((src0.drop pos).take n)) := by
  intro i hi
  rw [List.length_take] at hi
  refine ⟨by omega, by omega, ?_⟩
  rw [List.getElem?_take, if_pos (by omega), List.getElem?_drop]

theorem WInv.quiet {src0 dst0 : List Nat} {tr0 : List Event} {o l : Nat} {w w1 : World}
    (h : WInv src0 dst0 tr0 o l w) (q : Quiet w w1) : WInv src0 dst0 tr0 o l w1 := by
  obtain ⟨evs, he, hh⟩ := q.htrace
  obtain ⟨evs0, he0, hh0⟩ := h.htrace
  refine ⟨q.hsrc.trans h.hsrc, by rw [q.hdst]; exact h.hlen, by rw [q.hdst]; exact h.hframe,
    evs0 ++ evs, by rw [he, he0, List.append_assoc], ?_⟩
  intro e hmem
  rcases List.mem_append.mp hmem with h1 | h1
  · exact hh0 e h1
  · exact still_ok _ _ _ _ (hh e h1)

theorem WInv.add_call {src0 dst0 : List Nat} {tr0 : List Event} {o l : Nat} {w : World}
    (h : WInv src0 dst0 tr0 o l w) (e : Event) (he : EventOk src0 o l e) :
    WInv src0 dst0 tr0 o l (w.call e) := by
  obtain ⟨evs0, he0, hh0⟩ := h.htrace
  refine ⟨h.hsrc, h.hlen, h.hframe, evs0 ++ [e], ?_, ?_⟩
  · simp only [World.call, he0, List.append_assoc]
  · intro e' he'
    rcases List.mem_append.mp he' with h1 | h1
    · exact hh0 e' h1
    · rw [List.mem_singleton.mp h1]; exact he

theorem CopyInv.keep {src0 dst0 : List Nat} {tr0 : List Event} {o l : Nat} {s s1 : CopySt}
    {w w1 : World} (h : CopyInv src0 dst0 tr0 o l s w) (q : Quiet w w1)
    (hr : s1.rpos = s.rpos) (hw : s1.wpos = s.wpos) (hb : s1.bufoff = s.bufoff)
    (hbuf : s1.buf = s.buf) : CopyInv src0 dst0 tr0 o l s1 w1 := by
  refine ⟨h.hw.quiet q, ?_, ?_, ?_, ?_, ?_, ?_, ?_⟩
  · rw [q.hspos, hr]; exact h.hspos
  · rw [q.hdpos, hw]; exact h.hdpos
  · rw [hr, hw]; exact h.hwr
  · rw [hr]; exact h.hrl
  · rw [hr, hw, hb, hbuf]; exact h.hbuf
  · rw [hr, hw]; exact h.hbuflen
  · rw [hr, hw]; exact h.hgap

/-- The end of a round either leaves the loop, with the non-zero code the
progress callback returned, or goes on with the same cursors and `rc = 0`; it
touches no file. -/
theorem copy_report_cases (env : Env) (opt : options) (he_offset : Nat) (s1 : CopySt)
    (w1 : World) :
    (∃ rc w2 i, copy_report env opt he_offset s1 w1 = IterRes.out rc w2 ∧ Quiet w1 w2
        ∧ rc = (env i).rc ∧ rc ≠ 0)
    ∨ (∃ t w2, copy_report env opt he_offset s1 w1
          = IterRes.next { s1 with last_print_time := t, rc := 0 } w2 ∧ Quiet w1 w2) := by
  unfold copy_report
  dsimp only
  have q1 := Quiet.throttle env opt w1
  have q2 := q1.qtrans (Quiet.sys_time env (throttle env opt w1))
  split
  · have q3 := q2.qtrans (Quiet.sys_time env (sys_time env (throttle env opt w1)).2)
    have q4 := q3.qtrans (Quiet.progress env
      (sys_time env (sys_time env (throttle env opt w1)).2).2 ⟨he_offset, s1.wpos⟩)
    split
    · rename_i hp
      exact Or.inl ⟨_, _, _, rfl, q4, rfl, hp⟩
    · exact Or.inr ⟨_, _, rfl, q4⟩
  · exact Or.inr ⟨s1.last_print_time, _, rfl, q2⟩

theorem copy_read_after_cases (s : CopySt) (rsize0 : Int) (data : List Nat) (w1 : World)
    (h : rsize0 = (data.length : Int) ∨ (rsize0 ≤ 0 ∧ data = [])) :
    (∃ rc, copy_read_after s rsize0 data w1 = IterRes.out rc w1)
    ∨ copy_read_after s rsize0 data w1
        = IterRes.next { s with rpos := s.rpos + data.length, bufoff := 0,
                                buf := data ++ s.buf.drop data.length } w1 := by
  unfold copy_read_after
  by_cases h0 : rsize0 = 0
  · exact Or.inl ⟨_, by rw [if_pos h0]⟩
  · rw [if_neg h0]
    by_cases h1 : rsize0 = -(EAGAIN : Int) ∧ s.rpos = 0
    · exact Or.inl ⟨_, by rw [if_pos h1]⟩
    · rw [if_neg h1]
      dsimp only
      by_cases h2 : rsize0 = -(EAGAIN : Int)
      · have hd : data.length = 0 := by
          rcases h with h | h
          · simp only [EAGAIN] at h2; omega
          · rw [h.2]; rfl
        right
        simp [h2, hd]
      · rw [if_neg h2]
        by_cases h3 : rsize0 < 0
        · exact Or.inl ⟨_, by rw [if_pos h3]⟩
        · rw [if_neg h3]
          right
          have hd : rsize0.toNat = data.length := by
            rcases h with h | h
            · rw [h]; simp
            · omega
          rw [hd]

theorem copy_write_after_cases (env : Env) (opt : options) (he_offset : Nat) (s : CopySt)
    (wsize0 : Int) (data : List Nat) (w1 : World)
    (h : wsize0 = (data.length : Int) ∨ (wsize0 ≤ 0 ∧ data = [])) :
    (∃ rc, copy_write_after env opt he_offset s wsize0 w1 = IterRes.out rc w1 ∧ rc ≠ 0)
    ∨ copy_write_after env opt he_offset s wsize0 w1
        = copy_report env opt he_offset
            { s with wpos := s.wpos + data.length, bufoff := s.bufoff + data.length } w1 := by
  unfold copy_write_after
  dsimp only
  by_cases h2 : wsize0 = -(EAGAIN : Int)
  · have hd : data.length = 0 := by
      rcases h with h | h
      · simp only [EAGAIN] at h2; omega
      · rw [h.2]; rfl
    right
    simp [h2, hd]
  · rw [if_neg h2]
    by_cases h3 : wsize0 < 0
    · exact Or.inl ⟨_, by rw [if_pos h3], by omega⟩
    · rw [if_neg h3]
      right
      have hd : wsize0.toNat = data.length := by
        rcases h with h | h
        · rw [h]; simp
        · have : wsize0 = 0 := by omega
          rw [this, h.2]; rfl
      rw [hd]

/-- The read of a round keeps the invariant. -/
theorem copy_read_inv (env : Env) (opt : options) (src0 dst0 : List Nat) (tr0 : List Event)
    (o l raw : Nat) (s : CopySt) (w : World) (hraw : raw ≤ l - s.wpos)
    (hinv : CopyInv src0 dst0 tr0 o l s w) :
    (∃ rc w1, copy_read env opt (toInt32 (raw : Int)) s w = IterRes.out rc w1
        ∧ WInv src0 dst0 tr0 o l w1)
    ∨ (∃ s1 w1, copy_read env opt (toInt32 (raw : Int)) s w = IterRes.next s1 w1
        ∧ CopyInv src0 dst0 tr0 o l s1 w1 ∧ s1.wpos = s.wpos ∧ s1.rc = s.rc) := by
  unfold copy_read
  by_cases hwr : s.wpos = s.rpos
  · rw [if_pos hwr]
    dsimp only
    cases hf : (env w.clock).fail with
    | none =>
      rw [nonblock_rw_read_ok env opt [] _ w hf]
      dsimp only
      generalize hd : read_data env w (toSizeT (toInt32 (raw : Int))) = data
      have hdata : data = (src0.drop (o + s.rpos)).take
          (min (min (toSizeT (toInt32 (raw : Int))) (env w.clock).amount) MAX_RW_COUNT) := by
        rw [← hd, read_data, hinv.hw.hsrc, hinv.hspos]
      have hn := xfer_le raw (env w.clock).amount
      have hlen : data.length ≤ raw := by
        rw [hdata, List.length_take]; omega
      have hlen2 : data.length ≤ (src0.drop (o + s.rpos)).length := by
        rw [hdata, List.length_take]; omega
      have hW : WInv src0 dst0 tr0 o l
          { w.call (Event.read w.src_pos (toSizeT (toInt32 (raw : Int))) data) with
            src_pos := w.src_pos + data.length } := by
        have h1 := hinv.hw.add_call (Event.read w.src_pos (toSizeT (toInt32 (raw : Int))) data)
          (eventOk_read_of_segment _ _ _ _ _ _ (by rw [hinv.hspos]; omega)
            (by
              have := hinv.hrl
              rw [hinv.hspos]; omega))
        exact ⟨h1.hsrc, h1.hlen, h1.hframe, h1.htrace⟩
      rcases copy_read_after_cases s (data.length : Int) data _ (Or.inl rfl) with ⟨rc, h⟩ | h
      · exact Or.inl ⟨rc, _, h, hW⟩
      · have hlen3 : data.length ≤ MAX_RW_COUNT := by
          rw [hdata, List.length_take]; omega
        refine Or.inr ⟨_, _, h, ⟨hW, ?_, ?_, ?_, ?_, ?_, ?_, ?_⟩, rfl, rfl⟩
        · simp only [World.call, hinv.hspos]; omega
        · simp only [World.call, hinv.hdpos]
        · simp only; omega
        · have := hinv.hrl
          simp only; omega
        · simp only [List.drop_zero, hwr, Nat.add_sub_cancel_left]
          rw [List.take_left', hdata]
          · exact (take_length_take _ _).symm
          · rfl
        · simp only [hwr, Nat.add_sub_cancel_left]; exact hlen2
        · simp only [hwr, Nat.add_sub_cancel_left]; exact hlen3
    | some e =>
      rw [nonblock_rw_read_fail env opt [] _ w e hf]
      dsimp only
      have hW : WInv src0 dst0 tr0 o l
          { w.call (Event.read w.src_pos (toSizeT (toInt32 (raw : Int))) []) with
            errno := (e : Int) } := by
        have h1 := hinv.hw.add_call (Event.read w.src_pos (toSizeT (toInt32 (raw : Int))) [])
          (still_ok _ _ _ _ rfl)
        exact ⟨h1.hsrc, h1.hlen, h1.hframe, h1.htrace⟩
      rcases copy_read_after_cases s (-(e : Int)) [] _ (Or.inr ⟨by omega, rfl⟩) with ⟨rc, h⟩ | h
      · exact Or.inl ⟨rc, _, h, hW⟩
      · refine Or.inr ⟨_, _, h, ⟨hW, ?_, ?_, ?_, ?_, ?_, ?_, ?_⟩, rfl, rfl⟩
        · simp only [World.call, hinv.hspos, List.length_nil, Nat.add_zero]
        · simp only [World.call, hinv.hdpos]
        · simp only [List.length_nil]; omega
        · simp only [List.length_nil]; exact hinv.hrl
        · simp only [List.length_nil, hwr, Nat.add_zero, Nat.sub_self, List.take_zero]
        · simp only [List.length_nil, hwr, Nat.add_zero, Nat.sub_self]; omega
        · simp only [List.length_nil, hwr, Nat.add_zero, Nat.sub_self]; omega
  · rw [if_neg hwr]
    exact Or.inr ⟨s, w, rfl, hinv, rfl, rfl⟩

/-- What a successful write of a round transfers: a prefix of the bytes still
to be written, which are the bytes of the source at the write position. -/
theorem write_data_spec (env : Env) (src0 dst0 : List Nat) (tr0 : List Event) (o l : Nat)
    (s : CopySt) (w : World) (hinv : CopyInv src0 dst0 tr0 o l s w) :
    ∃ n, n ≤ s.rpos - s.wpos
      ∧ write_data env w (s.buf.drop s.bufoff) (toSizeT (toInt32 ((s.rpos - s.wpos : Nat) : Int)))
          = (src0.drop (o + s.wpos)).take n
      ∧ ((src0.drop (o + s.wpos)).take n).length = n
      ∧ n = min (min (toSizeT (toInt32 ((s.rpos - s.wpos : Nat) : Int))) (env w.clock).amount)
              MAX_RW_COUNT := by
  refine ⟨min (min (toSizeT (toInt32 ((s.rpos - s.wpos : Nat) : Int))) (env w.clock).amount)
    MAX_RW_COUNT, xfer_le _ _, ?_, ?_, rfl⟩
  · have hn := xfer_le (s.rpos - s.wpos) (env w.clock).amount
    unfold write_data
    generalize min (min (toSizeT (toInt32 ((s.rpos - s.wpos : Nat) : Int))) (env w.clock).amount)
      MAX_RW_COUNT = n at hn ⊢
    calc List.take n (List.drop s.bufoff s.buf)
        = List.take n (List.take (s.rpos - s.wpos) (List.drop s.bufoff s.buf)) := by
          rw [List.take_take, min_eq_left hn]
      _ = List.take n (List.take (s.rpos - s.wpos) (List.drop (o + s.wpos) src0)) := by
          rw [hinv.hbuf]
      _ = List.take n (List.drop (o + s.wpos) src0) := by
          rw [List.take_take, min_eq_left hn]
  · have hn := xfer_le (s.rpos - s.wpos) (env w.clock).amount
    have := hinv.hbuflen
    rw [List.length_take]
    omega

/-- The state of the loop after `n` bytes of the buffer are written keeps the
invariant. -/
theorem CopyInv.after_write {src0 dst0 : List Nat} {tr0 : List Event} {o l : Nat}
    {s : CopySt} {w : World} (hinv : CopyInv src0 dst0 tr0 o l s w) (count n : Nat)
    (hn : n ≤ s.rpos - s.wpos) :
    CopyInv src0 dst0 tr0 o l
      { s with wpos := s.wpos + n, bufoff := s.bufoff + n }
      { w.call (Event.write w.dst_pos count ((src0.drop (o + s.wpos)).take n)) with
        dst := writeAt w.dst w.dst_pos ((src0.drop (o + s.wpos)).take n),
        dst_pos := w.dst_pos + n } := by
  have hbl := hinv.hbuflen
  have hrl := hinv.hrl
  have hwr := hinv.hwr
  have hlen : ((src0.drop (o + s.wpos)).take n).length = n := by
    rw [List.length_take]; omega
  obtain ⟨evs0, he0, hh0⟩ := hinv.hw.htrace
  refine ⟨⟨hinv.hw.hsrc, ?_, ?_,
    evs0 ++ [Event.write w.dst_pos count ((src0.drop (o + s.wpos)).take n)], ?_, ?_⟩,
    ?_, ?_, ?_, ?_, ?_, ?_, ?_⟩
  · exact le_trans hinv.hw.hlen (writeAt_length_ge _ _ _)
  · intro p hp hout
    simp only [World.call]
    rw [writeAt_getElem?_outside _ _ _ _ (lt_of_lt_of_le hp hinv.hw.hlen)
      (by rw [hlen, hinv.hdpos]; omega)]
    exact hinv.hw.hframe p hp hout
  · simp only [World.call, he0, List.append_assoc]
  · intro e he
    rcases List.mem_append.mp he with h1 | h1
    · exact hh0 e h1
    · rw [List.mem_singleton.mp h1, hinv.hdpos]
      exact eventOk_write_of_segment _ _ _ _ _ _ (by omega) (by omega)
  · simp only [World.call]; exact hinv.hspos
  · simp only [World.call, hinv.hdpos]; omega
  · simp only; omega
  · exact hrl
  · simp only
    have h1 := congrArg (List.drop n) hinv.hbuf
    rw [List.drop_take, List.drop_take, List.drop_drop, List.drop_drop] at h1
    have e1 : s.rpos - (s.wpos + n) = s.rpos - s.wpos - n := by omega
    rw [e1]
    convert h1 using 3
    omega
  · simp only [List.length_drop] at hbl ⊢
    omega
  · have := hinv.hgap
    simp only
    omega

/-- The write of a round, with the bandwidth control and the progress report
that follow it, keeps the invariant. -/
theorem copy_write_inv (env : Env) (opt : options) (src0 dst0 : List Nat) (tr0 : List Event)
    (o l he_offset : Nat) (s : CopySt) (w : World) (hinv : CopyInv src0 dst0 tr0 o l s w) :
    (∃ rc w1, copy_write env opt he_offset s w = IterRes.out rc w1
        ∧ WInv src0 dst0 tr0 o l w1)
    ∨ (∃ s1 w1, copy_write env opt he_offset s w = IterRes.next s1 w1
        ∧ CopyInv src0 dst0 tr0 o l s1 w1 ∧ s.wpos ≤ s1.wpos ∧ s1.rc = 0) := by
  unfold copy_write
  dsimp only
  cases hf : (env w.clock).fail with
  | none =>
    rw [nonblock_rw_write_ok env opt _ _ w hf]
    dsimp only
    obtain ⟨n, hn, hd, hlen, _⟩ := write_data_spec env src0 dst0 tr0 o l s w hinv
    rw [hd]
    have hI := hinv.after_write (toSizeT (toInt32 ((s.rpos - s.wpos : Nat) : Int))) n hn
    rw [hlen]
    rcases copy_write_after_cases env opt he_offset s
      (n : Int) ((src0.drop (o + s.wpos)).take n) _ (Or.inl (by rw [hlen])) with ⟨rc, h, _⟩ | h
    · exact Or.inl ⟨rc, _, h, hI.hw⟩
    · rw [h, hlen]
      rcases copy_report_cases env opt he_offset
        { s with wpos := s.wpos + n, bufoff := s.bufoff + n } _ with ⟨rc, w2, _, h2, q, _, _⟩ | ⟨t, w2, h2, q⟩
      · exact Or.inl ⟨rc, w2, h2, hI.hw.quiet q⟩
      · exact Or.inr ⟨_, w2, h2, hI.keep q rfl rfl rfl rfl, by simp only; omega, rfl⟩
  | some e =>
    rw [nonblock_rw_write_fail env opt _ _ w e hf]
    dsimp only
    have q : Quiet w { w.call (Event.write w.dst_pos
        (toSizeT (toInt32 ((s.rpos - s.wpos : Nat) : Int))) []) with errno := (e : Int) } :=
      Quiet.call_errno w _ (by simp [Still]) _
    rcases copy_write_after_cases env opt he_offset s (-(e : Int)) [] _
      (Or.inr ⟨by omega, rfl⟩) with ⟨rc, h, _⟩ | h
    · exact Or.inl ⟨rc, _, h, hinv.hw.quiet q⟩
    · rw [h]
      rcases copy_report_cases env opt he_offset
        { s with wpos := s.wpos + ([] : List Nat).length,
                 bufoff := s.bufoff + ([] : List Nat).length } _
        with ⟨rc, w2, _, h2, q2, _, _⟩ | ⟨t, w2, h2, q2⟩
      · exact Or.inl ⟨rc, w2, h2, hinv.hw.quiet (q.qtrans q2)⟩
      · exact Or.inr ⟨_, w2, h2, hinv.keep (q.qtrans q2) rfl rfl rfl rfl, by simp, rfl⟩

/-- One round of the copy loop keeps the invariant. -/
theorem copy_iter_inv (env : Env) (opt : options) (src0 dst0 : List Nat) (tr0 : List Event)
    (o l he_offset : Nat) (s : CopySt) (w : World) (hinv : CopyInv src0 dst0 tr0 o l s w) :
    (∃ rc w1, copy_iter env opt l he_offset s w = IterRes.out rc w1
        ∧ WInv src0 dst0 tr0 o l w1)
    ∨ (∃ s1 w1, copy_iter env opt l he_offset s w = IterRes.next s1 w1
        ∧ CopyInv src0 dst0 tr0 o l s1 w1 ∧ s.wpos ≤ s1.wpos ∧ s1.rc = 0) := by
  unfold copy_iter
  dsimp only
  have hraw : (if l - s.wpos > opt.o_chunk_size then opt.o_chunk_size else l - s.wpos)
      ≤ l - s.wpos := by
    split <;> omega
  rcases copy_read_inv env opt src0 dst0 tr0 o l _ s w hraw hinv with
    ⟨rc, w1, h, hW⟩ | ⟨s1, w1, h, hI, hwp, _⟩
  · rw [h]
    exact Or.inl ⟨rc, w1, rfl, hW⟩
  · rw [h]
    dsimp only
    rcases copy_write_inv env opt src0 dst0 tr0 o l he_offset s1 w1 hI with
      ⟨rc, w2, h2, hW⟩ | ⟨s2, w2, h2, hI2, hle, hrc⟩
    · exact Or.inl ⟨rc, w2, h2, hW⟩
    · exact Or.inr ⟨s2, w2, h2, hI2, by omega, hrc⟩

/-- However many rounds the copy loop runs, the state it reaches satisfies the
file and trace part of the invariant. -/
theorem copy_loop_inv (env : Env) (opt : options) (src0 dst0 : List Nat) (tr0 : List Event)
    (o l he_offset : Nat) (fuel : Nat) (s : CopySt) (w : World)
    (hinv : CopyInv src0 dst0 tr0 o l s w) :
    WInv src0 dst0 tr0 o l (copy_loop env opt l he_offset fuel s w).2 := by
  induction fuel generalizing s w with
  | zero => exact hinv.hw
  | succ k ih =>
    unfold copy_loop
    by_cases hlt : s.wpos < l
    · rw [if_pos hlt]
      rcases copy_iter_inv env opt src0 dst0 tr0 o l he_offset s w hinv with
        ⟨rc, w1, h, hW⟩ | ⟨s1, w1, h, hI, _, _⟩
      · rw [h]; exact hW
      · rw [h]; exact ih s1 w1 hI
    · rw [if_neg hlt]; exact hinv.hw

/-! ## The calls made before the copy loop -/

theorem Steps.strans {w w1 w2 : World} {e1 e2 : List Event} (h1 : Steps w w1 e1)
    (h2 : Steps w1 w2 e2) : Steps w w2 (e1 ++ e2) :=
  ⟨h2.hsrc.trans h1.hsrc, h2.hdst.trans h1.hdst, h2.hsreg.trans h1.hsreg,
    h2.hdreg.trans h1.hdreg, by rw [h2.htrace, h1.htrace, List.append_assoc]⟩

theorem sys_time_steps (env : Env) (w : World) : Steps w (sys_time env w).2 [Event.time] :=
  ⟨rfl, rfl, rfl, rfl, rfl⟩

theorem sys_malloc_steps (env : Env) (w : World) (size : Nat) :
    Steps w (sys_malloc env w size).2 [Event.malloc size] := by
  unfold sys_malloc
  split <;> exact ⟨rfl, rfl, rfl, rfl, rfl⟩

theorem sys_fstat_src_steps (env : Env) (w : World) :
    (∃ x, Steps w (sys_fstat_src env w).2 [Event.fstat_src x])
      ∧ ((sys_fstat_src env w).1 = none
          ∨ (sys_fstat_src env w).1 = some (w.src.length, w.src_reg)) := by
  unfold sys_fstat_src
  split
  · exact ⟨⟨_, rfl, rfl, rfl, rfl, rfl⟩, Or.inl rfl⟩
  · exact ⟨⟨_, rfl, rfl, rfl, rfl, rfl⟩, Or.inr rfl⟩

theorem sys_fstat_dst_steps (env : Env) (w : World) :
    ((sys_fstat_dst env w).1 = none ∧ Steps w (sys_fstat_dst env w).2 [Event.fstat_dst none])
      ∨ ((sys_fstat_dst env w).1 = some (w.dst.length, w.dst_reg)
          ∧ Steps w (sys_fstat_dst env w).2 [Event.fstat_dst (some w.dst.length)]) := by
  unfold sys_fstat_dst
  split
  · exact Or.inl ⟨rfl, rfl, rfl, rfl, rfl, rfl⟩
  · exact Or.inr ⟨rfl, rfl, rfl, rfl, rfl, rfl⟩

theorem sys_fstat_dst_pos (env : Env) (w : World) :
    (sys_fstat_dst env w).2.src_pos = w.src_pos ∧ (sys_fstat_dst env w).2.dst_pos = w.dst_pos := by
  unfold sys_fstat_dst
  split <;> exact ⟨rfl, rfl⟩

theorem sys_lseek_src_steps (env : Env) (w : World) (offset : Nat) :
    Steps w (sys_lseek_src env w offset).2 [Event.lseek_src offset]
      ∧ (sys_lseek_src env w offset).2.dst_pos = w.dst_pos
      ∧ (¬ toInt32 (sys_lseek_src env w offset).1 < 0 →
          (sys_lseek_src env w offset).2.src_pos = offset) := by
  unfold sys_lseek_src
  split
  · exact ⟨⟨rfl, rfl, rfl, rfl, rfl⟩, rfl, fun h => absurd (show toInt32 (-1) < 0 by decide) h⟩
  · split
    · exact ⟨⟨rfl, rfl, rfl, rfl, rfl⟩, rfl, fun h => absurd (show toInt32 (-1) < 0 by decide) h⟩
    · exact ⟨⟨rfl, rfl, rfl, rfl, rfl⟩, rfl, fun _ => rfl⟩

theorem sys_lseek_dst_steps (env : Env) (w : World) (offset : Nat) :
    Steps w (sys_lseek_dst env w offset).2 [Event.lseek_dst offset]
      ∧ (sys_lseek_dst env w offset).2.src_pos = w.src_pos
      ∧ (¬ toInt32 (sys_lseek_dst env w offset).1 < 0 →
          (sys_lseek_dst env w offset).2.dst_pos = offset) := by
  unfold sys_lseek_dst
  split
  · exact ⟨⟨rfl, rfl, rfl, rfl, rfl⟩, rfl, fun h => absurd (show toInt32 (-1) < 0 by decide) h⟩
  · split
    · exact ⟨⟨rfl, rfl, rfl, rfl, rfl⟩, rfl, fun h => absurd (show toInt32 (-1) < 0 by decide) h⟩
    · exact ⟨⟨rfl, rfl, rfl, rfl, rfl⟩, rfl, fun _ => rfl⟩

theorem progress_steps (env : Env) (w : World) (he : hsm_extent) :
    Steps w (llapi_hsm_action_progress env w he).2 [Event.action_progress he]
      ∧ (llapi_hsm_action_progress env w he).2.src_pos = w.src_pos
      ∧ (llapi_hsm_action_progress env w he).2.dst_pos = w.dst_pos :=
  ⟨⟨rfl, rfl, rfl, rfl, rfl⟩, rfl, rfl⟩

theorem WInv.init {w w1 : World} {pre : List Event} (h : Steps w w1 pre) (o l : Nat) :
    WInv w.src w.dst w1.trace o l w1 :=
  ⟨h.hsrc, by rw [h.hdst], fun _ _ _ => by rw [h.hdst], [], by simp, by simp⟩

/-- The ways `ct_copy_data` can go: it returns before the destination is
examined; or the seek on the source fails and it runs its final block with an
indeterminate destination size; or, after the preliminary calls `pre`, it
runs out of rounds or reaches its final block with the sizes obtained from
`fstat`, all calls made in between keeping the invariant of the copy. -/
theorem ct_copy_data_cases (env : Env) (opt : options) (hai : hsm_action_item) (fuel : Nat)
    (w : World) :
    (∃ rc w1 evs, ct_copy_data env opt hai fuel w = (some rc, w1) ∧ Steps w w1 evs
        ∧ (∀ e ∈ evs, Harmless e)
        ∧ ∀ d, Event.fstat_dst (some d) ∈ evs → w.dst_reg = false)
    ∨ (∃ w1 evs, Steps w w1 evs ∧ (∀ e ∈ evs, Harmless e)
        ∧ (∀ d, Event.fstat_dst (some d) ∉ evs)
        ∧ ct_copy_data env opt hai fuel w
            = ret (ct_copy_data_out env hai w.src.length w1.garbage (-w1.errno) w1))
    ∨ (∃ w1 pre w2, Steps w w1 pre ∧ (∀ e ∈ pre, Harmless e)
        ∧ (∀ d, Event.fstat_dst (some d) ∈ pre → d = w.dst.length)
        ∧ WInv w.src w.dst w1.trace hai.hai_extent.offset (copy_rlen hai w.src.length) w2
        ∧ w.src_reg = true ∧ w.dst_reg = true
        ∧ (ct_copy_data env opt hai fuel w = (none, w2)
            ∨ ∃ rc, ct_copy_data env opt hai fuel w
                = ret (ct_copy_data_out env hai w.src.length w.dst.length rc w2))) := by
  unfold ct_copy_data
  dsimp only
  have s0 := sys_time_steps env w
  have s1 := s0.strans (sys_malloc_steps env (sys_time env w).2 opt.o_chunk_size)
  by_cases hm : (sys_malloc env (sys_time env w).2 opt.o_chunk_size).1 = false
  · rw [if_pos hm]
    exact Or.inl ⟨_, _, _, rfl, s1, by simp [Harmless], by simp⟩
  rw [if_neg hm]
  obtain ⟨⟨x, s2'⟩, hfs⟩ := sys_fstat_src_steps env
    (sys_malloc env (sys_time env w).2 opt.o_chunk_size).2
  have s2 := s1.strans s2'
  rcases hfs with hfs | hfs
  · rw [hfs]
    exact Or.inl ⟨_, _, _, rfl, s2, by simp [Harmless], by simp⟩
  rw [hfs]
  dsimp only
  rw [s1.hsrc, s1.hsreg]
  by_cases hsr : w.src_reg = false
  · rw [if_pos hsr]
    exact Or.inl ⟨_, _, _, rfl, s2, by simp [Harmless], by simp⟩
  rw [if_neg hsr]
  obtain ⟨s3', hld, hsp⟩ := sys_lseek_src_steps env
    (sys_fstat_src env (sys_malloc env (sys_time env w).2 opt.o_chunk_size).2).2
    hai.hai_extent.offset
  have s3 := s2.strans s3'
  by_cases hls : toInt32 (sys_lseek_src env
      (sys_fstat_src env (sys_malloc env (sys_time env w).2 opt.o_chunk_size).2).2
      hai.hai_extent.offset).1 < 0
  · rw [if_pos hls]
    exact Or.inr (Or.inl ⟨_, _, s3, by simp [Harmless], by simp, rfl⟩)
  rw [if_neg hls]
  have hsp := hsp hls
  rcases sys_fstat_dst_steps env (sys_lseek_src env
      (sys_fstat_src env (sys_malloc env (sys_time env w).2 opt.o_chunk_size).2).2
      hai.hai_extent.offset).2 with ⟨hfd, s4'⟩ | ⟨hfd, s4'⟩
  · rw [hfd]
    exact Or.inl ⟨_, _, _, rfl, s3.strans s4', by simp [Harmless], by simp⟩
  rw [hfd]
  dsimp only
  rw [s3.hdst] at s4'
  rw [s3.hdst, s3.hdreg]
  have s4 := s3.strans s4'
  by_cases hdr : w.dst_reg = false
  · rw [if_pos hdr]
    exact Or.inl ⟨_, _, _, rfl, s4, by simp [Harmless], fun _ _ => hdr⟩
  rw [if_neg hdr]
  have hsr' : w.src_reg = true := by simpa using hsr
  have hdr' : w.dst_reg = true := by simpa using hdr
  generalize hw4 : (sys_fstat_dst env (sys_lseek_src env
      (sys_fstat_src env (sys_malloc env (sys_time env w).2 opt.o_chunk_size).2).2
      hai.hai_extent.offset).2).2 = w4 at s4 s4' ⊢
  have hsp4 : w4.src_pos = hai.hai_extent.offset := by
    rw [← hw4]
    exact (sys_fstat_dst_pos env _).1.trans hsp
  obtain ⟨s5', hsp5, hdp5⟩ := sys_lseek_dst_steps env w4 hai.hai_extent.offset
  have s5 := s4.strans s5'
  by_cases hld : toInt32 (sys_lseek_dst env w4 hai.hai_extent.offset).1 < 0
  · rw [if_pos hld]
    exact Or.inr (Or.inr ⟨_, _, _, s5, by simp [Harmless], by simp, WInv.init s5 _ _,
      hsr', hdr', Or.inr ⟨_, rfl⟩⟩)
  rw [if_neg hld]
  have hdp5 := hdp5 hld
  generalize hw5 : (sys_lseek_dst env w4 hai.hai_extent.offset).2 = w5 at s5 hsp5 hdp5 ⊢
  obtain ⟨s6', hsp6, hdp6⟩ := progress_steps env w5 ⟨hai.hai_extent.offset, 0⟩
  have s6 := s5.strans s6'
  have hW6 : WInv w.src w.dst
      (llapi_hsm_action_progress env w5 ⟨hai.hai_extent.offset, 0⟩).2.trace
      hai.hai_extent.offset (copy_rlen hai w.src.length)
      (llapi_hsm_action_progress env w5 ⟨hai.hai_extent.offset, 0⟩).2 :=
    WInv.init s6 _ _
  by_cases hp : (llapi_hsm_action_progress env w5 ⟨hai.hai_extent.offset, 0⟩).1 ≠ 0
  · rw [if_pos hp]
    exact Or.inr (Or.inr ⟨_, _, _, s6, by simp [Harmless], by simp, hW6, hsr', hdr', Or.inr ⟨_, rfl⟩⟩)
  rw [if_neg hp]
  have hr : (if hai.hai_extent.length = 2 ^ 64 - 1 then w.src.length
      else hai.hai_extent.length) = copy_rlen hai w.src.length := rfl
  rw [hr]
  have s7 : Steps w { (llapi_hsm_action_progress env w5 ⟨hai.hai_extent.offset, 0⟩).2 with
      errno := 0 } _ := ⟨s6.hsrc, s6.hdst, s6.hsreg, s6.hdreg, s6.htrace⟩
  have hI : CopyInv w.src w.dst
      (llapi_hsm_action_progress env w5 ⟨hai.hai_extent.offset, 0⟩).2.trace
      hai.hai_extent.offset (copy_rlen hai w.src.length)
      ⟨0, 0, 0, [], (llapi_hsm_action_progress env w5 ⟨hai.hai_extent.offset, 0⟩).1,
        (sys_time env w).1⟩
      { (llapi_hsm_action_progress env w5 ⟨hai.hai_extent.offset, 0⟩).2 with errno := 0 } := by
    refine ⟨⟨hW6.hsrc, hW6.hlen, hW6.hframe, hW6.htrace⟩, ?_, ?_, ?_, ?_, ?_, ?_,
      Nat.zero_le _⟩
    · show (llapi_hsm_action_progress env w5 ⟨hai.hai_extent.offset, 0⟩).2.src_pos = _
      rw [hsp6, hsp5, hsp4]; rfl
    · show (llapi_hsm_action_progress env w5 ⟨hai.hai_extent.offset, 0⟩).2.dst_pos = _
      rw [hdp6, hdp5]; rfl
    · exact le_refl _
    · exact Nat.zero_le _
    · simp
    · simp
  have hL := copy_loop_inv env opt w.src w.dst _ hai.hai_extent.offset
    (copy_rlen hai w.src.length) hai.hai_extent.offset fuel _ _ hI
  generalize copy_loop env opt (copy_rlen hai w.src.length) hai.hai_extent.offset fuel
    ⟨0, 0, 0, [], (llapi_hsm_action_progress env w5 ⟨hai.hai_extent.offset, 0⟩).1,
      (sys_time env w).1⟩
    { (llapi_hsm_action_progress env w5 ⟨hai.hai_extent.offset, 0⟩).2 with errno := 0 } = r
    at hL ⊢
  obtain ⟨orc, w2⟩ := r
  cases orc with
  | none =>
    exact Or.inr (Or.inr ⟨_, _, w2, s7, by simp [Harmless], by simp, hL, hsr', hdr', Or.inl rfl⟩)
  | some rc =>
    exact Or.inr (Or.inr ⟨_, _, w2, s7, by simp [Harmless], by simp, hL, hsr', hdr', Or.inr ⟨rc, rfl⟩⟩)

/-! ## The final block of `ct_copy_data` -/

/-- For an action other than a restore the final block only calls `fsync`, and
only when `rc` is 0; a non-zero `rc` is returned as it is. -/
theorem ct_copy_data_out_no_restore (env : Env) (hai : hsm_action_item) (a b : Nat) (rc : Int)
    (w : World) (h : hai.hai_action ≠ hsm_copytool_action.HSMA_RESTORE) :
    ∃ evs, Steps w (ct_copy_data_out env hai a b rc w).2 evs
      ∧ (evs = [] ∨ evs = [Event.fsync])
      ∧ (rc ≠ 0 → (ct_copy_data_out env hai a b rc w).1 = rc) := by
  unfold ct_copy_data_out
  have hc : ¬ (hai.hai_action = hsm_copytool_action.HSMA_RESTORE ∧ a < b) := fun hh => h hh.1
  simp only [hc, if_false]
  by_cases h0 : rc = 0
  · subst h0
    simp only [if_true]
    unfold sys_fsync
    split
    · refine ⟨[Event.fsync], ?_, Or.inr rfl, by simp⟩
      split <;> exact ⟨rfl, rfl, rfl, rfl, rfl⟩
    · refine ⟨[Event.fsync], ?_, Or.inr rfl, by simp⟩
      split <;> exact ⟨rfl, rfl, rfl, rfl, rfl⟩
  · simp only [h0, if_false]
    exact ⟨[], ⟨rfl, rfl, rfl, rfl, by simp⟩, Or.inl rfl, fun _ => trivial⟩

/-- For a restore whose source is smaller than the destination size the final
block starts with `ftruncate(dst_fd, src_size)`, possibly followed by `fsync`;
when the truncation succeeds the destination has the size of the source. -/
theorem ct_copy_data_out_restore (env : Env) (hai : hsm_action_item) (a b : Nat) (rc : Int)
    (w : World) (h : hai.hai_action = hsm_copytool_action.HSMA_RESTORE) (hab : a < b) :
    ∃ ok rest, (ct_copy_data_out env hai a b rc w).2.trace
        = w.trace ++ Event.ftruncate a ok :: rest
      ∧ (rest = [] ∨ rest = [Event.fsync])
      ∧ (ok = true → (ct_copy_data_out env hai a b rc w).2.dst.length = a) := by
  unfold ct_copy_data_out
  have hc : hai.hai_action = hsm_copytool_action.HSMA_RESTORE ∧ a < b := ⟨h, hab⟩
  simp only [hc, and_self, if_true]
  unfold sys_ftruncate
  cases hf : (env w.clock).fail with
  | some e =>
    have hneg : ((-1 : Int) < 0) := by decide
    simp only [hneg, if_true]
    by_cases h0 : -(e : Int) = 0
    · simp only [h0, if_true]
      unfold sys_fsync
      split
      · split
        · exact ⟨false, [Event.fsync], by simp [World.call], Or.inr rfl, by simp⟩
        · exact ⟨false, [Event.fsync], by simp [World.call], Or.inr rfl, by simp⟩
      · split
        · exact ⟨false, [Event.fsync], by simp [World.call], Or.inr rfl, by simp⟩
        · exact ⟨false, [Event.fsync], by simp [World.call], Or.inr rfl, by simp⟩
    · simp only [h0, if_false]
      exact ⟨false, [], by simp [World.call], Or.inl rfl, by simp⟩
  | none =>
    have hneg : ¬ ((0 : Int) < 0) := by decide
    simp only [hneg, if_false, if_true]
    have hl : (List.take a w.dst ++ List.replicate (a - w.dst.length) 0).length = a := by
      simp only [List.length_append, List.length_take, List.length_replicate]; omega
    unfold sys_fsync
    split
    · split
      · exact ⟨true, [Event.fsync], by simp [World.call], Or.inr rfl, fun _ => hl⟩
      · exact ⟨true, [Event.fsync], by simp [World.call], Or.inr rfl, fun _ => hl⟩
    · split
      · exact ⟨true, [Event.fsync], by simp [World.call], Or.inr rfl, fun _ => hl⟩
      · exact ⟨true, [Event.fsync], by simp [World.call], Or.inr rfl, fun _ => hl⟩

/-! ## Safety of the copy engine -/

theorem harmless_not_ftruncate (e : Event) (h : Harmless e) (len : Nat) (ok : Bool) :
    e ≠ Event.ftruncate len ok := by
  intro he; rw [he] at h; exact h

theorem eventOk_not_ftruncate (src0 : List Nat) (o l : Nat) (e : Event) (h : EventOk src0 o l e)
    (len : Nat) (ok : Bool) : e ≠ Event.ftruncate len ok := by
  intro he; rw [he] at h; exact h

theorem fsync_tail_ok (src0 : List Nat) (o l : Nat) (evs : List Event)
    (h : evs = [] ∨ evs = [Event.fsync]) :
    ∀ e ∈ evs, ExtentOk src0 o l e ∧ ∀ len ok, e ≠ Event.ftruncate len ok := by
  intro e he
  rcases h with h | h
  · rw [h] at he; simp at he
  · rw [h] at he
    rw [List.mem_singleton.mp he]
    exact ⟨trivial, fun _ _ => by simp⟩

/-- For an action other than a restore, whatever the environment answers and
however many rounds are run: every call `ct_copy_data` makes respects the
range `[offset, offset + rlen)`, none is a truncation, the source is not
changed and the destination keeps its content outside the range. -/
theorem ct_copy_data_no_restore (env : Env) (opt : options) (hai : hsm_action_item)
    (fuel : Nat) (w : World) (hnr : hai.hai_action ≠ hsm_copytool_action.HSMA_RESTORE) :
    ∃ evs, (ct_copy_data env opt hai fuel w).2.trace = w.trace ++ evs
      ∧ (∀ e ∈ evs, ExtentOk w.src hai.hai_extent.offset (copy_rlen hai w.src.length) e
          ∧ ∀ len ok, e ≠ Event.ftruncate len ok)
      ∧ (∀ p, p < w.dst.length →
          (p < hai.hai_extent.offset
            ∨ hai.hai_extent.offset + copy_rlen hai w.src.length ≤ p) →
          (ct_copy_data env opt hai fuel w).2.dst[p]? = w.dst[p]?)
      ∧ (ct_copy_data env opt hai fuel w).2.src = w.src := by
  rcases ct_copy_data_cases env opt hai fuel w with
    ⟨rc, w1, evs, h, st, hh, _⟩ | ⟨w1, evs, st, hh, _, h⟩ | ⟨w1, pre, w2, st, hh, _, hW, _, _, h⟩
  · rw [h]
    refine ⟨evs, st.htrace, ?_, fun p _ _ => by rw [st.hdst], st.hsrc⟩
    intro e he
    exact ⟨harmless_extentOk _ _ _ _ (hh e he), harmless_not_ftruncate e (hh e he)⟩
  · rw [h]
    obtain ⟨ev2, st2, htail, _⟩ :=
      ct_copy_data_out_no_restore env hai w.src.length w1.garbage (-w1.errno) w1 hnr
    have st3 := st.strans st2
    refine ⟨evs ++ ev2, st3.htrace, ?_, fun p _ _ => by simp only [ret]; rw [st3.hdst],
      st3.hsrc⟩
    intro e he
    rcases List.mem_append.mp he with h1 | h1
    · exact ⟨harmless_extentOk _ _ _ _ (hh e h1), harmless_not_ftruncate e (hh e h1)⟩
    · exact fsync_tail_ok _ _ _ ev2 htail e h1
  · obtain ⟨evL, heL, hhL⟩ := hW.htrace
    have hpre : ∀ e ∈ pre ++ evL,
        ExtentOk w.src hai.hai_extent.offset (copy_rlen hai w.src.length) e
          ∧ ∀ len ok, e ≠ Event.ftruncate len ok := by
      intro e he
      rcases List.mem_append.mp he with h1 | h1
      · exact ⟨harmless_extentOk _ _ _ _ (hh e h1), harmless_not_ftruncate e (hh e h1)⟩
      · exact ⟨eventOk_extentOk _ _ _ _ (hhL e h1), eventOk_not_ftruncate _ _ _ e (hhL e h1)⟩
    rcases h with h | ⟨rc, h⟩
    · rw [h]
      exact ⟨pre ++ evL, by rw [heL, st.htrace, List.append_assoc], hpre,
        fun p hp hout => hW.hframe p hp hout, hW.hsrc⟩
    · rw [h]
      obtain ⟨ev2, st2, htail, _⟩ :=
        ct_copy_data_out_no_restore env hai w.src.length w.dst.length rc w2 hnr
      refine ⟨pre ++ evL ++ ev2, ?_, ?_, ?_, ?_⟩
      · simp only [ret]
        rw [st2.htrace, heL, st.htrace, List.append_assoc, List.append_assoc, List.append_assoc]
      · intro e he
        rcases List.mem_append.mp he with h1 | h1
        · exact hpre e h1
        · exact fsync_tail_ok _ _ _ ev2 htail e h1
      · intro p hp hout
        simp only [ret]
        rw [st2.hdst]
        exact hW.hframe p hp hout
      · simp only [ret]
        rw [st2.hsrc]
        exact hW.hsrc

/-- C5. Partial extent: for every ARCHIVE call of `ct_copy_data` with extent
`{offset o, length l}`, `l ≠ -1`, whatever the environment answers and however
many rounds of the loop are run, every byte written to the destination lies at
a position in `[o, o + l)` and equals the source byte at the same position,
every byte read from the source lies in `[o, o + l)`, and the destination
bytes outside `[o, o + l)` are left unchanged. -/
theorem ct_copy_data_partial_extent (env : Env) (opt : options) (hai : hsm_action_item)
    (fuel : Nat) (w : World)
    (harch : hai.hai_action = hsm_copytool_action.HSMA_ARCHIVE)
    (hlen : hai.hai_extent.length ≠ 2 ^ 64 - 1) :
    ∃ evs, (ct_copy_data env opt hai fuel w).2.trace = w.trace ++ evs
      ∧ (∀ pos count data, Event.write pos count data ∈ evs → ∀ i, i < data.length →
          hai.hai_extent.offset ≤ pos + i
            ∧ pos + i < hai.hai_extent.offset + hai.hai_extent.length
            ∧ data[i]? = w.src[pos + i]?)
      ∧ (∀ pos count data, Event.read pos count data ∈ evs → ∀ i, i < data.length →
          hai.hai_extent.offset ≤ pos + i
            ∧ pos + i < hai.hai_extent.offset + hai.hai_extent.length)
      ∧ (∀ p, p < w.dst.length →
          (p < hai.hai_extent.offset ∨ hai.hai_extent.offset + hai.hai_extent.length ≤ p) →
          (ct_copy_data env opt hai fuel w).2.dst[p]? = w.dst[p]?) := by
  have hnr : hai.hai_action ≠ hsm_copytool_action.HSMA_RESTORE := by rw [harch]; decide
  have hl : copy_rlen hai w.src.length = hai.hai_extent.length := by
    unfold copy_rlen; rw [if_neg hlen]
  obtain ⟨evs, ht, hev, hfr, _⟩ := ct_copy_data_no_restore env opt hai fuel w hnr
  rw [hl] at hev hfr
  exact ⟨evs, ht, fun pos count data hm => (hev _ hm).1, fun pos count data hm => (hev _ hm).1,
    hfr⟩

/-! ## The restore handler -/

theorem ct_restore_fini_spec (env : Env) (hai : hsm_action_item) (hcp : Bool) (flags : Nat)
    (rc : Int) (src_fd dst_fd : Int) (w : World) :
    ∃ post, (∀ e ∈ post, e = Event.close_src ∨ e = Event.close_dst)
      ∧ (ct_restore_fini env hai hcp flags rc src_fd dst_fd w).2.dst = w.dst
      ∧ (ct_restore_fini env hai hcp flags rc src_fd dst_fd w).2.trace
          = w.trace ++ (if hcp then [Event.action_end hai.hai_extent flags rc.natAbs] else [])
              ++ post := by
  unfold ct_restore_fini
  cases hcp <;> by_cases h1 : src_fd < 0 <;> by_cases h2 : dst_fd < 0 <;>
    simp [h1, h2, ct_fini, World.call]

theorem ct_load_stripe_spec (env : Env) (w : World) (src : List Char) (lum_size : Nat) :
    ∃ evs, Steps w (ct_load_stripe env w src lum_size).2.2 evs ∧ ∀ e ∈ evs, PreEvent e := by
  unfold ct_load_stripe
  dsimp only
  cases h1 : (env w.clock).fail with
  | some e =>
    exact ⟨[Event.open_ (snprintf PATH_MAX (src ++ ['.', 'l', 'o', 'v'])).1 [open_flag.O_RDONLY]],
      ⟨rfl, rfl, rfl, rfl, rfl⟩, by simp [PreEvent]⟩
  | none =>
    dsimp only
    cases h2 : (env (w.call (Event.open_ (snprintf PATH_MAX (src ++ ['.', 'l', 'o', 'v'])).1
        [open_flag.O_RDONLY])).clock).fail with
    | some e =>
      exact ⟨[Event.open_ (snprintf PATH_MAX (src ++ ['.', 'l', 'o', 'v'])).1 [open_flag.O_RDONLY],
        Event.read_lov (snprintf PATH_MAX (src ++ ['.', 'l', 'o', 'v'])).1, Event.close_lov],
        ⟨rfl, rfl, rfl, rfl, by simp [World.call]⟩, by simp [PreEvent]⟩
    | none =>
      exact ⟨[Event.open_ (snprintf PATH_MAX (src ++ ['.', 'l', 'o', 'v'])).1 [open_flag.O_RDONLY],
        Event.read_lov (snprintf PATH_MAX (src ++ ['.', 'l', 'o', 'v'])).1, Event.close_lov],
        ⟨rfl, rfl, rfl, rfl, by simp [World.call]⟩, by simp [PreEvent]⟩

theorem ct_restore_stripe_spec (env : Env) (w : World) (src : List Char) :
    ∃ evs, Steps w (ct_restore_stripe env w src).2 evs ∧ ∀ e ∈ evs, PreEvent e := by
  obtain ⟨ev1, st1, hp1⟩ := ct_load_stripe_spec env w src XATTR_SIZE_MAX
  unfold ct_restore_stripe
  dsimp only
  split
  · exact ⟨ev1, st1, hp1⟩
  · have hp2 : ∀ e ∈ ev1 ++ [Event.fsetxattr_lov (ct_load_stripe env w src XATTR_SIZE_MAX).2.1],
        PreEvent e := by
      intro e he
      rcases List.mem_append.mp he with h | h
      · exact hp1 e h
      · rw [List.mem_singleton.mp h]; trivial
    split
    · exact ⟨_, st1.strans ⟨rfl, rfl, rfl, rfl, rfl⟩, hp2⟩
    · exact ⟨_, st1.strans ⟨rfl, rfl, rfl, rfl, rfl⟩, hp2⟩

theorem ct_restore_nocopy_leaf (env : Env) (hai : hsm_action_item) (hcp : Bool) (flags : Nat)
    (rc : Int) (src_fd dst_fd : Int) (w w1 : World) (pre : List Event)
    (hst : Steps w w1 pre) (hpre : ∀ e ∈ pre, PreEvent e) :
    ∃ rc1 w2 evs, ret (ct_restore_fini env hai hcp flags rc src_fd dst_fd w1) = (some rc1, w2)
      ∧ w2.trace = w.trace ++ evs
      ∧ ∀ e ∈ evs, PreEvent e ∨ IsEnd e ∨ e = Event.close_src ∨ e = Event.close_dst := by
  obtain ⟨post, hpost, _, htr⟩ := ct_restore_fini_spec env hai hcp flags rc src_fd dst_fd w1
  refine ⟨_, _, pre ++ ((if hcp then [Event.action_end hai.hai_extent flags rc.natAbs] else [])
    ++ post), rfl, ?_, ?_⟩
  · rw [htr, hst.htrace]; simp only [List.append_assoc]
  · intro e he
    rcases List.mem_append.mp he with h | h
    · exact Or.inl (hpre e h)
    · rcases List.mem_append.mp h with h | h
      · cases hcp
        · simp at h
        · simp only [if_true, List.mem_singleton] at h
          rw [h]; exact Or.inr (Or.inl trivial)
      · exact Or.inr (Or.inr (hpost e h))

/-- The ways `ct_restore` can go: it ends without copying data, having made
only calls of a handler; or it calls `ct_copy_data` after preliminary calls
that leave the files alone, and when that returns it reports the outcome with
one `action.end` and closes the descriptors. -/
theorem ct_restore_cases (env : Env) (opt : options) (hai : hsm_action_item) (fuel : Nat)
    (w : World) :
    (∃ rc w1 evs, ct_restore env opt hai fuel w = (some rc, w1) ∧ w1.trace = w.trace ++ evs
        ∧ ∀ e ∈ evs, PreEvent e ∨ IsEnd e ∨ e = Event.close_src ∨ e = Event.close_dst)
    ∨ (∃ w0 pre, Steps w w0 pre ∧ (∀ e ∈ pre, PreEvent e)
        ∧ ((∃ w1, ct_copy_data env opt hai fuel w0 = (none, w1)
              ∧ ct_restore env opt hai fuel w = (none, w1))
          ∨ (∃ rc w1 post, ct_copy_data env opt hai fuel w0 = (some rc, w1)
              ∧ (∃ rc1, (ct_restore env opt hai fuel w).1 = some rc1)
              ∧ (ct_restore env opt hai fuel w).2.dst = w1.dst
              ∧ (ct_restore env opt hai fuel w).2.trace
                  = w1.trace ++ Event.action_end hai.hai_extent
                      (if rc < 0 ∧ ct_is_retryable rc = true then HP_FLAG_RETRY else 0)
                      rc.natAbs :: post
              ∧ ∀ e ∈ post, e = Event.close_src ∨ e = Event.close_dst))) := by
  unfold ct_restore
  dsimp only
  have s0 : Steps w (ct_begin env w).2 [Event.action_begin] := ⟨rfl, rfl, rfl, rfl, rfl⟩
  by_cases hb : (ct_begin env w).1 ≠ 0
  · rw [if_pos hb]
    exact Or.inl (ct_restore_nocopy_leaf env hai _ _ _ _ _ w _ _ s0 (by simp [PreEvent]))
  rw [if_neg hb]
  have s1 : Steps w ((ct_begin env w).2.call Event.action_get_dfid)
      ([Event.action_begin] ++ [Event.action_get_dfid]) := s0.strans ⟨rfl, rfl, rfl, rfl, rfl⟩
  by_cases hd : (env (ct_begin env w).2.clock).rc < 0
  · rw [if_pos hd]
    exact Or.inl (ct_restore_nocopy_leaf env hai _ _ _ _ _ w _ _ s1 (by simp [PreEvent]))
  rw [if_neg hd]
  by_cases hdry : opt.o_dry_run ≠ 0
  · rw [if_pos hdry]
    exact Or.inl (ct_restore_nocopy_leaf env hai _ _ _ _ _ w _ _ s1 (by simp [PreEvent]))
  rw [if_neg hdry]
  have s2 := s1.strans (show Steps ((ct_begin env w).2.call Event.action_get_dfid)
      (((ct_begin env w).2.call Event.action_get_dfid).call
        (Event.open_ (ct_path_archive PATH_MAX opt.o_hsm_root hai.hai_fid).1
          [open_flag.O_RDONLY, open_flag.O_NOATIME, open_flag.O_NONBLOCK, open_flag.O_NOFOLLOW]))
      [_] from ⟨rfl, rfl, rfl, rfl, rfl⟩)
  cases ho : (env ((ct_begin env w).2.call Event.action_get_dfid).clock).fail with
  | some e =>
    dsimp only
    exact Or.inl (ct_restore_nocopy_leaf env hai _ _ _ _ _ w _ _
      ⟨s2.hsrc, s2.hdst, s2.hsreg, s2.hdreg, s2.htrace⟩ (by simp [PreEvent]))
  | none =>
    dsimp only
    have s3 := s2.strans (show Steps (((ct_begin env w).2.call Event.action_get_dfid).call
        (Event.open_ (ct_path_archive PATH_MAX opt.o_hsm_root hai.hai_fid).1
          [open_flag.O_RDONLY, open_flag.O_NOATIME, open_flag.O_NONBLOCK, open_flag.O_NOFOLLOW]))
      ((((ct_begin env w).2.call Event.action_get_dfid).call
        (Event.open_ (ct_path_archive PATH_MAX opt.o_hsm_root hai.hai_fid).1
          [open_flag.O_RDONLY, open_flag.O_NOATIME, open_flag.O_NONBLOCK,
            open_flag.O_NOFOLLOW])).call Event.action_get_fd)
      [_] from ⟨rfl, rfl, rfl, rfl, rfl⟩)
    obtain ⟨ev4, s4', hp4⟩ := ct_restore_stripe_spec env
      ((((ct_begin env w).2.call Event.action_get_dfid).call
        (Event.open_ (ct_path_archive PATH_MAX opt.o_hsm_root hai.hai_fid).1
          [open_flag.O_RDONLY, open_flag.O_NOATIME, open_flag.O_NONBLOCK,
            open_flag.O_NOFOLLOW])).call Event.action_get_fd)
      (ct_path_archive PATH_MAX opt.o_hsm_root hai.hai_fid).1
    have s4 := s3.strans s4'
    have hp : ∀ e ∈ [Event.action_begin] ++ [Event.action_get_dfid]
        ++ [Event.open_ (ct_path_archive PATH_MAX opt.o_hsm_root hai.hai_fid).1
          [open_flag.O_RDONLY, open_flag.O_NOATIME, open_flag.O_NONBLOCK, open_flag.O_NOFOLLOW]]
        ++ [Event.action_get_fd] ++ ev4, PreEvent e := by
      intro e he
      rcases List.mem_append.mp he with h | h
      · simp at h
        rcases h with h | h | h | h <;> (rw [h]; trivial)
      · exact hp4 e h
    generalize hw4 : (ct_restore_stripe env
      ((((ct_begin env w).2.call Event.action_get_dfid).call
        (Event.open_ (ct_path_archive PATH_MAX opt.o_hsm_root hai.hai_fid).1
          [open_flag.O_RDONLY, open_flag.O_NOATIME, open_flag.O_NONBLOCK,
            open_flag.O_NOFOLLOW])).call Event.action_get_fd)
      (ct_path_archive PATH_MAX opt.o_hsm_root hai.hai_fid).1) = r4 at s4 ⊢
    by_cases hs : r4.1 ≠ 0
    · rw [if_pos hs]
      exact Or.inl (ct_restore_nocopy_leaf env hai _ _ _ _ _ w _ _
        ⟨s4.hsrc, s4.hdst, s4.hsreg, s4.hdreg, s4.htrace⟩ hp)
    rw [if_neg hs]
    refine Or.inr ⟨r4.2, _, s4, hp, ?_⟩
    generalize ct_copy_data env opt hai fuel r4.2 = rcd
    obtain ⟨orc, w1⟩ := rcd
    cases orc with
    | none => exact Or.inl ⟨w1, rfl, rfl⟩
    | some rc =>
      right
      dsimp only
      by_cases hneg : rc < 0
      · rw [if_pos hneg]
        obtain ⟨post, hpost, hdst, htr⟩ := ct_restore_fini_spec env hai true
          (if ct_is_retryable rc then 0 ||| HP_FLAG_RETRY else 0) rc _ _
          { w1 with err_major := w1.err_major + 1 }
        refine ⟨rc, w1, post, rfl, ⟨_, rfl⟩, hdst, ?_, hpost⟩
        simp only [ret]
        rw [htr]
        by_cases hr : ct_is_retryable rc = true <;> simp [hr, hneg]
      · rw [if_neg hneg]
        obtain ⟨post, hpost, hdst, htr⟩ := ct_restore_fini_spec env hai true 0 rc _ _ w1
        refine ⟨rc, w1, post, rfl, ⟨_, rfl⟩, hdst, ?_, hpost⟩
        simp only [ret]
        rw [htr]
        simp [hneg]

theorem ct_copy_data_out_events (env : Env) (hai : hsm_action_item) (a b : Nat) (rc : Int)
    (w : World) :
    ∃ evs, (ct_copy_data_out env hai a b rc w).2.trace = w.trace ++ evs
      ∧ ∀ e ∈ evs, (∃ len ok, e = Event.ftruncate len ok) ∨ e = Event.fsync := by
  by_cases hr : hai.hai_action = hsm_copytool_action.HSMA_RESTORE ∧ a < b
  · obtain ⟨ok, rest, htr, hrest, _⟩ := ct_copy_data_out_restore env hai a b rc w hr.1 hr.2
    refine ⟨_, htr, ?_⟩
    intro e he
    rcases List.mem_cons.mp he with h | h
    · exact Or.inl ⟨_, _, h⟩
    · rcases hrest with h1 | h1
      · rw [h1] at h; simp at h
      · rw [h1] at h; exact Or.inr (List.mem_singleton.mp h)
  · unfold ct_copy_data_out
    simp only [hr, if_false]
    by_cases h0 : rc = 0
    · subst h0
      simp only [if_true]
      unfold sys_fsync
      split <;> split <;> exact ⟨[Event.fsync], by simp [World.call], by simp⟩
    · simp only [h0, if_false]
      exact ⟨[], by simp, by simp⟩

theorem not_isEnd_of_pre (e : Event) (h : PreEvent e) : ¬ IsEnd e := by
  cases e <;> simp_all [PreEvent, IsEnd]

theorem not_isEnd_of_harmless (e : Event) (h : Harmless e) : ¬ IsEnd e := by
  cases e <;> simp_all [Harmless, IsEnd]

theorem not_isEnd_of_eventOk (src0 : List Nat) (o l : Nat) (e : Event)
    (h : EventOk src0 o l e) : ¬ IsEnd e := by
  cases e <;> simp_all [EventOk, IsEnd]

theorem not_fstat_of_pre (e : Event) (h : PreEvent e) (x : Option Nat) :
    e ≠ Event.fstat_dst x := by
  intro he; rw [he] at h; exact h

theorem not_fstat_of_eventOk (src0 : List Nat) (o l : Nat) (e : Event)
    (h : EventOk src0 o l e) (x : Option Nat) : e ≠ Event.fstat_dst x := by
  intro he; rw [he] at h; exact h

/-- C10. Truncate on restore: in every RESTORE in which both descriptors are
regular files and the destination size `d` observed by `ct_copy_data` (the
size its `fstat` on the destination reports) is greater than the source size,
`ftruncate(dst_fd, <source size>)` is called before the one call of
`action.end` that `ct_restore` makes, and when that truncation succeeds the
destination ends with exactly the size of the source; in an ARCHIVE action
`ct_copy_data` never truncates the destination. -/
theorem truncate_on_restore (env : Env) (opt : options) (hai : hsm_action_item) (fuel : Nat)
    (w : World) :
    (hai.hai_action = hsm_copytool_action.HSMA_RESTORE → w.src_reg = true → w.dst_reg = true →
      ∀ rc evs d, (ct_restore env opt hai fuel w).1 = some rc →
        (ct_restore env opt hai fuel w).2.trace = w.trace ++ evs →
        Event.fstat_dst (some d) ∈ evs → w.src.length < d →
        ∃ t1 ok t2 flags errval t3,
          evs = t1 ++ Event.ftruncate w.src.length ok :: t2
                  ++ Event.action_end hai.hai_extent flags errval :: t3
          ∧ (∀ e ∈ t1 ++ t2, ¬ IsEnd e) ∧ (∀ e ∈ t3, ¬ IsEnd e)
          ∧ (ok = true → (ct_restore env opt hai fuel w).2.dst.length = w.src.length))
    ∧ (hai.hai_action = hsm_copytool_action.HSMA_ARCHIVE →
        ∃ evs, (ct_copy_data env opt hai fuel w).2.trace = w.trace ++ evs
          ∧ ∀ len ok, Event.ftruncate len ok ∉ evs) := by
  constructor
  · intro hres hsr hdr rc evs d hrc htr hobs hlt
    rcases ct_restore_cases env opt hai fuel w with
      ⟨rc1, w1, evs1, h, htr1, hev1⟩ | ⟨w0, pre, st0, hpre, hcopy⟩
    · exfalso
      rw [h] at htr
      have : evs = evs1 := List.append_cancel_left (htr.symm.trans htr1)
      subst this
      rcases hev1 _ hobs with h1 | h1 | h1 | h1
      · exact h1
      · exact h1
      · exact Event.noConfusion h1
      · exact Event.noConfusion h1
    rcases hcopy with ⟨w1, _, h⟩ | ⟨rc0, w1, post, hcd, _, hdst, htr1, hpost⟩
    · rw [h] at hrc; exact Option.noConfusion hrc
    have hpostE : ∀ e ∈ post, ¬ IsEnd e := by
      intro e he
      rcases hpost e he with h | h <;> (rw [h]; exact fun hh => hh)
    have hpostF : ∀ x, Event.fstat_dst x ∉ post := by
      intro x he
      rcases hpost _ he with h | h <;> exact Event.noConfusion h
    rcases ct_copy_data_cases env opt hai fuel w0 with
      ⟨rc2, w2, evs2, h, st2, hh2, hno⟩ | ⟨w2, evs2, st2, hh2, hno, h⟩
      | ⟨w2, pre3, w3, st2, hh2, hd3, hW, _, _, h⟩
    · exfalso
      rw [hcd] at h
      have hw : w1 = w2 := (Prod.mk.inj h).2
      subst hw
      rw [st2.htrace, st0.htrace] at htr1
      rw [htr1] at htr
      simp only [List.append_assoc] at htr
      have he := List.append_cancel_left htr
      rw [← he] at hobs
      simp only [List.mem_append, List.mem_cons] at hobs
      rcases hobs with h1 | h1 | h1 | h1
      · exact not_fstat_of_pre _ (hpre _ h1) _ rfl
      · have := hno d h1
        rw [st0.hdreg, hdr] at this
        exact Bool.noConfusion this
      · exact Event.noConfusion h1
      · exact hpostF _ h1
    · exfalso
      rw [hcd] at h
      obtain ⟨evo, htro, hevo⟩ := ct_copy_data_out_events env hai w0.src.length w2.garbage
        (-w2.errno) w2
      have hw : w1 = (ct_copy_data_out env hai w0.src.length w2.garbage (-w2.errno) w2).2 :=
        (Prod.mk.inj h).2
      rw [hw, htro, st2.htrace, st0.htrace] at htr1
      rw [htr1] at htr
      simp only [List.append_assoc] at htr
      have he := List.append_cancel_left htr
      rw [← he] at hobs
      simp only [List.mem_append, List.mem_cons] at hobs
      rcases hobs with h1 | h1 | h1 | h1 | h1
      · exact not_fstat_of_pre _ (hpre _ h1) _ rfl
      · exact hno d h1
      · rcases hevo _ h1 with ⟨_, _, h2⟩ | h2 <;> exact Event.noConfusion h2
      · exact Event.noConfusion h1
      · exact hpostF _ h1
    · rcases h with h | ⟨rc3, h⟩
      · rw [hcd] at h
        exact Option.noConfusion (Prod.mk.inj h).1
      rw [hcd] at h
      have hw : w1 = (ct_copy_data_out env hai w0.src.length w0.dst.length rc3 w3).2 :=
        (Prod.mk.inj h).2
      obtain ⟨evL, heL, hhL⟩ := hW.htrace
      obtain ⟨evo, htro, hevo⟩ := ct_copy_data_out_events env hai w0.src.length w0.dst.length
        rc3 w3
      have hd : d = w0.dst.length := by
        have htr2 := htr1
        rw [hw, htro, heL, st2.htrace, st0.htrace] at htr2
        rw [htr2] at htr
        simp only [List.append_assoc] at htr
        have he := List.append_cancel_left htr
        rw [← he] at hobs
        simp only [List.mem_append, List.mem_cons] at hobs
        rcases hobs with h1 | h1 | h1 | h1 | h1 | h1
        · exact absurd rfl (not_fstat_of_pre _ (hpre _ h1) _)
        · exact hd3 d h1
        · exact absurd rfl (not_fstat_of_eventOk _ _ _ _ (hhL _ h1) _)
        · rcases hevo _ h1 with ⟨_, _, h2⟩ | h2 <;> exact Event.noConfusion h2
        · exact Event.noConfusion h1
        · exact absurd h1 (hpostF _)
      have hlt' : w0.src.length < w0.dst.length := by rw [st0.hsrc, ← hd]; exact hlt
      obtain ⟨ok, rest, htrr, hrest, hok⟩ :=
        ct_copy_data_out_restore env hai w0.src.length w0.dst.length rc3 w3 hres hlt'
      rw [hw, htrr, heL, st2.htrace, st0.htrace] at htr1
      rw [htr1] at htr
      simp only [List.append_assoc] at htr
      have he := List.append_cancel_left htr
      refine ⟨pre ++ pre3 ++ evL, ok, rest,
        (if rc0 < 0 ∧ ct_is_retryable rc0 = true then HP_FLAG_RETRY else 0), rc0.natAbs, post,
        ?_, ?_, hpostE, ?_⟩
      · rw [← he, st0.hsrc]
        simp only [List.append_assoc, List.cons_append]
      · intro e hmem
        simp only [List.mem_append] at hmem
        rcases hmem with (( h1 | h1) | h1) | h1
        · exact not_isEnd_of_pre e (hpre e h1)
        · exact not_isEnd_of_harmless e (hh2 e h1)
        · exact not_isEnd_of_eventOk _ _ _ e (hhL e h1)
        · rcases hrest with h2 | h2
          · rw [h2] at h1; simp at h1
          · rw [h2] at h1; rw [List.mem_singleton.mp h1]; exact fun hh => hh
      · intro hokt
        rw [hdst, hw, hok hokt, st0.hsrc]
  · intro harch
    have hnr : hai.hai_action ≠ hsm_copytool_action.HSMA_RESTORE := by rw [harch]; decide
    obtain ⟨evs, ht, hev, _, _⟩ := ct_copy_data_no_restore env opt hai fuel w hnr
    exact ⟨evs, ht, fun len ok hm => (hev _ hm).2 len ok rfl⟩

/-! ## Evaluations at concrete inputs -/

theorem join_path_archive_components (root : List Char) (fid : lustre_fid) :
    join_path root (archive_components fid) = ct_path_archive_text root fid := by
  simp only [join_path, archive_components, ct_path_archive_text, List.foldl]

/-- C3 (the code departs from the claim). For the archive under `/a` that
holds exactly the entry of the FID `[0x200000401:0x12345:0x0]`,
`ct_max_sequence` computes and prints `2345000104010000` (built from the two
halves of `f_oid` and the two low slices of `f_seq`, the top four levels of
the layout of `ct_path_archive`), while the maximum `f_seq` is
`0x200000401`. -/
theorem ct_max_sequence_not_max_seq :
    ct_max_sequence (archive_dirfs ['/', 'a'] [⟨0x200000401, 0x12345, 0⟩]) ['/', 'a']
        = Except.ok (0x2345000104010000, "max_sequence: 2345000104010000\n".toList)
      ∧ max_seq [⟨0x200000401, 0x12345, 0⟩] = 0x200000401
      ∧ (0x2345000104010000 : Nat) ≠ 0x200000401 := by
  refine ⟨?_, ?_, ?_⟩
  · rfl
  · decide
  · decide

/-- C8 (the code departs from the claim). The first `read` fails with `EAGAIN`
while the environment would report the descriptor ready and deliver three
bytes to a second `read`: `nonblock_rw` returns `-EAGAIN` after that single
call, without `select` and without a second `read`. -/
theorem nonblock_rw_eagain_no_wait :
    nonblock_rw (fun i => if i = 0 then { fail := some EAGAIN } else { amount := 3 }) {}
        false [] 3 ⟨[7, 8, 9], true, 0, [], true, 0, 0, 0, 0, 0, 0, []⟩
      = (-(EAGAIN : Int), [],
          ⟨[7, 8, 9], true, 0, [], true, 0, (EAGAIN : Int), 1, 0, 0, 0, [Event.read 0 3 []]⟩) := by
  decide

/-- C6 (the code departs from the claim). A RESTORE whose source holds one
byte and whose destination holds two; the initial progress callback returns
`-ECANCELED`. `ct_copy_data` truncates the destination, calls `fsync` and
returns 0, not `-ECANCELED`; `ct_restore` then reports the error value 0 to
`action.end`. -/
theorem ct_copy_data_cancel_lost :
    (ct_copy_data (fun i => if i = 6 then { rc := -(ECANCELED : Int) } else { amount := 1 }) {}
        ⟨0, hsm_copytool_action.HSMA_RESTORE, ⟨1, 2, 0⟩, ⟨1, 2, 0⟩, ⟨0, 2 ^ 64 - 1⟩, 0⟩ 10
        ⟨[1], true, 0, [1, 2], true, 0, 0, 0, 0, 0, 0, []⟩).1 = some 0
      ∧ (ct_restore (fun i => if i = 14 then { rc := -(ECANCELED : Int) } else { amount := 1 }) {}
          ⟨0, hsm_copytool_action.HSMA_RESTORE, ⟨1, 2, 0⟩, ⟨1, 2, 0⟩, ⟨0, 2 ^ 64 - 1⟩, 0⟩ 10
          ⟨[1], true, 0, [1, 2], true, 0, 0, 0, 0, 0, 0, []⟩).2.trace.drop 8
        = [Event.time, Event.malloc ONE_MB, Event.fstat_src (some 1), Event.lseek_src 0,
            Event.fstat_dst (some 2), Event.lseek_dst 0, Event.action_progress ⟨0, 0⟩,
            Event.ftruncate 1 true, Event.fsync,
            Event.action_end ⟨0, 2 ^ 64 - 1⟩ 0 0, Event.close_src, Event.close_dst] := by
  constructor <;> decide

/-- C9 (the code departs from the claim). A RESTORE whose source holds one
byte and whose destination holds two; the first `read` times out (`EAGAIN`)
while nothing has been read. `ct_copy_data` leaves the loop with `-EAGAIN`,
then truncates the destination, calls `fsync` and returns 0, not `-EAGAIN`. -/
theorem ct_copy_data_timeout_lost :
    (fun r : Option Int × World => (r.1, r.2.trace))
      (ct_copy_data (fun i => if i = 7 then { fail := some EAGAIN } else { amount := 1 }) {}
        ⟨0, hsm_copytool_action.HSMA_RESTORE, ⟨1, 2, 0⟩, ⟨1, 2, 0⟩, ⟨0, 2 ^ 64 - 1⟩, 0⟩ 10
        ⟨[1], true, 0, [1, 2], true, 0, 0, 0, 0, 0, 0, []⟩)
      = (some 0,
          [Event.time, Event.malloc ONE_MB, Event.fstat_src (some 1), Event.lseek_src 0,
            Event.fstat_dst (some 2), Event.lseek_dst 0, Event.action_progress ⟨0, 0⟩,
            Event.read 0 1 [], Event.ftruncate 1 true, Event.fsync]) := by
  decide

/-- C7 (the code departs from the claim). A RESTORE into an empty destination
whose first `read` times out (`EAGAIN`): `ct_copy_data` returns the timeout
code `-EAGAIN`, `ct_is_retryable` rejects it, and `ct_restore` calls
`action.end` with the error value `EAGAIN` and without `HP_FLAG_RETRY` in the
flags. -/
theorem ct_restore_timeout_not_retried :
    (ct_copy_data (fun i => if i = 7 then { fail := some EAGAIN } else { amount := 1 }) {}
        ⟨0, hsm_copytool_action.HSMA_RESTORE, ⟨1, 2, 0⟩, ⟨1, 2, 0⟩, ⟨0, 2 ^ 64 - 1⟩, 0⟩ 10
        ⟨[1], true, 0, [], true, 0, 0, 0, 0, 0, 0, []⟩).1 = some (-(EAGAIN : Int))
      ∧ ct_is_retryable (-(EAGAIN : Int)) = false
      ∧ (ct_restore (fun i => if i = 15 then { fail := some EAGAIN } else { amount := 1 }) {}
          ⟨0, hsm_copytool_action.HSMA_RESTORE, ⟨1, 2, 0⟩, ⟨1, 2, 0⟩, ⟨0, 2 ^ 64 - 1⟩, 0⟩ 10
          ⟨[1], true, 0, [], true, 0, 0, 0, 0, 0, 0, []⟩).2.trace.drop 15
        = [Event.read 0 1 [], Event.action_end ⟨0, 2 ^ 64 - 1⟩ 0 EAGAIN,
            Event.close_src, Event.close_dst] := by
  refine ⟨by decide, by decide, by decide⟩

/-- Witness of C5: an ARCHIVE of the extent `{1, 2}` of a source of 4 bytes
into a destination of 5 bytes leaves the byte at position 4 as it was. -/
theorem ct_copy_data_partial_extent_witness :
    (ct_copy_data (fun _ => { amount := 1 }) { o_chunk_size := 2 }
        ⟨0, hsm_copytool_action.HSMA_ARCHIVE, ⟨1, 2, 0⟩, ⟨1, 2, 0⟩, ⟨1, 2⟩, 0⟩ 10
        ⟨[10, 11, 12, 13], true, 0, [9, 9, 9, 9, 9], true, 0, 0, 0, 0, 0, 0, []⟩).2.dst[4]?
      = ([9, 9, 9, 9, 9] : List Nat)[4]? :=
  (ct_copy_data_partial_extent (fun _ => { amount := 1 }) { o_chunk_size := 2 }
      ⟨0, hsm_copytool_action.HSMA_ARCHIVE, ⟨1, 2, 0⟩, ⟨1, 2, 0⟩, ⟨1, 2⟩, 0⟩ 10
      ⟨[10, 11, 12, 13], true, 0, [9, 9, 9, 9, 9], true, 0, 0, 0, 0, 0, 0, []⟩
      rfl (by decide)).elim
    (fun _ h => h.2.2.2 4 (by decide) (Or.inr (by decide)))

/-- Witness of C10: a RESTORE of a source of 1 byte into a destination of 2
bytes truncates the destination to 1 byte before `action.end`. -/
theorem truncate_on_restore_witness :
    ∃ t1 ok t2 flags errval t3,
      (ct_restore (fun _ => { amount := 1 }) {}
          ⟨0, hsm_copytool_action.HSMA_RESTORE, ⟨1, 2, 0⟩, ⟨1, 2, 0⟩, ⟨0, 2 ^ 64 - 1⟩, 0⟩ 10
          ⟨[1], true, 0, [1, 2], true, 0, 0, 0, 0, 0, 0, []⟩).2.trace
        = t1 ++ Event.ftruncate 1 ok :: t2
            ++ Event.action_end ⟨0, 2 ^ 64 - 1⟩ flags errval :: t3
      ∧ (∀ e ∈ t1 ++ t2, ¬ IsEnd e) ∧ (∀ e ∈ t3, ¬ IsEnd e)
      ∧ (ok = true →
          (ct_restore (fun _ => { amount := 1 }) {}
            ⟨0, hsm_copytool_action.HSMA_RESTORE, ⟨1, 2, 0⟩, ⟨1, 2, 0⟩, ⟨0, 2 ^ 64 - 1⟩, 0⟩ 10
            ⟨[1], true, 0, [1, 2], true, 0, 0, 0, 0, 0, 0, []⟩).2.dst.length = 1) :=
  (truncate_on_restore (fun _ => { amount := 1 }) {}
      ⟨0, hsm_copytool_action.HSMA_RESTORE, ⟨1, 2, 0⟩, ⟨1, 2, 0⟩, ⟨0, 2 ^ 64 - 1⟩, 0⟩ 10
      ⟨[1], true, 0, [1, 2], true, 0, 0, 0, 0, 0, 0, []⟩).1 rfl rfl rfl 0
    (ct_restore (fun _ => { amount := 1 }) {}
      ⟨0, hsm_copytool_action.HSMA_RESTORE, ⟨1, 2, 0⟩, ⟨1, 2, 0⟩, ⟨0, 2 ^ 64 - 1⟩, 0⟩ 10
      ⟨[1], true, 0, [1, 2], true, 0, 0, 0, 0, 0, 0, []⟩).2.trace
    2 (by decide) rfl (by decide) (by decide)

/-! ## The copy of a whole file in an environment without faults -/



theorem copy_report_no_fault (env : Env) (opt : options) (he_offset : Nat) (s1 : CopySt)
    (w1 : World) (hnf : NoFault env) :
    ∃ t w2, copy_report env opt he_offset s1 w1
        = IterRes.next { s1 with last_print_time := t, rc := 0 } w2 ∧ Quiet w1 w2 := by
  rcases copy_report_cases env opt he_offset s1 w1 with ⟨rc, w2, i, _, _, hrc, hne⟩ | h
  · exact absurd (hrc.trans (hnf i).2.2) hne
  · exact h

theorem copy_read_after_pos (s : CopySt) (data : List Nat) (w1 : World)
    (h : 1 ≤ data.length) :
    copy_read_after s (data.length : Int) data w1
      = IterRes.next { s with rpos := s.rpos + data.length, bufoff := 0,
                              buf := data ++ s.buf.drop data.length } w1 := by
  unfold copy_read_after
  have h0 : ¬ ((data.length : Int) = 0) := by omega
  have h1 : ¬ ((data.length : Int) = -(EAGAIN : Int) ∧ s.rpos = 0) := by
    simp only [EAGAIN]; omega
  have h2 : ¬ ((data.length : Int) = -(EAGAIN : Int)) := by
    simp only [EAGAIN]; omega
  have h3 : ¬ ((data.length : Int) < 0) := by omega
  rw [if_neg h0, if_neg h1]
  dsimp only
  rw [if_neg h2, if_neg h3]
  simp

theorem copy_write_after_pos (env : Env) (opt : options) (he_offset : Nat) (s : CopySt)
    (n : Nat) (w1 : World) :
    copy_write_after env opt he_offset s (n : Int) w1
      = copy_report env opt he_offset
          { s with wpos := s.wpos + n, bufoff := s.bufoff + n } w1 := by
  unfold copy_write_after
  have h2 : ¬ ((n : Int) = -(EAGAIN : Int)) := by
    simp only [EAGAIN]; omega
  have h3 : ¬ ((n : Int) < 0) := by omega
  dsimp only
  rw [if_neg h2, if_neg h3]
  simp

/-- In an environment without faults, with a chunk size that fits an `int`,
the read of a round of a whole-file copy delivers at least one byte when the
buffer is drained. -/
theorem read_data_pos (env : Env) (w : World) (raw : Nat) (hnf : NoFault env)
    (h1 : 1 ≤ raw) (h2 : raw ≤ 2 ^ 31 - 1) (h3 : w.src_pos < w.src.length) :
    1 ≤ (read_data env w (toSizeT (toInt32 (raw : Int)))).length := by
  have hsz : toSizeT (toInt32 (raw : Int)) = raw := by
    unfold toSizeT toInt32; omega
  have ham := (hnf w.clock).2.1
  rw [hsz, read_data, List.length_take, List.length_drop]
  simp only [MAX_RW_COUNT]
  omega

theorem chunk_bounds (l wpos cs : Nat) (hcs : 1 ≤ cs ∧ cs ≤ 2 ^ 31 - 1) (hlt : wpos < l) :
    (if l - wpos > cs then cs else l - wpos) ≤ l - wpos
    ∧ 1 ≤ (if l - wpos > cs then cs else l - wpos)
    ∧ (if l - wpos > cs then cs else l - wpos) ≤ 2 ^ 31 - 1 := by
  split <;> omega

/-- Without faults a read of a round that finds the buffer drained delivers at
least one byte; a round that finds bytes pending reads nothing. -/
theorem copy_read_next (env : Env) (opt : options) (raw : Nat) (s : CopySt) (w : World)
    (hnf : NoFault env) (h1 : 1 ≤ raw) (h2 : raw ≤ 2 ^ 31 - 1)
    (h3 : s.wpos = s.rpos → w.src_pos < w.src.length) (hle : s.wpos ≤ s.rpos) :
    ∃ s1 w1, copy_read env opt (toInt32 (raw : Int)) s w = IterRes.next s1 w1
      ∧ s1.wpos < s1.rpos ∧ w1.dst = w.dst := by
  unfold copy_read
  by_cases hwr : s.wpos = s.rpos
  · rw [if_pos hwr]
    dsimp only
    rw [nonblock_rw_read_ok env opt [] _ w (hnf _).1]
    dsimp only
    have hd := read_data_pos env w raw hnf h1 h2 (h3 hwr)
    rw [copy_read_after_pos _ _ _ hd]
    refine ⟨_, _, rfl, ?_, rfl⟩
    show s.wpos < s.rpos + _
    omega
  · rw [if_neg hwr]
    exact ⟨_, _, rfl, by omega, rfl⟩

theorem toSizeT_toInt32_small (n : Nat) (h : n ≤ 2147479552) :
    toSizeT (toInt32 (n : Int)) = n := by
  unfold toSizeT toInt32; omega

theorem xfer_pos (g a n : Nat) (hg : 1 ≤ g) (ha : 1 ≤ a) (hn : n = min (min g a) 2147479552) :
    1 ≤ n := by
  omega

/-- Without faults the write of a round with bytes pending puts at least one
byte, and the destination stays the copied part of the source followed by the
rest of its initial content. -/
theorem copy_write_next (env : Env) (opt : options) (src0 dst0 : List Nat)
    (tr0 : List Event) (l he_offset : Nat) (s : CopySt) (w : World) (hnf : NoFault env)
    (hinv : CopyInv src0 dst0 tr0 0 l s w) (hlt : s.wpos < s.rpos)
    (hdst : w.dst = src0.take s.wpos ++ dst0.drop s.wpos) :
    ∃ s2 w2, copy_write env opt he_offset s w = IterRes.next s2 w2
      ∧ CopyInv src0 dst0 tr0 0 l s2 w2 ∧ s.wpos < s2.wpos ∧ s2.rc = 0
      ∧ w2.dst = src0.take s2.wpos ++ dst0.drop s2.wpos := by
  unfold copy_write
  dsimp only
  rw [nonblock_rw_write_ok env opt _ _ w (hnf _).1]
  dsimp only
  obtain ⟨n, hn, hd, hlen, hmin⟩ := write_data_spec env src0 dst0 tr0 0 l s w hinv
  rw [hd, hlen, copy_write_after_pos]
  obtain ⟨t, w2, h2, q⟩ := copy_report_no_fault env opt he_offset
    { s with wpos := s.wpos + n, bufoff := s.bufoff + n }
    { w.call (Event.write w.dst_pos (toSizeT (toInt32 ((s.rpos - s.wpos : Nat) : Int)))
        ((src0.drop (0 + s.wpos)).take n)) with
      dst := writeAt w.dst w.dst_pos ((src0.drop (0 + s.wpos)).take n),
      dst_pos := w.dst_pos + n } hnf
  rw [h2]
  have hgap : s.rpos - s.wpos ≤ 2147479552 := hinv.hgap
  have hbl := hinv.hbuflen
  have hsz := toSizeT_toInt32_small (s.rpos - s.wpos) hgap
  have hn1 : 1 ≤ n := by
    rw [hsz] at hmin
    exact xfer_pos (s.rpos - s.wpos) (env w.clock).amount n (by omega) (hnf w.clock).2.1 hmin
  refine ⟨_, _, rfl, (hinv.after_write _ n hn).keep q rfl rfl rfl rfl, ?_, rfl, ?_⟩
  · show s.wpos < s.wpos + n
    omega
  · rw [q.hdst]
    show writeAt w.dst w.dst_pos ((src0.drop (0 + s.wpos)).take n)
      = src0.take (s.wpos + n) ++ dst0.drop (s.wpos + n)
    rw [hinv.hdpos, hdst, Nat.zero_add]
    apply writeAt_take_drop
    rw [List.length_drop, Nat.zero_add] at hbl
    omega

/-- Without faults, with a chunk size between 1 and `INT_MAX`, a round of the
copy of a whole file moves the write cursor forward. -/
theorem copy_iter_next (env : Env) (opt : options) (src0 dst0 : List Nat)
    (tr0 : List Event) (he_offset : Nat) (s : CopySt) (w : World) (hnf : NoFault env)
    (hcs : 1 ≤ opt.o_chunk_size ∧ opt.o_chunk_size ≤ 2 ^ 31 - 1)
    (hinv : CopyInv src0 dst0 tr0 0 src0.length s w) (hlt : s.wpos < src0.length)
    (hdst : w.dst = src0.take s.wpos ++ dst0.drop s.wpos) :
    ∃ s2 w2, copy_iter env opt src0.length he_offset s w = IterRes.next s2 w2
      ∧ CopyInv src0 dst0 tr0 0 src0.length s2 w2 ∧ s.wpos < s2.wpos ∧ s2.rc = 0
      ∧ w2.dst = src0.take s2.wpos ++ dst0.drop s2.wpos := by
  unfold copy_iter
  dsimp only
  obtain ⟨hb0, hb1, hb2⟩ := chunk_bounds src0.length s.wpos opt.o_chunk_size hcs hlt
  generalize (if src0.length - s.wpos > opt.o_chunk_size then opt.o_chunk_size
      else src0.length - s.wpos) = raw at hb0 hb1 hb2
  have h3 : s.wpos = s.rpos → w.src_pos < w.src.length := by
    intro h
    rw [hinv.hspos, hinv.hw.hsrc]
    omega
  obtain ⟨s1, w1, h1, hlt1, hd1⟩ := copy_read_next env opt raw s w hnf hb1 hb2 h3 hinv.hwr
  rcases copy_read_inv env opt src0 dst0 tr0 0 src0.length raw s w hb0 hinv with
    ⟨rc, w1', h, _⟩ | ⟨s1', w1', h, hI, hwp, _⟩
  · rw [h1] at h
    exact IterRes.noConfusion h
  · rw [h1] at h
    obtain ⟨hs, hw⟩ := IterRes.next.inj h
    subst hs
    subst hw
    rw [h1]
    dsimp only
    have hdst1 : w1.dst = src0.take s1.wpos ++ dst0.drop s1.wpos := by
      rw [hd1, hwp]; exact hdst
    obtain ⟨s2, w2, h2, hI2, hlt2, hrc2, hd2⟩ :=
      copy_write_next env opt src0 dst0 tr0 src0.length he_offset s1 w1 hnf hI hlt1 hdst1
    exact ⟨s2, w2, h2, hI2, by omega, hrc2, hd2⟩

/-- Without faults, with a chunk size between 1 and `INT_MAX`, the loop of the
copy of a whole file ends within `|src0| - wpos` rounds with `rc = 0`, the
destination then being the source followed by what the destination held
beyond the size of the source. -/
theorem copy_loop_no_fault (env : Env) (opt : options) (src0 dst0 : List Nat)
    (tr0 : List Event) (he_offset : Nat) (hnf : NoFault env)
    (hcs : 1 ≤ opt.o_chunk_size ∧ opt.o_chunk_size ≤ 2 ^ 31 - 1) (fuel : Nat) :
    ∀ (s : CopySt) (w : World), CopyInv src0 dst0 tr0 0 src0.length s w → s.rc = 0 →
      w.dst = src0.take s.wpos ++ dst0.drop s.wpos → src0.length - s.wpos < fuel →
      ∃ w2, copy_loop env opt src0.length he_offset fuel s w = (some 0, w2)
        ∧ w2.dst = src0 ++ dst0.drop src0.length ∧ w2.src = src0 := by
  induction fuel with
  | zero => intro s w _ _ _ h; omega
  | succ k ih =>
    intro s w hinv hrc hdst hfuel
    unfold copy_loop
    by_cases hlt : s.wpos < src0.length
    · rw [if_pos hlt]
      obtain ⟨s2, w2, h2, hI2, hlt2, hrc2, hd2⟩ :=
        copy_iter_next env opt src0 dst0 tr0 he_offset s w hnf hcs hinv hlt hdst
      rw [h2]
      exact ih s2 w2 hI2 hrc2 hd2 (by omega)
    · rw [if_neg hlt]
      have h1 := hinv.hwr
      have h2 := hinv.hrl
      have hw : s.wpos = src0.length := by omega
      rw [hw, List.take_length] at hdst
      exact ⟨w, by rw [hrc], hdst, hinv.hw.hsrc⟩

theorem sys_malloc_ok (env : Env) (w : World) (n : Nat) (hf : (env w.clock).fail = none) :
    sys_malloc env w n = (true, w.call (Event.malloc n)) := by
  unfold sys_malloc; rw [hf]

theorem sys_fstat_src_ok (env : Env) (w : World) (hf : (env w.clock).fail = none) :
    sys_fstat_src env w
      = (some (w.src.length, w.src_reg), w.call (Event.fstat_src (some w.src.length))) := by
  unfold sys_fstat_src; rw [hf]

theorem sys_fstat_dst_ok (env : Env) (w : World) (hf : (env w.clock).fail = none) :
    sys_fstat_dst env w
      = (some (w.dst.length, w.dst_reg), w.call (Event.fstat_dst (some w.dst.length))) := by
  unfold sys_fstat_dst; rw [hf]

theorem sys_lseek_src_ok (env : Env) (w : World) (hf : (env w.clock).fail = none) :
    sys_lseek_src env w 0 = (0, { w.call (Event.lseek_src 0) with src_pos := 0 }) := by
  unfold sys_lseek_src; rw [hf, if_neg (by decide)]; rfl

theorem sys_lseek_dst_ok (env : Env) (w : World) (hf : (env w.clock).fail = none) :
    sys_lseek_dst env w 0 = (0, { w.call (Event.lseek_dst 0) with dst_pos := 0 }) := by
  unfold sys_lseek_dst; rw [hf, if_neg (by decide)]; rfl

theorem sys_ftruncate_ok (env : Env) (w : World) (n : Nat) (hf : (env w.clock).fail = none) :
    sys_ftruncate env w n
      = (0, { w.call (Event.ftruncate n true) with
              dst := w.dst.take n ++ List.replicate (n - w.dst.length) 0 }) := by
  unfold sys_ftruncate; rw [hf]

theorem sys_fsync_ok (env : Env) (w : World) (hf : (env w.clock).fail = none) :
    sys_fsync env w = (0, w.call Event.fsync) := by
  unfold sys_fsync; rw [hf]

theorem toInt32_zero_not_neg : ¬ (toInt32 0 < 0) := by decide

theorem call_steps (w : World) (e : Event) :
    Steps w (w.call e) [e] ∧ (w.call e).src_pos = w.src_pos ∧ (w.call e).dst_pos = w.dst_pos :=
  ⟨⟨rfl, rfl, rfl, rfl, rfl⟩, rfl, rfl⟩

/-- Without faults the preliminary calls of `ct_copy_data` for a whole-file
extent between regular files all succeed and the copy loop is entered with
both cursors at 0. -/
theorem ct_copy_data_setup (env : Env) (opt : options) (hai : hsm_action_item) (fuel : Nat)
    (w : World) (hnf : NoFault env) (hoff : hai.hai_extent = ⟨0, 2 ^ 64 - 1⟩)
    (hsr : w.src_reg = true) (hdr : w.dst_reg = true) :
    ∃ t w1, CopyInv w.src w.dst w1.trace 0 w.src.length ⟨0, 0, 0, [], 0, t⟩ w1
      ∧ w1.dst = w.dst
      ∧ ct_copy_data env opt hai fuel w
        = match copy_loop env opt w.src.length 0 fuel ⟨0, 0, 0, [], 0, t⟩ w1 with
          | (none, w2) => (none, w2)
          | (some rc, w2) => ret (ct_copy_data_out env hai w.src.length w.dst.length rc w2) := by
  have hf : ∀ i, (env i).fail = none := fun i => (hnf i).1
  have hr : ∀ i, (env i).rc = 0 := fun i => (hnf i).2.2
  unfold ct_copy_data
  dsimp only
  have s0 := sys_time_steps env w
  generalize (sys_time env w).2 = w0 at s0 ⊢
  generalize (sys_time env w).1 = t
  rw [sys_malloc_ok env w0 _ (hf _)]
  dsimp only
  have s1 := s0.strans (call_steps w0 (Event.malloc opt.o_chunk_size)).1
  generalize w0.call (Event.malloc opt.o_chunk_size) = w1 at s1 ⊢
  rw [if_neg (by decide), sys_fstat_src_ok env w1 (hf _)]
  dsimp only
  have s2 := s1.strans (call_steps w1 (Event.fstat_src (some w1.src.length))).1
  generalize w1.call (Event.fstat_src (some w1.src.length)) = w2 at s2 ⊢
  rw [s1.hsreg, s1.hsrc, hsr, if_neg (by decide), hoff]
  dsimp only
  rw [sys_lseek_src_ok env w2 (hf _)]
  dsimp only
  rw [if_neg toInt32_zero_not_neg]
  have s3 : Steps w { w2.call (Event.lseek_src 0) with src_pos := 0 } _ :=
    s2.strans ⟨rfl, rfl, rfl, rfl, rfl⟩
  have p3 : ({ w2.call (Event.lseek_src 0) with src_pos := 0 } : World).src_pos = 0 := rfl
  generalize ({ w2.call (Event.lseek_src 0) with src_pos := 0 } : World) = w3 at s3 p3 ⊢
  rw [sys_fstat_dst_ok env w3 (hf _)]
  dsimp only
  have s4 := s3.strans (call_steps w3 (Event.fstat_dst (some w3.dst.length))).1
  have p4 : (w3.call (Event.fstat_dst (some w3.dst.length))).src_pos = 0 := p3
  generalize w3.call (Event.fstat_dst (some w3.dst.length)) = w4 at s4 p4 ⊢
  rw [s3.hdreg, s3.hdst, hdr, if_neg (by decide), sys_lseek_dst_ok env w4 (hf _)]
  dsimp only
  rw [if_neg toInt32_zero_not_neg]
  unfold llapi_hsm_action_progress
  dsimp only
  rw [hr, if_neg (by decide), if_pos rfl]
  have s5a : Steps w4 ({ w4.call (Event.lseek_dst 0) with dst_pos := 0 } : World)
      [Event.lseek_dst 0] := ⟨rfl, rfl, rfl, rfl, rfl⟩
  have s5b : Steps ({ w4.call (Event.lseek_dst 0) with dst_pos := 0 } : World)
      ({ ({ w4.call (Event.lseek_dst 0) with dst_pos := 0 } : World).call
        (Event.action_progress ⟨0, 0⟩) with errno := 0 })
      [Event.action_progress ⟨0, 0⟩] := ⟨rfl, rfl, rfl, rfl, rfl⟩
  have s5 := (s4.strans s5a).strans s5b
  have hW := WInv.init s5 0 w.src.length
  exact ⟨t, _, ⟨hW, p4, rfl, le_refl _, Nat.zero_le _, by simp, by simp, Nat.zero_le _⟩,
    s5.hdst, rfl⟩

/-- Without faults the final block of `ct_copy_data`, entered with `rc = 0`
and the destination holding the source followed by what it held beyond the
size of the source, returns 0; a restore cuts the destination to the size of
the source. -/
theorem ct_copy_data_out_no_fault (env : Env) (hai : hsm_action_item) (src0 dst0 : List Nat)
    (w2 : World) (hnf : NoFault env) (hdst : w2.dst = src0 ++ dst0.drop src0.length) :
    (ct_copy_data_out env hai src0.length dst0.length 0 w2).1 = 0
    ∧ (ct_copy_data_out env hai src0.length dst0.length 0 w2).2.src = w2.src
    ∧ (ct_copy_data_out env hai src0.length dst0.length 0 w2).2.dst
        = src0 ++ (if hai.hai_action = hsm_copytool_action.HSMA_RESTORE then []
                   else dst0.drop src0.length) := by
  have hf : ∀ i, (env i).fail = none := fun i => (hnf i).1
  have hn : ¬ ((0 : Int) < 0) := by decide
  unfold ct_copy_data_out
  by_cases hr : hai.hai_action = hsm_copytool_action.HSMA_RESTORE
  · by_cases hlt : src0.length < dst0.length
    · simp only [hr, hlt, and_self, if_true, sys_ftruncate, sys_fsync, hf, hn, if_false]
      refine ⟨trivial, rfl, ?_⟩
      show w2.dst.take src0.length ++ List.replicate (src0.length - w2.dst.length) 0 = _
      rw [hdst]
      simp
    · simp only [hr, hlt, and_false, if_false, if_true, sys_fsync, hf, hn]
      refine ⟨trivial, rfl, ?_⟩
      show w2.dst = _
      rw [hdst, List.drop_eq_nil_of_le (by omega)]
  · simp only [hr, false_and, if_false, if_true, sys_fsync, hf, hn]
    exact ⟨trivial, rfl, hdst⟩

/-- Without faults, with a chunk size between 1 and `INT_MAX` and enough
rounds, `ct_copy_data` for a whole-file extent between regular files returns 0
and leaves the source in the destination: alone after a restore, followed by
what the destination held beyond the size of the source after an archive. -/
theorem ct_copy_data_whole_file (env : Env) (opt : options) (hai : hsm_action_item)
    (fuel : Nat) (w : World) (hnf : NoFault env)
    (hcs : 1 ≤ opt.o_chunk_size ∧ opt.o_chunk_size ≤ 2 ^ 31 - 1)
    (hoff : hai.hai_extent = ⟨0, 2 ^ 64 - 1⟩)
    (hsr : w.src_reg = true) (hdr : w.dst_reg = true) (hfuel : w.src.length < fuel) :
    (ct_copy_data env opt hai fuel w).1 = some 0
    ∧ (ct_copy_data env opt hai fuel w).2.src = w.src
    ∧ (ct_copy_data env opt hai fuel w).2.dst
        = w.src ++ (if hai.hai_action = hsm_copytool_action.HSMA_RESTORE then []
                    else w.dst.drop w.src.length) := by
  obtain ⟨t, w1, hI, hd1, heq⟩ := ct_copy_data_setup env opt hai fuel w hnf hoff hsr hdr
  obtain ⟨w2, hloop, hd2, hs2⟩ := copy_loop_no_fault env opt w.src w.dst w1.trace 0 hnf hcs
    fuel ⟨0, 0, 0, [], 0, t⟩ w1 hI rfl (by rw [hd1]; rfl) (by show w.src.length - 0 < fuel; omega)
  rw [heq, hloop]
  obtain ⟨h1, h2, h3⟩ := ct_copy_data_out_no_fault env hai w.src w.dst w2 hnf hd2
  refine ⟨?_, ?_, ?_⟩
  · show some (ct_copy_data_out env hai w.src.length w.dst.length 0 w2).1 = some 0
    rw [h1]
  · exact h2.trans hs2
  · exact h3

theorem toInt32_two_pow_32 : toInt32 ((2 ^ 32 : Nat) : Int) = 0 := by decide

theorem read_data_zero (env : Env) (w : World) : read_data env w (toSizeT 0) = [] := by
  have h : toSizeT 0 = 0 := by decide
  rw [h, read_data, Nat.zero_min, Nat.zero_min, List.take_zero]

/-- With a chunk size of `2 ^ 32` and more than `2 ^ 32` bytes to copy, the
first round of the loop asks `read` for `(int)2^32 = 0` bytes, takes the 0
returned for the end of the file and leaves the loop with `rc = 0`. -/
theorem copy_loop_chunk_wraps (env : Env) (opt : options) (l he_offset fuel t : Nat)
    (w1 : World) (hf : (env w1.clock).fail = none) (hcs : opt.o_chunk_size = 2 ^ 32)
    (hbig : 2 ^ 32 < l) :
    ∃ w2, copy_loop env opt l he_offset (fuel + 1) ⟨0, 0, 0, [], 0, t⟩ w1 = (some 0, w2)
      ∧ w2.dst = w1.dst ∧ w2.src = w1.src := by
  have hraw : (if l - 0 > 2 ^ 32 then 2 ^ 32 else l - 0) = 2 ^ 32 := if_pos (by omega)
  unfold copy_loop
  dsimp only
  rw [if_pos (by omega)]
  unfold copy_iter
  dsimp only
  rw [hcs, hraw, toInt32_two_pow_32]
  unfold copy_read
  dsimp only
  rw [if_pos rfl, nonblock_rw_read_ok env opt [] 0 w1 hf, read_data_zero]
  exact ⟨_, rfl, rfl, rfl⟩

/-- Without faults, with a chunk size of `2 ^ 32`, `ct_copy_data` for the
whole of a source of more than `2 ^ 32` bytes returns 0 and leaves the
destination as it was. -/
theorem ct_copy_data_chunk_zero (env : Env) (opt : options) (hai : hsm_action_item)
    (fuel : Nat) (w : World) (hnf : NoFault env) (hcs : opt.o_chunk_size = 2 ^ 32)
    (ha : hai.hai_action = hsm_copytool_action.HSMA_ARCHIVE)
    (hoff : hai.hai_extent = ⟨0, 2 ^ 64 - 1⟩)
    (hsr : w.src_reg = true) (hdr : w.dst_reg = true) (hbig : 2 ^ 32 < w.src.length) :
    (ct_copy_data env opt hai (fuel + 1) w).1 = some 0
    ∧ (ct_copy_data env opt hai (fuel + 1) w).2.dst = w.dst
    ∧ (ct_copy_data env opt hai (fuel + 1) w).2.src = w.src := by
  obtain ⟨t, w1, hI, hd1, heq⟩ := ct_copy_data_setup env opt hai (fuel + 1) w hnf hoff hsr hdr
  obtain ⟨w2, hloop, hd2, hs2⟩ := copy_loop_chunk_wraps env opt w.src.length 0 fuel t w1
    (hnf _).1 hcs hbig
  rw [heq, hloop]
  have hnr : hai.hai_action ≠ hsm_copytool_action.HSMA_RESTORE := by
    rw [ha]; exact fun h => hsm_copytool_action.noConfusion h
  have hf : ∀ i, (env i).fail = none := fun i => (hnf i).1
  have hn : ¬ ((0 : Int) < 0) := by decide
  show some (ct_copy_data_out env hai w.src.length w.dst.length 0 w2).1 = some 0
    ∧ (ct_copy_data_out env hai w.src.length w.dst.length 0 w2).2.dst = w.dst
    ∧ (ct_copy_data_out env hai w.src.length w.dst.length 0 w2).2.src = w.src
  unfold ct_copy_data_out
  simp only [hnr, false_and, if_false, if_true, sys_fsync, hf, hn]
  exact ⟨trivial, hd2.trans hd1, hs2.trans hI.hw.hsrc⟩

/-- Round trip of the copy engine for chunk sizes that fit an `int`: in
environments without errors, timeouts or cancellation, whatever the amounts
the reads and writes transfer, `ct_copy_data` for the whole-file extent from a
regular file into a fresh archive file (ARCHIVE) and then from that archive
file into a destination of any content (RESTORE) returns 0 both times, given
more rounds than the source has bytes, and the destination ends as the
source, byte for byte and of the same size. -/
theorem ct_copy_data_round_trip (envA envR : Env) (opt : options)
    (haiA haiR : hsm_action_item) (fuel : Nat) (wA wR : World)
    (hnfA : NoFault envA) (hnfR : NoFault envR)
    (hcs : 1 ≤ opt.o_chunk_size ∧ opt.o_chunk_size ≤ 2 ^ 31 - 1)
    (haA : haiA.hai_action = hsm_copytool_action.HSMA_ARCHIVE)
    (heA : haiA.hai_extent = ⟨0, 2 ^ 64 - 1⟩)
    (haR : haiR.hai_action = hsm_copytool_action.HSMA_RESTORE)
    (heR : haiR.hai_extent = ⟨0, 2 ^ 64 - 1⟩)
    (hsA : wA.src_reg = true) (hdA : wA.dst_reg = true) (hnew : wA.dst = [])
    (hsR : wR.src = (ct_copy_data envA opt haiA fuel wA).2.dst)
    (hsrR : wR.src_reg = true) (hdR : wR.dst_reg = true)
    (hfuel : wA.src.length < fuel) :
    (ct_copy_data envA opt haiA fuel wA).1 = some 0
    ∧ (ct_copy_data envA opt haiA fuel wA).2.dst = wA.src
    ∧ (ct_copy_data envR opt haiR fuel wR).1 = some 0
    ∧ (ct_copy_data envR opt haiR fuel wR).2.dst = wA.src
    ∧ (ct_copy_data envR opt haiR fuel wR).2.dst.length = wA.src.length := by
  obtain ⟨a1, _, a3⟩ :=
    ct_copy_data_whole_file envA opt haiA fuel wA hnfA hcs heA hsA hdA hfuel
  have hne : ¬ (haiA.hai_action = hsm_copytool_action.HSMA_RESTORE) := by
    rw [haA]; exact fun h => hsm_copytool_action.noConfusion h
  rw [if_neg hne, hnew, List.drop_nil, List.append_nil] at a3
  have hsrc : wR.src = wA.src := hsR.trans a3
  obtain ⟨r1, _, r3⟩ :=
    ct_copy_data_whole_file envR opt haiR fuel wR hnfR hcs heR hsrR hdR (by rw [hsrc]; exact hfuel)
  rw [if_pos haR, List.append_nil, hsrc] at r3
  exact ⟨a1, a3, r1, r3, by rw [r3]⟩

/-- The round trip on a source of 3 bytes copied in chunks of 2 bytes by reads
and writes of 1 byte, restored into a destination of 5 bytes. -/
theorem ct_copy_data_round_trip_example :
    (ct_copy_data (fun _ => { amount := 1 }) { o_chunk_size := 2 }
        ⟨0, hsm_copytool_action.HSMA_ARCHIVE, ⟨1, 2, 0⟩, ⟨1, 2, 0⟩, ⟨0, 2 ^ 64 - 1⟩, 0⟩ 4
        ⟨[1, 2, 3], true, 0, [], true, 0, 0, 0, 0, 0, 0, []⟩).1 = some 0
    ∧ (ct_copy_data (fun _ => { amount := 1 }) { o_chunk_size := 2 }
        ⟨0, hsm_copytool_action.HSMA_ARCHIVE, ⟨1, 2, 0⟩, ⟨1, 2, 0⟩, ⟨0, 2 ^ 64 - 1⟩, 0⟩ 4
        ⟨[1, 2, 3], true, 0, [], true, 0, 0, 0, 0, 0, 0, []⟩).2.dst = [1, 2, 3]
    ∧ (ct_copy_data (fun _ => { amount := 1 }) { o_chunk_size := 2 }
        ⟨0, hsm_copytool_action.HSMA_RESTORE, ⟨1, 2, 0⟩, ⟨1, 2, 0⟩, ⟨0, 2 ^ 64 - 1⟩, 0⟩ 4
        ⟨[1, 2, 3], true, 0, [9, 9, 9, 9, 9], true, 0, 0, 0, 0, 0, 0, []⟩).1 = some 0
    ∧ (ct_copy_data (fun _ => { amount := 1 }) { o_chunk_size := 2 }
        ⟨0, hsm_copytool_action.HSMA_RESTORE, ⟨1, 2, 0⟩, ⟨1, 2, 0⟩, ⟨0, 2 ^ 64 - 1⟩, 0⟩ 4
        ⟨[1, 2, 3], true, 0, [9, 9, 9, 9, 9], true, 0, 0, 0, 0, 0, 0, []⟩).2.dst = [1, 2, 3]
    ∧ (ct_copy_data (fun _ => { amount := 1 }) { o_chunk_size := 2 }
        ⟨0, hsm_copytool_action.HSMA_RESTORE, ⟨1, 2, 0⟩, ⟨1, 2, 0⟩, ⟨0, 2 ^ 64 - 1⟩, 0⟩ 4
        ⟨[1, 2, 3], true, 0, [9, 9, 9, 9, 9], true, 0, 0, 0, 0, 0, 0, []⟩).2.dst.length = 3 :=
  ct_copy_data_round_trip (fun _ => { amount := 1 }) (fun _ => { amount := 1 })
    { o_chunk_size := 2 }
    ⟨0, hsm_copytool_action.HSMA_ARCHIVE, ⟨1, 2, 0⟩, ⟨1, 2, 0⟩, ⟨0, 2 ^ 64 - 1⟩, 0⟩
    ⟨0, hsm_copytool_action.HSMA_RESTORE, ⟨1, 2, 0⟩, ⟨1, 2, 0⟩, ⟨0, 2 ^ 64 - 1⟩, 0⟩ 4
    ⟨[1, 2, 3], true, 0, [], true, 0, 0, 0, 0, 0, 0, []⟩
    ⟨[1, 2, 3], true, 0, [9, 9, 9, 9, 9], true, 0, 0, 0, 0, 0, 0, []⟩
    (fun _ => ⟨rfl, (by decide : 1 ≤ 1), rfl⟩) (fun _ => ⟨rfl, (by decide : 1 ≤ 1), rfl⟩)
    (by decide)
    rfl rfl rfl rfl rfl rfl rfl (by decide) rfl rfl (by decide)

/-- C4 (the code departs from the claim). ARCHIVE with the chunk size `2 ^ 32`
(option `-c 4G`) of a regular file of `2 ^ 32 + 1` bytes, whole-file extent,
fresh archive file, no error, timeout or cancellation, every call
transferring all it is asked for: the chunk of the first round is
`(int)2^32 = 0`, the read of 0 bytes returns 0, the loop takes that for the
end of the file, and `ct_copy_data` returns 0 with the archive file still
empty. The RESTORE from that archive file into a destination of two bytes
returns 0 as well and leaves the destination empty, not equal to the file. -/
theorem ct_copy_data_chunk_narrowed (fuel : Nat) :
    (ct_copy_data (fun _ => { amount := 2 ^ 32 }) { o_chunk_size := 2 ^ 32 }
        ⟨0, hsm_copytool_action.HSMA_ARCHIVE, ⟨1, 2, 0⟩, ⟨1, 2, 0⟩, ⟨0, 2 ^ 64 - 1⟩, 0⟩
        (fuel + 1)
        ⟨List.replicate (2 ^ 32 + 1) 0, true, 0, [], true, 0, 0, 0, 0, 0, 0, []⟩).1 = some 0
    ∧ (ct_copy_data (fun _ => { amount := 2 ^ 32 }) { o_chunk_size := 2 ^ 32 }
        ⟨0, hsm_copytool_action.HSMA_ARCHIVE, ⟨1, 2, 0⟩, ⟨1, 2, 0⟩, ⟨0, 2 ^ 64 - 1⟩, 0⟩
        (fuel + 1)
        ⟨List.replicate (2 ^ 32 + 1) 0, true, 0, [], true, 0, 0, 0, 0, 0, 0, []⟩).2.dst = []
    ∧ (ct_copy_data (fun _ => { amount := 2 ^ 32 }) { o_chunk_size := 2 ^ 32 }
        ⟨0, hsm_copytool_action.HSMA_RESTORE, ⟨1, 2, 0⟩, ⟨1, 2, 0⟩, ⟨0, 2 ^ 64 - 1⟩, 0⟩ 1
        ⟨(ct_copy_data (fun _ => { amount := 2 ^ 32 }) { o_chunk_size := 2 ^ 32 }
            ⟨0, hsm_copytool_action.HSMA_ARCHIVE, ⟨1, 2, 0⟩, ⟨1, 2, 0⟩, ⟨0, 2 ^ 64 - 1⟩, 0⟩
            (fuel + 1)
            ⟨List.replicate (2 ^ 32 + 1) 0, true, 0, [], true, 0, 0, 0, 0, 0, 0, []⟩).2.dst,
          true, 0, [9, 9], true, 0, 0, 0, 0, 0, 0, []⟩)
        = (some 0,
            ⟨[], true, 0, [], true, 0, 0, 9, 0, 0, 0,
              [Event.time, Event.malloc (2 ^ 32), Event.fstat_src (some 0), Event.lseek_src 0,
                Event.fstat_dst (some 2), Event.lseek_dst 0, Event.action_progress ⟨0, 0⟩,
                Event.ftruncate 0 true, Event.fsync]⟩)
    ∧ (List.replicate (2 ^ 32 + 1) 0 : List Nat) ≠ [] := by
  have h := ct_copy_data_chunk_zero (fun _ => { amount := 2 ^ 32 }) { o_chunk_size := 2 ^ 32 }
    ⟨0, hsm_copytool_action.HSMA_ARCHIVE, ⟨1, 2, 0⟩, ⟨1, 2, 0⟩, ⟨0, 2 ^ 64 - 1⟩, 0⟩ fuel
    ⟨List.replicate (2 ^ 32 + 1) 0, true, 0, [], true, 0, 0, 0, 0, 0, 0, []⟩
    (fun _ => ⟨rfl, (by decide : 1 ≤ 2 ^ 32), rfl⟩) rfl rfl rfl rfl rfl
    (by
      show 2 ^ 32 < (List.replicate (2 ^ 32 + 1) 0).length
      rw [List.length_replicate]
      exact Nat.lt_succ_self _)
  refine ⟨h.1, h.2.1, ?_, ?_⟩
  · rw [h.2.1]
    decide
  · intro h0
    have h1 := congrArg List.length h0
    rw [List.length_replicate] at h1
    exact absurd h1 (by decide)

/-! ## `ct_mkdir_p` -/

theorem ct_mkdir_p_loop_eq_walk {σ : Type} (S : PathSys σ) (saved : List Char) :
    ∀ (rest : List Char) (k : Nat) (s : σ),
      ct_mkdir_p_loop S saved rest k s = mkdir_walk S (mkdir_prefixes_from saved rest k) s := by
  intro rest
  induction rest with
  | nil => intro k s; rfl
  | cons c rest ih =>
    intro k s
    unfold ct_mkdir_p_loop mkdir_prefixes_from
    by_cases hc : c = '/'
    · rw [if_pos hc, if_pos hc]
      unfold mkdir_walk
      dsimp only
      split
      · rfl
      · exact ih (k + 1) _
    · rw [if_neg hc, if_neg hc]
      exact ih (k + 1) s

theorem mkdir_prefixes_from_eq (saved : List Char) :
    ∀ (rest : List Char) (k : Nat), saved.drop k = rest →
      mkdir_prefixes_from saved rest k
        = ((List.range' k rest.length).filter (fun j => saved[j]? = some '/')).map
            (fun j => saved.take j) := by
  intro rest
  induction rest with
  | nil => intro k _; rfl
  | cons c rest ih =>
    intro k hk
    have hget : saved[k]? = some c := by
      have := congrArg (fun l => l[0]?) hk
      simpa [List.getElem?_drop] using this
    have hdrop : saved.drop (k + 1) = rest := by
      rw [← List.drop_drop, hk]; rfl
    unfold mkdir_prefixes_from
    rw [List.length_cons, List.range'_succ, List.filter_cons, hget, ih (k + 1) hdrop]
    by_cases hc : c = '/'
    · subst hc
      simp
    · rw [if_neg hc]
      have : ¬ (some c = some '/') := fun h => hc (Option.some.inj h)
      simp [this]

theorem mkdir_prefixes_eq_from (path : List Char) :
    mkdir_prefixes path
      = mkdir_prefixes_from path (path.drop (path.takeWhile (fun c => c = '/')).length)
          (path.takeWhile (fun c => c = '/')).length := by
  have hle : (path.takeWhile (fun c => c = '/')).length ≤ path.length :=
    (List.takeWhile_sublist _).length_le
  unfold mkdir_prefixes
  generalize (path.takeWhile (fun c => c = '/')).length = lead at hle
  rw [mkdir_prefixes_from_eq path _ lead rfl, List.length_drop]
  have hsplit : List.range path.length
      = List.range' 0 lead ++ List.range' lead (path.length - lead) := by
    have h := List.range'_append 0 lead (path.length - lead) 1
    simp only [Nat.zero_add, Nat.one_mul] at h
    rw [List.range_eq_range', h]
    congr 1
    omega
  rw [hsplit, List.filter_append]
  have h1 : (List.range' 0 lead).filter
      (fun j => decide (lead ≤ j ∧ path[j]? = some '/')) = [] := by
    rw [List.filter_eq_nil_iff]
    intro j hj
    rw [List.mem_range'_1] at hj
    simp only [decide_eq_true_eq, not_and]
    intro h; omega
  have h2 : (List.range' lead (path.length - lead)).filter
      (fun j => decide (lead ≤ j ∧ path[j]? = some '/'))
      = (List.range' lead (path.length - lead)).filter
          (fun j => decide (path[j]? = some '/')) := by
    apply List.filter_congr
    intro j hj
    rw [List.mem_range'_1] at hj
    simp only [hj.1, true_and]
  rw [h1, h2, List.nil_append]

theorem sys_mkdir_trace (env : Env) (w : World) (p : List Char) :
    (sys_mkdir env w p).2.trace = w.trace ++ [Event.mkdir p]
    ∧ (sys_mkdir env w p).2.clock = w.clock + 1 := by
  unfold sys_mkdir
  split <;> exact ⟨rfl, rfl⟩

theorem sys_mkdir_goes_on (env : Env) (w : World) (p : List Char)
    (h : mkdir_stops (env w.clock) = false) :
    ¬ ((sys_mkdir env w p).1 < 0 ∧ (sys_mkdir env w p).2.errno ≠ (EEXIST : Int)) := by
  unfold sys_mkdir
  unfold mkdir_stops at h
  cases hf : (env w.clock).fail with
  | none => intro hh; exact absurd hh.1 (show ¬ ((0 : Int) < 0) by decide)
  | some e =>
    rw [hf] at h
    have he : e = EEXIST := by simpa using h
    intro hh
    exact hh.2 (show (e : Int) = (EEXIST : Int) by rw [he])

theorem sys_mkdir_gives_up (env : Env) (w : World) (p : List Char) (e : Nat)
    (hf : (env w.clock).fail = some e) (he : e ≠ EEXIST) :
    ((sys_mkdir env w p).1 < 0 ∧ (sys_mkdir env w p).2.errno ≠ (EEXIST : Int))
    ∧ (sys_mkdir env w p).2.errno = (e : Int) := by
  unfold sys_mkdir
  rw [hf]
  refine ⟨⟨show ((-1 : Int) < 0) by decide, ?_⟩, rfl⟩
  show (e : Int) ≠ (EEXIST : Int)
  exact fun h => he (Int.ofNat.inj h)

theorem mkdir_walk_cons (env : Env) (p : List Char) (ps : List (List Char)) (w : World) :
    mkdir_walk (worldSys env) (p :: ps) w
      = if (sys_mkdir env w p).1 < 0 ∧ (sys_mkdir env w p).2.errno ≠ (EEXIST : Int) then
          (-(sys_mkdir env w p).2.errno, (sys_mkdir env w p).2)
        else mkdir_walk (worldSys env) ps (sys_mkdir env w p).2 := rfl

/-- A walk in which no call gives up returns 0 after calling `mkdir` on every
path of the list. -/
theorem mkdir_walk_all (env : Env) :
    ∀ (ps : List (List Char)) (w : World),
      (∀ i, i < ps.length → mkdir_stops (env (w.clock + i)) = false) →
      (mkdir_walk (worldSys env) ps w).1 = 0
      ∧ (mkdir_walk (worldSys env) ps w).2.trace = w.trace ++ ps.map Event.mkdir
      ∧ (mkdir_walk (worldSys env) ps w).2.clock = w.clock + ps.length := by
  intro ps
  induction ps with
  | nil => intro w _; exact ⟨rfl, (List.append_nil _).symm, rfl⟩
  | cons p ps ih =>
    intro w h
    have h0 := sys_mkdir_goes_on env w p (h 0 (Nat.succ_pos _))
    have ht := sys_mkdir_trace env w p
    rw [mkdir_walk_cons, if_neg h0]
    obtain ⟨a, b, c⟩ := ih (sys_mkdir env w p).2 (by
      intro i hi
      rw [ht.2, Nat.add_assoc, Nat.add_comm 1 i]
      exact h (i + 1) (Nat.succ_lt_succ hi))
    refine ⟨a, ?_, ?_⟩
    · rw [b, ht.1, List.map_cons, List.append_assoc]; rfl
    · rw [c, ht.2, List.length_cons]; omega

/-- A walk whose call number `n` is the first to give up, with `errno = e`,
returns `-e` after calling `mkdir` on the first `n + 1` paths of the list. -/
theorem mkdir_walk_stop (env : Env) :
    ∀ (ps : List (List Char)) (w : World) (n e : Nat), n < ps.length →
      (∀ i, i < n → mkdir_stops (env (w.clock + i)) = false) →
      (env (w.clock + n)).fail = some e → e ≠ EEXIST →
      (mkdir_walk (worldSys env) ps w).1 = -(e : Int)
      ∧ (mkdir_walk (worldSys env) ps w).2.trace
          = w.trace ++ (ps.take (n + 1)).map Event.mkdir := by
  intro ps
  induction ps with
  | nil => intro w n e hn; exact absurd hn (Nat.not_lt_zero _)
  | cons p ps ih =>
    intro w n e hn hbefore hf he
    have ht := sys_mkdir_trace env w p
    rw [mkdir_walk_cons]
    cases n with
    | zero =>
      obtain ⟨h1, h2⟩ := sys_mkdir_gives_up env w p e hf he
      rw [if_pos h1]
      refine ⟨?_, ?_⟩
      · show -(sys_mkdir env w p).2.errno = _
        rw [h2]
      · show (sys_mkdir env w p).2.trace = _
        rw [ht.1]; rfl
    | succ n =>
      have h0 := sys_mkdir_goes_on env w p (hbefore 0 (Nat.succ_pos _))
      rw [if_neg h0]
      obtain ⟨a, b⟩ := ih (sys_mkdir env w p).2 n e (Nat.lt_of_succ_lt_succ hn)
        (by
          intro i hi
          rw [ht.2, Nat.add_assoc, Nat.add_comm 1 i]
          exact hbefore (i + 1) (Nat.succ_lt_succ hi))
        (by rw [ht.2, Nat.add_assoc, Nat.add_comm 1 n]; exact hf) he
      refine ⟨a, ?_⟩
      rw [b, ht.1, List.take_succ_cons, List.map_cons, List.append_assoc]; rfl

/-- C20. The function `ct_mkdir_p(path)` calls `mkdir`, in order of increasing length, on
the prefixes of `path` that end just before a `/` occurring after the leading
run of `/` characters. A call that succeeds or fails with `EEXIST` lets the
walk go on: when no call fails otherwise, every such prefix is tried and the
result is 0. The first call that fails with another `errno` `e` ends the walk:
no further prefix is tried and the result is `-e`. -/
theorem ct_mkdir_p_spec (env : Env) (w : World) (path : List Char) :
    ((∀ i, i < (mkdir_prefixes path).length → mkdir_stops (env (w.clock + i)) = false) →
      (ct_mkdir_p (worldSys env) path w).1 = 0
      ∧ (ct_mkdir_p (worldSys env) path w).2.trace
          = w.trace ++ (mkdir_prefixes path).map Event.mkdir)
    ∧ (∀ n e, n < (mkdir_prefixes path).length →
        (∀ i, i < n → mkdir_stops (env (w.clock + i)) = false) →
        (env (w.clock + n)).fail = some e → e ≠ EEXIST →
        (ct_mkdir_p (worldSys env) path w).1 = -(e : Int)
        ∧ (ct_mkdir_p (worldSys env) path w).2.trace
            = w.trace ++ ((mkdir_prefixes path).take (n + 1)).map Event.mkdir) := by
  have heq : ct_mkdir_p (worldSys env) path w
      = mkdir_walk (worldSys env) (mkdir_prefixes path) w := by
    unfold ct_mkdir_p
    rw [mkdir_prefixes_eq_from]
    exact ct_mkdir_p_loop_eq_walk _ _ _ _ _
  rw [heq]
  constructor
  · intro h
    obtain ⟨a, b, _⟩ := mkdir_walk_all env _ w h
    exact ⟨a, b⟩
  · intro n e hn hb hf he
    exact mkdir_walk_stop env _ w n e hn hb hf he

/-- Witness of C20: for `/a/b/c`, the directory `/a` existing already and
`/a/b` being created, the calls are `mkdir("/a")` and `mkdir("/a/b")` and the
result is 0; when the second call fails with `ENOENT` the result is
`-ENOENT`. -/
theorem ct_mkdir_p_spec_witness :
    ((ct_mkdir_p (worldSys (fun i => if i = 0 then { fail := some EEXIST } else {}))
        "/a/b/c".toList ⟨[], true, 0, [], true, 0, 0, 0, 0, 0, 0, []⟩).1 = 0
      ∧ (ct_mkdir_p (worldSys (fun i => if i = 0 then { fail := some EEXIST } else {}))
        "/a/b/c".toList ⟨[], true, 0, [], true, 0, 0, 0, 0, 0, 0, []⟩).2.trace
          = [Event.mkdir "/a".toList, Event.mkdir "/a/b".toList])
    ∧ (ct_mkdir_p (worldSys (fun i => if i = 1 then { fail := some ENOENT } else {}))
        "/a/b/c/d".toList ⟨[], true, 0, [], true, 0, 0, 0, 0, 0, 0, []⟩).1 = -(ENOENT : Int) :=
  ⟨(ct_mkdir_p_spec (fun i => if i = 0 then { fail := some EEXIST } else {})
      ⟨[], true, 0, [], true, 0, 0, 0, 0, 0, 0, []⟩ "/a/b/c".toList).1 (by decide),
   ((ct_mkdir_p_spec (fun i => if i = 1 then { fail := some ENOENT } else {})
      ⟨[], true, 0, [], true, 0, 0, 0, 0, 0, 0, []⟩ "/a/b/c/d".toList).2 1 ENOENT
      (by decide) (by decide) rfl (by decide)).1⟩

/-! ## The rebind mode -/

theorem ct_mkdir_p_eq_walk {σ : Type} (S : PathSys σ) (path : List Char) (s : σ) :
    ct_mkdir_p S path s = mkdir_walk S (mkdir_prefixes path) s := by
  unfold ct_mkdir_p
  rw [mkdir_prefixes_eq_from]
  exact ct_mkdir_p_loop_eq_walk _ _ _ _ _

theorem archfs_mkdir_existing (fs : ArchFS) (q : List Char) (h : fs.isDir q = true) :
    ArchFS.mkdir fs q = (-1, { fs with errno := EEXIST }) := by
  unfold ArchFS.isDir at h
  have h1 : q ≠ [] := by
    intro hq; rw [hq] at h; simp at h
  have h2 : fs.isDirKey (path_key q) = true := by
    rw [Bool.and_eq_true] at h; exact h.2
  unfold ArchFS.mkdir
  rw [if_neg h1, h2, Bool.true_or, if_pos rfl]

/-- A walk over directories that all exist changes nothing but `errno` and
returns 0. -/
theorem mkdir_walk_existing :
    ∀ (ps : List (List Char)) (fs : ArchFS), (∀ q ∈ ps, fs.isDir q = true) →
      (mkdir_walk archSys ps fs).1 = 0
      ∧ (mkdir_walk archSys ps fs).2.dirs = fs.dirs
      ∧ (mkdir_walk archSys ps fs).2.files = fs.files := by
  intro ps
  induction ps with
  | nil => intro fs _; exact ⟨rfl, rfl, rfl⟩
  | cons p ps ih =>
    intro fs h
    have hm := archfs_mkdir_existing fs p (h p (List.mem_cons_self _ _))
    have hstep : mkdir_walk archSys (p :: ps) fs
        = mkdir_walk archSys ps { fs with errno := EEXIST } := by
      show (if (ArchFS.mkdir fs p).1 < 0 ∧ (ArchFS.mkdir fs p).2.errno ≠ (EEXIST : Int) then _
        else mkdir_walk archSys ps (ArchFS.mkdir fs p).2) = _
      rw [hm]
      exact if_neg (fun hh => hh.2 rfl)
    rw [hstep]
    exact ih { fs with errno := EEXIST } (fun q hq => h q (List.mem_cons_of_mem _ hq))

/-- Renaming a path onto itself never changes the directories or the files. -/
theorem archfs_rename_same (fs : ArchFS) (l : List Char) :
    (ArchFS.rename fs l l).2.dirs = fs.dirs ∧ (ArchFS.rename fs l l).2.files = fs.files := by
  unfold ArchFS.rename
  dsimp only
  split
  · exact ⟨rfl, rfl⟩
  · split
    · rw [if_pos rfl]; exact ⟨rfl, rfl⟩
    · split
      · rw [if_pos rfl]; exact ⟨rfl, rfl⟩
      · exact ⟨rfl, rfl⟩

theorem archfs_rename_same_file (fs : ArchFS) (p : List Char) (h : fs.isFile p = true) :
    ArchFS.rename fs p p = (0, fs) := by
  unfold ArchFS.isFile at h
  have h1 : p ≠ [] := by
    intro hq; rw [hq] at h; simp at h
  have h2 : fs.isFileKey (path_key p) = true := by
    rw [Bool.and_eq_true] at h; exact h.2
  unfold ArchFS.rename
  dsimp only
  rw [if_neg (by intro hh; rcases hh with hh | hh <;> exact h1 hh), if_pos h2, if_pos rfl]

theorem archfs_isFile_congr (fs fs1 : ArchFS) (p : List Char) (h : fs1.files = fs.files) :
    fs1.isFile p = fs.isFile p := by
  unfold ArchFS.isFile ArchFS.isFileKey
  rw [h]

/-- The calls of `ct_rebind_one` for equal source and destination paths `p`,
with `.lov` paths `l`, on an archive that holds the file `p` under directories
that exist. -/
theorem rebind_same_calls (fs : ArchFS) (p l : List Char) (hfile : fs.isFile p = true)
    (hdirs : ∀ q ∈ mkdir_prefixes p, fs.isDir q = true) :
    archSys.rename (ct_mkdir_p archSys p fs).2 p p = (0, (ct_mkdir_p archSys p fs).2)
    ∧ (archSys.rename (ct_mkdir_p archSys p fs).2 l l).2.dirs = fs.dirs
    ∧ (archSys.rename (ct_mkdir_p archSys p fs).2 l l).2.files = fs.files := by
  rw [ct_mkdir_p_eq_walk]
  obtain ⟨_, hd, hf⟩ := mkdir_walk_existing _ fs hdirs
  generalize (mkdir_walk archSys (mkdir_prefixes p) fs).2 = fs1 at hd hf
  have hfile1 : fs1.isFile p = true := (archfs_isFile_congr fs fs1 p hf).trans hfile
  obtain ⟨a, b⟩ := archfs_rename_same fs1 l
  exact ⟨archfs_rename_same_file fs1 p hfile1, a.trans hd, b.trans hf⟩

/-- C19. Rebind idempotence: when the archive holds the entry of a FID `f` (the
regular file at its archive path, under directories that exist),
`ct_rebind_one(f, f)` returns 0 and leaves every directory and every file of
the archive, with its content, as it was: nothing is created, renamed or
removed. The data file and, when there is one, its `.lov` file are renamed
onto themselves. -/
theorem ct_rebind_one_same (opt : options) (f : lustre_fid) (fs : ArchFS)
    (hfile : fs.isFile (ct_path_archive PATH_MAX opt.o_hsm_root f).1 = true)
    (hdirs : ∀ q ∈ mkdir_prefixes (ct_path_archive PATH_MAX opt.o_hsm_root f).1,
      fs.isDir q = true) :
    (ct_rebind_one archSys opt f f fs).1 = 0
    ∧ (ct_rebind_one archSys opt f f fs).2.dirs = fs.dirs
    ∧ (ct_rebind_one archSys opt f f fs).2.files = fs.files := by
  unfold ct_rebind_one
  generalize (ct_path_archive PATH_MAX opt.o_hsm_root f).1 = p at hfile hdirs
  dsimp only
  split
  · obtain ⟨hr, a, b⟩ := rebind_same_calls fs p
      (strncat p ".lov".toList (PATH_MAX - p.length - 1)) hfile hdirs
    rw [hr]
    dsimp only
    rw [if_neg (by decide)]
    exact ⟨rfl, a, b⟩
  · exact ⟨rfl, rfl, rfl⟩

/-- Witness of C19: the archive under `/a` that holds the entry of the FID
`[0x1:0x2:0x0]` with three bytes of data and no `.lov` file; rebinding the FID
to itself returns 0 and leaves the file in place. -/
theorem ct_rebind_one_same_witness :
    (ct_rebind_one archSys { o_hsm_root := ['/', 'a'] } ⟨1, 2, 0⟩ ⟨1, 2, 0⟩
        ⟨[[['/'], ['a']], [['/'], ['a'], "0002".toList],
          [['/'], ['a'], "0002".toList, "0000".toList],
          [['/'], ['a'], "0002".toList, "0000".toList, "0001".toList],
          [['/'], ['a'], "0002".toList, "0000".toList, "0001".toList, "0000".toList],
          [['/'], ['a'], "0002".toList, "0000".toList, "0001".toList, "0000".toList,
            "0000".toList],
          [['/'], ['a'], "0002".toList, "0000".toList, "0001".toList, "0000".toList,
            "0000".toList, "0000".toList]],
         [([['/'], ['a'], "0002".toList, "0000".toList, "0001".toList, "0000".toList,
            "0000".toList, "0000".toList, "0x1:0x2:0x0".toList], [7, 8, 9])], 0⟩).1 = 0
    ∧ (ct_rebind_one archSys { o_hsm_root := ['/', 'a'] } ⟨1, 2, 0⟩ ⟨1, 2, 0⟩
        ⟨[[['/'], ['a']], [['/'], ['a'], "0002".toList],
          [['/'], ['a'], "0002".toList, "0000".toList],
          [['/'], ['a'], "0002".toList, "0000".toList, "0001".toList],
          [['/'], ['a'], "0002".toList, "0000".toList, "0001".toList, "0000".toList],
          [['/'], ['a'], "0002".toList, "0000".toList, "0001".toList, "0000".toList,
            "0000".toList],
          [['/'], ['a'], "0002".toList, "0000".toList, "0001".toList, "0000".toList,
            "0000".toList, "0000".toList]],
         [([['/'], ['a'], "0002".toList, "0000".toList, "0001".toList, "0000".toList,
            "0000".toList, "0000".toList, "0x1:0x2:0x0".toList], [7, 8, 9])], 0⟩).2.files
      = [([['/'], ['a'], "0002".toList, "0000".toList, "0001".toList, "0000".toList,
            "0000".toList, "0000".toList, "0x1:0x2:0x0".toList], [7, 8, 9])] :=
  have h := ct_rebind_one_same { o_hsm_root := ['/', 'a'] } ⟨1, 2, 0⟩
    ⟨[[['/'], ['a']], [['/'], ['a'], "0002".toList],
      [['/'], ['a'], "0002".toList, "0000".toList],
      [['/'], ['a'], "0002".toList, "0000".toList, "0001".toList],
      [['/'], ['a'], "0002".toList, "0000".toList, "0001".toList, "0000".toList],
      [['/'], ['a'], "0002".toList, "0000".toList, "0001".toList, "0000".toList,
        "0000".toList],
      [['/'], ['a'], "0002".toList, "0000".toList, "0001".toList, "0000".toList,
        "0000".toList, "0000".toList]],
     [([['/'], ['a'], "0002".toList, "0000".toList, "0001".toList, "0000".toList,
        "0000".toList, "0000".toList, "0x1:0x2:0x0".toList], [7, 8, 9])], 0⟩
    (by decide) (by decide)
  ⟨h.1, h.2.2⟩

/-! ## `main` and `ct_setup` -/

/-- Whatever `ct_setup` returns, `main` goes on to the mode selected and
returns the negated code of that mode. -/
theorem main_ignores_setup (env : Env) (opt : options) (o_action : ct_action) (m : ct_modes)
    (w : World) :
    (main env opt o_action m 0 w).1
      = -(match o_action with
          | ct_action.CA_IMPORT => m.ct_import_recurse (ct_setup env opt w)
          | ct_action.CA_REBIND => m.ct_rebind (ct_setup env opt w)
          | ct_action.CA_MAXSEQ => m.ct_max_sequence (ct_setup env opt w)
          | ct_action.CA_DAEMON => m.ct_daemon (ct_setup env opt w)
          | ct_action.none => (-(EINVAL : Int), (ct_setup env opt w).w)).1 := by
  unfold main
  rw [if_neg (by decide)]

/-- C15 (the code departs from the claim). The tool is started with
`--max-sequence` on the archive `/a` and a mount point `/mnt` whose file
system name cannot be resolved (`llapi_search_fsname` returns `-EINVAL`):
`ct_setup` fails with a non-zero code, yet `main`, which does not look at
that code, runs the mode (the line `max_sequence: ...` is printed) and returns
0, the exit status of a success. -/
theorem main_runs_mode_after_failed_setup :
    (ct_setup (fun i => if i = 1 then { rc := -(EINVAL : Int) } else { amount := 3 })
        { o_hsm_root := ['/', 'a'], o_mnt := "/mnt".toList }
        ⟨[], true, 0, [], true, 0, 0, 0, 0, 0, 0, []⟩).rc = (EINVAL : Int)
    ∧ main (fun i => if i = 1 then { rc := -(EINVAL : Int) } else { amount := 3 })
        { o_hsm_root := ['/', 'a'], o_mnt := "/mnt".toList } ct_action.CA_MAXSEQ
        ⟨fun s => (0, s.w), fun s => (0, s.w),
          ct_max_sequence_mode (archive_dirfs ['/', 'a'] [⟨0x200000401, 0x12345, 0⟩])
            { o_hsm_root := ['/', 'a'], o_mnt := "/mnt".toList },
          fun s => (0, s.w)⟩ 0
        ⟨[], true, 0, [], true, 0, 0, 0, 0, 0, 0, []⟩
      = (0, ⟨[], true, 0, [], true, 0, 0, 4, 0, 0, 0,
          [Event.open_dir ['/', 'a'], Event.search_fsname "/mnt".toList,
            Event.printf "max_sequence: 2345000104010000\n".toList, Event.close_arc]⟩) := by
  constructor
  · decide
  · decide

/-! ## The dispatch loop -/

theorem Adds.same (P : Event → Prop) (w : World) : Adds P w w :=
  ⟨[], (List.append_nil _).symm, fun _ h => absurd h (List.not_mem_nil _)⟩

theorem Adds.of_trace_eq {P : Event → Prop} {w w1 : World} (h : w1.trace = w.trace) :
    Adds P w w1 :=
  ⟨[], by rw [h, List.append_nil], fun _ h => absurd h (List.not_mem_nil _)⟩

theorem Adds.andThen {P : Event → Prop} {w w1 w2 : World} (h1 : Adds P w w1)
    (h2 : Adds P w1 w2) : Adds P w w2 := by
  obtain ⟨e1, t1, p1⟩ := h1
  obtain ⟨e2, t2, p2⟩ := h2
  refine ⟨e1 ++ e2, by rw [t2, t1, List.append_assoc], ?_⟩
  intro e he
  rcases List.mem_append.mp he with h | h
  · exact p1 e h
  · exact p2 e h

theorem Adds.one {P : Event → Prop} (w : World) (e : Event) (h : P e) :
    Adds P w (w.call e) :=
  ⟨[e], rfl, fun x hx => by rw [List.mem_singleton.mp hx]; exact h⟩

theorem Adds.weaken {P Q : Event → Prop} {w w1 : World} (h : Adds P w w1)
    (hpq : ∀ e, P e → Q e) : Adds Q w w1 := by
  obtain ⟨evs, t, p⟩ := h
  exact ⟨evs, t, fun e he => hpq e (p e he)⟩

theorem adds_sys_malloc (P : Event → Prop) (env : Env) (w : World) (n : Nat)
    (h : P (Event.malloc n)) : Adds P w (sys_malloc env w n).2 := by
  unfold sys_malloc
  split
  · exact ⟨[Event.malloc n], rfl, fun x hx => by rw [List.mem_singleton.mp hx]; exact h⟩
  · exact Adds.one w _ h

theorem ct_process_item_async_adds (env : Env) (off : Nat) (hai : hsm_action_item) (w : World) :
    Adds AsyncEvent w (ct_process_item_async env off hai w).2
    ∧ (ct_process_item_async env off hai w).2.err_major = w.err_major := by
  unfold ct_process_item_async
  dsimp only
  have a1 := adds_sys_malloc AsyncEvent env w 16 trivial
  have e1 : (sys_malloc env w 16).2.err_major = w.err_major := by
    unfold sys_malloc; split <;> rfl
  split
  · exact ⟨a1, e1⟩
  · have a2 := a1.andThen (adds_sys_malloc AsyncEvent env (sys_malloc env w 16).2 hai.hai_len
      trivial)
    have e2 : (sys_malloc env (sys_malloc env w 16).2 hai.hai_len).2.err_major
        = w.err_major := by
      rw [← e1]; unfold sys_malloc; split <;> rfl
    split
    · exact ⟨a2, e2⟩
    · have a3 := (a2.andThen (Adds.one _ (Event.memcpy_item off hai.hai_len) trivial)).andThen
        (Adds.one _ Event.pthread_attr_init trivial)
      split
      · exact ⟨a3, e2⟩
      · exact ⟨a3.andThen (Adds.one _ (Event.pthread_create hai.hai_len hai.hai_cookie)
          trivial), e2⟩

theorem dispatch_items_adds (env : Env) (opt : options) (hal : hsm_action_list)
    (msgsize : Int) :
    ∀ (n off : Nat) (rc : Int) (w : World),
      Adds AsyncEvent w (dispatch_items env opt hal msgsize n off rc w).2 := by
  intro n
  induction n with
  | zero => intro off rc w; exact Adds.same _ _
  | succ n ih =>
    intro off rc w
    unfold dispatch_items
    split
    · exact Adds.of_trace_eq rfl
    · dsimp only
      have a := (ct_process_item_async_adds env off (hal.item_at off) w).1
      split
      · exact a
      · exact a.andThen (ih _ _ _)

theorem asyncEvent_daemonEvent (e : Event) (h : AsyncEvent e) : DaemonEvent e := by
  cases e <;> first | exact h | trivial

/-- How a round of the dispatch loop leaves the state: the world when the
round is over. -/
theorem daemon_round_adds (env : Env) (opt : options) (fs_name : List Char) (r : recv_res)
    (w : World) :
    ∀ rc w1, (daemon_round env opt fs_name r w = round_res.again rc w1
        ∨ daemon_round env opt fs_name r w = round_res.leave rc w1) →
      Adds DaemonEvent w w1 := by
  intro rc w1 h
  have a0 : Adds DaemonEvent w (w.call Event.copytool_recv) := Adds.one w _ trivial
  have a1 : Adds DaemonEvent w
      { w.call Event.copytool_recv with err_major := (w.call Event.copytool_recv).err_major + 1 } :=
    a0.andThen (Adds.of_trace_eq rfl)
  have key : ∀ (c : Prop) [Decidable c] (rc0 : Int) (w0 : World), Adds DaemonEvent w w0 →
      ((if c then round_res.leave rc0 w0 else round_res.again rc0 w0) = round_res.again rc w1
        ∨ (if c then round_res.leave rc0 w0 else round_res.again rc0 w0) = round_res.leave rc w1) →
      Adds DaemonEvent w w1 := by
    intro c _ rc0 w0 ha hh
    by_cases hc : c
    · rw [if_pos hc] at hh
      rcases hh with hh | hh
      · exact round_res.noConfusion hh
      · rw [← (round_res.leave.inj hh).2]; exact ha
    · rw [if_neg hc] at hh
      rcases hh with hh | hh
      · rw [← (round_res.again.inj hh).2]; exact ha
      · exact round_res.noConfusion hh
  unfold daemon_round at h
  dsimp only at h
  split at h
  · rcases h with h | h
    · exact round_res.noConfusion h
    · rw [← (round_res.leave.inj h).2]; exact a0
  · split at h
    · rcases h with h | h
      · rw [← (round_res.again.inj h).2]; exact a0
      · exact round_res.noConfusion h
    · split at h
      · exact key _ _ _ a1 h
      · split at h
        · exact key _ _ _ a1 h
        · refine key _ _ _ ?_ h
          exact (a0.andThen ((dispatch_items_adds env opt r.hal r.msgsize _ _ _ _).weaken
            asyncEvent_daemonEvent)).andThen (Adds.one _ Event.list_free trivial)

theorem daemonEvent_not_unregister (e : Event) (h : DaemonEvent e) :
    e ≠ Event.copytool_unregister := by
  intro he
  rw [he] at h
  exact h

/-- The loop calls `llapi_hsm_copytool_unregister` exactly once when it ends,
as its last call, and not at all while it goes on. -/
theorem daemon_loop_unregister (env : Env) (opt : options) (fs_name : List Char) :
    ∀ (recvs : List recv_res) (rc0 : Int) (w : World),
      (∀ rc w1, daemon_loop env opt fs_name recvs rc0 w = (some rc, w1) →
        ∃ evs, w1.trace = w.trace ++ evs ++ [Event.copytool_unregister]
          ∧ Event.copytool_unregister ∉ evs)
      ∧ (∀ w1, daemon_loop env opt fs_name recvs rc0 w = (none, w1) →
        ∃ evs, w1.trace = w.trace ++ evs ∧ Event.copytool_unregister ∉ evs) := by
  intro recvs
  induction recvs with
  | nil =>
    intro rc0 w
    constructor
    · intro rc w1 h
      exact Option.noConfusion (Prod.mk.inj h).1
    · intro w1 h
      refine ⟨[], ?_, List.not_mem_nil _⟩
      rw [← (Prod.mk.inj h).2, List.append_nil]
  | cons r rest ih =>
    intro rc0 w
    unfold daemon_loop
    cases hr : daemon_round env opt fs_name r w with
    | again rc1 w1 =>
      obtain ⟨evs1, t1, p1⟩ := daemon_round_adds env opt fs_name r w rc1 w1 (Or.inl hr)
      have hn1 : Event.copytool_unregister ∉ evs1 :=
        fun hm => daemonEvent_not_unregister _ (p1 _ hm) rfl
      dsimp only
      constructor
      · intro rc w2 h
        obtain ⟨evs, t, p⟩ := (ih rc1 w1).1 rc w2 h
        refine ⟨evs1 ++ evs, by rw [t, t1]; simp only [List.append_assoc], ?_⟩
        intro hm
        rcases List.mem_append.mp hm with hm | hm
        · exact hn1 hm
        · exact p hm
      · intro w2 h
        obtain ⟨evs, t, p⟩ := (ih rc1 w1).2 w2 h
        refine ⟨evs1 ++ evs, by rw [t, t1]; simp only [List.append_assoc], ?_⟩
        intro hm
        rcases List.mem_append.mp hm with hm | hm
        · exact hn1 hm
        · exact p hm
    | leave rc1 w1 =>
      obtain ⟨evs1, t1, p1⟩ := daemon_round_adds env opt fs_name r w rc1 w1 (Or.inr hr)
      have hn1 : Event.copytool_unregister ∉ evs1 :=
        fun hm => daemonEvent_not_unregister _ (p1 _ hm) rfl
      dsimp only
      constructor
      · intro rc w2 h
        refine ⟨evs1, ?_, hn1⟩
        rw [← (Prod.mk.inj h).2]
        show w1.trace ++ [Event.copytool_unregister] = _
        rw [t1]
      · intro w2 h
        exact Option.noConfusion (Prod.mk.inj h).1

theorem daemon_round_shutdown (env : Env) (opt : options) (fs_name : List Char) (r : recv_res)
    (w : World) (h : r.rc = -(ESHUTDOWN : Int)) :
    daemon_round env opt fs_name r w = round_res.leave r.rc (w.call Event.copytool_recv) := by
  unfold daemon_round
  dsimp only
  rw [if_pos h]

theorem daemon_round_retry (env : Env) (opt : options) (fs_name : List Char) (r : recv_res)
    (w : World) (h : r.rc = -(EAGAIN : Int)) :
    daemon_round env opt fs_name r w = round_res.again r.rc (w.call Event.copytool_recv) := by
  have hne : r.rc ≠ -(ESHUTDOWN : Int) := by rw [h]; decide
  unfold daemon_round
  dsimp only
  rw [if_neg hne, if_pos h]

theorem daemon_round_error (env : Env) (opt : options) (fs_name : List Char) (r : recv_res)
    (w : World)
    (h : (r.rc < 0 ∧ r.rc ≠ -(ESHUTDOWN : Int) ∧ r.rc ≠ -(EAGAIN : Int))
      ∨ (0 ≤ r.rc ∧ r.hal.hal_fsname ≠ fs_name)) :
    daemon_round env opt fs_name r w
      = if opt.o_abort_on_error ≠ 0 then
          round_res.leave r.rc
            { w.call Event.copytool_recv with err_major := w.err_major + 1 }
        else
          round_res.again r.rc
            { w.call Event.copytool_recv with err_major := w.err_major + 1 } := by
  unfold daemon_round
  dsimp only
  rcases h with ⟨h1, h2, h3⟩ | ⟨h1, h2⟩
  · rw [if_neg h2, if_neg h3, if_pos h1]
    rfl
  · have h3 : r.rc ≠ -(ESHUTDOWN : Int) := by
      intro h; rw [h] at h1; exact absurd h1 (by decide)
    have h4 : r.rc ≠ -(EAGAIN : Int) := by
      intro h; rw [h] at h1; exact absurd h1 (by decide)
    rw [if_neg h3, if_neg h4, if_neg (not_lt.mpr h1), if_pos h2]
    rfl

theorem daemon_loop_cons (env : Env) (opt : options) (fs_name : List Char) (r : recv_res)
    (rest : List recv_res) (rc0 : Int) (w : World) :
    daemon_loop env opt fs_name (r :: rest) rc0 w
      = match daemon_round env opt fs_name r w with
        | round_res.again rc w1 => daemon_loop env opt fs_name rest rc w1
        | round_res.leave rc w1 => (some rc, w1.call Event.copytool_unregister) := rfl

/-- A result `-ESHUTDOWN` among those still to come makes the loop end. -/
theorem daemon_loop_ends (env : Env) (opt : options) (fs_name : List Char) :
    ∀ (recvs : List recv_res) (rc0 : Int) (w : World),
      (∃ r ∈ recvs, r.rc = -(ESHUTDOWN : Int)) →
      ∃ rc w1, daemon_loop env opt fs_name recvs rc0 w = (some rc, w1) := by
  intro recvs
  induction recvs with
  | nil =>
    intro rc0 w h
    obtain ⟨r, hr, _⟩ := h
    exact absurd hr (List.not_mem_nil _)
  | cons r rest ih =>
    intro rc0 w h
    rw [daemon_loop_cons]
    cases hr : daemon_round env opt fs_name r w with
    | leave rc1 w1 => exact ⟨_, _, rfl⟩
    | again rc1 w1 =>
      obtain ⟨x, hx, hs⟩ := h
      rcases List.mem_cons.mp hx with hx | hx
      · rw [hx] at hs
        rw [daemon_round_shutdown env opt fs_name r w hs] at hr
        exact round_res.noConfusion hr
      · exact ih rc1 w1 ⟨x, hx, hs⟩

/-- C17. The reaction of the dispatch loop of `ct_daemon` to the result `r` of
`llapi_hsm_copytool_recv`, `rest` being the results still to come. `-ESHUTDOWN`
ends the loop: nothing more is received, `err_major` is as it was and the
loop returns after the call of `llapi_hsm_copytool_unregister`. `-EAGAIN`
dispatches nothing, changes no counter and the loop goes on with the next
result. Any other negative result, and a list whose `hal_fsname` differs from
the configured name, dispatch nothing and raise `err_major` by one; the loop
then ends, with the call of `llapi_hsm_copytool_unregister`, exactly when
`o_abort_on_error` is set, and goes on with the next result otherwise.
Whenever the loop ends `llapi_hsm_copytool_unregister` is called exactly once,
as the last call, and it is not called as long as the loop goes on; the loop
does end when a result `-ESHUTDOWN` is among those to come, and it is still
waiting when the results are used up. -/
theorem ct_daemon_reactions (env : Env) (opt : options) (fs_name : List Char) :
    (∀ r rest rc0 w, r.rc = -(ESHUTDOWN : Int) →
      daemon_round env opt fs_name r w = round_res.leave r.rc (w.call Event.copytool_recv)
      ∧ daemon_loop env opt fs_name (r :: rest) rc0 w
        = (some r.rc, (w.call Event.copytool_recv).call Event.copytool_unregister)
      ∧ (daemon_loop env opt fs_name (r :: rest) rc0 w).2.err_major = w.err_major)
    ∧ (∀ r rest rc0 w, r.rc = -(EAGAIN : Int) →
      daemon_round env opt fs_name r w = round_res.again r.rc (w.call Event.copytool_recv)
      ∧ daemon_loop env opt fs_name (r :: rest) rc0 w
        = daemon_loop env opt fs_name rest r.rc (w.call Event.copytool_recv))
    ∧ (∀ r rest rc0 w, (r.rc < 0 ∧ r.rc ≠ -(ESHUTDOWN : Int) ∧ r.rc ≠ -(EAGAIN : Int))
          ∨ (0 ≤ r.rc ∧ r.hal.hal_fsname ≠ fs_name) →
      daemon_round env opt fs_name r w
        = (if opt.o_abort_on_error ≠ 0 then
            round_res.leave r.rc
              { w.call Event.copytool_recv with err_major := w.err_major + 1 }
          else
            round_res.again r.rc
              { w.call Event.copytool_recv with err_major := w.err_major + 1 })
      ∧ daemon_loop env opt fs_name (r :: rest) rc0 w
        = (if opt.o_abort_on_error ≠ 0 then
            (some r.rc,
              ({ w.call Event.copytool_recv with err_major := w.err_major + 1 } : World).call
                Event.copytool_unregister)
          else
            daemon_loop env opt fs_name rest r.rc
              { w.call Event.copytool_recv with err_major := w.err_major + 1 }))
    ∧ (∀ recvs rc0 w,
        (∀ rc w1, daemon_loop env opt fs_name recvs rc0 w = (some rc, w1) →
          ∃ evs, w1.trace = w.trace ++ evs ++ [Event.copytool_unregister]
            ∧ Event.copytool_unregister ∉ evs)
        ∧ (∀ w1, daemon_loop env opt fs_name recvs rc0 w = (none, w1) →
          ∃ evs, w1.trace = w.trace ++ evs ∧ Event.copytool_unregister ∉ evs))
    ∧ (∀ recvs rc0 w, (∃ r ∈ recvs, r.rc = -(ESHUTDOWN : Int)) →
        ∃ rc w1, daemon_loop env opt fs_name recvs rc0 w = (some rc, w1))
    ∧ (∀ rc0 w, daemon_loop env opt fs_name [] rc0 w = (none, w)) := by
  refine ⟨?_, ?_, ?_, daemon_loop_unregister env opt fs_name,
    daemon_loop_ends env opt fs_name, fun _ _ => rfl⟩
  · intro r rest rc0 w h
    have hr := daemon_round_shutdown env opt fs_name r w h
    have hl : daemon_loop env opt fs_name (r :: rest) rc0 w
        = (some r.rc, (w.call Event.copytool_recv).call Event.copytool_unregister) := by
      rw [daemon_loop_cons, hr]
    exact ⟨hr, hl, by rw [hl]; rfl⟩
  · intro r rest rc0 w h
    have hr := daemon_round_retry env opt fs_name r w h
    refine ⟨hr, ?_⟩
    rw [daemon_loop_cons, hr]
  · intro r rest rc0 w h
    have hr := daemon_round_error env opt fs_name r w h
    refine ⟨hr, ?_⟩
    rw [daemon_loop_cons, hr]
    by_cases ha : opt.o_abort_on_error ≠ 0
    · rw [if_pos ha, if_pos ha]
    · rw [if_neg ha, if_neg ha]

/-- Witness of C17: with `o_abort_on_error` set, a receive that gives `-EAGAIN`
followed by one that fails with `-EINVAL` ends the loop after the second
result, with `err_major` raised by one and `llapi_hsm_copytool_unregister` as the
last call; the third result is not received. -/
theorem ct_daemon_reactions_witness :
    daemon_loop (fun _ => {}) { o_abort_on_error := 1 } "lustre".toList
        [⟨-(EAGAIN : Int), ⟨[], 0, 0, 0, fun _ => ⟨0, hsm_copytool_action.HSMA_ARCHIVE,
            ⟨0, 0, 0⟩, ⟨0, 0, 0⟩, ⟨0, 0⟩, 0⟩⟩, 0⟩,
         ⟨-(EINVAL : Int), ⟨[], 0, 0, 0, fun _ => ⟨0, hsm_copytool_action.HSMA_ARCHIVE,
            ⟨0, 0, 0⟩, ⟨0, 0, 0⟩, ⟨0, 0⟩, 0⟩⟩, 0⟩,
         ⟨-(ESHUTDOWN : Int), ⟨[], 0, 0, 0, fun _ => ⟨0, hsm_copytool_action.HSMA_ARCHIVE,
            ⟨0, 0, 0⟩, ⟨0, 0, 0⟩, ⟨0, 0⟩, 0⟩⟩, 0⟩]
        0 ⟨[], true, 0, [], true, 0, 0, 0, 0, 0, 0, []⟩
      = (some (-(EINVAL : Int)),
          ⟨[], true, 0, [], true, 0, 0, 3, 1, 0, 0,
            [Event.copytool_recv, Event.copytool_recv, Event.copytool_unregister]⟩) :=
  (((ct_daemon_reactions (fun _ => {}) { o_abort_on_error := 1 } "lustre".toList).2.1
      ⟨-(EAGAIN : Int), ⟨[], 0, 0, 0, fun _ => ⟨0, hsm_copytool_action.HSMA_ARCHIVE,
        ⟨0, 0, 0⟩, ⟨0, 0, 0⟩, ⟨0, 0⟩, 0⟩⟩, 0⟩
      [⟨-(EINVAL : Int), ⟨[], 0, 0, 0, fun _ => ⟨0, hsm_copytool_action.HSMA_ARCHIVE,
          ⟨0, 0, 0⟩, ⟨0, 0, 0⟩, ⟨0, 0⟩, 0⟩⟩, 0⟩,
       ⟨-(ESHUTDOWN : Int), ⟨[], 0, 0, 0, fun _ => ⟨0, hsm_copytool_action.HSMA_ARCHIVE,
          ⟨0, 0, 0⟩, ⟨0, 0, 0⟩, ⟨0, 0⟩, 0⟩⟩, 0⟩]
      0 ⟨[], true, 0, [], true, 0, 0, 0, 0, 0, 0, []⟩ rfl).2).trans
    ((((ct_daemon_reactions (fun _ => {}) { o_abort_on_error := 1 } "lustre".toList).2.2.1
      ⟨-(EINVAL : Int), ⟨[], 0, 0, 0, fun _ => ⟨0, hsm_copytool_action.HSMA_ARCHIVE,
        ⟨0, 0, 0⟩, ⟨0, 0, 0⟩, ⟨0, 0⟩, 0⟩⟩, 0⟩
      [⟨-(ESHUTDOWN : Int), ⟨[], 0, 0, 0, fun _ => ⟨0, hsm_copytool_action.HSMA_ARCHIVE,
          ⟨0, 0, 0⟩, ⟨0, 0, 0⟩, ⟨0, 0⟩, 0⟩⟩, 0⟩]
      (-(EAGAIN : Int)) ⟨[], true, 0, [], true, 0, 0, 1, 0, 0, 0, [Event.copytool_recv]⟩
      (Or.inl ⟨by decide, by decide, by decide⟩)).2).trans (by decide))

/-- C16 (the code departs from the claim). A list of one item is received in a
message of 40 bytes; the item starts 32 bytes into the list and its `hai_len`
is 72, so it ends 64 bytes past the message. The loop compares only the start
of the item with `msgsize`, hands the item to `ct_process_item_async`, which
copies its 72 bytes, and neither raises `err_major` nor sets `-EPROTO`. -/
theorem dispatch_item_past_message :
    daemon_round (fun _ => {}) {} "lustre".toList
        ⟨0, ⟨"lustre".toList, 0, 1, 32, fun _ => ⟨72, hsm_copytool_action.HSMA_ARCHIVE,
          ⟨1, 2, 0⟩, ⟨1, 2, 0⟩, ⟨0, 2 ^ 64 - 1⟩, 5⟩⟩, 40⟩
        ⟨[], true, 0, [], true, 0, 0, 0, 0, 0, 0, []⟩
      = round_res.again 0
          ⟨[], true, 0, [], true, 0, 0, 7, 0, 0, 0,
            [Event.copytool_recv, Event.malloc 16, Event.malloc 72, Event.memcpy_item 32 72,
              Event.pthread_attr_init, Event.pthread_create 72 5, Event.list_free]⟩
    ∧ (40 : Int) < 32 + 72 := by
  constructor <;> decide

/-! ## The archive handler: the shadow link and the soft failures -/

/-- C14 (the code departs from the claim). A whole-file ARCHIVE of the FID
`[0x1:0x2:0x0]` under the root `/a` with the shadow tree enabled, every call
succeeding, `llapi_fid2path` answering `f`: the shadow path is `/a/shadow/f`
and the desired target is `../0002/0000/0001/0000/0000/0000/0x1:0x2:0x0`.
When `readlink` reports the current target `..`, a proper prefix of the
desired one, `strncmp(buf, dst, sz)` compares two characters only and finds
them equal: after `readlink` the handler only closes its descriptors and
calls `action.end`, it neither unlinks the symlink nor creates one. When
`readlink` reports the current target `x`, the same run unlinks the symlink
and creates the one with the desired target. -/
theorem ct_archive_keeps_shorter_symlink :
    ((ct_archive
        (fun n => if n = 27 then { text := "..".toList } else { amount := 1, text := "f".toList })
        { o_hsm_root := "/a".toList, o_mnt := "/m".toList, o_copy_attrs := 0, o_copy_xattrs := 0 }
        ⟨0, hsm_copytool_action.HSMA_ARCHIVE, ⟨1, 2, 0⟩, ⟨1, 2, 0⟩, ⟨0, 2 ^ 64 - 1⟩, 0⟩
          ".lustre".toList [] 5
        ⟨[], true, 0, [], true, 0, 0, 0, 0, 0, 0, []⟩).2.trace.drop 24
      = [Event.fid2path "[0x1:0x2:0x0]".toList, Event.mkdir "/a".toList,
         Event.mkdir "/a/shadow".toList, Event.readlink "/a/shadow/f".toList,
         Event.close_src, Event.close_dst, Event.action_end ⟨0, 2 ^ 64 - 1⟩ 0 0])
    ∧ ((ct_archive
        (fun n => if n = 27 then { text := "x".toList } else { amount := 1, text := "f".toList })
        { o_hsm_root := "/a".toList, o_mnt := "/m".toList, o_copy_attrs := 0, o_copy_xattrs := 0 }
        ⟨0, hsm_copytool_action.HSMA_ARCHIVE, ⟨1, 2, 0⟩, ⟨1, 2, 0⟩, ⟨0, 2 ^ 64 - 1⟩, 0⟩
          ".lustre".toList [] 5
        ⟨[], true, 0, [], true, 0, 0, 0, 0, 0, 0, []⟩).2.trace.drop 24
      = [Event.fid2path "[0x1:0x2:0x0]".toList, Event.mkdir "/a".toList,
         Event.mkdir "/a/shadow".toList, Event.readlink "/a/shadow/f".toList,
         Event.unlink "/a/shadow/f".toList true,
         Event.symlink "../0002/0000/0001/0000/0000/0000/0x1:0x2:0x0".toList
           "/a/shadow/f".toList true,
         Event.close_src, Event.close_dst, Event.action_end ⟨0, 2 ^ 64 - 1⟩ 0 0]) := by
  constructor <;> decide

/-- C13 (the code departs from the claim). A whole-file ARCHIVE of the FID
`[0x1:0x2:0x0]` under the root `/a` with attribute copy and the shadow tree
enabled, in which the data copy succeeds and the `fstat` of `ct_copy_attr`
fails with `EIO` (5), so that `ct_copy_attr` returns -5. When the shadow
symlink already has the desired target, the branch "symlink already ok" sets
`rcf = 0`: `err_minor` stays 0 and `action.end` receives the error 0. When
there is no symlink yet (`readlink` fails with `ENOENT`) the same run counts
one minor error and passes 5. -/
theorem ct_archive_soft_error_lost :
    ((ct_archive
        (fun n => if n = 22 then { fail := some 5 }
          else if n = 28 then { text := "../0002/0000/0001/0000/0000/0000/0x1:0x2:0x0".toList }
          else { amount := 1, text := "f".toList })
        { o_hsm_root := "/a".toList, o_mnt := "/m".toList, o_copy_xattrs := 0 }
        ⟨0, hsm_copytool_action.HSMA_ARCHIVE, ⟨1, 2, 0⟩, ⟨1, 2, 0⟩, ⟨0, 2 ^ 64 - 1⟩, 0⟩
          ".lustre".toList [] 5
        ⟨[], true, 0, [], true, 0, 0, 0, 0, 0, 0, []⟩).2.trace.drop 22
      = [Event.fstat_attr,
         Event.rename "/a/0002/0000/0001/0000/0000/0000/0x1:0x2:0x0_tmp".toList
           "/a/0002/0000/0001/0000/0000/0000/0x1:0x2:0x0".toList true,
         Event.rename "/a/0002/0000/0001/0000/0000/0000/0x1:0x2:0x0_tmp.lov".toList
           "/a/0002/0000/0001/0000/0000/0000/0x1:0x2:0x0.lov".toList true,
         Event.fid2path "[0x1:0x2:0x0]".toList, Event.mkdir "/a".toList,
         Event.mkdir "/a/shadow".toList, Event.readlink "/a/shadow/f".toList,
         Event.close_src, Event.close_dst, Event.action_end ⟨0, 2 ^ 64 - 1⟩ 0 0])
    ∧ (ct_archive
        (fun n => if n = 22 then { fail := some 5 }
          else if n = 28 then { text := "../0002/0000/0001/0000/0000/0000/0x1:0x2:0x0".toList }
          else { amount := 1, text := "f".toList })
        { o_hsm_root := "/a".toList, o_mnt := "/m".toList, o_copy_xattrs := 0 }
        ⟨0, hsm_copytool_action.HSMA_ARCHIVE, ⟨1, 2, 0⟩, ⟨1, 2, 0⟩, ⟨0, 2 ^ 64 - 1⟩, 0⟩
          ".lustre".toList [] 5
        ⟨[], true, 0, [], true, 0, 0, 0, 0, 0, 0, []⟩).2.err_minor = 0
    ∧ ((ct_archive
        (fun n => if n = 22 then { fail := some 5 }
          else if n = 28 then { fail := some ENOENT }
          else { amount := 1, text := "f".toList })
        { o_hsm_root := "/a".toList, o_mnt := "/m".toList, o_copy_xattrs := 0 }
        ⟨0, hsm_copytool_action.HSMA_ARCHIVE, ⟨1, 2, 0⟩, ⟨1, 2, 0⟩, ⟨0, 2 ^ 64 - 1⟩, 0⟩
          ".lustre".toList [] 5
        ⟨[], true, 0, [], true, 0, 0, 0, 0, 0, 0, []⟩).2.trace.drop 28
      = [Event.readlink "/a/shadow/f".toList,
         Event.symlink "../0002/0000/0001/0000/0000/0000/0x1:0x2:0x0".toList
           "/a/shadow/f".toList true,
         Event.close_src, Event.close_dst, Event.action_end ⟨0, 2 ^ 64 - 1⟩ 0 5])
    ∧ (ct_archive
        (fun n => if n = 22 then { fail := some 5 }
          else if n = 28 then { fail := some ENOENT }
          else { amount := 1, text := "f".toList })
        { o_hsm_root := "/a".toList, o_mnt := "/m".toList, o_copy_xattrs := 0 }
        ⟨0, hsm_copytool_action.HSMA_ARCHIVE, ⟨1, 2, 0⟩, ⟨1, 2, 0⟩, ⟨0, 2 ^ 64 - 1⟩, 0⟩
          ".lustre".toList [] 5
        ⟨[], true, 0, [], true, 0, 0, 0, 0, 0, 0, []⟩).2.err_minor = 1 := by
  refine ⟨?_, ?_, ?_, ?_⟩ <;> decide

/-! ## The calls of the archive handler, by phase -/

theorem copyCall_of_harmless (e : Event) (h : Harmless e) : CopyCall e := by
  cases e <;> simp_all [Harmless, CopyCall]

theorem copyCall_of_eventOk (src0 : List Nat) (o l : Nat) (e : Event)
    (h : EventOk src0 o l e) : CopyCall e := by
  cases e <;> simp_all [EventOk, CopyCall]

theorem Adds.of_steps {P : Event → Prop} {w w1 : World} {evs : List Event}
    (h : Steps w w1 evs) (hp : ∀ e ∈ evs, P e) : Adds P w w1 :=
  ⟨evs, h.htrace, hp⟩

theorem ct_copy_data_out_adds (env : Env) (hai : hsm_action_item) (a b : Nat) (rc : Int)
    (w : World) : Adds CopyCall w (ct_copy_data_out env hai a b rc w).2 := by
  obtain ⟨evs, ht, hp⟩ := ct_copy_data_out_events env hai a b rc w
  refine ⟨evs, ht, ?_⟩
  intro e he
  rcases hp e he with ⟨len, ok, h⟩ | h <;> rw [h] <;> trivial

theorem ct_copy_data_adds (env : Env) (opt : options) (hai : hsm_action_item) (fuel : Nat)
    (w : World) : Adds CopyCall w (ct_copy_data env opt hai fuel w).2 := by
  rcases ct_copy_data_cases env opt hai fuel w with
    ⟨rc, w1, evs, h, hs, hp, _⟩ | ⟨w1, evs, hs, hp, _, h⟩
      | ⟨w1, pre, w2, hs, hp, _, hw, _, _, h⟩
  · rw [h]
    exact Adds.of_steps hs (fun e he => copyCall_of_harmless e (hp e he))
  · rw [h]
    exact (Adds.of_steps hs (fun e he => copyCall_of_harmless e (hp e he))).andThen
      (ct_copy_data_out_adds env hai _ _ _ w1)
  · have a1 : Adds CopyCall w w1 :=
      Adds.of_steps hs (fun e he => copyCall_of_harmless e (hp e he))
    obtain ⟨evs, ht, hok⟩ := hw.htrace
    have a2 : Adds CopyCall w1 w2 :=
      ⟨evs, ht, fun e he => copyCall_of_eventOk _ _ _ e (hok e he)⟩
    rcases h with h | ⟨rc, h⟩
    · rw [h]; exact a1.andThen a2
    · rw [h]; exact (a1.andThen a2).andThen (ct_copy_data_out_adds env hai _ _ _ w2)

theorem Adds.one_errno {P : Event → Prop} (w : World) (e : Event) (x : Int) (h : P e) :
    Adds P w { w.call e with errno := x } :=
  ⟨[e], rfl, fun y hy => by rw [List.mem_singleton.mp hy]; exact h⟩

theorem sys_fd_call_adds (P : Event → Prop) (env : Env) (w : World) (e : Event) (h : P e) :
    Adds P w (sys_fd_call env w e).2 := by
  unfold sys_fd_call
  split
  · exact Adds.one_errno w e _ h
  · exact Adds.one w e h

theorem sys_open_adds (P : Event → Prop) (env : Env) (w : World) (path : List Char)
    (flags : List open_flag) (h : P (Event.open_ path flags)) :
    Adds P w (sys_open env w path flags).2 := by
  unfold sys_open
  split
  · exact Adds.one_errno w _ _ h
  · exact Adds.one w _ h

theorem sys_unlink_adds (P : Event → Prop) (env : Env) (w : World) (path : List Char)
    (h : ∀ ok, P (Event.unlink path ok)) : Adds P w (sys_unlink env w path).2 := by
  unfold sys_unlink
  split
  · exact Adds.one_errno w _ _ (h false)
  · exact Adds.one w _ (h true)

theorem sys_symlink_adds (P : Event → Prop) (env : Env) (w : World) (target linkpath : List Char)
    (h : ∀ ok, P (Event.symlink target linkpath ok)) :
    Adds P w (sys_symlink env w target linkpath).2 := by
  unfold sys_symlink
  split
  · exact Adds.one_errno w _ _ (h false)
  · exact Adds.one w _ (h true)

theorem sys_readlink_adds (P : Event → Prop) (env : Env) (w : World) (path : List Char)
    (n : Nat) (h : P (Event.readlink path)) : Adds P w (sys_readlink env w path n).2.2 := by
  unfold sys_readlink
  split
  · exact Adds.one_errno w _ _ h
  · exact Adds.one w _ h

theorem sys_mkdir_adds (P : Event → Prop) (env : Env) (w : World) (path : List Char)
    (h : P (Event.mkdir path)) : Adds P w (sys_mkdir env w path).2 := by
  unfold sys_mkdir
  split
  · exact Adds.one_errno w _ _ h
  · exact Adds.one w _ h

theorem mkdir_walk_adds (P : Event → Prop) (env : Env) :
    ∀ (ps : List (List Char)) (w : World), (∀ p ∈ ps, P (Event.mkdir p)) →
      Adds P w (mkdir_walk (worldSys env) ps w).2 := by
  intro ps
  induction ps with
  | nil => intro w _; exact Adds.same P w
  | cons p ps ih =>
    intro w h
    rw [mkdir_walk_cons]
    have a1 := sys_mkdir_adds P env w p (h p (List.mem_cons_self _ _))
    split
    · exact a1
    · exact a1.andThen (ih _ (fun q hq => h q (List.mem_cons_of_mem _ hq)))

theorem ct_mkdir_p_adds (env : Env) (path : List Char) (w : World) :
    Adds (MkdirCall path) w (ct_mkdir_p (worldSys env) path w).2 := by
  rw [ct_mkdir_p_eq_walk]
  apply mkdir_walk_adds
  intro p hp
  unfold mkdir_prefixes at hp
  obtain ⟨j, hj, rfl⟩ := List.mem_map.mp hp
  have h2 := (List.mem_filter.mp hj).2
  simp only [decide_eq_true_eq] at h2
  exact ⟨j, rfl, h2.2⟩

theorem ct_save_stripe_adds (env : Env) (w : World) (dst : List Char) :
    Adds (StripeCall dst) w (ct_save_stripe env w dst).2 := by
  unfold ct_save_stripe
  dsimp only
  split
  · exact Adds.one_errno w _ _ trivial
  · have a1 : Adds (StripeCall dst) w (w.call Event.fgetxattr_lov) := Adds.one w _ trivial
    have a2 := a1.andThen (sys_open_adds (StripeCall dst) env (w.call Event.fgetxattr_lov)
      (snprintf PATH_MAX (dst ++ ".lov".toList)).1
      [open_flag.O_TRUNC, open_flag.O_CREAT, open_flag.O_WRONLY] ⟨rfl, rfl⟩)
    split
    · exact a2
    · have a3 := a2.andThen (sys_fd_call_adds (StripeCall dst) env _
        (Event.write_lov (env w.clock).amount) trivial)
      have a4 := a3.andThen (sys_fd_call_adds (StripeCall dst) env _ Event.close_lov trivial)
      split
      · exact a4
      · split <;> exact a4

theorem ct_copy_attr_adds (env : Env) (w : World) : Adds AttrCall w (ct_copy_attr env w).2 := by
  unfold ct_copy_attr
  dsimp only
  have a1 := sys_fd_call_adds AttrCall env w Event.fstat_attr trivial
  split
  · exact a1
  · have a2 := a1.andThen (sys_fd_call_adds AttrCall env _ Event.fchmod trivial)
    split
    · exact a2
    · have a3 := a2.andThen (sys_fd_call_adds AttrCall env _ Event.fchown trivial)
      split
      · exact a3
      · exact a3.andThen (sys_fd_call_adds AttrCall env _ Event.futimes trivial)

theorem ct_copy_xattr_loop_adds (env : Env) (is_restore : Bool) :
    ∀ (names : List (List Char)) (w : World),
      Adds AttrCall w (ct_copy_xattr_loop env is_restore names w).2 := by
  intro names
  induction names with
  | nil => intro w; exact Adds.same _ w
  | cons name rest ih =>
    intro w
    unfold ct_copy_xattr_loop
    dsimp only
    have a1 : Adds AttrCall w (w.call (Event.fgetxattr name)) := Adds.one w _ trivial
    split
    · exact Adds.one_errno w _ _ trivial
    · split
      · have a2 : Adds AttrCall w
            ((w.call (Event.fgetxattr name)).call (Event.fsetxattr name (env w.clock).amount)) :=
          a1.andThen (Adds.one _ _ trivial)
        split
        · split
          · exact a1.andThen
              (Adds.one_errno _ (Event.fsetxattr name (env w.clock).amount) _ trivial)
          · exact (a1.andThen
              (Adds.one_errno _ (Event.fsetxattr name (env w.clock).amount) _ trivial)).andThen
                (ih _)
        · exact a2.andThen (ih _)
      · exact a1.andThen (ih _)

theorem ct_copy_xattr_adds (env : Env) (w : World) (is_restore : Bool) :
    Adds AttrCall w (ct_copy_xattr env w is_restore).2 := by
  unfold ct_copy_xattr
  dsimp only
  split
  · exact Adds.one_errno w _ _ trivial
  · exact (Adds.one w Event.flistxattr trivial).andThen (ct_copy_xattr_loop_adds env _ _ _)

theorem ct_archive_attrs_adds (env : Env) (opt : options) (rc : Int) (w : World) :
    Adds AttrCall w (ct_archive_attrs env opt rc w).2.2 := by
  unfold ct_archive_attrs
  dsimp only
  have a1 : Adds AttrCall w
      (if opt.o_copy_attrs ≠ 0 then ct_copy_attr env w else (rc, w)).2 := by
    split
    · exact ct_copy_attr_adds env w
    · exact Adds.same _ w
  split
  · exact a1.andThen (ct_copy_xattr_adds env _ false)
  · exact a1

theorem ct_archive_out_trace (env : Env) (hai : hsm_action_item) (hcp : Bool) (ct_flags : Nat)
    (rc rcf : Int) (src_fd dst_fd : Int) (w : World) :
    ∃ closes fin, (∀ e ∈ closes, IsClose e)
      ∧ ((hcp = true ∧ fin = [Event.action_end hai.hai_extent ct_flags rcf.natAbs])
        ∨ (hcp = false ∧ fin = []))
      ∧ (ct_archive_out env hai hcp ct_flags rc rcf src_fd dst_fd w).2.trace
          = w.trace ++ closes ++ fin := by
  unfold ct_archive_out
  dsimp only
  have h1 : ∃ c1, (∀ e ∈ c1, IsClose e)
      ∧ (if ¬ (src_fd < 0) then w.call Event.close_src else w).trace = w.trace ++ c1 := by
    split
    · exact ⟨[Event.close_src], fun e he => Or.inl (List.mem_singleton.mp he), rfl⟩
    · exact ⟨[], fun e he => absurd he (List.not_mem_nil _), (List.append_nil _).symm⟩
  obtain ⟨c1, hc1, t1⟩ := h1
  generalize (if ¬ (src_fd < 0) then w.call Event.close_src else w) = w1 at t1
  have h2 : ∃ c2, (∀ e ∈ c2, IsClose e)
      ∧ (if ¬ (dst_fd < 0) then w1.call Event.close_dst else w1).trace = w1.trace ++ c2 := by
    split
    · exact ⟨[Event.close_dst], fun e he => Or.inr (List.mem_singleton.mp he), rfl⟩
    · exact ⟨[], fun e he => absurd he (List.not_mem_nil _), (List.append_nil _).symm⟩
  obtain ⟨c2, hc2, t2⟩ := h2
  generalize (if ¬ (dst_fd < 0) then w1.call Event.close_dst else w1) = w2 at t2
  have hc : ∀ e ∈ c1 ++ c2, IsClose e := by
    intro e he
    rcases List.mem_append.mp he with h | h
    · exact hc1 e h
    · exact hc2 e h
  cases hcp with
  | true =>
    refine ⟨c1 ++ c2, _, hc, Or.inl ⟨rfl, rfl⟩, ?_⟩
    show (ct_fini env w2 hai ct_flags rcf).2.trace = _
    unfold ct_fini
    show w2.trace ++ [_] = _
    rw [t2, t1]
    simp only [List.append_assoc]
  | false =>
    refine ⟨c1 ++ c2, [], hc, Or.inr ⟨rfl, rfl⟩, ?_⟩
    show w2.trace = _
    rw [t2, t1, List.append_assoc, List.append_nil]

theorem archive_exit_tail (env : Env) (dot_lustre_name : List Char) (opt : options)
    (hai : hsm_action_item) (hcp : Bool)
    (ct_flags : Nat) (rc rcf : Int) (src_fd dst_fd : Int) (w w1 w2 : World) (tail : List Event)
    (h1 : Adds (ArchivePre (archive_src dot_lustre_name opt hai) (archive_dst opt hai)
      (is_whole hai)) (w.call Event.action_begin) w1)
    (h2 : w2.trace = w1.trace ++ tail) (ht : ArchiveTail opt hai tail) :
    ArchiveShape dot_lustre_name opt hai hcp w
      (ret (ct_archive_out env hai hcp ct_flags rc rcf src_fd dst_fd w2)) := by
  obtain ⟨pre, hp, hpre⟩ := h1
  obtain ⟨closes, fin, hc, hf, htr⟩ :=
    ct_archive_out_trace env hai hcp ct_flags rc rcf src_fd dst_fd w2
  refine ⟨pre, hpre, Or.inr ⟨_, tail, closes, fin, rfl, ht, hc, ?_, ?_⟩⟩
  · rcases hf with ⟨a, b⟩ | ⟨a, b⟩
    · exact Or.inl ⟨a, _, _, b⟩
    · exact Or.inr ⟨a, b⟩
  · show (ct_archive_out env hai hcp ct_flags rc rcf src_fd dst_fd w2).2.trace = _
    rw [htr, h2, hp]
    show (w.trace ++ [Event.action_begin]) ++ pre ++ tail ++ closes ++ fin = _
    simp only [List.append_assoc, List.singleton_append, List.cons_append, List.nil_append]

theorem archive_exit_major (env : Env) (dot_lustre_name : List Char) (opt : options)
    (hai : hsm_action_item) (hcp : Bool)
    (rc : Int) (src_fd dst_fd : Int) (w w1 : World)
    (h1 : Adds (ArchivePre (archive_src dot_lustre_name opt hai) (archive_dst opt hai)
      (is_whole hai)) (w.call Event.action_begin) w1) :
    ArchiveShape dot_lustre_name opt hai hcp w
      (ret (ct_archive_fini_major env hai hcp rc (archive_dst opt hai) src_fd dst_fd w1)) := by
  unfold ct_archive_fini_major
  dsimp only
  have hu : ∃ ok, (sys_unlink env { w1 with err_major := w1.err_major + 1 }
      (archive_dst opt hai)).2.trace = w1.trace ++ [Event.unlink (archive_dst opt hai) ok] := by
    unfold sys_unlink
    split
    · exact ⟨false, rfl⟩
    · exact ⟨true, rfl⟩
  obtain ⟨ok, hu⟩ := hu
  exact archive_exit_tail env dot_lustre_name opt hai hcp _ rc rc src_fd dst_fd w w1 _ _ h1 hu
    (Or.inl ⟨ok, rfl⟩)

theorem archive_exit_minor (env : Env) (dot_lustre_name : List Char) (opt : options)
    (hai : hsm_action_item) (hcp : Bool)
    (rc rcf : Int) (src_fd dst_fd : Int) (w w1 w2 w3 : World) (ren : List Event)
    (h1 : Adds (ArchivePre (archive_src dot_lustre_name opt hai) (archive_dst opt hai)
      (is_whole hai)) (w.call Event.action_begin) w1)
    (h2 : w2.trace = w1.trace ++ ren)
    (hren : (¬ is_whole hai ∧ ren = [])
      ∨ (is_whole hai ∧ ∃ ok, ren =
          [Event.rename (archive_dst opt hai) (archive_path opt hai) true,
           Event.rename (lov_path (archive_dst opt hai)) (lov_path (archive_path opt hai)) ok]))
    (h3 : Adds (ShadowCall (shadow_dir opt)) w2 w3) :
    ArchiveShape dot_lustre_name opt hai hcp w
      (ret (ct_archive_fini_minor env hai hcp rc rcf src_fd dst_fd w3)) := by
  unfold ct_archive_fini_minor
  obtain ⟨sh, hs, hsh⟩ := h3
  apply archive_exit_tail env dot_lustre_name opt hai hcp _ rc rcf src_fd dst_fd w w1 _
    (ren ++ sh) h1
  · have : (if rcf ≠ 0 then { w3 with err_minor := w3.err_minor + 1 } else w3).trace
        = w3.trace := by
      split <;> rfl
    rw [this, hs, h2, List.append_assoc]
  · exact Or.inr (Or.inr ⟨ren, sh, rfl, hsh, hren⟩)

theorem shadowCall_of_mkdirCall (src0 q : List Char) (e : Event) (h : MkdirCall (src0 ++ q) e) :
    ShadowCall src0 e := by
  cases e <;> first | exact h.elim | exact ⟨q, h⟩

theorem ct_archive_symlink_adds (env : Env) (rcf : Int) (src0 q dst : List Char) (w : World) :
    Adds (ShadowCall src0) w (ct_archive_symlink env rcf dst (src0 ++ q) w).2 := by
  unfold ct_archive_symlink
  dsimp only
  have a := sys_symlink_adds (ShadowCall src0) env w dst (src0 ++ q) (fun _ => ⟨q, rfl⟩)
  split <;> exact a

theorem ct_archive_shadow_adds (env : Env) (opt : options) (hai : hsm_action_item) (rcf : Int)
    (w : World) :
    Adds (ShadowCall (shadow_dir opt)) w (ct_archive_shadow env opt hai rcf w).2.2 := by
  unfold ct_archive_shadow
  dsimp only
  have a1 : Adds (ShadowCall (shadow_dir opt)) w
      (llapi_fid2path env w (fid_brace hai.hai_fid)
        (PATH_MAX - (opt.o_hsm_root ++ "/shadow/".toList).length)).2.2 :=
    Adds.one w _ trivial
  generalize (llapi_fid2path env w (fid_brace hai.hai_fid)
        (PATH_MAX - (opt.o_hsm_root ++ "/shadow/".toList).length)) = p at a1
  split
  · exact a1
  · have a2 := a1.andThen ((ct_mkdir_p_adds env
        (opt.o_hsm_root ++ "/shadow/".toList ++ p.2.1) p.2.2).weaken
        (shadowCall_of_mkdirCall (shadow_dir opt) p.2.1))
    generalize (ct_mkdir_p (worldSys env)
        (opt.o_hsm_root ++ "/shadow/".toList ++ p.2.1) p.2.2) = m at a2
    split
    · exact a2
    · have a3 := a2.andThen (sys_readlink_adds (ShadowCall (shadow_dir opt)) env m.2
        (opt.o_hsm_root ++ "/shadow/".toList ++ p.2.1) PATH_MAX ⟨p.2.1, rfl⟩)
      generalize (sys_readlink env m.2
        (opt.o_hsm_root ++ "/shadow/".toList ++ p.2.1) PATH_MAX) = l at a3
      split
      · split
        · have a4 := a3.andThen (sys_unlink_adds (ShadowCall (shadow_dir opt)) env l.2.2
            (opt.o_hsm_root ++ "/shadow/".toList ++ p.2.1) (fun _ => ⟨p.2.1, rfl⟩))
          split
          · exact a4
          · exact a4.andThen (ct_archive_symlink_adds env rcf (shadow_dir opt) p.2.1 _ _)
        · exact a3
      · exact a3.andThen (ct_archive_symlink_adds env rcf (shadow_dir opt) p.2.1 _ _)

theorem archive_exit_rename (env : Env) (dot_lustre_name : List Char) (opt : options)
    (hai : hsm_action_item) (hcp : Bool)
    (rc : Int) (src_fd dst_fd : Int) (w w1 w2 : World)
    (h1 : Adds (ArchivePre (archive_src dot_lustre_name opt hai) (archive_dst opt hai)
      (is_whole hai)) (w.call Event.action_begin) w1)
    (hw : is_whole hai)
    (h2 : w2.trace = w1.trace
      ++ [Event.rename (archive_dst opt hai) (archive_path opt hai) false]) :
    ArchiveShape dot_lustre_name opt hai hcp w
      (ret (ct_archive_fini_major env hai hcp rc (archive_dst opt hai) src_fd dst_fd w2)) := by
  unfold ct_archive_fini_major
  dsimp only
  have hu : ∃ ok, (sys_unlink env { w2 with err_major := w2.err_major + 1 }
      (archive_dst opt hai)).2.trace = w2.trace ++ [Event.unlink (archive_dst opt hai) ok] := by
    unfold sys_unlink
    split
    · exact ⟨false, rfl⟩
    · exact ⟨true, rfl⟩
  obtain ⟨ok, hu⟩ := hu
  refine archive_exit_tail env dot_lustre_name opt hai hcp _ rc rc src_fd dst_fd w w1 _ _ h1 ?_
    (Or.inr (Or.inl ⟨hw, ok, rfl⟩))
  rw [hu, h2, List.append_assoc]
  rfl

theorem ct_archive_rename_cases (env : Env) (opt : options) (hai : hsm_action_item)
    (dst : List Char) (w : World) :
    ((ct_archive_rename env opt hai dst w).1 = true
      ∧ (ct_archive_rename env opt hai dst w).2.2.trace
          = w.trace ++ [Event.rename dst (archive_path opt hai) false])
    ∨ ((ct_archive_rename env opt hai dst w).1 = false
      ∧ ∃ ok, (ct_archive_rename env opt hai dst w).2.2.trace
          = w.trace ++ [Event.rename dst (archive_path opt hai) true,
              Event.rename (lov_path dst) (lov_path (archive_path opt hai)) ok]) := by
  unfold ct_archive_rename
  dsimp only
  cases hf : (env w.clock).fail with
  | some e =>
    left
    have h1 : sys_rename env w dst (archive_path opt hai)
        = (-1, { w.call (Event.rename dst (archive_path opt hai) false) with errno := e }) := by
      unfold sys_rename; rw [hf]
    rw [h1]
    exact ⟨rfl, rfl⟩
  | none =>
    right
    have h1 : sys_rename env w dst (archive_path opt hai)
        = (0, w.call (Event.rename dst (archive_path opt hai) true)) := by
      unfold sys_rename; rw [hf]
    rw [h1]
    refine ⟨rfl, ?_⟩
    show ∃ ok, (sys_rename env (w.call (Event.rename dst (archive_path opt hai) true))
        (lov_path dst) (lov_path (archive_path opt hai))).2.trace = _
    unfold sys_rename
    split
    · exact ⟨false, by simp [World.call]⟩
    · exact ⟨true, by simp [World.call]⟩

theorem archivePre_of_stripe (src dst : List Char) (whole : Prop) [Decidable whole] (e : Event)
    (h : StripeCall dst e) : ArchivePre src dst whole e :=
  Or.inr (Or.inr (Or.inr (Or.inl h)))

theorem archivePre_of_copy (src dst : List Char) (whole : Prop) [Decidable whole] (e : Event)
    (h : CopyCall e) : ArchivePre src dst whole e :=
  Or.inr (Or.inr (Or.inr (Or.inr (Or.inl h))))

theorem archivePre_of_attr (src dst : List Char) (whole : Prop) [Decidable whole] (e : Event)
    (h : AttrCall e) : ArchivePre src dst whole e :=
  Or.inr (Or.inr (Or.inr (Or.inr (Or.inr h))))

theorem ct_archive_shape (env : Env) (opt : options) (hai : hsm_action_item)
    (dot_lustre_name dst_uninit : List Char) (fuel : Nat) (w : World)
    (hb : ¬ (ct_begin env w).1 < 0) :
    ArchiveShape dot_lustre_name opt hai (decide ((ct_begin env w).1 = 0)) w
      (ct_archive env opt hai dot_lustre_name dst_uninit fuel w) := by
  unfold ct_archive
  dsimp only
  rw [if_neg hb]
  generalize (decide ((ct_begin env w).1 = 0)) = hcp
  have a0 : Adds (ArchivePre (archive_src dot_lustre_name opt hai) (archive_dst opt hai)
      (is_whole hai))
      (w.call Event.action_begin) (ct_begin env w).2 := Adds.same _ _
  generalize (ct_begin env w).2 = wb at a0
  split
  · exact archive_exit_major env dot_lustre_name opt hai hcp _ _ _ w wb a0
  have a1 := a0.andThen ((ct_mkdir_p_adds env (archive_dst opt hai) wb).weaken
    (fun e he => Or.inl he))
  generalize (ct_mkdir_p (worldSys env) (archive_dst opt hai) wb) = m at a1
  split
  · exact archive_exit_major env dot_lustre_name opt hai hcp _ _ _ w m.2 a1
  have a2 := a1.andThen (sys_open_adds _ env m.2 (archive_src dot_lustre_name opt hai)
    [open_flag.O_RDONLY, open_flag.O_NOATIME, open_flag.O_NONBLOCK, open_flag.O_NOFOLLOW]
    (Or.inr (Or.inl rfl)))
  generalize (sys_open env m.2 (archive_src dot_lustre_name opt hai)
    [open_flag.O_RDONLY, open_flag.O_NOATIME, open_flag.O_NONBLOCK, open_flag.O_NOFOLLOW])
      = o1 at a2
  split
  · exact archive_exit_major env dot_lustre_name opt hai hcp _ _ _ w o1.2 a2
  have a3 := a2.andThen (sys_open_adds _ env o1.2 (archive_dst opt hai)
    ([open_flag.O_WRONLY, open_flag.O_NOFOLLOW, open_flag.O_NONBLOCK]
      ++ (if hai.hai_extent.length = 2 ^ 64 - 1 then [open_flag.O_TRUNC] else [])
      ++ [open_flag.O_CREAT])
    (Or.inr (Or.inr (Or.inl rfl))))
  generalize (sys_open env o1.2 (archive_dst opt hai)
    ([open_flag.O_WRONLY, open_flag.O_NOFOLLOW, open_flag.O_NONBLOCK]
      ++ (if hai.hai_extent.length = 2 ^ 64 - 1 then [open_flag.O_TRUNC] else [])
      ++ [open_flag.O_CREAT])) = o2 at a3
  split
  · exact archive_exit_major env dot_lustre_name opt hai hcp _ _ _ w o2.2 a3
  have a4 : Adds (ArchivePre (archive_src dot_lustre_name opt hai) (archive_dst opt hai)
      (is_whole hai))
      (w.call Event.action_begin)
      ({ o2.2 with
          dst := if hai.hai_extent.length = 2 ^ 64 - 1 then [] else o2.2.dst,
          src_pos := 0, dst_pos := 0 } : World) :=
    a3.andThen (Adds.of_trace_eq rfl)
  generalize ({ o2.2 with
          dst := if hai.hai_extent.length = 2 ^ 64 - 1 then [] else o2.2.dst,
          src_pos := 0, dst_pos := 0 } : World) = w3 at a4
  have a5 := a4.andThen ((ct_save_stripe_adds env w3 (archive_dst opt hai)).weaken
    (archivePre_of_stripe _ _ _))
  generalize (ct_save_stripe env w3 (archive_dst opt hai)) = s at a5
  have a6 := a5.andThen ((ct_copy_data_adds env opt hai fuel s.2).weaken
    (archivePre_of_copy (archive_src dot_lustre_name opt hai) (archive_dst opt hai) (is_whole hai)))
  split
  · rename_i w4 hcd
    rw [hcd] at a6
    obtain ⟨pre, hp, hpre⟩ := a6
    exact ⟨pre, hpre, Or.inl ⟨rfl, by rw [hp]; simp [World.call]⟩⟩
  rename_i rc w4 hcd
  rw [hcd] at a6
  split
  · exact archive_exit_major env dot_lustre_name opt hai hcp _ _ _ w w4 a6
  have a7 := a6.andThen ((ct_archive_attrs_adds env opt rc w4).weaken
    (archivePre_of_attr (archive_src dot_lustre_name opt hai) (archive_dst opt hai) (is_whole hai)))
  generalize (ct_archive_attrs env opt rc w4) = at_ at a7
  by_cases hw : hai.hai_extent.length = 2 ^ 64 - 1
  · simp only [if_pos hw]
    rcases ct_archive_rename_cases env opt hai (archive_dst opt hai) at_.2.2 with
      ⟨hr, ht⟩ | ⟨hr, ok, ht⟩
    · generalize (ct_archive_rename env opt hai (archive_dst opt hai) at_.2.2) = r at hr ht
      rw [if_pos hr]
      exact archive_exit_rename env dot_lustre_name opt hai hcp _ _ _ w at_.2.2 r.2.2 a7 hw ht
    · generalize (ct_archive_rename env opt hai (archive_dst opt hai) at_.2.2) = r at hr ht
      rw [if_neg (by rw [hr]; exact Bool.false_ne_true)]
      have hren : (¬ is_whole hai ∧
            [Event.rename (archive_dst opt hai) (archive_path opt hai) true,
              Event.rename (lov_path (archive_dst opt hai)) (lov_path (archive_path opt hai)) ok]
              = [])
          ∨ (is_whole hai ∧ ∃ ok1,
            [Event.rename (archive_dst opt hai) (archive_path opt hai) true,
              Event.rename (lov_path (archive_dst opt hai)) (lov_path (archive_path opt hai)) ok]
              = [Event.rename (archive_dst opt hai) (archive_path opt hai) true,
                Event.rename (lov_path (archive_dst opt hai)) (lov_path (archive_path opt hai))
                  ok1]) :=
        Or.inr ⟨hw, ok, rfl⟩
      split
      · exact archive_exit_minor env dot_lustre_name opt hai hcp _ _ _ _ w at_.2.2 r.2.2 _ _ a7 ht
          hren
          (ct_archive_shadow_adds env opt hai _ _)
      · exact archive_exit_minor env dot_lustre_name opt hai hcp _ _ _ _ w at_.2.2 r.2.2 _ _ a7 ht
          hren
          (Adds.same _ _)
  · simp only [if_neg hw]
    rw [if_neg Bool.false_ne_true]
    have hren : (¬ is_whole hai ∧ ([] : List Event) = [])
        ∨ (is_whole hai ∧ ∃ ok1, ([] : List Event)
            = [Event.rename (archive_dst opt hai) (archive_path opt hai) true,
                Event.rename (lov_path (archive_dst opt hai)) (lov_path (archive_path opt hai))
                  ok1]) :=
      Or.inl ⟨hw, rfl⟩
    split
    · exact archive_exit_minor env dot_lustre_name opt hai hcp _ _ _ _ w at_.2.2 at_.2.2 _ _ a7
        (List.append_nil _).symm hren (ct_archive_shadow_adds env opt hai _ _)
    · exact archive_exit_minor env dot_lustre_name opt hai hcp _ _ _ _ w at_.2.2 at_.2.2 _ _ a7
        (List.append_nil _).symm hren (Adds.same _ _)

/-! ## The pairing of `action.begin` and `action.end` -/

theorem hexChar_ne_s (d : Nat) : hexChar d ≠ 's' := by
  unfold hexChar; split <;> decide

theorem archive_path_fits (opt : options) (hai : hsm_action_item)
    (h : (archive_path opt hai).length + 1 < PATH_MAX) :
    archive_path opt hai = spec_archive_path opt.o_hsm_root hai.hai_fid := by
  unfold archive_path at h ⊢
  rw [ct_path_archive_eq] at h ⊢
  simp only [List.length_take] at h
  exact List.take_of_length_le (by omega)

theorem archive_path_second (opt : options) (hai : hsm_action_item)
    (h : (archive_path opt hai).length + 1 < PATH_MAX) :
    ∃ c, c ≠ 's' ∧ (archive_path opt hai)[opt.o_hsm_root.length + 1]? = some c := by
  rw [archive_path_fits opt hai h]
  refine ⟨_, hexChar_ne_s ((hai.hai_fid.f_oid &&& 0xFFFF) / 4096 % 16), ?_⟩
  have h1 : ∃ rest, spec_archive_path opt.o_hsm_root hai.hai_fid
      = opt.o_hsm_root
        ++ ('/' :: hexChar ((hai.hai_fid.f_oid &&& 0xFFFF) / 4096 % 16) :: rest) :=
    ⟨_, by
      simp only [spec_archive_path, hex4, List.append_assoc, List.cons_append,
        List.nil_append, List.singleton_append]
      rfl⟩
  obtain ⟨rest, h1⟩ := h1
  rw [h1, List.getElem?_append_right (Nat.le_add_right _ _)]
  have h2 : opt.o_hsm_root.length + 1 - opt.o_hsm_root.length = 1 := by omega
  rw [h2]
  simp

theorem archive_dst_whole (opt : options) (hai : hsm_action_item) (hw : is_whole hai)
    (h : (archive_path opt hai).length + 4 < PATH_MAX) :
    archive_dst opt hai = archive_path opt hai ++ "_tmp".toList := by
  unfold archive_dst strncat
  rw [if_pos hw]
  show archive_path opt hai ++ List.take (PATH_MAX - (archive_path opt hai).length - 1) _ = _
  rw [List.take_of_length_le]
  show 4 ≤ _
  omega

theorem archive_dst_extent (opt : options) (hai : hsm_action_item) (hw : ¬ is_whole hai) :
    archive_dst opt hai = archive_path opt hai := by
  unfold archive_dst
  rw [if_neg hw]

theorem lov_path_fits (p : List Char) (h : p.length + 4 < PATH_MAX) :
    lov_path p = p ++ ".lov".toList := by
  unfold lov_path snprintf
  apply List.take_of_length_le
  simp only [List.length_append]
  show p.length + 4 ≤ _
  omega

theorem lov_path_longer (p q : List Char) (h : q.length ≤ p.length)
    (hq : q.length + 1 < PATH_MAX) : lov_path p ≠ q := by
  intro he
  have h1 := congrArg List.length he
  unfold lov_path snprintf at h1
  simp only [List.length_take, List.length_append] at h1
  have : (".lov".toList).length = 4 := rfl
  omega

theorem mkdir_prefix_ne (p : List Char) (j : Nat)
    (h : (p ++ "_tmp".toList)[j]? = some '/') : (p ++ "_tmp".toList).take j ≠ p := by
  intro he
  have h1 := congrArg List.length he
  simp only [List.length_take, List.length_append] at h1
  have h2 : ("_tmp".toList).length = 4 := rfl
  have h3 : j = p.length := by omega
  rw [h3, List.getElem?_append_right (Nat.le_refl _), Nat.sub_self] at h
  exact absurd h (by decide)

theorem shadow_prefix_ne (root q a : List Char) (j : Nat) (c : Char) (hc : c ≠ 's')
    (ha : a[root.length + 1]? = some c) : (root ++ "/shadow/".toList ++ q).take j ≠ a := by
  intro he
  rw [← he, List.getElem?_take] at ha
  split at ha
  · rw [List.append_assoc, List.getElem?_append_right (Nat.le_add_right _ _)] at ha
    have h1 : root.length + 1 - root.length = 1 := by omega
    rw [h1] at ha
    have h2 : ("/shadow/".toList ++ q)[1]? = some 's' := rfl
    rw [h2] at ha
    exact hc (Option.some.inj ha).symm
  · exact absurd ha (by simp)

theorem shadow_path_ne (root q a : List Char) (c : Char) (hc : c ≠ 's')
    (ha : a[root.length + 1]? = some c) : root ++ "/shadow/".toList ++ q ≠ a := by
  have h := shadow_prefix_ne root q a (root ++ "/shadow/".toList ++ q).length c hc ha
  rwa [List.take_length] at h

theorem mutates_open_read (a p : List Char) :
    mutates a (Event.open_ p
      [open_flag.O_RDONLY, open_flag.O_NOATIME, open_flag.O_NONBLOCK, open_flag.O_NOFOLLOW])
      = false := by
  unfold mutates
  rw [decide_eq_false_iff_not]
  intro h
  exact absurd h.2 (by decide)

theorem mutates_open_other (a p : List Char) (flags : List open_flag) (h : p ≠ a) :
    mutates a (Event.open_ p flags) = false := by
  unfold mutates
  rw [decide_eq_false_iff_not]
  exact fun hh => h hh.1

theorem append_tmp_ne (a : List Char) : a ++ "_tmp".toList ≠ a := by
  intro h
  have h1 := congrArg List.length h
  simp only [List.length_append] at h1
  have : ("_tmp".toList).length = 4 := rfl
  omega

theorem archivePre_not_mutates (src a : List Char) (whole : Prop) [Decidable whole] (e : Event)
    (ha : a.length + 1 < PATH_MAX) (h : ArchivePre src (a ++ "_tmp".toList) whole e) :
    mutates a e = false := by
  rcases h with h | h | h | h | h | h
  · cases e <;> first | exact h.elim | skip
    obtain ⟨j, hp, hj⟩ := h
    unfold mutates
    rw [decide_eq_false_iff_not, hp]
    exact mkdir_prefix_ne a j hj
  · rw [h]; exact mutates_open_read a src
  · rw [h]; exact mutates_open_other a _ _ (append_tmp_ne a)
  · cases e <;> first | exact h.elim | rfl | skip
    obtain ⟨hp, _⟩ := h
    rw [hp]
    refine mutates_open_other a _ _ (lov_path_longer _ a ?_ ha)
    simp only [List.length_append]
    omega
  · cases e <;> first | exact h.elim | rfl
  · cases e <;> first | exact h.elim | rfl

theorem shadowCall_not_mutates (root a : List Char) (c : Char) (hc : c ≠ 's')
    (ha : a[root.length + 1]? = some c) (e : Event)
    (h : ShadowCall (root ++ "/shadow/".toList) e) : mutates a e = false := by
  cases e <;> first | exact h.elim | rfl | skip
  · obtain ⟨q, j, hp, _⟩ := h
    unfold mutates
    rw [decide_eq_false_iff_not, hp]
    exact shadow_prefix_ne root q a j c hc ha
  · obtain ⟨q, hp⟩ := h
    unfold mutates
    rw [decide_eq_false_iff_not, hp]
    exact shadow_path_ne root q a c hc ha
  · obtain ⟨q, hp⟩ := h
    unfold mutates
    rw [decide_eq_false_iff_not, hp]
    exact shadow_path_ne root q a c hc ha

theorem isClose_not_mutates (a : List Char) (e : Event) (h : IsClose e) :
    mutates a e = false := by
  rcases h with h | h <;> rw [h] <;> rfl

theorem filter_mutates_nil (a : List Char) (l : List Event)
    (h : ∀ e ∈ l, mutates a e = false) : l.filter (mutates a) = [] := by
  rw [List.filter_eq_nil_iff]
  intro e he
  rw [h e he]
  exact Bool.false_ne_true

theorem mutates_rename_onto (a t : List Char) (ok : Bool) :
    mutates a (Event.rename t a ok) = true := by
  unfold mutates
  exact decide_eq_true (Or.inr rfl)

theorem mutates_rename_other (a p q : List Char) (ok : Bool) (hp : p ≠ a) (hq : q ≠ a) :
    mutates a (Event.rename p q ok) = false := by
  unfold mutates
  rw [decide_eq_false_iff_not]
  rintro (h | h)
  · exact hp h
  · exact hq h

theorem mutates_unlink_other (a p : List Char) (ok : Bool) (hp : p ≠ a) :
    mutates a (Event.unlink p ok) = false := by
  unfold mutates
  rw [decide_eq_false_iff_not]
  exact hp

/-- What the tail of a whole-file run does to the archive path `a`, the
temporary path being `a ++ "_tmp"`. -/
theorem archiveTail_whole (opt : options) (hai : hsm_action_item) (tail : List Event)
    (hw : is_whole hai) (ha : (archive_path opt hai).length + 8 < PATH_MAX)
    (h : ArchiveTail opt hai tail) :
    (∀ e ∈ tail, mutates (archive_path opt hai) e = true →
        ∃ ok, e = Event.rename (archive_path opt hai ++ "_tmp".toList) (archive_path opt hai) ok)
    ∧ (tail.filter (mutates (archive_path opt hai))).length ≤ 1
    ∧ (∀ p flags, Event.open_ p flags ∉ tail)
    ∧ (Event.rename (archive_path opt hai ++ "_tmp".toList) (archive_path opt hai) true ∉ tail →
        ∀ p ok, Event.unlink p ok ∈ tail → p = archive_path opt hai ++ "_tmp".toList) := by
  have hT := archive_dst_whole opt hai hw (by omega)
  have hne := append_tmp_ne (archive_path opt hai)
  obtain ⟨c, hc, hac⟩ := archive_path_second opt hai (by omega)
  have hlt : lov_path (archive_path opt hai ++ "_tmp".toList) ≠ archive_path opt hai :=
    lov_path_longer _ _ (by simp only [List.length_append]; omega) (by omega)
  have hla : lov_path (archive_path opt hai) ≠ archive_path opt hai :=
    lov_path_longer _ _ (Nat.le_refl _) (by omega)
  rw [ArchiveTail, hT] at h
  rcases h with ⟨ok, rfl⟩ | ⟨_, ok, rfl⟩ | ⟨ren, sh, rfl, hsh, hren⟩
  · refine ⟨?_, ?_, ?_, ?_⟩
    · intro e he hm
      rw [List.mem_singleton.mp he, mutates_unlink_other _ _ _ hne] at hm
      exact absurd hm Bool.false_ne_true
    · rw [filter_mutates_nil]
      · exact Nat.zero_le _
      · intro e he
        rw [List.mem_singleton.mp he]
        exact mutates_unlink_other _ _ _ hne
    · intro p flags hm
      simp at hm
    · intro _ p ok1 hm
      simp only [List.mem_singleton, Event.unlink.injEq] at hm
      exact hm.1
  · refine ⟨?_, ?_, ?_, ?_⟩
    · intro e he hm
      simp only [List.mem_cons, List.mem_singleton, List.not_mem_nil, or_false] at he
      rcases he with he | he
      · exact ⟨false, he⟩
      · rw [he, mutates_unlink_other _ _ _ hne] at hm
        exact absurd hm Bool.false_ne_true
    · rw [List.filter_cons_of_pos (mutates_rename_onto _ _ _), filter_mutates_nil]
      · exact Nat.le_refl _
      · intro e he
        rw [List.mem_singleton.mp he]
        exact mutates_unlink_other _ _ _ hne
    · intro p flags hm
      simp at hm
    · intro _ p ok1 hm
      simp only [List.mem_cons, List.mem_singleton, List.not_mem_nil, or_false,
        Event.unlink.injEq, false_or] at hm
      rcases hm with hm | hm
      · exact absurd hm (by simp)
      · exact hm.1
  · have hshm : ∀ e ∈ sh, mutates (archive_path opt hai) e = false :=
      fun e he => shadowCall_not_mutates opt.o_hsm_root _ c hc hac e (hsh e he)
    rcases hren with ⟨hnw, _⟩ | ⟨_, ok, rfl⟩
    · exact absurd hw hnw
    · refine ⟨?_, ?_, ?_, ?_⟩
      · intro e he hm
        rcases List.mem_append.mp he with he | he
        · simp only [List.mem_cons, List.mem_singleton, List.not_mem_nil, or_false] at he
          rcases he with he | he
          · exact ⟨true, he⟩
          · rw [he, mutates_rename_other _ _ _ _ hlt hla] at hm
            exact absurd hm Bool.false_ne_true
        · rw [hshm e he] at hm
          exact absurd hm Bool.false_ne_true
      · rw [List.filter_append, filter_mutates_nil _ sh hshm, List.append_nil,
          List.filter_cons_of_pos (mutates_rename_onto _ _ _), filter_mutates_nil]
        · exact Nat.le_refl _
        · intro e he
          rw [List.mem_singleton.mp he]
          exact mutates_rename_other _ _ _ _ hlt hla
      · intro p flags hm
        rcases List.mem_append.mp hm with hm | hm
        · simp at hm
        · exact hsh _ hm
      · intro hno
        exact absurd (List.mem_append_left _ (List.mem_cons_self _ _)) hno

theorem ct_archive_events (env : Env) (opt : options) (hai : hsm_action_item)
    (dot_lustre_name dst_uninit : List Char) (fuel : Nat) (w : World)
    (hb : ¬ (ct_begin env w).1 < 0) :
    ∃ pre tail rest, (ct_archive env opt hai dot_lustre_name dst_uninit fuel w).2.trace
        = w.trace ++ Event.action_begin :: (pre ++ tail ++ rest)
      ∧ (∀ e ∈ pre, ArchivePre (archive_src dot_lustre_name opt hai) (archive_dst opt hai)
          (is_whole hai) e)
      ∧ (tail = [] ∨ ArchiveTail opt hai tail)
      ∧ ∀ e ∈ rest, IsClose e ∨ IsEnd e := by
  obtain ⟨pre, hpre, h⟩ := ct_archive_shape env opt hai dot_lustre_name dst_uninit fuel w hb
  rcases h with ⟨_, htr⟩ | ⟨rc, tail, closes, fin, _, ht, hc, hf, htr⟩
  · refine ⟨pre, [], [], ?_, hpre, Or.inl rfl, fun e he => absurd he (List.not_mem_nil _)⟩
    rw [htr, List.append_nil, List.append_nil]
  · refine ⟨pre, tail, closes ++ fin, ?_, hpre, Or.inr ht, ?_⟩
    · rw [htr]; simp only [List.append_assoc]
    · intro e he
      rcases List.mem_append.mp he with h | h
      · exact Or.inl (hc e h)
      · rcases hf with ⟨_, flags, err, hfin⟩ | ⟨_, hfin⟩
        · rw [hfin] at h
          rw [List.mem_singleton.mp h]
          exact Or.inr trivial
        · rw [hfin] at h
          exact absurd h (List.not_mem_nil _)

theorem archivePre_open (src dst : List Char) (whole : Prop) [Decidable whole]
    (p : List Char) (flags : List open_flag)
    (h : ArchivePre src dst whole (Event.open_ p flags)) :
    (p = src ∧ flags =
        [open_flag.O_RDONLY, open_flag.O_NOATIME, open_flag.O_NONBLOCK, open_flag.O_NOFOLLOW])
    ∨ (p = dst ∧ flags = [open_flag.O_WRONLY, open_flag.O_NOFOLLOW, open_flag.O_NONBLOCK]
        ++ (if whole then [open_flag.O_TRUNC] else []) ++ [open_flag.O_CREAT])
    ∨ (p = lov_path dst
        ∧ flags = [open_flag.O_TRUNC, open_flag.O_CREAT, open_flag.O_WRONLY]) := by
  rcases h with h | h | h | h | h | h
  · exact h.elim
  · simp only [Event.open_.injEq] at h
    exact Or.inl h
  · simp only [Event.open_.injEq] at h
    exact Or.inr (Or.inl h)
  · exact Or.inr (Or.inr h)
  · exact h.elim
  · exact h.elim

theorem archivePre_not_unlink (src dst : List Char) (whole : Prop) [Decidable whole]
    (p : List Char) (ok : Bool) : ¬ ArchivePre src dst whole (Event.unlink p ok) := by
  intro h
  rcases h with h | h | h | h | h | h
  · exact h
  · exact absurd h (by simp)
  · exact absurd h (by simp)
  · exact h
  · exact h
  · exact h

theorem archivePre_not_rename (src dst : List Char) (whole : Prop) [Decidable whole]
    (p q : List Char) (ok : Bool) : ¬ ArchivePre src dst whole (Event.rename p q ok) := by
  intro h
  rcases h with h | h | h | h | h | h
  · exact h
  · exact absurd h (by simp)
  · exact absurd h (by simp)
  · exact h
  · exact h
  · exact h

theorem rest_not_path_call (e : Event) (h : IsClose e ∨ IsEnd e) :
    (∀ a, mutates a e = false) ∧ (∀ p flags, e ≠ Event.open_ p flags)
      ∧ (∀ p ok, e ≠ Event.unlink p ok) ∧ (∀ p q ok, e ≠ Event.rename p q ok) := by
  rcases h with (h | h) | h
  · rw [h]; exact ⟨fun _ => rfl, by simp, by simp, by simp⟩
  · rw [h]; exact ⟨fun _ => rfl, by simp, by simp, by simp⟩
  · cases e <;> first | exact h.elim | exact ⟨fun _ => rfl, by simp, by simp, by simp⟩

theorem archiveTail_extent (opt : options) (hai : hsm_action_item) (tail : List Event)
    (hw : ¬ is_whole hai) (h : ArchiveTail opt hai tail) :
    (∀ p flags, Event.open_ p flags ∉ tail) ∧ (∀ p q ok, Event.rename p q ok ∉ tail) := by
  rcases h with ⟨ok, rfl⟩ | ⟨hh, _⟩ | ⟨ren, sh, rfl, hsh, hren⟩
  · exact ⟨by simp, by simp⟩
  · exact absurd hh hw
  · rcases hren with ⟨_, rfl⟩ | ⟨hh, _⟩
    · rw [List.nil_append]
      exact ⟨fun p flags hm => hsh _ hm, fun p q ok hm => hsh _ hm⟩
    · exact absurd hh hw

theorem shadowCall_not_fill (src0 dst : List Char) (e : Event) (h : ShadowCall src0 e) :
    ¬ FillCall dst e := by
  cases e <;> first | exact h.elim | (rintro (h1 | h1 | h1) <;> exact h1)

theorem rest_not_fill (dst : List Char) (e : Event) (h : IsClose e ∨ IsEnd e) :
    ¬ FillCall dst e := by
  rcases h with (h | h) | h
  · rw [h]; rintro (h1 | h1 | h1) <;> exact h1
  · rw [h]; rintro (h1 | h1 | h1) <;> exact h1
  · cases e <;> first | exact h.elim | (rintro (h1 | h1 | h1) <;> exact h1)

theorem archiveTail_not_fill (opt : options) (hai : hsm_action_item) (tail : List Event)
    (dst : List Char) (h : ArchiveTail opt hai tail) : ∀ e ∈ tail, ¬ FillCall dst e := by
  intro e he
  rcases h with ⟨ok, rfl⟩ | ⟨_, ok, rfl⟩ | ⟨ren, sh, rfl, hsh, hren⟩
  · rw [List.mem_singleton.mp he]; rintro (h1 | h1 | h1) <;> exact h1
  · simp only [List.mem_cons, List.mem_singleton, List.not_mem_nil, or_false] at he
    rcases he with h | h <;> rw [h] <;> rintro (h1 | h1 | h1) <;> exact h1
  · rcases List.mem_append.mp he with h | h
    · rcases hren with ⟨_, rfl⟩ | ⟨_, ok, rfl⟩
      · exact absurd h (List.not_mem_nil _)
      · simp only [List.mem_cons, List.mem_singleton, List.not_mem_nil, or_false] at h
        rcases h with h | h <;> rw [h] <;> rintro (h1 | h1 | h1) <;> exact h1
    · exact shadowCall_not_fill _ dst e (hsh e h)

/-- Whole-file archives whose temporary name fits. In every run of `ct_archive` in which `action.begin`
does not fail: for a whole-file extent whose archive path `a`, with `_tmp.lov`
appended, fits in a buffer of `PATH_MAX` characters, the only files opened
for writing are `a_tmp` (data) and `a_tmp.lov` (layout), both with `O_TRUNC`;
the only call that names `a` as a file to create, truncate, replace, rename
or remove is the renaming of `a_tmp` onto `a`, made at most once and after
every call that copies data, attributes or the layout; and as long as that
renaming has not succeeded the only file unlinked is `a_tmp`. For any
other extent the files opened for writing are `a` itself, without `O_TRUNC`,
and its layout file, and nothing is renamed. -/
theorem archive_whole_file_atomic (env : Env) (opt : options) (hai : hsm_action_item)
    (dot_lustre_name dst_uninit : List Char) (fuel : Nat) (w : World)
    (hb : ¬ (ct_begin env w).1 < 0) :
    (is_whole hai → (archive_path opt hai).length + 8 < PATH_MAX →
      ∃ evs, (ct_archive env opt hai dot_lustre_name dst_uninit fuel w).2.trace = w.trace ++ evs
        ∧ (∀ e ∈ evs, mutates (archive_path opt hai) e = true →
            ∃ ok, e = Event.rename (archive_path opt hai ++ "_tmp".toList)
              (archive_path opt hai) ok)
        ∧ (evs.filter (mutates (archive_path opt hai))).length ≤ 1
        ∧ (∀ p flags, Event.open_ p flags ∈ evs →
            (p = archive_src dot_lustre_name opt hai
              ∧ flags = [open_flag.O_RDONLY, open_flag.O_NOATIME, open_flag.O_NONBLOCK,
                  open_flag.O_NOFOLLOW])
            ∨ (p = archive_path opt hai ++ "_tmp".toList
                ∧ flags = [open_flag.O_WRONLY, open_flag.O_NOFOLLOW, open_flag.O_NONBLOCK,
                    open_flag.O_TRUNC, open_flag.O_CREAT])
            ∨ (p = archive_path opt hai ++ "_tmp.lov".toList
                ∧ flags = [open_flag.O_TRUNC, open_flag.O_CREAT, open_flag.O_WRONLY]))
        ∧ (Event.rename (archive_path opt hai ++ "_tmp".toList) (archive_path opt hai) true
              ∉ evs →
            ∀ p ok, Event.unlink p ok ∈ evs → p = archive_path opt hai ++ "_tmp".toList)
        ∧ ∃ before after, evs = before ++ after
            ∧ (∀ e ∈ before, mutates (archive_path opt hai) e = false)
            ∧ ∀ e ∈ after, ¬ FillCall (archive_path opt hai ++ "_tmp".toList) e)
    ∧ (¬ is_whole hai →
      ∃ evs, (ct_archive env opt hai dot_lustre_name dst_uninit fuel w).2.trace = w.trace ++ evs
        ∧ (∀ p flags, Event.open_ p flags ∈ evs →
            (p = archive_src dot_lustre_name opt hai
              ∧ flags = [open_flag.O_RDONLY, open_flag.O_NOATIME, open_flag.O_NONBLOCK,
                  open_flag.O_NOFOLLOW])
            ∨ (p = archive_path opt hai
                ∧ flags = [open_flag.O_WRONLY, open_flag.O_NOFOLLOW, open_flag.O_NONBLOCK,
                    open_flag.O_CREAT])
            ∨ (p = lov_path (archive_path opt hai)
                ∧ flags = [open_flag.O_TRUNC, open_flag.O_CREAT, open_flag.O_WRONLY]))
        ∧ ∀ p q ok, Event.rename p q ok ∉ evs) := by
  obtain ⟨pre, tail, rest, htr, hpre, htail, hrest⟩ :=
    ct_archive_events env opt hai dot_lustre_name dst_uninit fuel w hb
  constructor
  · intro hw ha
    have hT := archive_dst_whole opt hai hw (by omega)
    rw [hT] at hpre
    have hpm : ∀ e ∈ pre, mutates (archive_path opt hai) e = false :=
      fun e he => archivePre_not_mutates _ _ _ e (by omega) (hpre e he)
    have hrm : ∀ e ∈ rest, mutates (archive_path opt hai) e = false :=
      fun e he => (rest_not_path_call e (hrest e he)).1 _
    have ht : (∀ e ∈ tail, mutates (archive_path opt hai) e = true →
          ∃ ok, e = Event.rename (archive_path opt hai ++ "_tmp".toList)
            (archive_path opt hai) ok)
        ∧ (tail.filter (mutates (archive_path opt hai))).length ≤ 1
        ∧ (∀ p flags, Event.open_ p flags ∉ tail)
        ∧ (Event.rename (archive_path opt hai ++ "_tmp".toList) (archive_path opt hai) true
              ∉ tail →
            ∀ p ok, Event.unlink p ok ∈ tail → p = archive_path opt hai ++ "_tmp".toList) := by
      rcases htail with rfl | h
      · exact ⟨by simp, by simp, by simp, by simp⟩
      · exact archiveTail_whole opt hai tail hw ha h
    obtain ⟨ht1, ht2, ht3, ht4⟩ := ht
    have h0 : mutates (archive_path opt hai) Event.action_begin = false := rfl
    have hlov : lov_path (archive_path opt hai ++ "_tmp".toList)
        = archive_path opt hai ++ "_tmp.lov".toList := by
      rw [lov_path_fits, List.append_assoc]
      · rfl
      · simp only [List.length_append]
        show _ + 4 + 4 < _
        omega
    have hfill : ∀ e ∈ tail ++ rest,
        ¬ FillCall (archive_path opt hai ++ "_tmp".toList) e := by
      intro e he
      rcases List.mem_append.mp he with h | h
      · rcases htail with rfl | ht
        · exact absurd h (List.not_mem_nil _)
        · exact archiveTail_not_fill opt hai tail _ ht e h
      · exact rest_not_fill _ e (hrest e h)
    refine ⟨_, htr, ?_, ?_, ?_, ?_, Event.action_begin :: pre, tail ++ rest,
      by simp only [List.append_assoc, List.cons_append], ?_, hfill⟩
    rotate_right
    · intro e he
      rcases List.mem_cons.mp he with h | h
      · rw [h]; exact h0
      · exact hpm e h
    · intro e he hm
      rcases List.mem_cons.mp he with h | h
      · rw [h, h0] at hm; exact absurd hm Bool.false_ne_true
      · rcases List.mem_append.mp h with h | h
        · rcases List.mem_append.mp h with h | h
          · rw [hpm e h] at hm; exact absurd hm Bool.false_ne_true
          · exact ht1 e h hm
        · rw [hrm e h] at hm; exact absurd hm Bool.false_ne_true
    · rw [List.filter_cons, h0]
      simp only [Bool.false_eq_true, if_false]
      rw [List.filter_append, List.filter_append, filter_mutates_nil _ pre hpm,
        filter_mutates_nil _ rest hrm, List.nil_append, List.append_nil]
      exact ht2
    · intro p flags he
      rcases List.mem_cons.mp he with h | h
      · exact absurd h (by simp)
      · rcases List.mem_append.mp h with h | h
        · rcases List.mem_append.mp h with h | h
          · rcases archivePre_open _ _ _ p flags (hpre _ h) with h1 | h1 | h1
            · exact Or.inl h1
            · rw [if_pos hw] at h1
              exact Or.inr (Or.inl h1)
            · rw [hlov] at h1
              exact Or.inr (Or.inr h1)
          · exact absurd h (ht3 p flags)
        · exact absurd rfl ((rest_not_path_call _ (hrest _ h)).2.1 p flags)
    · intro hno p ok he
      rcases List.mem_cons.mp he with h | h
      · exact absurd h (by simp)
      · rcases List.mem_append.mp h with h | h
        · rcases List.mem_append.mp h with h | h
          · exact absurd (hpre _ h) (archivePre_not_unlink _ _ _ p ok)
          · exact ht4 (fun hin => hno (List.mem_cons_of_mem _
              (List.mem_append_left _ (List.mem_append_right _ hin)))) p ok h
        · exact absurd rfl ((rest_not_path_call _ (hrest _ h)).2.2.1 p ok)
  · intro hw
    rw [archive_dst_extent opt hai hw] at hpre
    have ht : (∀ p flags, Event.open_ p flags ∉ tail)
        ∧ (∀ p q ok, Event.rename p q ok ∉ tail) := by
      rcases htail with rfl | h
      · exact ⟨by simp, by simp⟩
      · exact archiveTail_extent opt hai tail hw h
    refine ⟨_, htr, ?_, ?_⟩
    · intro p flags he
      rcases List.mem_cons.mp he with h | h
      · exact absurd h (by simp)
      · rcases List.mem_append.mp h with h | h
        · rcases List.mem_append.mp h with h | h
          · rcases archivePre_open _ _ _ p flags (hpre _ h) with h1 | h1 | h1
            · exact Or.inl h1
            · rw [if_neg hw] at h1
              exact Or.inr (Or.inl h1)
            · exact Or.inr (Or.inr h1)
          · exact absurd h (ht.1 p flags)
        · exact absurd rfl ((rest_not_path_call _ (hrest _ h)).2.1 p flags)
    · intro p q ok he
      rcases List.mem_cons.mp he with h | h
      · exact absurd h (by simp)
      · rcases List.mem_append.mp h with h | h
        · rcases List.mem_append.mp h with h | h
          · exact absurd (hpre _ h) (archivePre_not_rename _ _ _ p q ok)
          · exact absurd h (ht.2 p q ok)
        · exact absurd rfl ((rest_not_path_call _ (hrest _ h)).2.2.2 p q ok)

theorem mem_trace_of_adds {P : Event → Prop} {w w1 : World} (e : Event) (h : Adds P w w1)
    (he : e ∈ w.trace) : e ∈ w1.trace := by
  obtain ⟨evs, ht, _⟩ := h
  rw [ht]
  exact List.mem_append_left _ he

theorem ct_archive_out_adds (env : Env) (hai : hsm_action_item) (hcp : Bool) (ct_flags : Nat)
    (rc rcf : Int) (src_fd dst_fd : Int) (w : World) :
    Adds (fun _ => True) w (ct_archive_out env hai hcp ct_flags rc rcf src_fd dst_fd w).2 := by
  obtain ⟨closes, fin, _, _, htr⟩ :=
    ct_archive_out_trace env hai hcp ct_flags rc rcf src_fd dst_fd w
  exact ⟨closes ++ fin, by rw [htr, List.append_assoc], fun _ _ => trivial⟩

theorem ct_archive_fini_major_adds (env : Env) (hai : hsm_action_item) (hcp : Bool) (rc : Int)
    (dst : List Char) (src_fd dst_fd : Int) (w : World) :
    Adds (fun _ => True) w (ct_archive_fini_major env hai hcp rc dst src_fd dst_fd w).2 := by
  unfold ct_archive_fini_major
  dsimp only
  have a1 : Adds (fun _ => True) w { w with err_major := w.err_major + 1 } :=
    Adds.of_trace_eq rfl
  exact (a1.andThen (sys_unlink_adds _ env _ dst (fun _ => trivial))).andThen
    (ct_archive_out_adds env hai hcp _ rc rc src_fd dst_fd _)

theorem ct_archive_fini_minor_adds (env : Env) (hai : hsm_action_item) (hcp : Bool)
    (rc rcf : Int) (src_fd dst_fd : Int) (w : World) :
    Adds (fun _ => True) w (ct_archive_fini_minor env hai hcp rc rcf src_fd dst_fd w).2 := by
  unfold ct_archive_fini_minor
  have a1 : Adds (fun _ => True) w
      (if rcf ≠ 0 then { w with err_minor := w.err_minor + 1 } else w) := by
    split
    · exact Adds.of_trace_eq rfl
    · exact Adds.same _ w
  exact a1.andThen (ct_archive_out_adds env hai hcp 0 rc rcf src_fd dst_fd _)

theorem ct_archive_rename_adds (env : Env) (opt : options) (hai : hsm_action_item)
    (dst : List Char) (w : World) :
    Adds (fun _ => True) w (ct_archive_rename env opt hai dst w).2.2 := by
  rcases ct_archive_rename_cases env opt hai dst w with ⟨_, ht⟩ | ⟨_, ok, ht⟩
  · exact ⟨_, ht, fun _ _ => trivial⟩
  · exact ⟨_, ht, fun _ _ => trivial⟩

/-- In a run of `ct_archive` without a dry run in which `action.begin` does not
fail and no system call fails, the handler opens its destination `dst` for
writing. -/
theorem ct_archive_opens_dst (env : Env) (opt : options) (hai : hsm_action_item)
    (dot_lustre_name dst_uninit : List Char) (fuel : Nat) (w : World)
    (hb : ¬ (ct_begin env w).1 < 0) (hdry : opt.o_dry_run = 0)
    (henv : ∀ i, (env i).fail = none) :
    Event.open_ (archive_dst opt hai)
        ([open_flag.O_WRONLY, open_flag.O_NOFOLLOW, open_flag.O_NONBLOCK]
          ++ (if hai.hai_extent.length = 2 ^ 64 - 1 then [open_flag.O_TRUNC] else [])
          ++ [open_flag.O_CREAT])
      ∈ (ct_archive env opt hai dot_lustre_name dst_uninit fuel w).2.trace := by
  unfold ct_archive
  dsimp only
  rw [if_neg hb, if_neg (by rw [hdry]; exact fun h => h rfl)]
  generalize (decide ((ct_begin env w).1 = 0)) = hcp
  generalize (ct_begin env w).2 = wb
  have hm : (ct_mkdir_p (worldSys env) (archive_dst opt hai) wb).1 = 0 := by
    rw [ct_mkdir_p_eq_walk]
    refine (mkdir_walk_all env _ wb ?_).1
    intro i _
    unfold mkdir_stops
    rw [henv]
  rw [if_neg (by rw [hm]; decide)]
  generalize (ct_mkdir_p (worldSys env) (archive_dst opt hai) wb).2 = wm
  have ho : ∀ (w1 : World) (p : List Char) (fl : List open_flag),
      sys_open env w1 p fl = (((env w1.clock).amount : Int), w1.call (Event.open_ p fl)) := by
    intro w1 p fl
    unfold sys_open
    rw [henv]
  have hne : ∀ n : Nat, ¬ ((n : Int) = -1) := by
    intro n; omega
  rw [ho, if_neg (hne _), ho, if_neg (hne _)]
  dsimp only
  have hin : Event.open_ (archive_dst opt hai)
        ([open_flag.O_WRONLY, open_flag.O_NOFOLLOW, open_flag.O_NONBLOCK]
          ++ (if hai.hai_extent.length = 2 ^ 64 - 1 then [open_flag.O_TRUNC] else [])
          ++ [open_flag.O_CREAT])
      ∈ ((wm.call (Event.open_ (ct_path_lustre PATH_MAX opt.o_mnt dot_lustre_name
            hai.hai_dfid).1 [open_flag.O_RDONLY, open_flag.O_NOATIME, open_flag.O_NONBLOCK,
            open_flag.O_NOFOLLOW])).call
          (Event.open_ (archive_dst opt hai)
            ([open_flag.O_WRONLY, open_flag.O_NOFOLLOW, open_flag.O_NONBLOCK]
              ++ (if hai.hai_extent.length = 2 ^ 64 - 1 then [open_flag.O_TRUNC] else [])
              ++ [open_flag.O_CREAT]))).trace := by
    show _ ∈ _ ++ [_]
    exact List.mem_append_right _ (List.mem_singleton.mpr rfl)
  generalize ((wm.call (Event.open_ (ct_path_lustre PATH_MAX opt.o_mnt dot_lustre_name
            hai.hai_dfid).1 [open_flag.O_RDONLY, open_flag.O_NOATIME, open_flag.O_NONBLOCK,
            open_flag.O_NOFOLLOW])).call
          (Event.open_ (archive_dst opt hai)
            ([open_flag.O_WRONLY, open_flag.O_NOFOLLOW, open_flag.O_NONBLOCK]
              ++ (if hai.hai_extent.length = 2 ^ 64 - 1 then [open_flag.O_TRUNC] else [])
              ++ [open_flag.O_CREAT]))) = wo at hin ⊢
  generalize (env wm.clock).amount = fd1
  generalize (env (wm.call (Event.open_ (ct_path_lustre PATH_MAX opt.o_mnt dot_lustre_name
            hai.hai_dfid).1 [open_flag.O_RDONLY, open_flag.O_NOATIME, open_flag.O_NONBLOCK,
            open_flag.O_NOFOLLOW])).clock).amount = fd2
  have a0 : Adds (fun _ => True) wo
      ({ wo with
          dst := if hai.hai_extent.length = 2 ^ 64 - 1 then [] else wo.dst,
          src_pos := 0, dst_pos := 0 } : World) := Adds.of_trace_eq rfl
  generalize ({ wo with
          dst := if hai.hai_extent.length = 2 ^ 64 - 1 then [] else wo.dst,
          src_pos := 0, dst_pos := 0 } : World) = w3 at a0
  have a1 := a0.andThen ((ct_save_stripe_adds env w3 (archive_dst opt hai)).weaken
    (fun _ _ => trivial))
  generalize (ct_save_stripe env w3 (archive_dst opt hai)) = s at a1
  have a2 := a1.andThen ((ct_copy_data_adds env opt hai fuel s.2).weaken
    (fun _ _ => trivial))
  split
  · rename_i w4 hcd
    rw [hcd] at a2
    exact mem_trace_of_adds _ a2 hin
  rename_i rc w4 hcd
  rw [hcd] at a2
  split
  · exact mem_trace_of_adds _ (a2.andThen (ct_archive_fini_major_adds env hai hcp _ _ _ _ w4))
      hin
  have a3 := a2.andThen ((ct_archive_attrs_adds env opt rc w4).weaken (fun _ _ => trivial))
  generalize (ct_archive_attrs env opt rc w4) = at_ at a3
  have a4 : Adds (fun _ => True) wo
      (if hai.hai_extent.length = 2 ^ 64 - 1 then
          ct_archive_rename env opt hai (archive_dst opt hai) at_.2.2
        else (false, at_.1, at_.2.2)).2.2 := by
    split
    · exact a3.andThen (ct_archive_rename_adds env opt hai _ _)
    · exact a3
  generalize (if hai.hai_extent.length = 2 ^ 64 - 1 then
          ct_archive_rename env opt hai (archive_dst opt hai) at_.2.2
        else (false, at_.1, at_.2.2)) = r at a4
  split
  · exact mem_trace_of_adds _
      (a4.andThen (ct_archive_fini_major_adds env hai hcp _ _ _ _ r.2.2)) hin
  have a5 : Adds (fun _ => True) wo
      (if opt.o_shadow_tree ≠ 0 then ct_archive_shadow env opt hai at_.2.1 r.2.2
        else (r.2.1, at_.2.1, r.2.2)).2.2 := by
    split
    · exact a4.andThen ((ct_archive_shadow_adds env opt hai _ _).weaken (fun _ _ => trivial))
    · exact a4
  generalize (if opt.o_shadow_tree ≠ 0 then ct_archive_shadow env opt hai at_.2.1 r.2.2
        else (r.2.1, at_.2.1, r.2.2)) = sh at a5
  exact mem_trace_of_adds _
    (a5.andThen (ct_archive_fini_minor_adds env hai hcp _ _ _ _ sh.2.2)) hin

/-- An instance of the lemma on whole-file archives: the whole-file ARCHIVE of
the FID `[0x1:0x2:0x0]` under the root `/a` in which every call succeeds names
the archive path in one call only. -/
theorem archive_whole_file_atomic_witness :
    ∃ evs, (ct_archive (fun _ => { amount := 1, text := "f".toList })
          { o_hsm_root := "/a".toList, o_mnt := "/m".toList }
          ⟨0, hsm_copytool_action.HSMA_ARCHIVE, ⟨1, 2, 0⟩, ⟨1, 2, 0⟩, ⟨0, 2 ^ 64 - 1⟩, 0⟩
            ".lustre".toList [] 5
          ⟨[], true, 0, [], true, 0, 0, 0, 0, 0, 0, []⟩).2.trace = [] ++ evs
      ∧ (evs.filter (mutates "/a/0002/0000/0001/0000/0000/0000/0x1:0x2:0x0".toList)).length
          ≤ 1 :=
  ((archive_whole_file_atomic (fun _ => { amount := 1, text := "f".toList })
      { o_hsm_root := "/a".toList, o_mnt := "/m".toList }
      ⟨0, hsm_copytool_action.HSMA_ARCHIVE, ⟨1, 2, 0⟩, ⟨1, 2, 0⟩, ⟨0, 2 ^ 64 - 1⟩, 0⟩
        ".lustre".toList [] 5
      ⟨[], true, 0, [], true, 0, 0, 0, 0, 0, 0, []⟩ (by decide)).1 rfl (by decide)).imp
    (fun _ h => ⟨h.1, h.2.2.1⟩)

theorem long_root_length : long_root.length = 4053 := by
  unfold long_root
  simp only [List.length_append, List.length_flatten, List.map_replicate, List.sum_replicate,
    List.length_cons, List.length_replicate, smul_eq_mul]

theorem archive_path_long_root (mnt : List Char) (ext : hsm_extent) :
    archive_path { o_hsm_root := long_root, o_mnt := mnt }
        ⟨0, hsm_copytool_action.HSMA_ARCHIVE, ⟨1, 2, 0⟩, ⟨1, 2, 0⟩, ext, 0⟩
      = long_root ++ "/0002/0000/0001/0000/0000/0000/0x1:0x2:0x0".toList := by
  have h1 : archive_suffix ⟨1, 2, 0⟩ ++ '/' :: fid_nobrace ⟨1, 2, 0⟩
      = "/0002/0000/0001/0000/0000/0000/0x1:0x2:0x0".toList := by decide
  have h2 : spec_archive_path long_root ⟨1, 2, 0⟩
      = long_root ++ "/0002/0000/0001/0000/0000/0000/0x1:0x2:0x0".toList := by
    rw [spec_archive_path_split, List.append_assoc, h1]
  unfold archive_path
  show (ct_path_archive PATH_MAX long_root ⟨1, 2, 0⟩).1 = _
  rw [ct_path_archive_fits, h2]
  rw [h2, List.length_append, long_root_length]
  decide

theorem archive_dst_long_root (mnt : List Char) :
    archive_dst { o_hsm_root := long_root, o_mnt := mnt }
        ⟨0, hsm_copytool_action.HSMA_ARCHIVE, ⟨1, 2, 0⟩, ⟨1, 2, 0⟩, ⟨0, 2 ^ 64 - 1⟩, 0⟩
      = long_root ++ "/0002/0000/0001/0000/0000/0000/0x1:0x2:0x0".toList := by
  have h := archive_path_long_root mnt ⟨0, 2 ^ 64 - 1⟩
  unfold archive_path at h
  unfold archive_dst strncat
  rw [h, if_pos rfl, List.length_append, long_root_length]
  show _ ++ List.take 0 _ = _
  rw [List.take_zero, List.append_nil]

/-- C12 (the code departs from the claim). With the archive root `long_root`
the archive path of the FID `[0x1:0x2:0x0]` is not cut and fills the buffer of
`PATH_MAX` characters, so `strncat` appends nothing of `_tmp`; in a whole-file
ARCHIVE in which every call succeeds the handler opens the archive path itself
for writing, with `O_TRUNC`: the archived copy is emptied and the data are
written in place, not to a temporary file that replaces it by a rename, which
is what the comments of `ct_archive` announce. -/
theorem ct_archive_long_root_in_place :
    (ct_path_archive PATH_MAX long_root ⟨1, 2, 0⟩).1
      = long_root ++ "/0002/0000/0001/0000/0000/0000/0x1:0x2:0x0".toList
    ∧ Event.open_ (ct_path_archive PATH_MAX long_root ⟨1, 2, 0⟩).1
          [open_flag.O_WRONLY, open_flag.O_NOFOLLOW, open_flag.O_NONBLOCK, open_flag.O_TRUNC,
            open_flag.O_CREAT]
        ∈ (ct_archive (fun _ => { amount := 1, text := "f".toList })
            { o_hsm_root := long_root, o_mnt := "/m".toList }
            ⟨0, hsm_copytool_action.HSMA_ARCHIVE, ⟨1, 2, 0⟩, ⟨1, 2, 0⟩, ⟨0, 2 ^ 64 - 1⟩, 0⟩
            ".lustre".toList [] 5 ⟨[], true, 0, [], true, 0, 0, 0, 0, 0, 0, []⟩).2.trace := by
  have hA := archive_path_long_root "/m".toList ⟨0, 2 ^ 64 - 1⟩
  have hD := archive_dst_long_root "/m".toList
  unfold archive_path at hA
  dsimp only at hA
  refine ⟨hA, ?_⟩
  have h := ct_archive_opens_dst (fun _ => { amount := 1, text := "f".toList })
    { o_hsm_root := long_root, o_mnt := "/m".toList }
    ⟨0, hsm_copytool_action.HSMA_ARCHIVE, ⟨1, 2, 0⟩, ⟨1, 2, 0⟩, ⟨0, 2 ^ 64 - 1⟩, 0⟩
    ".lustre".toList [] 5 ⟨[], true, 0, [], true, 0, 0, 0, 0, 0, 0, []⟩
    (by decide) rfl (fun _ => rfl)
  rw [hD, if_pos rfl] at h
  rw [hA]
  exact h

/-! ## The value returned by `ct_copy_attr` -/

theorem sys_fd_call_ok (env : Env) (w : World) (e : Event) (h : (env w.clock).fail = none) :
    sys_fd_call env w e = (0, w.call e) := by
  unfold sys_fd_call; rw [h]

theorem sys_fd_call_fail (env : Env) (w : World) (e : Event) (err : Nat)
    (h : (env w.clock).fail = some err) :
    sys_fd_call env w e = (-1, { w.call e with errno := err }) := by
  unfold sys_fd_call; rw [h]

/-- C25: on every path on which `fstat` succeeds, `ct_copy_attr` returns the
negation of `errno` as it stands after `fchmod`, `fchown` and `futimes`,
whether or not one of them failed, so that its result is 0 only when `errno`
is 0 there: when the first of the three calls that fails sets `errno` to `e`
the result is `-e` (the calls after it are not made), and when none fails the
result is the negation of the `errno` the function was entered with. -/
theorem ct_copy_attr_returns_errno (env : Env) (w : World)
    (hst : (env w.clock).fail = none) :
    (ct_copy_attr env w).1 = -(ct_copy_attr env w).2.errno
    ∧ ((ct_copy_attr env w).1 = 0 ↔ (ct_copy_attr env w).2.errno = 0)
    ∧ (∀ e, (env (w.clock + 1)).fail = some e →
        (ct_copy_attr env w).1 = -(e : Int)
        ∧ (ct_copy_attr env w).2.trace = w.trace ++ [Event.fstat_attr, Event.fchmod])
    ∧ (∀ e, (env (w.clock + 1)).fail = none → (env (w.clock + 2)).fail = some e →
        (ct_copy_attr env w).1 = -(e : Int)
        ∧ (ct_copy_attr env w).2.trace
            = w.trace ++ [Event.fstat_attr, Event.fchmod, Event.fchown])
    ∧ (∀ e, (env (w.clock + 1)).fail = none → (env (w.clock + 2)).fail = none →
        (env (w.clock + 3)).fail = some e →
        (ct_copy_attr env w).1 = -(e : Int)
        ∧ (ct_copy_attr env w).2.trace
            = w.trace ++ [Event.fstat_attr, Event.fchmod, Event.fchown, Event.futimes])
    ∧ ((env (w.clock + 1)).fail = none → (env (w.clock + 2)).fail = none →
        (env (w.clock + 3)).fail = none →
        (ct_copy_attr env w).1 = -w.errno
        ∧ (ct_copy_attr env w).2.trace
            = w.trace ++ [Event.fstat_attr, Event.fchmod, Event.fchown, Event.futimes]) := by
  have h0 : (ct_copy_attr env w).1 = -(ct_copy_attr env w).2.errno := by
    unfold ct_copy_attr
    dsimp only
    split <;> rfl
  refine ⟨h0, ?_, ?_, ?_, ?_, ?_⟩
  · rw [h0]; omega
  · intro e h1
    unfold ct_copy_attr
    simp [sys_fd_call, hst, h1, World.call]
  · intro e h1 h2
    unfold ct_copy_attr
    simp [sys_fd_call, hst, h1, h2, World.call]
  · intro e h1 h2 h3
    unfold ct_copy_attr
    simp [sys_fd_call, hst, h1, h2, h3, World.call]
  · intro h1 h2 h3
    unfold ct_copy_attr
    simp [sys_fd_call, hst, h1, h2, h3, World.call]

theorem ct_copy_attr_returns_errno_witness :
    (ct_copy_attr (fun _ => {}) ⟨[], true, 0, [], true, 0, 17, 0, 0, 0, 0, []⟩).1 = -17
    ∧ ((ct_copy_attr (fun n => if n = 2 then { fail := some 1 } else {})
          ⟨[], true, 0, [], true, 0, 0, 0, 0, 0, 0, []⟩).1 = -1) :=
  ⟨((ct_copy_attr_returns_errno (fun _ => {}) ⟨[], true, 0, [], true, 0, 17, 0, 0, 0, 0, []⟩
      rfl).2.2.2.2.2 rfl rfl rfl).1,
   ((ct_copy_attr_returns_errno (fun n => if n = 2 then { fail := some 1 } else {})
      ⟨[], true, 0, [], true, 0, 0, 0, 0, 0, 0, []⟩ rfl).2.2.2.1 1 rfl rfl).1⟩

/-! ## Dry run -/

/-- C22 (the code departs from the claim). With `o_dry_run` set, an ARCHIVE of
the FID `[0x1:0x2:0x0]` under the root `/a` in which every call succeeds
leaves by `fini_major`: it calls `unlink` on its destination, which for the
extent `{0, 4}` is the archived copy itself and for a whole-file extent the
temporary file beside it, and it raises `err_major` by one; `action.end`
receives the error 0. The same run of RESTORE and of REMOVE makes no call but
those to the coordinator and leaves both counters as they are. -/
theorem ct_archive_dry_run_unlinks :
    ((ct_archive (fun _ => {})
        { o_hsm_root := "/a".toList, o_mnt := "/m".toList, o_dry_run := 1 }
        ⟨0, hsm_copytool_action.HSMA_ARCHIVE, ⟨1, 2, 0⟩, ⟨1, 2, 0⟩, ⟨0, 4⟩, 0⟩
          ".lustre".toList [] 5
        ⟨[], true, 0, [], true, 0, 0, 0, 0, 0, 0, []⟩)
      = (some 0, ⟨[], true, 0, [], true, 0, 0, 3, 1, 0, 0,
          [Event.action_begin,
           Event.unlink "/a/0002/0000/0001/0000/0000/0000/0x1:0x2:0x0".toList true,
           Event.action_end ⟨0, 4⟩ 0 0]⟩))
    ∧ ((ct_archive (fun _ => {})
        { o_hsm_root := "/a".toList, o_mnt := "/m".toList, o_dry_run := 1 }
        ⟨0, hsm_copytool_action.HSMA_ARCHIVE, ⟨1, 2, 0⟩, ⟨1, 2, 0⟩, ⟨0, 2 ^ 64 - 1⟩, 0⟩
          ".lustre".toList [] 5
        ⟨[], true, 0, [], true, 0, 0, 0, 0, 0, 0, []⟩)
      = (some 0, ⟨[], true, 0, [], true, 0, 0, 3, 1, 0, 0,
          [Event.action_begin,
           Event.unlink "/a/0002/0000/0001/0000/0000/0000/0x1:0x2:0x0_tmp".toList true,
           Event.action_end ⟨0, 2 ^ 64 - 1⟩ 0 0]⟩))
    ∧ ((ct_restore (fun _ => {})
        { o_hsm_root := "/a".toList, o_mnt := "/m".toList, o_dry_run := 1 }
        ⟨0, hsm_copytool_action.HSMA_RESTORE, ⟨1, 2, 0⟩, ⟨1, 2, 0⟩, ⟨0, 2 ^ 64 - 1⟩, 0⟩ 5
        ⟨[], true, 0, [], true, 0, 0, 0, 0, 0, 0, []⟩)
      = (some 0, ⟨[], true, 0, [], true, 0, 0, 3, 0, 0, 0,
          [Event.action_begin, Event.action_get_dfid,
           Event.action_end ⟨0, 2 ^ 64 - 1⟩ 0 0]⟩))
    ∧ ((ct_remove (fun _ => {})
        { o_hsm_root := "/a".toList, o_mnt := "/m".toList, o_dry_run := 1 }
        ⟨0, hsm_copytool_action.HSMA_REMOVE, ⟨1, 2, 0⟩, ⟨1, 2, 0⟩, ⟨0, 2 ^ 64 - 1⟩, 0⟩
        ⟨[], true, 0, [], true, 0, 0, 0, 0, 0, 0, []⟩)
      = (0, ⟨[], true, 0, [], true, 0, 0, 2, 0, 0, 0,
          [Event.action_begin, Event.action_end ⟨0, 2 ^ 64 - 1⟩ 0 0]⟩)) := by
  refine ⟨?_, ?_, ?_, ?_⟩ <;> decide

/-! ## The sign of the value returned by `ct_import_one` -/

/-- C27 (the code departs from the claim). An import of `/a/f` as `/m/f` in
which `stat` succeeds and `llapi_hsm_import` fails with `-EINVAL` (-22): the
function executes `return -rc` and returns the positive value 22. The other
failure causes give a negative `errno`: `stat` failing with `ENOENT` gives -2,
`mkdir` failing with `EACCES` (13) inside `ct_mkdir_p` gives -13, and `link`
failing with `EEXIST` gives -17. -/
theorem ct_import_one_positive :
    (ct_import_one (fun n => if n = 1 then { rc := -22 } else {})
        { o_hsm_root := "/a".toList, o_mnt := "/m".toList } "/a/f".toList "/m/f".toList
        ⟨0, 0, 0, []⟩
      = (22, ⟨0, 2, 0,
          [import_call.stat "/a/f".toList, import_call.hsm_import "/m/f".toList 0]⟩))
    ∧ (ct_import_one (fun n => if n = 0 then { fail := some ENOENT } else {})
        { o_hsm_root := "/a".toList, o_mnt := "/m".toList } "/a/f".toList "/m/f".toList
        ⟨0, 0, 0, []⟩).1 = -2
    ∧ (ct_import_one
        (fun n => if n = 1 then { fid := ⟨1, 2, 0⟩ } else if n = 2 then { fail := some 13 }
          else {})
        { o_hsm_root := "/a".toList, o_mnt := "/m".toList } "/a/f".toList "/m/f".toList
        ⟨0, 0, 0, []⟩).1 = -13
    ∧ (ct_import_one
        (fun n => if n = 1 then { fid := ⟨1, 2, 0⟩ } else if n = 9 then { fail := some EEXIST }
          else {})
        { o_hsm_root := "/a".toList, o_mnt := "/m".toList } "/a/f".toList "/m/f".toList
        ⟨0, 0, 0, []⟩)
      = (-17, ⟨17, 10, 1,
          [import_call.stat "/a/f".toList, import_call.hsm_import "/m/f".toList 0,
           import_call.mkdir "/a".toList, import_call.mkdir "/a/0002".toList,
           import_call.mkdir "/a/0002/0000".toList, import_call.mkdir "/a/0002/0000/0001".toList,
           import_call.mkdir "/a/0002/0000/0001/0000".toList,
           import_call.mkdir "/a/0002/0000/0001/0000/0000".toList,
           import_call.mkdir "/a/0002/0000/0001/0000/0000/0000".toList,
           import_call.link "/a/f".toList
             "/a/0002/0000/0001/0000/0000/0000/0x1:0x2:0x0".toList false]⟩) := by
  refine ⟨?_, ?_, ?_, ?_⟩ <;> decide

/-! ## Durability of the copy: the final `fsync` -/

theorem Calm.idle (P : Event → Prop) (w : World) : Calm P w w :=
  ⟨rfl, Adds.same P w⟩

theorem Calm.followedBy {P : Event → Prop} {w w1 w2 : World} (h1 : Calm P w w1)
    (h2 : Calm P w1 w2) : Calm P w w2 :=
  ⟨h2.hmajor.trans h1.hmajor, h1.hadds.andThen h2.hadds⟩

theorem Calm.step {P : Event → Prop} (w : World) (e : Event) (h : P e) : Calm P w (w.call e) :=
  ⟨rfl, Adds.one w e h⟩

theorem Calm.step_errno {P : Event → Prop} (w : World) (e : Event) (x : Int) (h : P e) :
    Calm P w { w.call e with errno := x } :=
  ⟨rfl, Adds.one_errno w e x h⟩

theorem Calm.of_fields {P : Event → Prop} {w w1 w2 : World} (h : Calm P w w1)
    (hm : w2.err_major = w1.err_major) (ht : w2.trace = w1.trace) : Calm P w w2 :=
  ⟨hm.trans h.hmajor, h.hadds.andThen (Adds.of_trace_eq ht)⟩

theorem sys_time_calm (env : Env) (w : World) : Calm NotSync w (sys_time env w).2 :=
  Calm.step w Event.time (fun h => Event.noConfusion h)

theorem sys_malloc_calm (env : Env) (w : World) (size : Nat) :
    Calm NotSync w (sys_malloc env w size).2 := by
  unfold sys_malloc
  split
  · exact Calm.step_errno w _ _ (fun h => Event.noConfusion h)
  · exact Calm.step w _ (fun h => Event.noConfusion h)

theorem sys_fstat_src_calm (env : Env) (w : World) :
    Calm NotSync w (sys_fstat_src env w).2 := by
  unfold sys_fstat_src
  split
  · exact Calm.step_errno w _ _ (fun h => Event.noConfusion h)
  · exact Calm.step w _ (fun h => Event.noConfusion h)

theorem sys_fstat_dst_calm (env : Env) (w : World) :
    Calm NotSync w (sys_fstat_dst env w).2 := by
  unfold sys_fstat_dst
  split
  · exact Calm.step_errno w _ _ (fun h => Event.noConfusion h)
  · exact Calm.step w _ (fun h => Event.noConfusion h)

theorem sys_lseek_src_calm (env : Env) (w : World) (offset : Nat) :
    Calm NotSync w (sys_lseek_src env w offset).2 := by
  unfold sys_lseek_src
  split
  · exact Calm.step_errno w _ _ (fun h => Event.noConfusion h)
  · split
    · exact Calm.step_errno w _ _ (fun h => Event.noConfusion h)
    · exact (Calm.step w (Event.lseek_src offset) (fun h => Event.noConfusion h)).of_fields rfl rfl

theorem sys_lseek_dst_calm (env : Env) (w : World) (offset : Nat) :
    Calm NotSync w (sys_lseek_dst env w offset).2 := by
  unfold sys_lseek_dst
  split
  · exact Calm.step_errno w _ _ (fun h => Event.noConfusion h)
  · split
    · exact Calm.step_errno w _ _ (fun h => Event.noConfusion h)
    · exact (Calm.step w (Event.lseek_dst offset) (fun h => Event.noConfusion h)).of_fields rfl rfl

theorem progress_calm (env : Env) (w : World) (he : hsm_extent) :
    Calm NotSync w (llapi_hsm_action_progress env w he).2 :=
  Calm.step w _ (fun h => Event.noConfusion h)

theorem rw_once_calm (env : Env) (wr : Bool) (mem : List Nat) (size : Int) (w : World) :
    Calm NotSync w (rw_once env wr mem size w).2.2 := by
  unfold rw_once
  cases wr with
  | true =>
    simp only [if_true]
    unfold sys_write
    split
    · exact Calm.step_errno w _ _ (fun h => Event.noConfusion h)
    · exact (Calm.step w (Event.write w.dst_pos (toSizeT size) _)
        (fun h => Event.noConfusion h)).of_fields rfl rfl
  | false =>
    simp only [Bool.false_eq_true, if_false]
    unfold sys_read
    split
    · exact Calm.step_errno w _ _ (fun h => Event.noConfusion h)
    · exact (Calm.step w (Event.read w.src_pos (toSizeT size) _)
        (fun h => Event.noConfusion h)).of_fields rfl rfl

theorem nonblock_rw_calm (env : Env) (opt : options) (wr : Bool) (mem : List Nat) (size : Int)
    (w : World) : Calm NotSync w (nonblock_rw env opt wr mem size w).2.2 := by
  rw [nonblock_rw_eq]
  exact rw_once_calm env wr mem size w

theorem copy_read_after_world (s : CopySt) (rsize0 : Int) (data : List Nat) (w1 : World) :
    (copy_read_after s rsize0 data w1).world = w1 := by
  unfold copy_read_after
  dsimp only
  split_ifs <;> rfl

theorem copy_read_calm (env : Env) (opt : options) (chunk : Int) (s : CopySt) (w : World) :
    Calm NotSync w (copy_read env opt chunk s w).world := by
  unfold copy_read
  split
  · dsimp only
    rw [copy_read_after_world]
    exact nonblock_rw_calm env opt false [] chunk w
  · exact Calm.idle _ w

theorem throttle_calm (env : Env) (opt : options) (w : World) :
    Calm NotSync w (throttle env opt w) := by
  unfold throttle
  split
  · exact sys_time_calm env w
  · exact Calm.idle _ w

theorem copy_report_calm (env : Env) (opt : options) (he_offset : Nat) (s1 : CopySt)
    (w1 : World) : Calm NotSync w1 (copy_report env opt he_offset s1 w1).world := by
  unfold copy_report
  dsimp only
  have c1 := (throttle_calm env opt w1).followedBy (sys_time_calm env (throttle env opt w1))
  split
  · have c2 := c1.followedBy (sys_time_calm env (sys_time env (throttle env opt w1)).2)
    have c3 := c2.followedBy (progress_calm env
      (sys_time env (sys_time env (throttle env opt w1)).2).2 ⟨he_offset, s1.wpos⟩)
    split
    · exact c3
    · exact c3
  · exact c1

theorem copy_write_after_calm (env : Env) (opt : options) (he_offset : Nat) (s : CopySt)
    (wsize0 : Int) (w1 : World) :
    Calm NotSync w1 (copy_write_after env opt he_offset s wsize0 w1).world := by
  unfold copy_write_after
  dsimp only
  split_ifs <;>
    first
    | exact Calm.idle _ w1
    | exact copy_report_calm env opt he_offset _ _

theorem copy_write_calm (env : Env) (opt : options) (he_offset : Nat) (s : CopySt)
    (w : World) : Calm NotSync w (copy_write env opt he_offset s w).world := by
  unfold copy_write
  dsimp only
  exact (nonblock_rw_calm env opt true (s.buf.drop s.bufoff)
    (toInt32 ((s.rpos - s.wpos : Nat) : Int)) w).followedBy
      (copy_write_after_calm env opt he_offset s _ _)

theorem copy_iter_calm (env : Env) (opt : options) (rlen he_offset : Nat) (s : CopySt)
    (w : World) : Calm NotSync w (copy_iter env opt rlen he_offset s w).world := by
  unfold copy_iter
  dsimp only
  have c1 := copy_read_calm env opt (toInt32 (((if rlen - s.wpos > opt.o_chunk_size
    then opt.o_chunk_size else rlen - s.wpos : Nat)) : Int)) s w
  generalize copy_read env opt (toInt32 (((if rlen - s.wpos > opt.o_chunk_size
    then opt.o_chunk_size else rlen - s.wpos : Nat)) : Int)) s w = r at c1 ⊢
  cases r with
  | out rc w1 => exact c1
  | next s1 w1 => exact c1.followedBy (copy_write_calm env opt he_offset s1 w1)

theorem copy_loop_calm (env : Env) (opt : options) (rlen he_offset : Nat) (fuel : Nat)
    (s : CopySt) (w : World) :
    Calm NotSync w (copy_loop env opt rlen he_offset fuel s w).2 := by
  induction fuel generalizing s w with
  | zero => exact Calm.idle _ w
  | succ k ih =>
    unfold copy_loop
    split
    · have c1 := copy_iter_calm env opt rlen he_offset s w
      generalize copy_iter env opt rlen he_offset s w = r at c1 ⊢
      cases r with
      | next s1 w1 => exact c1.followedBy (ih s1 w1)
      | out rc w1 => exact c1
    · exact Calm.idle _ w

theorem sys_fstat_src_none (env : Env) (w : World) (h : (sys_fstat_src env w).1 = none) :
    ∃ e, (env w.clock).fail = some e ∧ (sys_fstat_src env w).2.errno = (e : Int) := by
  unfold sys_fstat_src at h ⊢
  cases hf : (env w.clock).fail with
  | some e => exact ⟨e, rfl, rfl⟩
  | none => rw [hf] at h; exact absurd h (by simp)

theorem sys_fstat_dst_none (env : Env) (w : World) (h : (sys_fstat_dst env w).1 = none) :
    ∃ e, (env w.clock).fail = some e ∧ (sys_fstat_dst env w).2.errno = (e : Int) := by
  unfold sys_fstat_dst at h ⊢
  cases hf : (env w.clock).fail with
  | some e => exact ⟨e, rfl, rfl⟩
  | none => rw [hf] at h; exact absurd h (by simp)

/-- The ways `ct_copy_data` ends when a failing call never leaves `errno` at
0: it returns a non-zero code at once, or it runs out of rounds, or it reaches
its final block; up to there it has not called `fsync` and has not counted an
error. -/
theorem ct_copy_data_exits (env : Env) (opt : options) (hai : hsm_action_item) (fuel : Nat)
    (w : World) (hpos : ∀ i e, (env i).fail = some e → e ≠ 0) :
    (∃ rc w1, ct_copy_data env opt hai fuel w = (some rc, w1) ∧ rc ≠ 0 ∧ Calm NotSync w w1)
    ∨ (∃ w1, ct_copy_data env opt hai fuel w = (none, w1) ∧ Calm NotSync w w1)
    ∨ (∃ a b rc w1, ct_copy_data env opt hai fuel w
          = ret (ct_copy_data_out env hai a b rc w1) ∧ Calm NotSync w w1) := by
  unfold ct_copy_data
  dsimp only
  have c0 := sys_time_calm env w
  have c1 := c0.followedBy (sys_malloc_calm env (sys_time env w).2 opt.o_chunk_size)
  by_cases hm : (sys_malloc env (sys_time env w).2 opt.o_chunk_size).1 = false
  · rw [if_pos hm]
    exact Or.inl ⟨_, _, rfl, by simp [ENOMEM], c1⟩
  rw [if_neg hm]
  generalize (sys_malloc env (sys_time env w).2 opt.o_chunk_size).2 = w2 at c1 ⊢
  have c2 := c1.followedBy (sys_fstat_src_calm env w2)
  cases hfs : (sys_fstat_src env w2).1 with
  | none =>
    obtain ⟨e, he, herr⟩ := sys_fstat_src_none env w2 hfs
    refine Or.inl ⟨_, _, rfl, ?_, c2⟩
    rw [herr]
    have := hpos _ _ he
    omega
  | some x =>
    obtain ⟨src_size, src_reg⟩ := x
    dsimp only
    by_cases hsr : src_reg = false
    · rw [if_pos hsr]
      exact Or.inl ⟨_, _, rfl, by simp [EINVAL], c2⟩
    rw [if_neg hsr]
    generalize (sys_fstat_src env w2).2 = w3 at c2 ⊢
    have c3 := c2.followedBy (sys_lseek_src_calm env w3 hai.hai_extent.offset)
    by_cases hls : toInt32 (sys_lseek_src env w3 hai.hai_extent.offset).1 < 0
    · rw [if_pos hls]
      exact Or.inr (Or.inr ⟨_, _, _, _, rfl, c3⟩)
    rw [if_neg hls]
    generalize (sys_lseek_src env w3 hai.hai_extent.offset).2 = w4 at c3 ⊢
    have c4 := c3.followedBy (sys_fstat_dst_calm env w4)
    cases hfd : (sys_fstat_dst env w4).1 with
    | none =>
      obtain ⟨e, he, herr⟩ := sys_fstat_dst_none env w4 hfd
      refine Or.inl ⟨_, _, rfl, ?_, c4⟩
      rw [herr]
      have := hpos _ _ he
      omega
    | some y =>
      obtain ⟨dst_size, dst_reg⟩ := y
      dsimp only
      by_cases hdr : dst_reg = false
      · rw [if_pos hdr]
        exact Or.inl ⟨_, _, rfl, by simp [EINVAL], c4⟩
      rw [if_neg hdr]
      generalize (sys_fstat_dst env w4).2 = w5 at c4 ⊢
      have c5 := c4.followedBy (sys_lseek_dst_calm env w5 hai.hai_extent.offset)
      by_cases hld : toInt32 (sys_lseek_dst env w5 hai.hai_extent.offset).1 < 0
      · rw [if_pos hld]
        exact Or.inr (Or.inr ⟨_, _, _, _, rfl, c5⟩)
      rw [if_neg hld]
      generalize (sys_lseek_dst env w5 hai.hai_extent.offset).2 = w6 at c5 ⊢
      have c6 := c5.followedBy (progress_calm env w6 ⟨hai.hai_extent.offset, 0⟩)
      by_cases hp : (llapi_hsm_action_progress env w6 ⟨hai.hai_extent.offset, 0⟩).1 ≠ 0
      · rw [if_pos hp]
        exact Or.inr (Or.inr ⟨_, _, _, _, rfl, c6⟩)
      rw [if_neg hp]
      have c7 : Calm NotSync w
          { (llapi_hsm_action_progress env w6 ⟨hai.hai_extent.offset, 0⟩).2 with errno := 0 } :=
        c6.of_fields rfl rfl
      have c8 := c7.followedBy (copy_loop_calm env opt
        (if hai.hai_extent.length = 2 ^ 64 - 1 then src_size else hai.hai_extent.length)
        hai.hai_extent.offset fuel
        ⟨0, 0, 0, [], (llapi_hsm_action_progress env w6 ⟨hai.hai_extent.offset, 0⟩).1,
          (sys_time env w).1⟩
        { (llapi_hsm_action_progress env w6 ⟨hai.hai_extent.offset, 0⟩).2 with errno := 0 })
      generalize copy_loop env opt
        (if hai.hai_extent.length = 2 ^ 64 - 1 then src_size else hai.hai_extent.length)
        hai.hai_extent.offset fuel
        ⟨0, 0, 0, [], (llapi_hsm_action_progress env w6 ⟨hai.hai_extent.offset, 0⟩).1,
          (sys_time env w).1⟩
        { (llapi_hsm_action_progress env w6 ⟨hai.hai_extent.offset, 0⟩).2 with errno := 0 } = r
        at c8 ⊢
      obtain ⟨orc, w7⟩ := r
      cases orc with
      | none => exact Or.inr (Or.inl ⟨_, rfl, c8⟩)
      | some rc => exact Or.inr (Or.inr ⟨_, _, _, _, rfl, c8⟩)

/-- The final block of `ct_copy_data`: it leaves with a non-zero code without
a call of `fsync`, or it calls `fsync` as its last call, in a state reached
without an error counted, and returns 0 when that call succeeds and the
negative `errno` with one more major error when it fails. -/
theorem ct_copy_data_out_sync (env : Env) (hai : hsm_action_item) (a b : Nat) (rc : Int)
    (w : World) (hpos : ∀ i e, (env i).fail = some e → e ≠ 0) :
    ((ct_copy_data_out env hai a b rc w).1 ≠ 0
        ∧ Adds NotSync w (ct_copy_data_out env hai a b rc w).2)
    ∨ (∃ w1, Calm NotSync w w1
        ∧ (((env w1.clock).fail = none
              ∧ ct_copy_data_out env hai a b rc w = (0, w1.call Event.fsync))
          ∨ (∃ e, (env w1.clock).fail = some e
              ∧ ct_copy_data_out env hai a b rc w
                = (-(e : Int), { w1.call Event.fsync with
                    errno := e, err_major := w1.err_major + 1 })))) := by
  have hsync : ∀ w1 : World, Calm NotSync w w1 →
      (((env w1.clock).fail = none
          ∧ (if (sys_fsync env w1).1 < 0 then
                (-(sys_fsync env w1).2.errno,
                  { (sys_fsync env w1).2 with err_major := (sys_fsync env w1).2.err_major + 1 })
              else ((sys_fsync env w1).1, (sys_fsync env w1).2)) = (0, w1.call Event.fsync))
        ∨ (∃ e, (env w1.clock).fail = some e
          ∧ (if (sys_fsync env w1).1 < 0 then
                (-(sys_fsync env w1).2.errno,
                  { (sys_fsync env w1).2 with err_major := (sys_fsync env w1).2.err_major + 1 })
              else ((sys_fsync env w1).1, (sys_fsync env w1).2))
            = (-(e : Int), { w1.call Event.fsync with
                errno := e, err_major := w1.err_major + 1 }))) := by
    intro w1 _
    unfold sys_fsync
    cases hf : (env w1.clock).fail with
    | none => left; simp
    | some e => right; exact ⟨e, rfl, by simp [World.call]⟩
  unfold ct_copy_data_out
  dsimp only
  by_cases ht : hai.hai_action = hsm_copytool_action.HSMA_RESTORE ∧ a < b
  · rw [if_pos ht]
    unfold sys_ftruncate
    cases hf : (env w.clock).fail with
    | some e =>
      left
      have he := hpos _ _ hf
      have hne : ¬ (-(e : Int) = 0) := by omega
      simp only [World.call, Int.reduceNeg, Int.reduceLT, if_true, hne, if_false]
      refine ⟨by omega, ⟨[Event.ftruncate a false], rfl, ?_⟩⟩
      intro x hx
      rw [List.mem_singleton.mp hx]
      exact fun h => Event.noConfusion h
    | none =>
      right
      simp only [lt_self_iff_false, if_false, if_true]
      have hc : Calm NotSync w { w.call (Event.ftruncate a true) with
          dst := w.dst.take a ++ List.replicate (a - w.dst.length) 0 } :=
        (Calm.step w (Event.ftruncate a true) (fun h => Event.noConfusion h)).of_fields rfl rfl
      exact ⟨_, hc, hsync _ hc⟩
  · rw [if_neg ht]
    dsimp only
    by_cases h0 : rc = 0
    · right
      rw [if_pos h0]
      exact ⟨w, Calm.idle _ w, hsync w (Calm.idle _ w)⟩
    · left
      rw [if_neg h0]
      exact ⟨h0, Adds.same _ w⟩

theorem no_sync_tail {w w1 : World} (h : Adds NotSync w w1) (pre : List Event)
    (ht : w1.trace = w.trace ++ pre ++ [Event.fsync]) : False := by
  obtain ⟨evs, hevs, hp⟩ := h
  rw [hevs, List.append_assoc] at ht
  have h2 := List.append_cancel_left ht
  exact hp Event.fsync (by rw [h2]; simp) rfl

/-- C23: provided that a failing call never leaves `errno` at 0, `ct_copy_data`
returns 0 only if its last call is `fsync(dst_fd)`, made after every other call
of the copy (every `write` and the `ftruncate` among them), and that call
succeeded; and whenever it ends with a call of `fsync` that fails with
`errno` `e`, it returns `-e` and `err_major` is one more than on entry. -/
theorem ct_copy_data_durable (env : Env) (opt : options) (hai : hsm_action_item) (fuel : Nat)
    (w : World) (hpos : ∀ i e, (env i).fail = some e → e ≠ 0) :
    ((ct_copy_data env opt hai fuel w).1 = some 0 →
      ∃ w1, Adds NotSync w w1 ∧ (env w1.clock).fail = none
        ∧ (ct_copy_data env opt hai fuel w).2 = w1.call Event.fsync)
    ∧ (∀ pre e, (ct_copy_data env opt hai fuel w).2.trace = w.trace ++ pre ++ [Event.fsync] →
        (env ((ct_copy_data env opt hai fuel w).2.clock - 1)).fail = some e →
        (ct_copy_data env opt hai fuel w).1 = some (-(e : Int))
        ∧ (ct_copy_data env opt hai fuel w).2.err_major = w.err_major + 1) := by
  rcases ct_copy_data_exits env opt hai fuel w hpos with
    ⟨rc, w1, h, hrc, hc⟩ | ⟨w1, h, hc⟩ | ⟨a, b, rc, w1, h, hc⟩
  · rw [h]
    refine ⟨fun h0 => absurd (Option.some.inj h0) hrc, fun pre e ht _ => ?_⟩
    exact (no_sync_tail hc.hadds pre ht).elim
  · rw [h]
    refine ⟨fun h0 => by simp at h0, fun pre e ht _ => ?_⟩
    exact (no_sync_tail hc.hadds pre ht).elim
  · rw [h]
    rcases ct_copy_data_out_sync env hai a b rc w1 hpos with
      ⟨hne, had⟩ | ⟨w2, hc2, ⟨hf, ho⟩ | ⟨e1, hf, ho⟩⟩
    · refine ⟨fun h0 => absurd (Option.some.inj h0) hne, fun pre e ht _ => ?_⟩
      exact (no_sync_tail (hc.hadds.andThen had) pre ht).elim
    · rw [ho]
      refine ⟨fun _ => ⟨w2, hc.hadds.andThen hc2.hadds, hf, rfl⟩, fun pre e _ he => ?_⟩
      have hcl : (ret (0, w2.call Event.fsync)).2.clock - 1 = w2.clock := by
        show w2.clock + 1 - 1 = w2.clock
        omega
      rw [hcl, hf] at he
      exact absurd he (by simp)
    · rw [ho]
      refine ⟨fun h0 => ?_, fun pre e _ he => ?_⟩
      · have h1 : -(e1 : Int) = 0 := Option.some.inj h0
        have := hpos _ _ hf
        omega
      · have hcl : (ret (-(e1 : Int), { w2.call Event.fsync with
            errno := e1, err_major := w2.err_major + 1 })).2.clock - 1 = w2.clock := by
          show w2.clock + 1 - 1 = w2.clock
          omega
        rw [hcl, hf] at he
        have hee : e1 = e := Option.some.inj he
        subst hee
        refine ⟨rfl, ?_⟩
        show w2.err_major + 1 = w.err_major + 1
        rw [hc2.hmajor, hc.hmajor]

/-- Witness of C23: an ARCHIVE copy of a source of two bytes in which the
`fsync`, the call number 10, fails with `EIO` (5) returns -5 and counts one
major error. -/
theorem ct_copy_data_durable_witness :
    (ct_copy_data (fun n => if n = 10 then { fail := some 5 } else { amount := 2 }) {}
        ⟨0, hsm_copytool_action.HSMA_ARCHIVE, ⟨1, 2, 0⟩, ⟨1, 2, 0⟩, ⟨0, 2 ^ 64 - 1⟩, 0⟩ 5
        ⟨[7, 8], true, 0, [], true, 0, 0, 0, 0, 0, 0, []⟩).1 = some (-((5 : Nat) : Int))
    ∧ (ct_copy_data (fun n => if n = 10 then { fail := some 5 } else { amount := 2 }) {}
        ⟨0, hsm_copytool_action.HSMA_ARCHIVE, ⟨1, 2, 0⟩, ⟨1, 2, 0⟩, ⟨0, 2 ^ 64 - 1⟩, 0⟩ 5
        ⟨[7, 8], true, 0, [], true, 0, 0, 0, 0, 0, 0, []⟩).2.err_major = 0 + 1 :=
  (ct_copy_data_durable (fun n => if n = 10 then { fail := some 5 } else { amount := 2 }) {}
    ⟨0, hsm_copytool_action.HSMA_ARCHIVE, ⟨1, 2, 0⟩, ⟨1, 2, 0⟩, ⟨0, 2 ^ 64 - 1⟩, 0⟩ 5
    ⟨[7, 8], true, 0, [], true, 0, 0, 0, 0, 0, 0, []⟩
    (fun i e h => by
      dsimp only at h
      split at h
      · have h5 : 5 = e := Option.some.inj h
        omega
      · exact absurd h (by simp))).2
    [Event.time, Event.malloc ONE_MB, Event.fstat_src (some 2), Event.lseek_src 0,
     Event.fstat_dst (some 0), Event.lseek_dst 0, Event.action_progress ⟨0, 0⟩,
     Event.read 0 2 [7, 8], Event.write 0 2 [7, 8], Event.time]
    5 (by decide) (by decide)

/-! ## The cursors of the copy loop -/

theorem last_read_snoc_read (evs : List Event) (pos count : Nat) (data : List Nat) :
    last_read (evs ++ [Event.read pos count data]) = data := by
  unfold last_read
  rw [List.foldl_append]
  rfl

theorem written_snoc_read (evs : List Event) (pos count : Nat) (data : List Nat) :
    written_since_read (evs ++ [Event.read pos count data]) = 0 := by
  unfold written_since_read
  rw [List.foldl_append]
  rfl

theorem last_read_snoc_write (evs : List Event) (pos count : Nat) (data : List Nat) :
    last_read (evs ++ [Event.write pos count data]) = last_read evs := by
  unfold last_read
  rw [List.foldl_append]
  rfl

theorem written_snoc_write (evs : List Event) (pos count : Nat) (data : List Nat) :
    written_since_read (evs ++ [Event.write pos count data])
      = written_since_read evs + data.length := by
  unfold written_since_read
  rw [List.foldl_append]
  rfl

theorem last_read_append_idle (evs extra : List Event) (h : ∀ e ∈ extra, NoTransfer e) :
    last_read (evs ++ extra) = last_read evs := by
  induction extra using List.reverseRecOn with
  | nil => rw [List.append_nil]
  | append_singleton l e ih =>
    rw [← List.append_assoc]
    have hl : ∀ x ∈ l, NoTransfer x := fun x hx => h x (List.mem_append_left _ hx)
    have he : NoTransfer e := h e (by simp)
    rw [← ih hl]
    unfold last_read
    rw [List.foldl_append]
    cases e <;> first | rfl | exact he.elim

theorem written_append_idle (evs extra : List Event) (h : ∀ e ∈ extra, NoTransfer e) :
    written_since_read (evs ++ extra) = written_since_read evs := by
  induction extra using List.reverseRecOn with
  | nil => rw [List.append_nil]
  | append_singleton l e ih =>
    rw [← List.append_assoc]
    have hl : ∀ x ∈ l, NoTransfer x := fun x hx => h x (List.mem_append_left _ hx)
    have he : NoTransfer e := h e (by simp)
    rw [← ih hl]
    unfold written_since_read
    rw [List.foldl_append]
    cases e <;> first | rfl | exact he.elim

theorem copy_report_idle (env : Env) (opt : options) (he_offset : Nat) (s1 : CopySt)
    (w1 : World) : Adds NoTransfer w1 (copy_report env opt he_offset s1 w1).world := by
  unfold copy_report
  dsimp only
  have t0 : Adds NoTransfer w1 (throttle env opt w1) := by
    unfold throttle
    split
    · exact Adds.one w1 Event.time trivial
    · exact Adds.same _ w1
  have c1 := t0.andThen (Adds.one (throttle env opt w1) Event.time trivial)
  split
  · have c2 := c1.andThen (Adds.one (sys_time env (throttle env opt w1)).2 Event.time trivial)
    have c3 := c2.andThen (Adds.one (sys_time env (sys_time env (throttle env opt w1)).2).2
      (Event.action_progress ⟨he_offset, s1.wpos⟩) trivial)
    split
    · exact c3
    · exact c3
  · exact c1

theorem copy_report_next (env : Env) (opt : options) (he_offset : Nat) (s1 s2 : CopySt)
    (w1 w2 : World) (h : copy_report env opt he_offset s1 w1 = IterRes.next s2 w2) :
    s2.rpos = s1.rpos ∧ s2.wpos = s1.wpos ∧ s2.bufoff = s1.bufoff ∧ s2.buf = s1.buf
    ∧ Adds NoTransfer w1 w2 := by
  have hi := copy_report_idle env opt he_offset s1 w1
  rcases copy_report_cases env opt he_offset s1 w1 with ⟨rc, w3, i, h1, _⟩ | ⟨t, w3, h1, _⟩
  · rw [h1] at h
    exact IterRes.noConfusion h
  · rw [h1] at hi h
    injection h with hs hw
    rw [← hs, ← hw]
    exact ⟨rfl, rfl, rfl, rfl, hi⟩

theorem chunk_toSizeT (n : Nat) (h : n ≤ 2 ^ 31 - 1) : toSizeT (toInt32 (n : Int)) = n := by
  unfold toSizeT toInt32
  omega

theorem read_data_length_le (env : Env) (w : World) (count : Nat) :
    (read_data env w count).length ≤ count :=
  le_trans (List.length_take_le _ _) (le_trans (Nat.min_le_left _ _) (Nat.min_le_left _ _))

theorem write_data_length_le (env : Env) (w : World) (mem : List Nat) (count : Nat) :
    (write_data env w mem count).length ≤ count :=
  le_trans (List.length_take_le _ _) (le_trans (Nat.min_le_left _ _) (Nat.min_le_left _ _))

/-- The read of a round keeps the cursor invariant. -/
theorem copy_read_cursor (env : Env) (opt : options) (rlen : Nat) (s s1 : CopySt)
    (w w1 w0 : World) (evs : List Event) (hc2 : opt.o_chunk_size ≤ 2 ^ 31 - 1)
    (ht : w.trace = w0.trace ++ evs) (hinv : CursorInv opt rlen evs s) (hlt : s.wpos < rlen)
    (h : copy_read env opt (copy_chunk opt rlen s) s w = IterRes.next s1 w1) :
    ∃ evs1, w1.trace = w0.trace ++ evs1 ∧ CursorInv opt rlen evs1 s1 := by
  unfold copy_read at h
  by_cases heq : s.wpos = s.rpos
  · rw [if_pos heq] at h
    dsimp only at h
    have hcount : toSizeT (copy_chunk opt rlen s)
        = (if rlen - s.wpos > opt.o_chunk_size then opt.o_chunk_size else rlen - s.wpos) := by
      unfold copy_chunk
      apply chunk_toSizeT
      split <;> omega
    have hcl : toSizeT (copy_chunk opt rlen s) ≤ opt.o_chunk_size
        ∧ toSizeT (copy_chunk opt rlen s) ≤ rlen - s.wpos := by
      rw [hcount]
      split <;> constructor <;> omega
    cases hf : (env w.clock).fail with
    | none =>
      rw [nonblock_rw_read_ok env opt [] _ w hf] at h
      dsimp only at h
      have hdl : (read_data env w (toSizeT (copy_chunk opt rlen s))).length
          ≤ toSizeT (copy_chunk opt rlen s) := read_data_length_le env w _
      generalize read_data env w (toSizeT (copy_chunk opt rlen s)) = data at h hdl
      rcases copy_read_after_cases s (data.length : Int) data
          { w.call (Event.read w.src_pos (toSizeT (copy_chunk opt rlen s)) data) with
            src_pos := w.src_pos + data.length } (Or.inl rfl) with ⟨rc, h1⟩ | h1
      · rw [h1] at h
        exact IterRes.noConfusion h
      · rw [h1] at h
        injection h with hs hw
        refine ⟨evs ++ [Event.read w.src_pos (toSizeT (copy_chunk opt rlen s)) data], ?_, ?_⟩
        · rw [← hw]
          show w.trace ++ _ = _
          rw [ht, List.append_assoc]
        · rw [← hs]
          refine ⟨?_, ?_, ?_, ?_, ?_, ?_⟩
          · show s.wpos ≤ s.rpos + data.length
            omega
          · show s.rpos + data.length ≤ rlen
            omega
          · show 0 = _
            rw [written_snoc_read]
          · show 0 + (s.rpos + data.length - s.wpos) = _
            rw [last_read_snoc_read]
            omega
          · rw [last_read_snoc_read]
            omega
          · rw [last_read_snoc_read]
            show (data ++ s.buf.drop data.length).take data.length = data
            rw [List.take_left']
            rfl
    | some e =>
      rw [nonblock_rw_read_fail env opt [] _ w e hf] at h
      dsimp only at h
      rcases copy_read_after_cases s (-(e : Int)) []
          { w.call (Event.read w.src_pos (toSizeT (copy_chunk opt rlen s)) []) with
            errno := e } (Or.inr ⟨by omega, rfl⟩) with ⟨rc, h1⟩ | h1
      · rw [h1] at h
        exact IterRes.noConfusion h
      · rw [h1] at h
        injection h with hs hw
        refine ⟨evs ++ [Event.read w.src_pos (toSizeT (copy_chunk opt rlen s)) []], ?_, ?_⟩
        · rw [← hw]
          show w.trace ++ _ = _
          rw [ht, List.append_assoc]
        · rw [← hs]
          have hwr := hinv.hwr
          have hrl := hinv.hrl
          refine ⟨?_, ?_, ?_, ?_, ?_, ?_⟩
          · show s.wpos ≤ s.rpos + 0
            omega
          · show s.rpos + 0 ≤ rlen
            omega
          · show 0 = _
            rw [written_snoc_read]
          · show 0 + (s.rpos + 0 - s.wpos) = _
            rw [last_read_snoc_read]
            simp only [List.length_nil]
            omega
          · rw [last_read_snoc_read]
            exact Nat.zero_le _
          · rw [last_read_snoc_read]
            rfl
  · rw [if_neg heq] at h
    injection h with hs hw
    rw [← hs, ← hw]
    exact ⟨evs, ht, hinv⟩

/-- The write of a round and its end keep the cursor invariant. -/
theorem copy_write_cursor (env : Env) (opt : options) (rlen he_offset : Nat) (s s1 : CopySt)
    (w w1 w0 : World) (evs : List Event) (hc2 : opt.o_chunk_size ≤ 2 ^ 31 - 1)
    (ht : w.trace = w0.trace ++ evs) (hinv : CursorInv opt rlen evs s)
    (h : copy_write env opt he_offset s w = IterRes.next s1 w1) :
    ∃ evs1, w1.trace = w0.trace ++ evs1 ∧ CursorInv opt rlen evs1 s1 := by
  unfold copy_write at h
  dsimp only at h
  have hgap : s.rpos - s.wpos ≤ 2 ^ 31 - 1 := by
    have h1 := hinv.hsum
    have h2 := hinv.hchunk
    omega
  have hcount : toSizeT (toInt32 ((s.rpos - s.wpos : Nat) : Int)) = s.rpos - s.wpos :=
    chunk_toSizeT _ hgap
  have key : ∀ (data : List Nat) (wa : World) (wsize0 : Int),
      wa.trace = w.trace ++ [Event.write w.dst_pos (s.rpos - s.wpos) data] →
      data.length ≤ s.rpos - s.wpos →
      (wsize0 = (data.length : Int) ∨ (wsize0 ≤ 0 ∧ data = [])) →
      copy_write_after env opt he_offset s wsize0 wa = IterRes.next s1 w1 →
      ∃ evs1, w1.trace = w0.trace ++ evs1 ∧ CursorInv opt rlen evs1 s1 := by
    intro data wa wsize0 hta hdl hws hnext
    rcases copy_write_after_cases env opt he_offset s wsize0 data wa hws with
      ⟨rc, h1, _⟩ | h1
    · rw [h1] at hnext
      exact IterRes.noConfusion hnext
    · rw [h1] at hnext
      obtain ⟨hr, hwp, hb, hbuf, extra, hex, hidle⟩ :=
        copy_report_next env opt he_offset _ s1 wa w1 hnext
      refine ⟨evs ++ [Event.write w.dst_pos (s.rpos - s.wpos) data] ++ extra, ?_, ?_⟩
      · rw [hex, hta, ht]
        simp only [List.append_assoc]
      · have hwr := hinv.hwr
        have hrl := hinv.hrl
        have hoff := hinv.hoff
        have hsum := hinv.hsum
        have hlr : last_read (evs ++ [Event.write w.dst_pos (s.rpos - s.wpos) data] ++ extra)
            = last_read evs := by
          rw [last_read_append_idle _ _ hidle, last_read_snoc_write]
        have hws2 : written_since_read
            (evs ++ [Event.write w.dst_pos (s.rpos - s.wpos) data] ++ extra)
            = written_since_read evs + data.length := by
          rw [written_append_idle _ _ hidle, written_snoc_write]
        have hr' : s1.rpos = s.rpos := hr
        have hwp' : s1.wpos = s.wpos + data.length := hwp
        have hb' : s1.bufoff = s.bufoff + data.length := hb
        have hbuf' : s1.buf = s.buf := hbuf
        refine ⟨?_, ?_, ?_, ?_, ?_, ?_⟩
        · omega
        · omega
        · rw [hws2]; omega
        · rw [hlr]; omega
        · rw [hlr]; exact hinv.hchunk
        · rw [hlr, hbuf']; exact hinv.hbuf
  cases hf : (env w.clock).fail with
  | none =>
    rw [nonblock_rw_write_ok env opt _ _ w hf, hcount] at h
    dsimp only at h
    exact key (write_data env w (s.buf.drop s.bufoff) (s.rpos - s.wpos)) _ _ rfl
      (write_data_length_le env w _ _) (Or.inl rfl) h
  | some e =>
    rw [nonblock_rw_write_fail env opt _ _ w e hf, hcount] at h
    dsimp only at h
    exact key [] _ _ rfl (Nat.zero_le _) (Or.inr ⟨by omega, rfl⟩) h

/-- The state in which the loop test is made satisfies the cursor invariant, whatever
number of rounds came before. -/
theorem loop_head_cursor (env : Env) (opt : options) (rlen he_offset : Nat) (rc : Int) (t : Nat)
    (w0 : World) (s : CopySt) (w : World) (hc2 : opt.o_chunk_size ≤ 2 ^ 31 - 1)
    (h : LoopHead env opt rlen he_offset ⟨0, 0, 0, [], rc, t⟩ w0 s w) :
    ∃ evs, w.trace = w0.trace ++ evs ∧ CursorInv opt rlen evs s := by
  induction h with
  | entry =>
    exact ⟨[], (List.append_nil _).symm,
      ⟨le_refl _, Nat.zero_le _, rfl, rfl, Nat.zero_le _, rfl⟩⟩
  | round hprev hlt hiter ih =>
    rename_i sa sb wa wb
    obtain ⟨evs, ht, hinv⟩ := ih
    have hi : copy_iter env opt rlen he_offset sa wa
        = (match copy_read env opt (copy_chunk opt rlen sa) sa wa with
          | IterRes.out rc w1 => IterRes.out rc w1
          | IterRes.next s1 w1 => copy_write env opt he_offset s1 w1) := rfl
    rw [hi] at hiter
    cases hr : copy_read env opt (copy_chunk opt rlen sa) sa wa with
    | out rc1 w1 =>
      rw [hr] at hiter
      exact IterRes.noConfusion hiter
    | next sm wm =>
      rw [hr] at hiter
      obtain ⟨evsm, htm, hinvm⟩ := copy_read_cursor env opt rlen sa sm wa wm w0 evs hc2 ht hinv
        hlt hr
      exact copy_write_cursor env opt rlen he_offset sm sb wm wb w0 evsm hc2 htm hinvm hiter

/-- C26: when the chunk size is at most `INT_MAX` (a `read` or `write` of the
model never transfers more than the count asked for), every state in which the
test of the copy loop is made, at the entry and after any number of rounds,
satisfies `wpos <= rpos <= rlen`, `bufoff` is the number of bytes written since
the last read, and `bufoff + (rpos - wpos)` is the size of the last chunk read
and is at most the chunk size. In the round that starts there no `read` is
made unless `wpos = rpos`, and after the read step the same invariant holds,
the `write` is asked for exactly `rpos - wpos` bytes and the bytes it is
given are the part of the last chunk read from `bufoff` on. -/
theorem copy_cursor_invariant (env : Env) (opt : options) (rlen he_offset : Nat) (rc : Int)
    (t : Nat) (w0 : World) (s : CopySt) (w : World) (hc2 : opt.o_chunk_size ≤ 2 ^ 31 - 1)
    (h : LoopHead env opt rlen he_offset ⟨0, 0, 0, [], rc, t⟩ w0 s w) :
    ∃ evs, w.trace = w0.trace ++ evs ∧ CursorInv opt rlen evs s
      ∧ (s.wpos ≠ s.rpos →
          copy_read env opt (copy_chunk opt rlen s) s w = IterRes.next s w)
      ∧ ∀ sm wm, s.wpos < rlen →
          copy_read env opt (copy_chunk opt rlen s) s w = IterRes.next sm wm →
          ∃ evsm, wm.trace = w0.trace ++ evsm ∧ CursorInv opt rlen evsm sm
            ∧ toSizeT (toInt32 ((sm.rpos - sm.wpos : Nat) : Int)) = sm.rpos - sm.wpos
            ∧ (sm.buf.drop sm.bufoff).take (sm.rpos - sm.wpos)
                = (last_read evsm).drop sm.bufoff := by
  obtain ⟨evs, ht, hinv⟩ := loop_head_cursor env opt rlen he_offset rc t w0 s w hc2 h
  refine ⟨evs, ht, hinv, ?_, ?_⟩
  · intro hne
    unfold copy_read
    rw [if_neg hne]
  · intro sm wm hlt hr
    obtain ⟨evsm, htm, hinvm⟩ := copy_read_cursor env opt rlen s sm w wm w0 evs hc2 ht hinv hlt hr
    refine ⟨evsm, htm, hinvm, ?_, ?_⟩
    · apply chunk_toSizeT
      have h1 := hinvm.hsum
      have h2 := hinvm.hchunk
      omega
    · have h1 := hinvm.hsum
      rw [← hinvm.hbuf, ← h1, List.drop_take]
      congr 1
      omega

/-- Witness of C26: with a chunk size of 3 and 5 bytes to copy, after a round
in which the read delivers 2 bytes and the write takes 1 of them the cursors
are `rpos = 2`, `wpos = 1`, `bufoff = 1`. -/
theorem copy_cursor_invariant_witness :
    ∃ evs, [Event.read 0 3 [7, 8], Event.write 0 2 [7], Event.time] = [] ++ evs
      ∧ CursorInv { o_chunk_size := 3 } 5 evs ⟨2, 1, 1, [7, 8], 0, 0⟩ :=
  (copy_cursor_invariant (fun n => if n = 1 then { amount := 1 } else { amount := 2 })
    { o_chunk_size := 3 } 5 0 0 0
    ⟨[7, 8, 9, 10, 11], true, 0, [], true, 0, 0, 0, 0, 0, 0, []⟩
    ⟨2, 1, 1, [7, 8], 0, 0⟩
    ⟨[7, 8, 9, 10, 11], true, 2, [7], true, 1, 0, 3, 0, 0, 0,
      [Event.read 0 3 [7, 8], Event.write 0 2 [7], Event.time]⟩
    (by decide)
    (LoopHead.round LoopHead.entry (by decide) (by decide))).imp
    (fun _ hx => ⟨hx.1, hx.2.1⟩)

/-! ## The copy of extended attributes -/

theorem c_string_name (n rest : List Char) (hz : NUL ∉ n) :
    c_string (n ++ NUL :: rest) = n := by
  induction n with
  | nil => simp [c_string]
  | cons c cs ih =>
    have hc : c ≠ NUL := fun h => hz (by rw [h]; exact List.mem_cons_self _ _)
    have hcs : NUL ∉ cs := fun h => hz (List.mem_cons_of_mem _ h)
    have := ih hcs
    unfold c_string at this ⊢
    simp only [List.cons_append, List.takeWhile_cons, ne_eq, hc, not_false_eq_true,
      decide_True, if_true, this]

theorem xattr_list_cons (n : List Char) (rest : List (List Char)) :
    xattr_list (n :: rest) = n ++ NUL :: xattr_list rest := by
  simp [xattr_list]

/-- The walk over the bytes that `flistxattr` stores for a list of names
visits exactly these names, in order, once `fuel` is at least the number of
bytes left. -/
theorem xattr_walk_list (names : List (List Char)) (hz : ∀ n ∈ names, NUL ∉ n) :
    ∀ (pre : List Char) (fuel : Nat), (xattr_list names).length ≤ fuel →
      xattr_walk (pre ++ xattr_list names) (pre ++ xattr_list names).length fuel pre.length
        = some names := by
  induction names with
  | nil =>
    intro pre fuel _
    have h0 : xattr_list [] = [] := rfl
    rw [h0, List.append_nil]
    cases fuel <;> simp [xattr_walk]
  | cons n rest ih =>
    intro pre fuel hf
    rw [xattr_list_cons] at hf ⊢
    have hn : NUL ∉ n := hz n (List.mem_cons_self _ _)
    have hrest : ∀ m ∈ rest, NUL ∉ m := fun m hm => hz m (List.mem_cons_of_mem _ hm)
    rw [List.length_append, List.length_cons] at hf
    cases fuel with
    | zero => omega
    | succ f =>
      unfold xattr_walk
      have hlt : pre.length < (pre ++ (n ++ NUL :: xattr_list rest)).length := by
        simp only [List.length_append, List.length_cons]
        omega
      rw [if_pos hlt, List.drop_left, c_string_name n _ hn]
      unfold strlen
      rw [c_string_name n _ hn]
      have hl : pre ++ (n ++ NUL :: xattr_list rest) = (pre ++ n ++ [NUL]) ++ xattr_list rest := by
        simp only [List.append_assoc, List.singleton_append]
      have hp : pre.length + n.length + 1 = (pre ++ n ++ [NUL]).length := by
        simp only [List.length_append, List.length_cons, List.length_nil]
      rw [hl, hp, ih hrest (pre ++ n ++ [NUL]) f (by omega)]
      rfl

theorem xattr_names_list (names : List (List Char)) (hz : ∀ n ∈ names, NUL ∉ n) :
    xattr_names (xattr_list names) (xattr_list names).length = names := by
  unfold xattr_names
  have h := xattr_walk_list names hz [] (xattr_list names).length (le_refl _)
  simp only [List.nil_append, List.length_nil] at h
  rw [h]
  rfl

theorem xattr_wanted_iff (is_restore : Bool) (name : List Char) :
    xattr_wanted is_restore name = true
      ↔ (is_restore = false ∨ ¬ ("trusted.".toList.isPrefixOf name = true)) := by
  unfold xattr_wanted
  cases is_restore with
  | false => simp
  | true =>
    cases hp : List.isPrefixOf "trusted.".toList name <;> simp

/-- The loop of `ct_copy_xattr` makes the calls and returns the value that the
specification gives for the names it is run for. -/
theorem ct_copy_xattr_loop_outcome (env : Env) (is_restore : Bool) :
    ∀ (names : List (List Char)) (w : World),
      ∃ evs, (ct_copy_xattr_loop env is_restore names w).2.trace = w.trace ++ evs
        ∧ ((ct_copy_xattr_loop env is_restore names w).1, evs.map xattr_op)
          = ((xattr_outcome env w.clock (xattr_plan is_restore names)).1,
             (xattr_outcome env w.clock (xattr_plan is_restore names)).2.map some) := by
  intro names
  induction names with
  | nil =>
    intro w
    exact ⟨[], (List.append_nil _).symm, rfl⟩
  | cons n rest ih =>
    intro w
    unfold ct_copy_xattr_loop
    dsimp only
    cases hg : (env w.clock).fail with
    | some e =>
      refine ⟨[Event.fgetxattr n], rfl, ?_⟩
      simp [xattr_plan, xattr_outcome, hg, xattr_op]
    | none =>
      dsimp only
      by_cases hw : is_restore = false ∨ ¬ ("trusted.".toList.isPrefixOf n = true)
      · rw [if_pos hw]
        have hwt : xattr_wanted is_restore n = true := (xattr_wanted_iff is_restore n).mpr hw
        have hc1 : (w.call (Event.fgetxattr n)).clock = w.clock + 1 := rfl
        cases hs : (env (w.call (Event.fgetxattr n)).clock).fail with
        | some e =>
          dsimp only
          rw [hc1] at hs
          by_cases he : e ≠ EOPNOTSUPP
          · rw [if_pos he]
            refine ⟨[Event.fgetxattr n, Event.fsetxattr n (env w.clock).amount], ?_, ?_⟩
            · simp [World.call]
            · have he' : ¬ e = EOPNOTSUPP := he
              simp [xattr_plan, xattr_outcome, hg, hs, hwt, xattr_op, he']
          · rw [if_neg he]
            have he' : e = EOPNOTSUPP := not_not.mp he
            subst he'
            obtain ⟨evs, ht, ho⟩ := ih
              { (w.call (Event.fgetxattr n)).call (Event.fsetxattr n (env w.clock).amount) with
                errno := EOPNOTSUPP }
            refine ⟨Event.fgetxattr n :: Event.fsetxattr n (env w.clock).amount :: evs, ?_, ?_⟩
            · rw [ht]
              simp [World.call]
            · have hc2 : ({ (w.call (Event.fgetxattr n)).call
                  (Event.fsetxattr n (env w.clock).amount) with
                  errno := (EOPNOTSUPP : Int) } : World).clock
                  = w.clock + 1 + 1 := rfl
              rw [hc2] at ho
              have ho1 := congrArg Prod.fst ho
              have ho2 := congrArg Prod.snd ho
              simp only at ho1 ho2
              simp [xattr_plan, xattr_outcome, hg, hs, hwt, xattr_op, ho1, ho2]
        | none =>
          dsimp only
          rw [hc1] at hs
          obtain ⟨evs, ht, ho⟩ := ih
            ((w.call (Event.fgetxattr n)).call (Event.fsetxattr n (env w.clock).amount))
          refine ⟨Event.fgetxattr n :: Event.fsetxattr n (env w.clock).amount :: evs, ?_, ?_⟩
          · rw [ht]
            simp [World.call]
          · have hc2 : ((w.call (Event.fgetxattr n)).call
                (Event.fsetxattr n (env w.clock).amount)).clock = w.clock + 1 + 1 := rfl
            rw [hc2] at ho
            have ho1 := congrArg Prod.fst ho
            have ho2 := congrArg Prod.snd ho
            simp only at ho1 ho2
            simp [xattr_plan, xattr_outcome, hg, hs, hwt, xattr_op, ho1, ho2]
      · rw [if_neg hw]
        have hwt : xattr_wanted is_restore n = false := by
          cases hx : xattr_wanted is_restore n with
          | false => rfl
          | true => exact absurd ((xattr_wanted_iff is_restore n).mp hx) hw
        obtain ⟨evs, ht, ho⟩ := ih (w.call (Event.fgetxattr n))
        refine ⟨Event.fgetxattr n :: evs, ?_, ?_⟩
        · rw [ht]
          simp [World.call]
        · have hc1 : (w.call (Event.fgetxattr n)).clock = w.clock + 1 := rfl
          rw [hc1] at ho
          have ho1 := congrArg Prod.fst ho
          have ho2 := congrArg Prod.snd ho
          simp only at ho1 ho2
          simp [xattr_plan, xattr_outcome, hg, hwt, xattr_op, ho1, ho2]

theorem xattr_walk_ends (list : List Char) (list_len : Nat) :
    ∀ (fuel name : Nat), list_len ≤ name + fuel →
      (xattr_walk list list_len fuel name).isSome = true := by
  intro fuel
  induction fuel with
  | zero =>
    intro name h
    unfold xattr_walk
    rw [if_neg (by omega)]
    rfl
  | succ f ih =>
    intro name h
    unfold xattr_walk
    split
    · rw [Option.isSome_map']
      exact ih _ (by omega)
    · rfl

/-- C21: when `flistxattr` succeeds and stores the names `names`, each followed
by a NUL, the walk of `ct_copy_xattr` over the buffer visits exactly these names, in
order, each once, and the calls it makes on attributes and the value it
returns are those the specification gives: every name is read from the
source, the names that pass the filter (all of them when `is_restore` is
false, those without the `trusted.` start when it is true) are applied to the
destination, a failure of an application with `EOPNOTSUPP` is passed over, and
the first other failure ends the walk and is returned as a negative `errno`.
Whatever the buffer holds, the walk ends within as many rounds as the buffer
has bytes. -/
theorem ct_copy_xattr_walk (env : Env) (w : World) (is_restore : Bool)
    (names : List (List Char)) (hl : (env w.clock).fail = none)
    (hb : (env w.clock).text = xattr_list names) (hz : ∀ n ∈ names, NUL ∉ n) :
    xattr_walk (xattr_list names) (xattr_list names).length (xattr_list names).length 0
      = some names
    ∧ (∀ list : List Char, (xattr_walk list list.length list.length 0).isSome = true)
    ∧ ∃ evs, (ct_copy_xattr env w is_restore).2.trace = w.trace ++ Event.flistxattr :: evs
        ∧ ((ct_copy_xattr env w is_restore).1, evs.map xattr_op)
          = ((xattr_outcome env (w.clock + 1) (xattr_plan is_restore names)).1,
             (xattr_outcome env (w.clock + 1) (xattr_plan is_restore names)).2.map some) := by
  refine ⟨?_, fun list => xattr_walk_ends list list.length list.length 0 (by omega), ?_⟩
  · have h := xattr_walk_list names hz [] (xattr_list names).length (le_refl _)
    simpa using h
  · unfold ct_copy_xattr
    dsimp only
    rw [hl]
    dsimp only
    rw [hb, xattr_names_list names hz]
    obtain ⟨evs, ht, ho⟩ := ct_copy_xattr_loop_outcome env is_restore names
      (w.call Event.flistxattr)
    refine ⟨evs, ?_, ho⟩
    rw [ht]
    simp [World.call]

/-- Witness of C21: a restore in which `flistxattr` stores `user.a` and
`trusted.b` and no call fails reads both names and applies `user.a` alone. -/
theorem ct_copy_xattr_walk_witness :
    ∃ evs, (ct_copy_xattr
        (fun n => if n = 0 then { text := "user.a".toList ++ NUL :: ("trusted.b".toList ++ [NUL]) }
          else { amount := 1 })
        ⟨[], true, 0, [], true, 0, 0, 0, 0, 0, 0, []⟩ true).2.trace
          = [] ++ Event.flistxattr :: evs
      ∧ ((ct_copy_xattr
        (fun n => if n = 0 then { text := "user.a".toList ++ NUL :: ("trusted.b".toList ++ [NUL]) }
          else { amount := 1 })
        ⟨[], true, 0, [], true, 0, 0, 0, 0, 0, 0, []⟩ true).1, evs.map xattr_op)
        = (0, [some (false, "user.a".toList), some (true, "user.a".toList),
               some (false, "trusted.b".toList)]) :=
  (ct_copy_xattr_walk
    (fun n => if n = 0 then { text := "user.a".toList ++ NUL :: ("trusted.b".toList ++ [NUL]) }
      else { amount := 1 })
    ⟨[], true, 0, [], true, 0, 0, 0, 0, 0, 0, []⟩ true
    ["user.a".toList, "trusted.b".toList] rfl rfl (by decide)).2.2.imp
    (fun _ hx => ⟨hx.1, hx.2.trans (by decide)⟩)

/-! ## The target of the shadow symlink -/

theorem path_components_word (x rest cur : List Char) (hx : '/' ∉ x) :
    path_components (x ++ rest) cur = path_components rest (cur ++ x) := by
  induction x generalizing cur with
  | nil => rw [List.nil_append, List.append_nil]
  | cons c cs ih =>
    have hc : c ≠ '/' := fun h => hx (by rw [h]; exact List.mem_cons_self _ _)
    have hcs : '/' ∉ cs := fun h => hx (List.mem_cons_of_mem _ h)
    rw [List.cons_append, path_components, if_neg hc, ih _ hcs, List.append_assoc]
    rfl

theorem path_components_slash (b cur : List Char) (hc : cur ≠ []) :
    path_components ('/' :: b) cur = cur :: path_components b [] := by
  rw [path_components, if_pos rfl, if_neg hc]

theorem path_components_entry (x b : List Char) (hx : '/' ∉ x) (hne : x ≠ []) :
    path_components (x ++ '/' :: b) [] = x :: path_components b [] := by
  rw [path_components_word x _ [] hx, List.nil_append, path_components_slash b x hne]

theorem path_components_last (x : List Char) (hx : '/' ∉ x) (hne : x ≠ []) :
    path_components x [] = [x] := by
  have h := path_components_word x [] [] hx
  rw [List.append_nil, List.nil_append] at h
  rw [h, path_components, if_neg hne]

theorem path_components_split (a b : List Char) :
    ∀ cur, path_components (a ++ '/' :: b) cur
      = path_components (a ++ ['/']) cur ++ path_components b [] := by
  induction a with
  | nil =>
    intro cur
    simp only [List.nil_append]
    rw [path_components, path_components, if_pos rfl, if_pos rfl]
    by_cases hc : cur = []
    · rw [if_pos hc, if_pos hc]
      simp [path_components]
    · rw [if_neg hc, if_neg hc]
      simp [path_components]
  | cons c cs ih =>
    intro cur
    simp only [List.cons_append]
    rw [path_components, path_components]
    by_cases hs : c = '/'
    · rw [if_pos hs, if_pos hs]
      by_cases hc : cur = []
      · rw [if_pos hc, if_pos hc, ih]
      · rw [if_neg hc, if_neg hc, ih]
        rfl
    · rw [if_neg hs, if_neg hs, ih]

theorem path_key_split (root b : List Char) :
    path_key (root ++ '/' :: b) = path_key (root ++ ['/']) ++ path_components b [] := by
  unfold path_key
  rw [path_components_split, ← List.append_assoc]
  congr 2
  cases root <;> rfl

theorem count_slash_append (a b : List Char) :
    count_slash (a ++ b) = count_slash a + count_slash b := by
  simp [count_slash]

theorem count_slash_cons_slash (b : List Char) : count_slash ('/' :: b) = count_slash b + 1 := by
  simp [count_slash]

theorem count_slash_cons_other (c : Char) (b : List Char) (h : c ≠ '/') :
    count_slash (c :: b) = count_slash b := by
  simp [count_slash, h]

/-- The number of components of a path without leading, trailing or repeated
`/`, `cur` being a component begun already. -/
theorem path_components_count (p : List Char) :
    ∀ cur : List Char, (cur = [] → p ≠ [] ∧ p.head? ≠ some '/') →
      p.getLast? ≠ some '/' → ¬ ['/', '/'] <:+: p →
      (path_components p cur).length = count_slash p + 1 := by
  induction p with
  | nil =>
    intro cur hcur _ _
    have hne : cur ≠ [] := fun h => (hcur h).1 rfl
    rw [path_components, if_neg hne]
    rfl
  | cons c rest ih =>
    intro cur hcur hlast hrep
    have hrep' : ¬ ['/', '/'] <:+: rest := fun h => hrep (List.IsInfix.trans h
      (List.suffix_cons c rest).isInfix)
    rw [path_components]
    by_cases hs : c = '/'
    · subst hs
      have hne : cur ≠ [] := fun h => (hcur h).2 rfl
      rw [if_pos rfl, if_neg hne, count_slash_cons_slash, List.length_cons]
      have hrne : rest ≠ [] := by
        intro h
        rw [h] at hlast
        exact hlast rfl
      have hlast' : rest.getLast? ≠ some '/' := by
        cases rest with
        | nil => exact absurd rfl hrne
        | cons d ds =>
          rw [List.getLast?_cons_cons] at hlast
          exact hlast
      have hhead : rest.head? ≠ some '/' := by
        intro h
        cases rest with
        | nil => exact hrne rfl
        | cons d ds =>
          have hd : d = '/' := Option.some.inj h
          subst hd
          exact hrep ⟨[], ds, rfl⟩
      rw [ih [] (fun _ => ⟨hrne, hhead⟩) hlast' hrep']
    · rw [if_neg hs, count_slash_cons_other c rest hs]
      have hlast' : rest.getLast? ≠ some '/' := by
        cases rest with
        | nil => simp
        | cons d ds =>
          rw [List.getLast?_cons_cons] at hlast
          exact hlast
      exact ih (cur ++ [c]) (fun h => absurd h (by simp)) hlast' hrep'

theorem spec_updirs_one : spec_updirs 1 = "..".toList := rfl

theorem spec_updirs_succ (n : Nat) :
    spec_updirs (n + 2) = "..".toList ++ '/' :: spec_updirs (n + 1) := by
  unfold spec_updirs
  simp [List.replicate_succ, List.intercalate, List.intersperse]

theorem updirs_flatten (n : Nat) :
    "..".toList ++ (List.replicate n "/..".toList).flatten = spec_updirs (n + 1) := by
  induction n with
  | zero => rfl
  | succ n ih =>
    rw [spec_updirs_succ, ← ih]
    simp [List.replicate_succ]

theorem shadow_updirs_eq (k : Nat) :
    shadow_updirs ((2 : Int) + (k : Int)) = spec_updirs (1 + k) := by
  unfold shadow_updirs
  have h : ((2 : Int) + (k : Int) - 2).toNat = k := by omega
  rw [h, updirs_flatten, Nat.add_comm]

theorem spec_updirs_length (n : Nat) : (spec_updirs (n + 1)).length = 3 * n + 2 := by
  induction n with
  | zero => rfl
  | succ n ih =>
    rw [spec_updirs_succ, List.length_append, List.length_cons, ih]
    show 2 + (3 * n + 2 + 1) = _
    omega

theorem path_components_updirs (n : Nat) (b : List Char) :
    path_components (spec_updirs (n + 1) ++ '/' :: b) []
      = List.replicate (n + 1) "..".toList ++ path_components b [] := by
  induction n with
  | zero =>
    rw [spec_updirs_one, path_components_entry _ _ (by decide) (by decide)]
    rfl
  | succ n ih =>
    rw [spec_updirs_succ, List.append_assoc, List.cons_append,
      path_components_entry _ _ (by decide) (by decide), ih, List.replicate_succ]
    rfl

theorem hex4_no_slash (n : Nat) : '/' ∉ hex4 n := by
  unfold hex4
  intro h
  simp only [List.mem_cons, List.mem_singleton, List.not_mem_nil, or_false] at h
  rcases h with h | h | h | h <;> exact hexChar_ne_slash _ h.symm

theorem hex4_ne_nil (n : Nat) : hex4 n ≠ [] := by
  unfold hex4
  exact List.cons_ne_nil _ _

theorem fid_nobrace_ne_nil (fid : lustre_fid) : fid_nobrace fid ≠ [] := by
  unfold fid_nobrace
  simp

theorem path_components_archive_tail (fid : lustre_fid) :
    path_components (archive_tail fid) [] = spec_components fid := by
  unfold archive_tail spec_components
  rw [path_components_entry _ _ (hex4_no_slash _) (hex4_ne_nil _),
    path_components_entry _ _ (hex4_no_slash _) (hex4_ne_nil _),
    path_components_entry _ _ (hex4_no_slash _) (hex4_ne_nil _),
    path_components_entry _ _ (hex4_no_slash _) (hex4_ne_nil _),
    path_components_entry _ _ (hex4_no_slash _) (hex4_ne_nil _),
    path_components_entry _ _ (hex4_no_slash _) (hex4_ne_nil _),
    path_components_last _ (fid_nobrace_no_slash fid) (fid_nobrace_ne_nil fid)]

theorem spec_archive_path_tail (r : List Char) (fid : lustre_fid) :
    spec_archive_path r fid = r ++ '/' :: archive_tail fid := by
  simp [spec_archive_path, archive_tail]

theorem spec_components_plain (fid : lustre_fid) :
    ∀ c ∈ spec_components fid, c ≠ "..".toList ∧ c ≠ ".".toList := by
  intro c hc
  unfold spec_components at hc
  simp only [List.mem_cons, List.mem_singleton, List.not_mem_nil, or_false] at hc
  have h4 : ∀ n, hex4 n ≠ "..".toList ∧ hex4 n ≠ ".".toList := by
    intro n
    constructor <;> intro h <;> have := congrArg List.length h <;> simp [hex4] at this
  have hf : fid_nobrace fid ≠ "..".toList ∧ fid_nobrace fid ≠ ".".toList := by
    unfold fid_nobrace
    constructor <;> intro h <;> simp at h
  rcases hc with h | h | h | h | h | h | h <;> rw [h] <;> first | exact h4 _ | exact hf

theorem resolve_from_plain (cs : List (List Char)) :
    ∀ dir : List (List Char), (∀ c ∈ cs, c ≠ "..".toList ∧ c ≠ ".".toList) →
      resolve_from dir cs = dir ++ cs := by
  induction cs with
  | nil => intro dir _; rw [resolve_from, List.append_nil]
  | cons c cs ih =>
    intro dir h
    have hc := h c (List.mem_cons_self _ _)
    rw [resolve_from, if_neg hc.1, if_neg hc.2,
      ih _ (fun x hx => h x (List.mem_cons_of_mem _ hx)), List.append_assoc]
    rfl

theorem parent_dir_snoc (base : List (List Char)) (x : List Char)
    (h : base ≠ [] ∨ x ≠ ['/']) : parent_dir (base ++ [x]) = base := by
  unfold parent_dir
  have hne : base ++ [x] ≠ [['/']] := by
    intro he
    cases base with
    | nil =>
      rcases h with h | h
      · exact h rfl
      · simp at he; exact h he
    | cons b bs =>
      have := congrArg List.length he
      simp at this
  rw [if_neg hne, List.dropLast_concat]

/-- Walking up as many times as there are components after `base` leads back
to `base`. -/
theorem resolve_from_up (base : List (List Char)) (x : List Char) (hx : x ≠ ['/'])
    (cs : List (List Char)) :
    ∀ D : List (List Char),
      resolve_from (base ++ x :: D) (List.replicate (D.length + 1) "..".toList ++ cs)
        = resolve_from base cs := by
  intro D
  induction D using List.reverseRecOn with
  | nil =>
    show resolve_from (base ++ [x]) ("..".toList :: cs) = _
    rw [resolve_from, if_pos rfl, parent_dir_snoc base x (Or.inr hx)]
  | append_singleton D d ih =>
    have hl : (D ++ [d]).length + 1 = (D.length + 1) + 1 := by simp
    rw [hl, List.replicate_succ, List.cons_append, resolve_from, if_pos rfl]
    have he : base ++ x :: (D ++ [d]) = (base ++ x :: D) ++ [d] := by simp
    rw [he, parent_dir_snoc _ d (Or.inl (by simp)), ih]

theorem linkIs_of_mkdirCall (Q : List Char → List Char → Prop) (path : List Char) (e : Event)
    (h : MkdirCall path e) : LinkIs Q e := by
  cases e <;> first | exact h.elim | trivial

/-- Every `symlink` call of the shadow block names the path built from the
answer of `llapi_fid2path` and has the target built by `ct_path_archive` from the
string of `..` components. -/
theorem ct_archive_shadow_links (env : Env) (opt : options) (hai : hsm_action_item) (rcf : Int)
    (w : World) :
    Adds (LinkIs (fun t l =>
        l = opt.o_hsm_root ++ "/shadow/".toList
            ++ (llapi_fid2path env w (fid_brace hai.hai_fid)
                (PATH_MAX - (opt.o_hsm_root ++ "/shadow/".toList).length)).2.1
        ∧ t = (ct_path_archive PATH_MAX
            (shadow_updirs (-(count_slash opt.o_hsm_root : Int)
              + (count_slash (opt.o_hsm_root ++ "/shadow/".toList
                  ++ (llapi_fid2path env w (fid_brace hai.hai_fid)
                    (PATH_MAX - (opt.o_hsm_root ++ "/shadow/".toList).length)).2.1) : Int)))
            hai.hai_fid).1))
      w (ct_archive_shadow env opt hai rcf w).2.2 := by
  unfold ct_archive_shadow
  dsimp only
  have a1 : Adds (LinkIs (fun t l =>
        l = opt.o_hsm_root ++ "/shadow/".toList
            ++ (llapi_fid2path env w (fid_brace hai.hai_fid)
                (PATH_MAX - (opt.o_hsm_root ++ "/shadow/".toList).length)).2.1
        ∧ t = (ct_path_archive PATH_MAX
            (shadow_updirs (-(count_slash opt.o_hsm_root : Int)
              + (count_slash (opt.o_hsm_root ++ "/shadow/".toList
                  ++ (llapi_fid2path env w (fid_brace hai.hai_fid)
                    (PATH_MAX - (opt.o_hsm_root ++ "/shadow/".toList).length)).2.1) : Int)))
            hai.hai_fid).1)) w
      (llapi_fid2path env w (fid_brace hai.hai_fid)
        (PATH_MAX - (opt.o_hsm_root ++ "/shadow/".toList).length)).2.2 :=
    Adds.one w _ trivial
  generalize (llapi_fid2path env w (fid_brace hai.hai_fid)
        (PATH_MAX - (opt.o_hsm_root ++ "/shadow/".toList).length)) = p at a1 ⊢
  have hsym : ∀ w1 : World, Adds (LinkIs (fun t l =>
        l = opt.o_hsm_root ++ "/shadow/".toList ++ p.2.1
        ∧ t = (ct_path_archive PATH_MAX
            (shadow_updirs (-(count_slash opt.o_hsm_root : Int)
              + (count_slash (opt.o_hsm_root ++ "/shadow/".toList ++ p.2.1) : Int)))
            hai.hai_fid).1)) w1
      (ct_archive_symlink env rcf
        (ct_path_archive PATH_MAX
            (shadow_updirs (-(count_slash opt.o_hsm_root : Int)
              + (count_slash (opt.o_hsm_root ++ "/shadow/".toList ++ p.2.1) : Int)))
            hai.hai_fid).1
        (opt.o_hsm_root ++ "/shadow/".toList ++ p.2.1) w1).2 := by
    intro w1
    unfold ct_archive_symlink
    dsimp only
    have a := sys_symlink_adds (LinkIs (fun t l =>
        l = opt.o_hsm_root ++ "/shadow/".toList ++ p.2.1
        ∧ t = (ct_path_archive PATH_MAX
            (shadow_updirs (-(count_slash opt.o_hsm_root : Int)
              + (count_slash (opt.o_hsm_root ++ "/shadow/".toList ++ p.2.1) : Int)))
            hai.hai_fid).1)) env w1
      (ct_path_archive PATH_MAX
            (shadow_updirs (-(count_slash opt.o_hsm_root : Int)
              + (count_slash (opt.o_hsm_root ++ "/shadow/".toList ++ p.2.1) : Int)))
            hai.hai_fid).1
      (opt.o_hsm_root ++ "/shadow/".toList ++ p.2.1) (fun _ => ⟨rfl, rfl⟩)
    split <;> exact a
  split
  · exact a1
  · have a2 := a1.andThen ((ct_mkdir_p_adds env
        (opt.o_hsm_root ++ "/shadow/".toList ++ p.2.1) p.2.2).weaken
        (linkIs_of_mkdirCall _ _))
    generalize (ct_mkdir_p (worldSys env)
        (opt.o_hsm_root ++ "/shadow/".toList ++ p.2.1) p.2.2) = m at a2
    split
    · exact a2
    · have a3 := a2.andThen (sys_readlink_adds _ env m.2
        (opt.o_hsm_root ++ "/shadow/".toList ++ p.2.1) PATH_MAX trivial)
      generalize (sys_readlink env m.2
        (opt.o_hsm_root ++ "/shadow/".toList ++ p.2.1) PATH_MAX) = l at a3
      split
      · split
        · have a4 := a3.andThen (sys_unlink_adds _ env l.2.2
            (opt.o_hsm_root ++ "/shadow/".toList ++ p.2.1) (fun _ => trivial))
          split
          · exact a4
          · exact a4.andThen (hsym _)
        · exact a3
      · exact a3.andThen (hsym _)

theorem shadow_depth (root p : List Char) :
    -(count_slash root : Int) + (count_slash (root ++ "/shadow/".toList ++ p) : Int)
      = (2 : Int) + (count_slash p : Int) := by
  rw [count_slash_append, count_slash_append]
  have h : count_slash "/shadow/".toList = 2 := by decide
  rw [h]
  push_cast
  omega

/-- The resolution of the target of the shadow link of a tidy path `p` from
the directory that holds the link gives the archive path. -/
theorem shadow_target_resolves (root p : List Char) (fid : lustre_fid) (htidy : tidy_path p) :
    resolve_from (containing_dir (root ++ "/shadow/".toList ++ p))
        (path_components (spec_shadow_target p fid) [])
      = path_key (spec_archive_path root fid) := by
  obtain ⟨hne, hhead, hlast, hrep⟩ := htidy
  have hcount := path_components_count p [] (fun _ => ⟨hne, hhead⟩) hlast hrep
  have hC : path_components p [] ≠ [] := by
    intro h
    rw [h] at hcount
    simp at hcount
  have hdir : containing_dir (root ++ "/shadow/".toList ++ p)
      = path_key (root ++ ['/']) ++ "shadow".toList :: (path_components p []).dropLast := by
    unfold containing_dir
    have he : root ++ "/shadow/".toList ++ p = root ++ '/' :: ("shadow".toList ++ '/' :: p) := by
      simp
    rw [he, path_key_split, path_components_entry _ _ (by decide) (by decide),
      List.dropLast_append_of_ne_nil _ (List.cons_ne_nil _ _),
      List.dropLast_cons_of_ne_nil hC]
  have hlen : (path_components p []).dropLast.length = count_slash p := by
    rw [List.length_dropLast, hcount]
    rfl
  have htarget : path_components (spec_shadow_target p fid) []
      = List.replicate ((path_components p []).dropLast.length + 1) "..".toList
          ++ spec_components fid := by
    unfold spec_shadow_target
    rw [spec_archive_path_tail, hlen, Nat.add_comm 1 (count_slash p), path_components_updirs,
      path_components_archive_tail]
  have hrhs : path_key (spec_archive_path root fid)
      = path_key (root ++ ['/']) ++ spec_components fid := by
    rw [spec_archive_path_tail, path_key_split, path_components_archive_tail]
  rw [hdir, htarget, resolve_from_up _ _ (by decide), resolve_from_plain _ _
    (spec_components_plain fid), hrhs]

theorem spec_shadow_target_eq (p : List Char) (fid : lustre_fid) :
    spec_shadow_target p fid = spec_archive_path (spec_updirs (1 + count_slash p)) fid := by
  unfold spec_shadow_target
  rfl

/-- C24 (as amended). When the original path `p` that `llapi_fid2path` stores is not empty
and has no leading, trailing or repeated `/`, and the target and the archive
path of the FID fit in a buffer of `PATH_MAX` bytes, every `symlink` call of
the shadow block creates the link at `<root>/shadow/p` with the target made of
`1 + (number of '/' in p)` components `..` followed by the layout of the
archive for the FID, a target in which the root takes no part; resolving it
from the directory that holds the link gives the archive path of the FID
under the root. -/
theorem shadow_symlink_target (env : Env) (opt : options) (hai : hsm_action_item) (rcf : Int)
    (w : World) (p : List Char)
    (hp : (llapi_fid2path env w (fid_brace hai.hai_fid)
      (PATH_MAX - (opt.o_hsm_root ++ "/shadow/".toList).length)).2.1 = p)
    (htidy : tidy_path p)
    (hfit : (spec_shadow_target p hai.hai_fid).length < PATH_MAX)
    (hroot : (spec_archive_path opt.o_hsm_root hai.hai_fid).length < PATH_MAX) :
    Adds (LinkIs (fun t l =>
        l = opt.o_hsm_root ++ "/shadow/".toList ++ p
        ∧ t = spec_shadow_target p hai.hai_fid
        ∧ resolve_from (containing_dir l) (path_components t [])
            = path_key (ct_path_archive PATH_MAX opt.o_hsm_root hai.hai_fid).1))
      w (ct_archive_shadow env opt hai rcf w).2.2 := by
  refine (ct_archive_shadow_links env opt hai rcf w).weaken ?_
  intro e he
  cases e with
  | symlink t l ok =>
    obtain ⟨hl, ht⟩ := he
    rw [hp] at hl ht
    have hfit' : (spec_archive_path (spec_updirs (1 + count_slash p)) hai.hai_fid).length
        < PATH_MAX := by
      rw [← spec_shadow_target_eq]
      exact hfit
    rw [shadow_depth, shadow_updirs_eq,
      ct_path_archive_fits PATH_MAX (spec_updirs (1 + count_slash p)) hai.hai_fid hfit',
      ← spec_shadow_target_eq] at ht
    refine ⟨hl, ht, ?_⟩
    rw [hl, ht, ct_path_archive_fits PATH_MAX opt.o_hsm_root hai.hai_fid hroot]
    exact shadow_target_resolves opt.o_hsm_root p hai.hai_fid htidy
  | _ => trivial

/-- Witness of C24 (as amended): for the original path `d/f` of the FID
`[0x1:0x2:0x0]` under the root `/a`, no link being there yet, the block creates
`/a/shadow/d/f` with the target `../../0002/0000/0001/0000/0000/0000/0x1:0x2:0x0`. -/
theorem shadow_symlink_target_witness :
    Event.symlink "../../0002/0000/0001/0000/0000/0000/0x1:0x2:0x0".toList
        "/a/shadow/d/f".toList true
      ∈ (ct_archive_shadow
          (fun n => if n = 4 then { fail := some ENOENT } else { text := "d/f".toList })
          { o_hsm_root := "/a".toList }
          ⟨0, hsm_copytool_action.HSMA_ARCHIVE, ⟨1, 2, 0⟩, ⟨1, 2, 0⟩, ⟨0, 2 ^ 64 - 1⟩, 0⟩ 0
          ⟨[], true, 0, [], true, 0, 0, 0, 0, 0, 0, []⟩).2.2.trace
    ∧ Adds (LinkIs (fun t l =>
        l = "/a".toList ++ "/shadow/".toList ++ "d/f".toList
        ∧ t = spec_shadow_target "d/f".toList ⟨1, 2, 0⟩
        ∧ resolve_from (containing_dir l) (path_components t [])
            = path_key (ct_path_archive PATH_MAX "/a".toList ⟨1, 2, 0⟩).1))
      ⟨[], true, 0, [], true, 0, 0, 0, 0, 0, 0, []⟩
      (ct_archive_shadow
          (fun n => if n = 4 then { fail := some ENOENT } else { text := "d/f".toList })
          { o_hsm_root := "/a".toList }
          ⟨0, hsm_copytool_action.HSMA_ARCHIVE, ⟨1, 2, 0⟩, ⟨1, 2, 0⟩, ⟨0, 2 ^ 64 - 1⟩, 0⟩ 0
          ⟨[], true, 0, [], true, 0, 0, 0, 0, 0, 0, []⟩).2.2 :=
  ⟨by decide,
   shadow_symlink_target
      (fun n => if n = 4 then { fail := some ENOENT } else { text := "d/f".toList })
      { o_hsm_root := "/a".toList }
      ⟨0, hsm_copytool_action.HSMA_ARCHIVE, ⟨1, 2, 0⟩, ⟨1, 2, 0⟩, ⟨0, 2 ^ 64 - 1⟩, 0⟩ 0
      ⟨[], true, 0, [], true, 0, 0, 0, 0, 0, 0, []⟩ "d/f".toList
      (by decide)
      ⟨by decide, by decide, by decide, by decide⟩
      (by decide) (by decide)⟩

/-- When no call fails, `llapi_fid2path` does not return a negative code and what
`readlink` reports is no start of the new target, the shadow block removes the
old link and creates the new one. -/
theorem ct_archive_shadow_relinks (env : Env) (opt : options) (hai : hsm_action_item)
    (rcf : Int) (w : World) (p dst : List Char)
    (henv : ∀ i, (env i).fail = none) (hrc : ¬ (env w.clock).rc < 0)
    (hp : (llapi_fid2path env w (fid_brace hai.hai_fid)
      (PATH_MAX - (opt.o_hsm_root ++ "/shadow/".toList).length)).2.1 = p)
    (hdst : (ct_path_archive PATH_MAX
        (shadow_updirs (-(count_slash opt.o_hsm_root : Int)
          + (count_slash (opt.o_hsm_root ++ "/shadow/".toList ++ p) : Int)))
        hai.hai_fid).1 = dst)
    (hdiff : ∀ i n, (env i).text.take PATH_MAX ≠ dst.take n) :
    Event.symlink dst (opt.o_hsm_root ++ "/shadow/".toList ++ p) true
      ∈ (ct_archive_shadow env opt hai rcf w).2.2.trace := by
  unfold ct_archive_shadow
  dsimp only
  have hrc' : ¬ (llapi_fid2path env w (fid_brace hai.hai_fid)
      (PATH_MAX - (opt.o_hsm_root ++ "/shadow/".toList).length)).1 < 0 := hrc
  rw [if_neg hrc', hp, hdst]
  generalize (llapi_fid2path env w (fid_brace hai.hai_fid)
      (PATH_MAX - (opt.o_hsm_root ++ "/shadow/".toList).length)).2.2 = w1
  have hm : (ct_mkdir_p (worldSys env) (opt.o_hsm_root ++ "/shadow/".toList ++ p) w1).1 = 0 := by
    rw [ct_mkdir_p_eq_walk]
    refine (mkdir_walk_all env _ w1 ?_).1
    intro i _
    unfold mkdir_stops
    rw [henv]
  rw [if_neg (by rw [hm]; exact fun h => h rfl)]
  generalize (ct_mkdir_p (worldSys env) (opt.o_hsm_root ++ "/shadow/".toList ++ p) w1).2 = w2
  have hl : sys_readlink env w2 (opt.o_hsm_root ++ "/shadow/".toList ++ p) PATH_MAX
      = ((((env w2.clock).text.take PATH_MAX).length : Int), (env w2.clock).text.take PATH_MAX,
          w2.call (Event.readlink (opt.o_hsm_root ++ "/shadow/".toList ++ p))) := by
    unfold sys_readlink
    rw [henv]
  rw [hl]
  dsimp only
  rw [if_pos (by omega), if_pos (Or.inr (hdiff _ _))]
  have hu : ∀ w3 : World, sys_unlink env w3 (opt.o_hsm_root ++ "/shadow/".toList ++ p)
      = (0, w3.call (Event.unlink (opt.o_hsm_root ++ "/shadow/".toList ++ p) true)) := by
    intro w3
    unfold sys_unlink
    rw [henv]
  rw [hu]
  dsimp only
  rw [if_neg (fun h => h.1 rfl)]
  unfold ct_archive_symlink
  dsimp only
  have hs : ∀ w3 : World, sys_symlink env w3 dst (opt.o_hsm_root ++ "/shadow/".toList ++ p)
      = (0, w3.call (Event.symlink dst (opt.o_hsm_root ++ "/shadow/".toList ++ p) true)) := by
    intro w3
    unfold sys_symlink
    rw [henv]
  rw [hs]
  dsimp only
  rw [if_neg (fun h => h rfl)]
  simp [World.call]

theorem count_slash_deep (n : Nat) :
    count_slash ((List.replicate n "a/".toList).flatten) = n := by
  induction n with
  | zero => rfl
  | succ n ih =>
    rw [List.replicate_succ, List.flatten_cons, count_slash_append, ih]
    have h : count_slash "a/".toList = 1 := by decide
    rw [h]
    omega

theorem length_deep (n : Nat) : ((List.replicate n "a/".toList).flatten).length = 2 * n := by
  induction n with
  | zero => rfl
  | succ n ih =>
    rw [List.replicate_succ, List.flatten_cons, List.length_append, ih]
    show 2 + 2 * n = _
    omega

theorem deep_starts (n : Nat) :
    ∃ r, (List.replicate n "a/".toList).flatten ++ ['a'] = 'a' :: r := by
  cases n with
  | zero => exact ⟨[], rfl⟩
  | succ n => exact ⟨'/' :: ((List.replicate n "a/".toList).flatten ++ ['a']), by
      rw [List.replicate_succ, List.flatten_cons]; rfl⟩

theorem deep_no_repeat (n : Nat) :
    ¬ ['/', '/'] <:+: (List.replicate n "a/".toList).flatten ++ ['a'] := by
  induction n with
  | zero =>
    intro h
    have := h.length_le
    simp at this
  | succ n ih =>
    intro h
    rw [List.replicate_succ, List.flatten_cons] at h
    have he : "a/".toList ++ (List.replicate n "a/".toList).flatten ++ ['a']
        = 'a' :: '/' :: ((List.replicate n "a/".toList).flatten ++ ['a']) := rfl
    rw [he] at h
    rcases List.infix_cons_iff.mp h with h1 | h1
    · have := (List.cons_prefix_cons.mp h1).1
      exact absurd this (by decide)
    · rcases List.infix_cons_iff.mp h1 with h2 | h2
      · have h3 := (List.cons_prefix_cons.mp h2).2
        obtain ⟨r, hr⟩ := deep_starts n
        rw [hr] at h3
        have := (List.cons_prefix_cons.mp h3).1
        exact absurd this (by decide)
      · exact ih h2

theorem deep_path_tidy : tidy_path deep_path := by
  unfold tidy_path deep_path
  obtain ⟨r, hr⟩ := deep_starts 1364
  refine ⟨?_, ?_, ?_, deep_no_repeat 1364⟩
  · rw [hr]; exact List.cons_ne_nil _ _
  · rw [hr]; simp
  · generalize (List.replicate 1364 "a/".toList).flatten = X
    rw [List.getLast?_concat]
    exact fun h => absurd (Option.some.inj h) (by decide)

theorem deep_path_length : deep_path.length = 2729 := by
  unfold deep_path
  rw [List.length_append, length_deep]
  rfl

theorem deep_path_slashes : count_slash deep_path = 1364 := by
  unfold deep_path
  rw [count_slash_append, count_slash_deep]
  rfl

theorem take_length_succ (A : List Char) (c : Char) (T : List Char) :
    (A ++ c :: T).take (A.length + 1) = A ++ [c] := by
  induction A with
  | nil => rfl
  | cons a A ih =>
    show a :: (A ++ c :: T).take (A.length + 1) = a :: (A ++ [c])
    rw [ih]

theorem archive_tail_ne_nil (fid : lustre_fid) : archive_tail fid ≠ [] := by
  unfold archive_tail hex4
  simp

theorem spec_updirs_starts (n : Nat) : ∃ r, spec_updirs (n + 1) = '.' :: r := by
  cases n with
  | zero => exact ⟨['.'], rfl⟩
  | succ n => exact ⟨'.' :: '/' :: spec_updirs (n + 1), by rw [spec_updirs_succ]; rfl⟩

/-- The target that `ct_path_archive` leaves for an original path of 1365 components:
the 1365 components `..` and a `/`, the layout of the archive being cut off. -/
theorem deep_target (fid : lustre_fid) :
    (ct_path_archive PATH_MAX
        (shadow_updirs (-(count_slash "/a".toList : Int)
          + (count_slash ("/a".toList ++ "/shadow/".toList ++ deep_path) : Int)))
        fid).1 = spec_updirs (1364 + 1) ++ ['/'] := by
  rw [shadow_depth, deep_path_slashes, shadow_updirs_eq, Nat.add_comm 1 1364,
    ct_path_archive_eq, spec_archive_path_tail]
  have h : PATH_MAX - 1 = (spec_updirs (1364 + 1)).length + 1 := by
    rw [spec_updirs_length]
    rfl
  show (spec_updirs (1364 + 1) ++ '/' :: archive_tail fid).take (PATH_MAX - 1) = _
  rw [h, take_length_succ]

/-- C24 (as stated) fails for a deep original path. For the path `deep_path`
of 1365 components `a`, which has no leading, trailing or repeated `/`, under
the root `/a`, every call succeeding, the block creates the link
`/a/shadow/a/.../a` with a target that is the 1365 components `..` followed by
a single `/`: the buffer of `PATH_MAX` bytes has no room for the layout of the
archive, the target is not the one the claim gives, and it names a directory
1365 levels up, not the archived copy. -/
theorem ct_archive_shadow_deep_target :
    tidy_path deep_path
    ∧ Event.symlink (spec_updirs (1364 + 1) ++ ['/'])
        ("/a".toList ++ "/shadow/".toList ++ deep_path) true
      ∈ (ct_archive_shadow (fun _ => { text := deep_path }) { o_hsm_root := "/a".toList }
          ⟨0, hsm_copytool_action.HSMA_ARCHIVE, ⟨1, 2, 0⟩, ⟨1, 2, 0⟩, ⟨0, 2 ^ 64 - 1⟩, 0⟩ 0
          ⟨[], true, 0, [], true, 0, 0, 0, 0, 0, 0, []⟩).2.2.trace
    ∧ spec_updirs (1364 + 1) ++ ['/'] ≠ spec_shadow_target deep_path ⟨1, 2, 0⟩
    ∧ path_components (spec_updirs (1364 + 1) ++ ['/']) []
        = List.replicate (1364 + 1) "..".toList := by
  refine ⟨deep_path_tidy, ?_, ?_, ?_⟩
  · have htake : deep_path.take PATH_MAX = deep_path :=
      List.take_of_length_le (by rw [deep_path_length]; decide)
    refine ct_archive_shadow_relinks (fun _ => { text := deep_path })
      { o_hsm_root := "/a".toList }
      ⟨0, hsm_copytool_action.HSMA_ARCHIVE, ⟨1, 2, 0⟩, ⟨1, 2, 0⟩, ⟨0, 2 ^ 64 - 1⟩, 0⟩ 0
      ⟨[], true, 0, [], true, 0, 0, 0, 0, 0, 0, []⟩ deep_path
      (spec_updirs (1364 + 1) ++ ['/']) (fun _ => rfl) (fun h => absurd h (by decide)) ?_
      (deep_target ⟨1, 2, 0⟩) ?_
    · show deep_path.take (PATH_MAX - ("/a".toList ++ "/shadow/".toList).length - 1) = deep_path
      exact List.take_of_length_le (by rw [deep_path_length]; decide)
    · intro i n
      show deep_path.take PATH_MAX ≠ _
      rw [htake]
      obtain ⟨r, hr⟩ := deep_starts 1364
      obtain ⟨u, hu⟩ := spec_updirs_starts 1364
      unfold deep_path
      rw [hr, hu]
      cases n with
      | zero => exact fun h => List.noConfusion h
      | succ n =>
        intro h
        have h1 : 'a' = '.' := (List.cons.inj h).1
        exact absurd h1 (by decide)
  · rw [spec_shadow_target_eq, deep_path_slashes, Nat.add_comm 1 1364, spec_archive_path_tail]
    intro h
    have h1 := List.append_cancel_left h
    exact archive_tail_ne_nil _ (List.cons.inj h1).2.symm
  · rw [path_components_updirs]
    show _ ++ [] = _
    rw [List.append_nil]

end Lhsm
